import Mathlib

/-!
# WAVM: text-format parser and code generator

A shallow embedding of the parts of `Source/WebAssembly/WebAssemblyTextParse.cpp`,
`Source/AST/AST.h` and `Source/Runtime/LLVMJIT.cpp` that the properties below are about.

Conventions of the embedding:

* machine integers are naturals (or integers) with explicit `% 2 ^ w`;
* an S-expression iterator `SNodeIt` is the list of the remaining siblings, the
  current node being its head and the null iterator the empty list;
* an arena-allocated `BranchTarget` is identified by its allocation number;
* `std::map` is an association list searched by key.
-/

namespace WAVM

/-! ## AST types (`AST/AST.h`, `AST/ASTTypes.h`) -/

/-- Modelled from the spec: the closed set of primitive types of the absent `ASTTypes.h`,
in the order `LLVMJIT::init` fills `llvmTypesByTypeId`. -/
inductive TypeId where
  | None | I8 | I16 | I32 | I64 | F32 | F64 | Bool | Void
  deriving DecidableEq, Repr, Inhabited

/-- Modelled from the spec: the type classes of the absent `ASTTypes.h`. -/
inductive TypeClassId where
  | Any | Int | Float | Bool | Void
  deriving DecidableEq, Repr, Inhabited

/-- Modelled from the spec: `getPrimaryTypeClass` of the absent `ASTTypes.h`; each primitive
type belongs to exactly one class, `TypeId::None` to none. -/
def getPrimaryTypeClass : TypeId → Option TypeClassId
  | .None => none
  | .I8 | .I16 | .I32 | .I64 => some .Int
  | .F32 | .F64 => some .Float
  | .Bool => some .Bool
  | .Void => some .Void

/-- Modelled from the spec: `isTypeClass` of the absent `ASTTypes.h`; `Any` is the join of
all classes. -/
def isTypeClass (type : TypeId) (typeClass : TypeClassId) : Bool :=
  match getPrimaryTypeClass type with
  | none => false
  | some c => typeClass == .Any || c == typeClass

/-- Modelled from the spec: `getTypeName` of the absent `ASTTypes.h`, the type syntax of
the text format. -/
def getTypeName : TypeId → String
  | .None => "none"
  | .I8 => "i8" | .I16 => "i16" | .I32 => "i32" | .I64 => "i64"
  | .F32 => "f32" | .F64 => "f64" | .Bool => "bool" | .Void => "void"

/-- The `FunctionType` of `AST.h`; `operator==` is structural equality. -/
structure FunctionType where
  parameters : List TypeId := []
  returnType : TypeId := .Void
  deriving DecidableEq, Repr, Inhabited

/-- The `Variable` of `AST.h`; a null `name` is `none`. -/
structure Variable where
  type : TypeId
  name : Option String
  deriving DecidableEq, Repr, Inhabited

/-- The `FunctionTable` of `AST.h`; `functionIndices` is the array of `numFunctions`
entries. -/
structure FunctionTable where
  type : FunctionType
  functionIndices : List Nat
  numFunctions : Nat
  deriving DecidableEq, Repr, Inhabited

/-! ## Code generation: sandboxed addresses and indirect calls (`Runtime/LLVMJIT.cpp`) -/

namespace LLVMJIT

/-- Value of `CreateZExt(v, i64)` for the 32-bit value `v`. -/
def zext32 (v : Nat) : Nat := v % 2 ^ 32

/-- Value of a 64-bit index read as a signed offset, as `CreateInBoundsGEP` reads it. -/
def asSigned64 (v : Nat) : Int :=
  if v % 2 ^ 64 < 2 ^ 63 then ((v % 2 ^ 64 : Nat) : Int) else ((v % 2 ^ 64 : Nat) : Int) - 2 ^ 64

/-- The literal `compileModule` stores in `instanceMemoryAddressMask`:
`Runtime::instanceAddressSpaceMaxBytes - 1` in unsigned arithmetic, compiled as a 64-bit
literal when `sizeof(uintptr_t) == 8` and as a 32-bit one otherwise. -/
def instanceMemoryAddressMask (sizeofUintptr instanceAddressSpaceMaxBytes : Nat) : Nat :=
  let mask := (instanceAddressSpaceMaxBytes % 2 ^ 64 + 2 ^ 64 - 1) % 2 ^ 64
  if sizeofUintptr = 8 then mask % 2 ^ 64 else mask % 2 ^ 32

/-- `maskedByteIndex` of `compileAddress`: the value of the address expression
(`address`), zero-extended when it is not a far address, and masked. -/
def maskedByteIndex (sizeofUintptr instanceAddressSpaceMaxBytes address : Nat)
    (isFarAddress : Bool) : Nat :=
  let byteIndex := if isFarAddress then address % 2 ^ 64 else zext32 address
  byteIndex &&& instanceMemoryAddressMask sizeofUintptr instanceAddressSpaceMaxBytes

/-- `JITFunctionContext::compileAddress`: the byte offset from `instanceMemoryBase` of the
pointer the generated code computes. -/
def compileAddress (sizeofUintptr instanceAddressSpaceMaxBytes address : Nat)
    (isFarAddress : Bool) : Int :=
  asSigned64 (maskedByteIndex sizeofUintptr instanceAddressSpaceMaxBytes address isFarAddress)

/-- Number of bytes a load or store through a pointer to `asLLVMType(memoryType)` touches. -/
def memoryTypeBytes : TypeId → Nat
  | .I8 => 1 | .I16 => 2 | .I32 => 4 | .I64 => 8
  | .F32 => 4 | .F64 => 8 | .Bool => 1
  | .None => 0 | .Void => 0

/-- Byte offsets from `instanceMemoryBase` touched by the `CreateLoad` of `visitLoad`
and the `CreateStore` of `visitStore`: `memoryTypeBytes memoryType` bytes starting at the
pointer `compileAddress` returns. -/
def accessedByteOffsets (sizeofUintptr instanceAddressSpaceMaxBytes address : Nat)
    (isFarAddress : Bool) (memoryType : TypeId) : List Int :=
  (List.range (memoryTypeBytes memoryType)).map fun j =>
    compileAddress sizeofUintptr instanceAddressSpaceMaxBytes address isFarAddress + (j : Int)

/-- `functionIndexMask` of `visitCallIndirect`: `(uint32)numFunctions - 1`. -/
def functionIndexMask (astFunctionTable : FunctionTable) : Nat :=
  (astFunctionTable.numFunctions % 2 ^ 32 + 2 ^ 32 - 1) % 2 ^ 32

/-- `maskedFunctionIndex` of `visitCallIndirect` for the 32-bit value `functionIndex`. -/
def maskedFunctionIndex (astFunctionTable : FunctionTable) (functionIndex : Nat) : Nat :=
  (functionIndex % 2 ^ 32) &&& functionIndexMask astFunctionTable

/-- The prefix word `compileModule` attaches to every function it creates
(`setPrefixData(compileLiteral((uint32)0))`), by function index. -/
def compileModulePrefixData : Nat → Nat := fun _ => 0

/-- Value of a 32-bit index read as a signed offset: the masked function index is an `i32`
that `visitCallIndirect` hands to `CreateInBoundsGEP` without a zero extension, and the
`getelementptr` sign-extends it. -/
def asSigned32 (v : Nat) : Int :=
  if v % 2 ^ 32 < 2 ^ 31 then ((v % 2 ^ 32 : Nat) : Int) else ((v % 2 ^ 32 : Nat) : Int) - 2 ^ 32

/-- `JITFunctionContext::visitCallIndirect` with `WITH_FUNCTION_PREFIX_CHECK`: the index in
`jitModule.functions` of the function that is called. The function-table global is an array
of `numFunctions` pointers that holds `functions[functionIndices[j]]` at slot `j`; the
`getelementptr` addresses the slot `asSigned32 maskedFunctionIndex`, and a load outside the
array is `none`. `prefixData f` is the 32-bit word stored before the entry point of function
`f`. -/
def visitCallIndirect (astFunctionTable : FunctionTable) (prefixData : Nat → Nat)
    (functionIndex : Nat) : Option Nat :=
  let slot := asSigned32 (maskedFunctionIndex astFunctionTable functionIndex)
  if 0 ≤ slot ∧ slot < (astFunctionTable.numFunctions : Int) then
    match astFunctionTable.functionIndices[slot.toNat]? with
    | none => none
    | some function =>
      if prefixData function = 0 then some function
      else astFunctionTable.functionIndices[0]?
  else none

end LLVMJIT

/-! ## S-expressions (`Core/SExpressions.h`) and symbols (`WebAssemblyTextSymbols.h`) -/

/-- The symbol names passed to `WAST_SYMBOL`, `TYPED_WAST_SYMBOL` and
`BITYPED_WAST_SYMBOL` in `WebAssemblyTextSymbols.h`, in the order of `ENUM_OPCODE_SYMBOLS`. -/
inductive SymbolName where
  | _module | _func | _global | _table | _export | _import | _memory | _segment
  | _param | _result | _local | _case | _fallthrough | _assert_eq | _assert_invalid | _invoke
  | _switch | _call | _call_import | _call_indirect | _if | _loop | _break | _label
  | _return | _block | _nop | _get_local | _load_global | _set_local | _store_global
  | _load | _store
  | _const | _neg | _abs | _sub | _add | _mul
  | _wrap | _trunc_s | _trunc_u | _extend_s | _extend_u | _reinterpret
  | _load8_s | _load8_u | _load16_s | _load16_u | _store8 | _store16
  | _not | _clz | _ctz | _popcnt | _div_s | _div_u | _rem_s | _rem_u
  | _and | _or | _xor | _shl | _shr_s | _shr_u
  | _ceil | _floor | _trunc | _nearest | _div | _rem | _copysign | _min | _max
  | _promote | _demote | _convert_s | _convert_u | _sqrt
  | _eq | _ne | _lt_s | _lt_u | _le_s | _le_u | _gt_s | _gt_u | _ge_s | _ge_u
  | _lt | _le | _gt | _ge
  | _typeBase | _i8 | _i16 | _i32 | _i64 | _f32 | _f64 | _bool | _void
  deriving DecidableEq, Repr, Inhabited

/-- The enumerators of `enum class Symbol`: the bare `_name`, the typed `_name_T` that
`TYPED_WAST_SYMBOL` adds for every type, and the `_name_L_R` that `BITYPED_WAST_SYMBOL`
adds for every pair of types. -/
inductive Symbol where
  | plain (name : SymbolName)
  | typed (name : SymbolName) (type : TypeId)
  | bityped (name : SymbolName) (leftType rightType : TypeId)
  deriving DecidableEq, Repr, Inhabited

/-- A `float64` of an S-expression, carried by its bit pattern; floating-point arithmetic
is not modelled. -/
structure Float64 where
  bits : Nat
  deriving DecidableEq, Repr, Inhabited

/-- Modelled from the spec: the `SExp::Node` of the absent `Core/SExpressions.h`, one
constructor per `SExp::NodeType`; `integer` is an `int64`. -/
inductive SNode where
  | tree (children : List SNode)
  | symbol (symbol : Symbol)
  | int (integer : Int)
  | decimal (decimal : Float64)
  | error (error : String)
  | string (string : String)
  | unindexedSymbol (string : String)
  deriving Repr, Inhabited

/-- Modelled from the spec: the `SExp::NodeIt` of the absent `Core/SExpressions.h`: the
current node and the siblings after it; the null iterator is `[]`, `++it` drops the
head. -/
abbrev SNodeIt := List SNode

/-- An `ErrorRecord` as `recordError` builds it. The recorded text is
`locus.describe() + ": " + message + " (S-expression node is " + describeSNode(nodeIt) + ")"`;
the record keeps `message` and the node the iterator stood on (`none` for a null
iterator, whose locus is `previousLocus`). -/
structure ErrorRecord where
  message : String
  node : Option SNode
  deriving Repr, Inhabited

/-- `recordError`: appends the record to `outErrors`. -/
def recordError (outErrors : List ErrorRecord) (nodeIt : SNodeIt) (message : String) :
    List ErrorRecord :=
  outErrors ++ [{ message := message, node := nodeIt.head? }]

/-- `recordExcessInputError`. -/
def recordExcessInputError (outErrors : List ErrorRecord) (nodeIt : SNodeIt)
    (errorContext : String) : List ErrorRecord :=
  recordError outErrors nodeIt ("unexpected input following " ++ errorContext)

/-- The type a symbol denotes in `parseType`: the symbols after `_typeBase`, up to
`_typeBase + TypeId::max`, in `TypeId` order. -/
def typeOfSymbol : Symbol → Option TypeId
  | .plain ._i8 => some .I8
  | .plain ._i16 => some .I16
  | .plain ._i32 => some .I32
  | .plain ._i64 => some .I64
  | .plain ._f32 => some .F32
  | .plain ._f64 => some .F64
  | .plain ._bool => some .Bool
  | .plain ._void => some .Void
  | _ => none

/-- `parseType`: `some (outType, advanced iterator)` when it returns true. -/
def parseType (nodeIt : SNodeIt) : Option (TypeId × SNodeIt) :=
  match nodeIt with
  | .symbol symbol :: rest =>
    match typeOfSymbol symbol with
    | some outType => some (outType, rest)
    | none => none
  | _ => none

/-- `parseInt`: `some (outInt, advanced iterator)` when it returns true. -/
def parseInt (nodeIt : SNodeIt) : Option (Int × SNodeIt) :=
  match nodeIt with
  | .int integer :: rest => some (integer, rest)
  | _ => none

/-- A `float64` value the parser produces: the decimal of a node, or `(float64)integer`. -/
inductive FloatValue where
  | ofDecimal (decimal : Float64)
  | ofInteger (integer : Int)
  deriving DecidableEq, Repr, Inhabited

/-- `parseFloat64`. -/
def parseFloat64 (nodeIt : SNodeIt) : Option (FloatValue × SNodeIt) :=
  match nodeIt with
  | .decimal decimal :: rest => some (.ofDecimal decimal, rest)
  | .int integer :: rest => some (.ofInteger integer, rest)
  | _ => none

/-- `parseString`: the string copied to the arena and the advanced iterator. -/
def parseString (nodeIt : SNodeIt) : Option (String × SNodeIt) :=
  match nodeIt with
  | .string string :: rest => some (string, rest)
  | _ => none

/-- `parseTreeNode`: `some outChildIt` when it returns true. -/
def parseTreeNode (nodeIt : SNodeIt) : Option SNodeIt :=
  match nodeIt with
  | .tree children :: _ => some children
  | _ => none

/-- `parseSymbol`: `some (outSymbol, advanced iterator)` when it returns true. -/
def parseSymbol (nodeIt : SNodeIt) : Option (Symbol × SNodeIt) :=
  match nodeIt with
  | .symbol symbol :: rest => some (symbol, rest)
  | _ => none

/-- `parseTaggedNode`: `some outChildIt`, the children after the tag, when it returns
true. -/
def parseTaggedNode (nodeIt : SNodeIt) (tagSymbol : Symbol) : Option SNodeIt :=
  match parseTreeNode nodeIt with
  | none => none
  | some childIt =>
    match parseSymbol childIt with
    | none => none
    | some (symbol, childIt) => if symbol = tagSymbol then some childIt else none

/-- The name a string denotes in `parseName`: `string + 1` when `string[0] == '$'`. -/
def nameOfString (string : String) : Option String :=
  match string.data with
  | '$' :: name => some (String.mk name)
  | _ => none

/-- `parseName`: `some (outString, advanced iterator)` when it returns true. -/
def parseName (nodeIt : SNodeIt) : Option (String × SNodeIt) :=
  match nodeIt with
  | .unindexedSymbol string :: rest =>
    match nameOfString string with
    | some name => some (name, rest)
    | none => none
  | _ => none

/-- A `std::map` keyed by strings, searched by key. -/
abbrev NameMap (β : Type) := List (String × β)

/-- `std::map::find`: the mapped value, `none` for `end()`. -/
def NameMap.find {β : Type} (map : NameMap β) (key : String) : Option β :=
  List.lookup key map

/-- `std::map::count`. -/
def NameMap.count {β : Type} (map : NameMap β) (key : String) : Nat :=
  if (map.find key).isSome then 1 else 0

/-- `std::map::erase` by key. -/
def NameMap.erase {β : Type} (map : NameMap β) (key : String) : NameMap β :=
  map.filter fun entry => entry.1 != key

/-- The assignment `map[key] = value`. -/
def NameMap.set {β : Type} (map : NameMap β) (key : String) (value : β) : NameMap β :=
  (key, value) :: map.erase key

/-- The cast `(uintptr_t)` of an `int64` on a 64-bit host. -/
def toUintptr (value : Int) : Nat := (value % 2 ^ 64).toNat

/-- `parseNameOrIndex`: `outIndex` when it returns true (`none` when it returns false),
and the iterator as the call leaves it. `parseInt` advances the iterator before the
range of the integer is checked, and `parseName` then reads the iterator it left. -/
def parseNameOrIndex (nodeIt : SNodeIt) (nameToIndex : NameMap Nat) (numValidIndices : Nat) :
    Option Nat × SNodeIt :=
  let parsedInt := parseInt nodeIt
  let nodeIt := match parsedInt with
    | some (_, advanced) => advanced
    | none => nodeIt
  let inRange := match parsedInt with
    | some (parsedInt, _) => decide (parsedInt ≥ 0) && decide (toUintptr parsedInt < numValidIndices)
    | none => false
  if inRange then
    match parsedInt with
    | some (parsedInt, _) => (some (toUintptr parsedInt), nodeIt)
    | none => (none, nodeIt)
  else
    match parseName nodeIt with
    | some (name, nodeIt) =>
      match nameToIndex.find name with
      | some index => (some index, nodeIt)
      | none => (none, nodeIt)
    | none => (none, nodeIt)

/-- The loop of `parseVariables` over unnamed types: `numVariables`, the iterator, the
variables and the errors when it returns. -/
def parseVariablesLoop : SNodeIt → List Variable → List ErrorRecord → Nat →
    Nat × SNodeIt × List Variable × List ErrorRecord
  | [], outVariables, outErrors, numVariables => (numVariables, [], outVariables, outErrors)
  | node :: rest, outVariables, outErrors, numVariables =>
    match parseType (node :: rest) with
    | none =>
      (numVariables, node :: rest, outVariables,
        recordError outErrors (node :: rest) "expected type")
    | some (type, _) =>
      parseVariablesLoop rest (outVariables ++ [{ type := type, name := none }]) outErrors
        (numVariables + 1)

/-- `parseVariables`: the number of variables parsed, the iterator, `outVariables` and
`outErrors` when it returns. -/
def parseVariables (childNodeIt : SNodeIt) (outVariables : List Variable)
    (outErrors : List ErrorRecord) : Nat × SNodeIt × List Variable × List ErrorRecord :=
  match parseName childNodeIt with
  | some (name, childNodeIt) =>
    match parseType childNodeIt with
    | none => (0, childNodeIt, outVariables, recordError outErrors childNodeIt "expected type")
    | some (type, childNodeIt) =>
      (1, childNodeIt, outVariables ++ [{ type := type, name := some name }], outErrors)
  | none => parseVariablesLoop childNodeIt outVariables outErrors 0

/-- The loop of `buildVariableNameToIndexMapMap` from `variableIndex` on. -/
def buildVariableNameToIndexMapMapFrom : List Variable → Nat → NameMap Nat →
    List ErrorRecord → NameMap Nat × List ErrorRecord
  | [], _, outNameToIndexMap, outErrors => (outNameToIndexMap, outErrors)
  | var :: rest, variableIndex, outNameToIndexMap, outErrors =>
    match var.name with
    | none => buildVariableNameToIndexMapMapFrom rest (variableIndex + 1) outNameToIndexMap outErrors
    | some name =>
      if outNameToIndexMap.count name ≠ 0 then
        buildVariableNameToIndexMapMapFrom rest (variableIndex + 1) outNameToIndexMap
          (recordError outErrors [] "duplicate variable name")
      else
        buildVariableNameToIndexMapMapFrom rest (variableIndex + 1)
          (outNameToIndexMap.set name variableIndex) outErrors

/-- `buildVariableNameToIndexMapMap`. -/
def buildVariableNameToIndexMapMap (vars : List Variable) (outNameToIndexMap : NameMap Nat)
    (outErrors : List ErrorRecord) : NameMap Nat × List ErrorRecord :=
  buildVariableNameToIndexMapMapFrom vars 0 outNameToIndexMap outErrors

/-! ## Expressions (`AST/ASTExpressions.h`, `AST/ASTOpcodes.h`) and modules (`AST/AST.h`) -/

/-- Modelled from the spec: the integer opcodes of the absent `ASTOpcodes.h` that the
parser names. -/
inductive IntOp where
  | lit | neg | abs | bitwiseNot | clz | ctz | popcnt
  | add | sub | mul | divs | divu | rems | remu
  | bitwiseAnd | bitwiseOr | bitwiseXor | shl | shrSExt | shrZExt
  | wrap | truncSignedFloat | truncUnsignedFloat | sext | zext
  | reinterpretFloat | reinterpretBool
  | load | loadZExt | loadSExt
  deriving DecidableEq, Repr, Inhabited

/-- Modelled from the spec: the floating-point opcodes of the absent `ASTOpcodes.h`. -/
inductive FloatOp where
  | lit | neg | abs | ceil | floor | trunc | nearestInt | sqrt
  | add | sub | mul | div | rem | min | max | copySign
  | convertSignedInt | convertUnsignedInt | promote | demote | reinterpretInt
  | load
  deriving DecidableEq, Repr, Inhabited

/-- Modelled from the spec: the boolean opcodes of the absent `ASTOpcodes.h`. -/
inductive BoolOp where
  | lit | bitwiseNot | bitwiseAnd | bitwiseOr
  | eq | ne | lt | lts | ltu | le | les | leu | gt | gts | gtu | ge | ges | geu
  deriving DecidableEq, Repr, Inhabited

/-- Modelled from the spec: the opcodes of `AnyOp` that the parser passes to a node
constructor. -/
inductive AnyOp where
  | getLocal | getGlobal | setLocal | setGlobal | callDirect | callImport
  deriving DecidableEq, Repr, Inhabited

/-- An opcode of one of the classes with class-specific opcodes (`Class::Op`). -/
inductive Opcode where
  | Int (op : IntOp)
  | Float (op : FloatOp)
  | Bool (op : BoolOp)
  deriving DecidableEq, Repr, Inhabited

/-- The `BranchTarget` of the AST: an arena-allocated sentinel compared by address. `id`
is the number of branch targets allocated in the module's arena before it. -/
structure BranchTarget where
  id : Nat
  type : TypeId
  deriving DecidableEq, Repr, Inhabited

/-- The value of a `Literal<T>`: an integer reduced to the width of `T`, or a float (for
`f32` the `float64` it is converted from by `(float32)`). -/
inductive LiteralValue where
  | int (value : Nat)
  | float (value : FloatValue)
  deriving DecidableEq, Repr, Inhabited

/-- Modelled from the spec: the expression nodes of the absent `ASTExpressions.h`, with
the constructor arguments the parser passes; the class template argument of a node is its
`typeClass` field (`Opcode` carries it for `Unary`, `Binary` and `Cast`). A `Switch` arm
is its key and its value. -/
inductive Expression where
  | Literal (type : TypeId) (value : LiteralValue)
  | Error (typeClass : TypeClassId) (message : String)
  | Nop
  | DiscardResult (expression : Expression) (type : TypeId)
  | GetVariable (op : AnyOp) (typeClass : Option TypeClassId) (variableIndex : Nat)
  | SetVariable (op : AnyOp) (typeClass : Option TypeClassId) (value : Expression)
      (variableIndex : Nat)
  | Load (typeClass : TypeClassId) (op : Opcode) (isFarAddress isAligned : Bool)
      (address : Expression) (memoryType : TypeId)
  | Store (typeClass : TypeClassId) (isFarAddress isAligned : Bool) (address : Expression)
      (value : Expression) (valueType : TypeId) (memoryType : TypeId)
  | Call (op : AnyOp) (typeClass : Option TypeClassId) (functionIndex : Nat)
      (parameters : List Expression)
  | CallIndirect (typeClass : Option TypeClassId) (tableIndex : Nat)
      (functionIndex : Expression) (parameters : List Expression)
  | Unary (op : Opcode) (operand : Expression)
  | Binary (op : Opcode) (left right : Expression)
  | Cast (op : Opcode) (source : Expression) (sourceType : TypeId)
  | Comparison (op : BoolOp) (operandType : TypeId) (left right : Expression)
  | IfElse (typeClass : TypeClassId) (condition thenExpression elseExpression : Expression)
  | Switch (typeClass : TypeClassId) (key : Expression) (keyType : TypeId)
      (defaultArmIndex numArms : Nat) (arms : List (Nat × Expression))
      (endTarget : BranchTarget)
  | Label (typeClass : TypeClassId) (endTarget : BranchTarget) (expression : Expression)
  | Loop (typeClass : TypeClassId) (expression : Expression)
      (breakTarget continueTarget : BranchTarget)
  | Sequence (typeClass : TypeClassId) (voidExpression resultExpression : Expression)
  | Branch (typeClass : TypeClassId) (branchTarget : BranchTarget) (value : Option Expression)
  | Return (typeClass : TypeClassId) (value : Option Expression)
  deriving Inhabited

/-- The `TypedExpression` of `AST.h` with a non-null expression; the default-constructed
one (null, `TypeId::None`) is `none : Option TypedExpression`. -/
structure TypedExpression where
  expression : Expression
  type : TypeId

/-- The `Function` of `AST.h`. -/
structure Function where
  name : Option String := none
  locals : List Variable := []
  parameterLocalIndices : List Nat := []
  type : FunctionType := {}
  expression : Option Expression := none

/-- The `FunctionImport` of `AST.h`. -/
structure FunctionImport where
  type : FunctionType
  name : String
  deriving DecidableEq, Repr

/-- The `VariableImport` of `AST.h`. -/
structure VariableImport where
  type : TypeId
  name : String
  globalIndex : Nat
  deriving DecidableEq, Repr

/-- The `DataSegment` of `AST.h`; `data` is the string copied to the arena. -/
structure DataSegment where
  baseAddress : Nat
  numBytes : Nat
  data : String
  deriving DecidableEq, Repr

/-- The `Module` of `AST.h`. Of the arena only the number of `BranchTarget`s allocated in
it so far is kept. -/
structure Module where
  numBranchTargets : Nat := 0
  functions : List Function := []
  globals : List Variable := []
  exportNameToFunctionIndexMap : NameMap Nat := []
  functionTables : List FunctionTable := []
  functionImports : List FunctionImport := []
  variableImports : List VariableImport := []
  dataSegments : List DataSegment := []
  initialNumBytesMemory : Nat := 0
  maxNumBytesMemory : Nat := 0

/-! ## The parser (`WebAssembly/WebAssemblyTextParse.cpp`) -/

/-- The `ModuleContext` of the parser; `outErrors` is the error list it refers to. -/
structure ModuleContext where
  module : Module := {}
  functionNameToIndexMap : NameMap Nat := []
  globalNameToIndexMap : NameMap Nat := []
  functionTableNameToIndexMap : NameMap Nat := []
  functionImportNameToIndexMap : NameMap Nat := []
  outErrors : List ErrorRecord := []

/-- The `FunctionContext` of the parser. Its `arena` and `outErrors` references are the
ones of `moduleContext`. -/
structure FunctionContext where
  moduleContext : ModuleContext
  function : Function
  localNameToIndexMap : NameMap Nat := []
  labelToBranchTargetMap : NameMap BranchTarget := []
  scopedBranchTargets : List BranchTarget := []

/-- The ways a run of the parser ends without returning: the model ran out of fuel, the
code has undefined behaviour, or it executes `throw;` with no exception in flight. -/
inductive Fault where
  | outOfFuel
  | undefinedBehaviour (what : String)
  | terminate (what : String)
  deriving DecidableEq, Repr

/-- A member function of `FunctionContext`: it reads and updates the context, and returns
unless it faults. -/
abbrev ParseM := StateT FunctionContext (Except Fault)

/-- The context after `recordError(outErrors,nodeIt,message)`. -/
def FunctionContext.recordError (context : FunctionContext) (nodeIt : SNodeIt)
    (message : String) : FunctionContext :=
  { context with moduleContext := { context.moduleContext with
      outErrors := WAVM.recordError context.moduleContext.outErrors nodeIt message } }

/-- The error list a `FunctionContext` appends to. -/
def FunctionContext.outErrors (context : FunctionContext) : List ErrorRecord :=
  context.moduleContext.outErrors

/-- `recordError<Error<Class>>(outErrors,nodeIt,message)` in a member function: appends the
record and returns the `Error` node. -/
def recordErrorNode (typeClass : TypeClassId) (nodeIt : SNodeIt) (message : String) :
    ParseM Expression := fun context =>
  .ok (.Error typeClass message, context.recordError nodeIt message)

/-- `FunctionContext::typeError`. -/
def typeError (typeClass : TypeClassId) (type : TypeId) (typedExpression : TypedExpression)
    (nodeIt : SNodeIt) (errorContext : String) : ParseM Expression :=
  recordErrorNode typeClass nodeIt
    ("type error: expecting a " ++ getTypeName type ++ " " ++ errorContext
      ++ " but found " ++ getTypeName typedExpression.type)

/-- `FunctionContext::coerceExpression`, its four overloads selected by the class tag:
`BoolClass`, `VoidClass`, `IntClass`, and the template for every other class. -/
def coerceExpression (typeClass : TypeClassId) (resultType : TypeId)
    (typedExpression : TypedExpression) (nodeIt : SNodeIt) (errorContext : String) :
    ParseM Expression :=
  match typeClass with
  | .Bool =>
    if resultType = typedExpression.type then pure typedExpression.expression
    else if isTypeClass typedExpression.type .Int then
      match typedExpression.type with
      | .I8 | .I16 | .I32 | .I64 =>
        pure (.Comparison .ne typedExpression.type typedExpression.expression
          (.Literal typedExpression.type (.int 0)))
      | _ => throw (.terminate "coerceExpression: default: throw")
    else typeError .Bool resultType typedExpression nodeIt errorContext
  | .Void =>
    if resultType = typedExpression.type then pure typedExpression.expression
    else pure (.DiscardResult typedExpression.expression typedExpression.type)
  | .Int =>
    if resultType = typedExpression.type then pure typedExpression.expression
    else if isTypeClass typedExpression.type .Bool then
      pure (.Cast (.Int .reinterpretBool) typedExpression.expression typedExpression.type)
    else typeError .Int resultType typedExpression nodeIt errorContext
  | typeClass =>
    if resultType = typedExpression.type then pure typedExpression.expression
    else typeError typeClass resultType typedExpression nodeIt errorContext

/-- The recorded errors of a `FunctionContext` after a member function recorded one. -/
def recordErrorM (nodeIt : SNodeIt) (message : String) : ParseM Unit := fun context =>
  .ok ((), context.recordError nodeIt message)

/-- The allocation `new(arena) BranchTarget(type)`. -/
def allocateBranchTarget (type : TypeId) : ParseM BranchTarget := fun context =>
  .ok ({ id := context.moduleContext.module.numBranchTargets, type := type },
    { context with moduleContext := { context.moduleContext with
        module := { context.moduleContext.module with
          numBranchTargets := context.moduleContext.module.numBranchTargets + 1 } } })

/-- The assignment `labelToBranchTargetMap[labelName] = branchTarget`. -/
def setLabel (labelName : String) (branchTarget : BranchTarget) : ParseM Unit := fun context =>
  .ok ((), { context with
    labelToBranchTargetMap := context.labelToBranchTargetMap.set labelName branchTarget })

/-- The call `labelToBranchTargetMap.erase(labelName)`. -/
def eraseLabel (labelName : String) : ParseM Unit := fun context =>
  .ok ((), { context with
    labelToBranchTargetMap := context.labelToBranchTargetMap.erase labelName })

/-- The call `scopedBranchTargets.push_back(branchTarget)`. -/
def pushScopedBranchTarget (branchTarget : BranchTarget) : ParseM Unit := fun context =>
  .ok ((), { context with scopedBranchTargets := context.scopedBranchTargets ++ [branchTarget] })

/-- The call `scopedBranchTargets.pop_back()`. -/
def popScopedBranchTarget : ParseM Unit := fun context =>
  .ok ((), { context with scopedBranchTargets := context.scopedBranchTargets.dropLast })

/-- Modelled from the spec: `getOpName` of the absent `ASTOpcodes.h` for integer opcodes,
the name of the enumerator. -/
def getIntOpName : IntOp → String
  | .lit => "lit" | .neg => "neg" | .abs => "abs" | .bitwiseNot => "bitwiseNot"
  | .clz => "clz" | .ctz => "ctz" | .popcnt => "popcnt"
  | .add => "add" | .sub => "sub" | .mul => "mul" | .divs => "divs" | .divu => "divu"
  | .rems => "rems" | .remu => "remu"
  | .bitwiseAnd => "bitwiseAnd" | .bitwiseOr => "bitwiseOr" | .bitwiseXor => "bitwiseXor"
  | .shl => "shl" | .shrSExt => "shrSExt" | .shrZExt => "shrZExt"
  | .wrap => "wrap" | .truncSignedFloat => "truncSignedFloat"
  | .truncUnsignedFloat => "truncUnsignedFloat" | .sext => "sext" | .zext => "zext"
  | .reinterpretFloat => "reinterpretFloat" | .reinterpretBool => "reinterpretBool"
  | .load => "load" | .loadZExt => "loadZExt" | .loadSExt => "loadSExt"

/-- Modelled from the spec: `getOpName` of the absent `ASTOpcodes.h` for floating-point
opcodes. -/
def getFloatOpName : FloatOp → String
  | .lit => "lit" | .neg => "neg" | .abs => "abs" | .ceil => "ceil" | .floor => "floor"
  | .trunc => "trunc" | .nearestInt => "nearestInt" | .sqrt => "sqrt"
  | .add => "add" | .sub => "sub" | .mul => "mul" | .div => "div" | .rem => "rem"
  | .min => "min" | .max => "max" | .copySign => "copySign"
  | .convertSignedInt => "convertSignedInt" | .convertUnsignedInt => "convertUnsignedInt"
  | .promote => "promote" | .demote => "demote" | .reinterpretInt => "reinterpretInt"
  | .load => "load"

/-- Modelled from the spec: `getOpName` of the absent `ASTOpcodes.h` for boolean opcodes. -/
def getBoolOpName : BoolOp → String
  | .lit => "lit" | .bitwiseNot => "bitwiseNot" | .bitwiseAnd => "bitwiseAnd"
  | .bitwiseOr => "bitwiseOr" | .eq => "eq" | .ne => "ne"
  | .lt => "lt" | .lts => "lts" | .ltu => "ltu" | .le => "le" | .les => "les" | .leu => "leu"
  | .gt => "gt" | .gts => "gts" | .gtu => "gtu" | .ge => "ge" | .ges => "ges" | .geu => "geu"

/-- Modelled from the spec: `getOpName` of the absent `ASTOpcodes.h` for the variable
opcodes of `AnyOp`. -/
def getAnyOpName : AnyOp → String
  | .getLocal => "getLocal" | .getGlobal => "getGlobal"
  | .setLocal => "setLocal" | .setGlobal => "setGlobal"
  | .callDirect => "callDirect" | .callImport => "callImport"

/-- `getOpName(op)` for an opcode of a class. -/
def getOpName : Opcode → String
  | .Int op => getIntOpName op
  | .Float op => getFloatOpName op
  | .Bool op => getBoolOpName op

/-- The class `Class` of an opcode of `Class::Op`. -/
def Opcode.typeClass : Opcode → TypeClassId
  | .Int _ => .Int
  | .Float _ => .Float
  | .Bool _ => .Bool

/-- The type of `parseTypedExpression<Class>(type,nodeIt,errorContext)`, through which
every member function recurses: the expression, and the iterator as the call leaves it. -/
abbrev ParseTyped := TypeClassId → TypeId → SNodeIt → String → ParseM (Expression × SNodeIt)

/-- `parseTypedExpression(type,nodeIt,errorContext)`, the overload that switches on the
type to pick the class. -/
def parseTypedExpressionOfType (self : ParseTyped) (type : TypeId) (nodeIt : SNodeIt)
    (errorContext : String) : ParseM (Expression × SNodeIt) :=
  match getPrimaryTypeClass type with
  | some typeClass => self typeClass type nodeIt errorContext
  | none => throw (.terminate "parseTypedExpression: default: throw")

/-- `FunctionContext::requireFullMatch`. -/
def requireFullMatch (typeClass : TypeClassId) (nodeIt : SNodeIt) (errorContext : String)
    (result : Expression) : ParseM Expression :=
  match nodeIt with
  | [] => pure result
  | _ :: _ => recordErrorNode typeClass nodeIt ("unexpected input following " ++ errorContext)

/-- The loop of `parseExpressionSequence` over the void expressions: `numRemaining`
iterations from `result`. -/
def parseVoidExpressions (self : ParseTyped) : Nat → Option Expression → SNodeIt → String →
    ParseM (Option Expression × SNodeIt)
  | 0, result, nodeIt, _ => pure (result, nodeIt)
  | numRemaining + 1, result, nodeIt, errorContext => do
    let (expression, nodeIt) ← self .Void .Void nodeIt errorContext
    match result with
    | some result =>
      parseVoidExpressions self numRemaining (some (.Sequence .Void result expression)) nodeIt
        errorContext
    | none => parseVoidExpressions self numRemaining (some expression) nodeIt errorContext

/-- `parseExpressionSequence<Class>(type,nodeIt,errorContext,numOps)`. -/
def parseExpressionSequenceOps (self : ParseTyped) (typeClass : TypeClassId) (type : TypeId)
    (nodeIt : SNodeIt) (errorContext : String) (numOps : Nat) : ParseM Expression :=
  if numOps = 0 then pure .Nop
  else if numOps = 1 then do
    let (expression, _) ← self typeClass type nodeIt errorContext
    pure expression
  else do
    let (result, nodeIt) ← parseVoidExpressions self (numOps - 1) none nodeIt errorContext
    let (resultExpression, _) ← self typeClass type nodeIt errorContext
    match result with
    | some result => pure (.Sequence typeClass result resultExpression)
    | none => throw (.undefinedBehaviour "parseExpressionSequence: null void expression")

/-- `parseExpressionSequence<Class>(type,nodeIt,context)`, over all siblings. -/
def parseExpressionSequence (self : ParseTyped) (typeClass : TypeClassId) (type : TypeId)
    (nodeIt : SNodeIt) (context : String) : ParseM Expression :=
  if nodeIt.length = 0 then recordErrorNode typeClass nodeIt "missing expression"
  else parseExpressionSequenceOps self typeClass type nodeIt context nodeIt.length

/-- `parseComparisonExpression`. -/
def parseComparisonExpression (self : ParseTyped) (opType : TypeId) (op : BoolOp)
    (childNodeIt : SNodeIt) : ParseM TypedExpression := do
  let (leftOperand, childNodeIt) ←
    parseTypedExpressionOfType self opType childNodeIt "comparison left operand"
  let (rightOperand, childNodeIt) ←
    parseTypedExpressionOfType self opType childNodeIt "comparison right operand"
  let result ← requireFullMatch .Bool childNodeIt (getBoolOpName op)
    (.Comparison op opType leftOperand rightOperand)
  pure ⟨result, .Bool⟩

/-- `parseBinaryExpression<Class>`. -/
def parseBinaryExpression (self : ParseTyped) (opType : TypeId) (op : Opcode)
    (operandNodeIt : SNodeIt) : ParseM TypedExpression := do
  let (left, operandNodeIt) ← self op.typeClass opType operandNodeIt "binary left operand"
  let (right, operandNodeIt) ← self op.typeClass opType operandNodeIt "binary right operand"
  let result ← requireFullMatch op.typeClass operandNodeIt (getOpName op) (.Binary op left right)
  pure ⟨result, opType⟩

/-- `parseUnaryExpression<Class>`. -/
def parseUnaryExpression (self : ParseTyped) (opType : TypeId) (op : Opcode)
    (operandNodeIt : SNodeIt) : ParseM TypedExpression := do
  let (operand, operandNodeIt) ← self op.typeClass opType operandNodeIt "unary operand"
  let result ← requireFullMatch op.typeClass operandNodeIt (getOpName op) (.Unary op operand)
  pure ⟨result, opType⟩

/-- `parseLoadExpression<Class>`. -/
def parseLoadExpression (self : ParseTyped) (typeClass : TypeClassId) (resultType : TypeId)
    (memoryType : TypeId) (loadOp : Opcode) (isFarAddress isAligned : Bool) (nodeIt : SNodeIt) :
    ParseM TypedExpression :=
  if !isTypeClass memoryType typeClass then do
    let error ← recordErrorNode typeClass nodeIt
      "load: memory type must be same type class as result"
    pure ⟨error, resultType⟩
  else do
    let (address, nodeIt) ←
      self .Int (if isFarAddress then .I64 else .I32) nodeIt "load address"
    let result ← requireFullMatch typeClass nodeIt "load"
      (.Load typeClass loadOp isFarAddress isAligned address memoryType)
    pure ⟨result, resultType⟩

/-- `parseStoreExpression<OperandClass>`. -/
def parseStoreExpression (self : ParseTyped) (operandClass : TypeClassId) (valueType : TypeId)
    (memoryType : TypeId) (isFarAddress isAligned : Bool) (nodeIt : SNodeIt) :
    ParseM TypedExpression :=
  if !isTypeClass memoryType operandClass then do
    let error ← recordErrorNode .Void nodeIt
      "store: memory type must be same type class as result"
    pure ⟨error, .Void⟩
  else do
    let (address, nodeIt) ←
      self .Int (if isFarAddress then .I64 else .I32) nodeIt "store address"
    let (value, nodeIt) ← self operandClass valueType nodeIt "store value"
    let result ← requireFullMatch operandClass nodeIt "store"
      (.Store operandClass isFarAddress isAligned address value valueType memoryType)
    pure ⟨result, valueType⟩

/-- `parseCastExpression<Class>`. -/
def parseCastExpression (self : ParseTyped) (op : Opcode) (sourceType destType : TypeId)
    (nodeIt : SNodeIt) : ParseM TypedExpression := do
  let (source, nodeIt) ← parseTypedExpressionOfType self sourceType nodeIt "cast source"
  let result ← requireFullMatch op.typeClass nodeIt (getOpName op) (.Cast op source sourceType)
  pure ⟨result, destType⟩

/-- The symbols `DEFINE_UNARY_OP(Int,symbol,opcode)` defines a case for. -/
def intUnaryOp : SymbolName → Option IntOp
  | ._neg => some .neg | ._abs => some .abs | ._not => some .bitwiseNot
  | ._clz => some .clz | ._ctz => some .ctz | ._popcnt => some .popcnt
  | _ => none

/-- The symbols `DEFINE_BINARY_OP(Int,symbol,opcode)` defines a case for. -/
def intBinaryOp : SymbolName → Option IntOp
  | ._add => some .add | ._sub => some .sub | ._mul => some .mul
  | ._div_s => some .divs | ._div_u => some .divu | ._rem_s => some .rems | ._rem_u => some .remu
  | ._and => some .bitwiseAnd | ._or => some .bitwiseOr | ._xor => some .bitwiseXor
  | ._shl => some .shl | ._shr_s => some .shrSExt | ._shr_u => some .shrZExt
  | _ => none

/-- The symbols `DEFINE_UNARY_OP(Float,symbol,opcode)` defines a case for. -/
def floatUnaryOp : SymbolName → Option FloatOp
  | ._neg => some .neg | ._abs => some .abs | ._ceil => some .ceil | ._floor => some .floor
  | ._trunc => some .trunc | ._nearest => some .nearestInt | ._sqrt => some .sqrt
  | _ => none

/-- The symbols `DEFINE_BINARY_OP(Float,symbol,opcode)` defines a case for. -/
def floatBinaryOp : SymbolName → Option FloatOp
  | ._add => some .add | ._sub => some .sub | ._mul => some .mul | ._div => some .div
  | ._rem => some .rem | ._copysign => some .copySign | ._min => some .min | ._max => some .max
  | _ => none

/-- The symbols `DEFINE_UNARY_OP(Bool,symbol,opcode)` defines a case for. -/
def boolUnaryOp : SymbolName → Option BoolOp
  | ._not => some .bitwiseNot
  | _ => none

/-- The symbols `DEFINE_BINARY_OP(Bool,symbol,opcode)` defines a case for. -/
def boolBinaryOp : SymbolName → Option BoolOp
  | ._and => some .bitwiseAnd | ._or => some .bitwiseOr
  | _ => none

/-- The symbols `DEFINE_COMPARE_OP(Int,symbol,opcode)` defines a case for. -/
def intCompareOp : SymbolName → Option BoolOp
  | ._eq => some .eq | ._ne => some .ne
  | ._lt_s => some .lts | ._lt_u => some .ltu | ._le_s => some .les | ._le_u => some .leu
  | ._gt_s => some .gts | ._gt_u => some .gtu | ._ge_s => some .ges | ._ge_u => some .geu
  | _ => none

/-- The symbols `DEFINE_COMPARE_OP(Float,symbol,opcode)` defines a case for. -/
def floatCompareOp : SymbolName → Option BoolOp
  | ._eq => some .eq | ._ne => some .ne
  | ._lt => some .lt | ._le => some .le | ._gt => some .gt | ._ge => some .ge
  | _ => none

/-- The symbols `DEFINE_COMPARE_OP(Bool,symbol,opcode)` defines a case for. -/
def boolCompareOp : SymbolName → Option BoolOp
  | ._eq => some .eq | ._ne => some .ne
  | _ => none

/-- The cases `DEFINE_CAST_OP(destType,sourceType,symbol,opcode)` defines, by symbol,
destination type and source type. -/
def castOpcode : SymbolName → TypeId → TypeId → Option Opcode
  | ._wrap, .I8, .I16 | ._wrap, .I8, .I32 | ._wrap, .I8, .I64
  | ._wrap, .I16, .I32 | ._wrap, .I16, .I64 | ._wrap, .I32, .I64 => some (.Int .wrap)
  | ._extend_s, .I64, .I8 | ._extend_s, .I64, .I16 | ._extend_s, .I64, .I32
  | ._extend_s, .I32, .I8 | ._extend_s, .I32, .I16 | ._extend_s, .I16, .I8 => some (.Int .sext)
  | ._extend_u, .I64, .I8 | ._extend_u, .I64, .I16 | ._extend_u, .I64, .I32
  | ._extend_u, .I32, .I8 | ._extend_u, .I32, .I16 | ._extend_u, .I16, .I8 => some (.Int .zext)
  | ._trunc_s, .I32, .F64 | ._trunc_s, .I32, .F32
  | ._trunc_s, .I64, .F64 | ._trunc_s, .I64, .F32 => some (.Int .truncSignedFloat)
  | ._trunc_u, .I32, .F64 | ._trunc_u, .I32, .F32
  | ._trunc_u, .I64, .F64 | ._trunc_u, .I64, .F32 => some (.Int .truncUnsignedFloat)
  | ._convert_s, .F64, .I8 | ._convert_s, .F64, .I16
  | ._convert_s, .F64, .I32 | ._convert_s, .F64, .I64
  | ._convert_s, .F32, .I8 | ._convert_s, .F32, .I16
  | ._convert_s, .F32, .I32 | ._convert_s, .F32, .I64 => some (.Float .convertSignedInt)
  | ._convert_u, .F64, .I8 | ._convert_u, .F64, .I16
  | ._convert_u, .F64, .I32 | ._convert_u, .F64, .I64
  | ._convert_u, .F32, .I8 | ._convert_u, .F32, .I16
  | ._convert_u, .F32, .I32 | ._convert_u, .F32, .I64 => some (.Float .convertUnsignedInt)
  | ._demote, .F32, .F64 => some (.Float .demote)
  | ._promote, .F64, .F32 => some (.Float .promote)
  | ._reinterpret, .F64, .I64 | ._reinterpret, .F32, .I32 => some (.Float .reinterpretInt)
  | ._reinterpret, .I64, .F64 | ._reinterpret, .I32, .F32 => some (.Int .reinterpretFloat)
  | ._reinterpret, .I8, .Bool | ._reinterpret, .I16, .Bool
  | ._reinterpret, .I32, .Bool | ._reinterpret, .I64, .Bool => some (.Int .reinterpretBool)
  | _, _, _ => none

/-- A case of `DEFINE_LOAD_OP` or `DEFINE_STORE_OP`: the class, the memory type and, for a
load, the load opcode. -/
inductive MemoryOp where
  | load (typeClass : TypeClassId) (memoryType : TypeId) (loadOp : Opcode)
  | store (typeClass : TypeClassId) (memoryType : TypeId)
  deriving DecidableEq, Repr

/-- The cases `DEFINE_LOAD_OP`, `DEFINE_STORE_OP` and `DEFINE_MEMORY_OP` define, by symbol
and value type. -/
def memoryOp : SymbolName → TypeId → Option MemoryOp
  | ._load8_s, .I32 => some (.load .Int .I8 (.Int .loadSExt))
  | ._load8_u, .I32 => some (.load .Int .I8 (.Int .loadZExt))
  | ._load16_s, .I32 => some (.load .Int .I16 (.Int .loadSExt))
  | ._load16_u, .I32 => some (.load .Int .I16 (.Int .loadZExt))
  | ._store8, .I32 => some (.store .Int .I8)
  | ._store16, .I32 => some (.store .Int .I16)
  | ._load, .I32 => some (.load .Int .I32 (.Int .load))
  | ._store, .I32 => some (.store .Int .I32)
  | ._load, .I64 => some (.load .Int .I64 (.Int .load))
  | ._store, .I64 => some (.store .Int .I64)
  | ._load, .F32 => some (.load .Float .F32 (.Float .load))
  | ._store, .F32 => some (.store .Float .F32)
  | ._load, .F64 => some (.load .Float .F64 (.Float .load))
  | ._store, .F64 => some (.store .Float .F64)
  | _, _ => none

/-- The number of bits of an integer type. -/
def intTypeBits : TypeId → Nat
  | .I8 => 8 | .I16 => 16 | .I32 => 32 | .I64 => 64
  | _ => 0

/-- The text-format name of a `const` form, the error context of its `requireFullMatch`. -/
def constName : TypeId → String
  | .I8 => "const.i8" | .I16 => "const.i16" | .I32 => "const.i32" | .I64 => "const.i64"
  | .F32 => "const.f32" | .F64 => "const.f64"
  | _ => "const"

/-- The case `DEFINE_TYPED_OP(Int,const)` of `parseNonParametricExpression`. -/
def parseIntConst (opType : TypeId) (nodeIt : SNodeIt) : ParseM TypedExpression :=
  match parseInt nodeIt with
  | none => do
    let error ← recordErrorNode .Int nodeIt "const: expected integer"
    pure ⟨error, opType⟩
  | some (integer, nodeIt) =>
    match opType with
    | .I8 | .I16 | .I32 | .I64 => do
      let result ← requireFullMatch .Int nodeIt (constName opType)
        (.Literal opType (.int (integer % 2 ^ intTypeBits opType).toNat))
      pure ⟨result, opType⟩
    | _ => throw (.terminate "const: default: throw")

/-- The case `DEFINE_TYPED_OP(Float,const)` of `parseNonParametricExpression`. -/
def parseFloatConst (opType : TypeId) (nodeIt : SNodeIt) : ParseM TypedExpression :=
  match parseFloat64 nodeIt with
  | none => do
    let error ← recordErrorNode .Float nodeIt "const: expected decimal"
    pure ⟨error, opType⟩
  | some (doubleValue, nodeIt) =>
    match opType with
    | .F32 | .F64 => do
      let result ← requireFullMatch .Float nodeIt (constName opType)
        (.Literal opType (.float doubleValue))
      pure ⟨result, opType⟩
    | _ => throw (.terminate "const: default: throw")

/-- The cases of `parseNonParametricExpression` for a typed symbol `_name_opType`: the
memory operations, and per class of `opType` the constants, unary, binary and comparison
operations. A symbol with no case takes `default:` and yields the null
`TypedExpression`. -/
def parseTypedOp (self : ParseTyped) (name : SymbolName) (opType : TypeId) (nodeIt : SNodeIt) :
    ParseM (Option TypedExpression) :=
  match memoryOp name opType with
  | some (.load typeClass memoryType loadOp) =>
    some <$> parseLoadExpression self typeClass opType memoryType loadOp false true nodeIt
  | some (.store typeClass memoryType) =>
    some <$> parseStoreExpression self typeClass opType memoryType false true nodeIt
  | none =>
    match getPrimaryTypeClass opType with
    | some .Int =>
      if name = ._const then some <$> parseIntConst opType nodeIt
      else match intUnaryOp name, intBinaryOp name, intCompareOp name with
        | some op, _, _ => some <$> parseUnaryExpression self opType (.Int op) nodeIt
        | none, some op, _ => some <$> parseBinaryExpression self opType (.Int op) nodeIt
        | none, none, some op => some <$> parseComparisonExpression self opType op nodeIt
        | none, none, none => pure none
    | some .Float =>
      if name = ._const then some <$> parseFloatConst opType nodeIt
      else match floatUnaryOp name, floatBinaryOp name, floatCompareOp name with
        | some op, _, _ => some <$> parseUnaryExpression self opType (.Float op) nodeIt
        | none, some op, _ => some <$> parseBinaryExpression self opType (.Float op) nodeIt
        | none, none, some op => some <$> parseComparisonExpression self opType op nodeIt
        | none, none, none => pure none
    | some .Bool =>
      match boolUnaryOp name, boolBinaryOp name, boolCompareOp name with
      | some op, _, _ => some <$> parseUnaryExpression self opType (.Bool op) nodeIt
      | none, some op, _ => some <$> parseBinaryExpression self opType (.Bool op) nodeIt
      | none, none, some op => some <$> parseComparisonExpression self opType op nodeIt
      | none, none, none => pure none
    | _ => pure none

/-- `FunctionContext::parseNonParametricExpression`: the `TypedExpression` it returns,
`none` for the null one. -/
def parseNonParametricExpression (self : ParseTyped) (parentNodeIt : SNodeIt) :
    ParseM (Option TypedExpression) :=
  match parseTreeNode parentNodeIt with
  | none => pure none
  | some nodeIt =>
    match parseSymbol nodeIt with
    | none => pure none
    | some (tag, nodeIt) =>
      match tag with
      | .plain ._nop => pure (some ⟨.Nop, .Void⟩)
      | .typed name opType => parseTypedOp self name opType nodeIt
      | .bityped name destType sourceType =>
        match castOpcode name destType sourceType with
        | some op => some <$> parseCastExpression self op sourceType destType nodeIt
        | none => pure none
      | _ => pure none

/-- The loop that parses the parameters of a call: one expression per parameter type, in
order, advancing the iterator. -/
def parseParameters (self : ParseTyped) (errorContext : String) :
    List TypeId → SNodeIt → ParseM (List Expression × SNodeIt)
  | [], nodeIt => pure ([], nodeIt)
  | parameterType :: rest, nodeIt => do
    let (parameterValue, nodeIt) ← parseTypedExpressionOfType self parameterType nodeIt errorContext
    let (parameters, nodeIt) ← parseParameters self errorContext rest nodeIt
    pure (parameterValue :: parameters, nodeIt)

/-- `FunctionContext::parseGetVariable<Class>`. -/
def parseGetVariable (typeClass : TypeClassId) (resultType : TypeId) (op : AnyOp)
    (nameToIndexMap : NameMap Nat) (vars : List Variable) (nodeIt : SNodeIt) :
    ParseM Expression :=
  match parseNameOrIndex nodeIt nameToIndexMap vars.length with
  | (none, nodeIt) =>
    recordErrorNode typeClass nodeIt
      (if op = .getLocal then "get_local: expected local name or index"
        else "load_global: expected global name or index")
  | (some variableIndex, nodeIt) =>
    match vars[variableIndex]? with
    | none => throw (.undefinedBehaviour "parseGetVariable: variable index out of bounds")
    | some var => do
      let result ← coerceExpression typeClass resultType
        ⟨.GetVariable op (getPrimaryTypeClass var.type) variableIndex, var.type⟩ nodeIt "variable"
      requireFullMatch typeClass nodeIt (getAnyOpName op) result

/-- `FunctionContext::parseSetVariable<Class>`. -/
def parseSetVariable (self : ParseTyped) (typeClass : TypeClassId) (resultType : TypeId)
    (op : AnyOp) (nameToIndexMap : NameMap Nat) (vars : List Variable) (nodeIt : SNodeIt) :
    ParseM Expression :=
  match parseNameOrIndex nodeIt nameToIndexMap vars.length with
  | (none, nodeIt) =>
    recordErrorNode typeClass nodeIt
      (if op = .setLocal then "set_local: expected local name or index"
        else "store_global: expected global name or index")
  | (some variableIndex, nodeIt) =>
    match vars[variableIndex]? with
    | none => throw (.undefinedBehaviour "parseSetVariable: variable index out of bounds")
    | some var => do
      let (valueExpression, nodeIt) ←
        parseTypedExpressionOfType self var.type nodeIt "store value"
      let result ← coerceExpression typeClass resultType
        ⟨.SetVariable op (getPrimaryTypeClass var.type) valueExpression variableIndex, var.type⟩
        nodeIt "variable"
      requireFullMatch typeClass nodeIt (getAnyOpName op) result

/-- The number of leading siblings that are `case` forms, as the switch case counts
`numArms`. -/
def countCases : SNodeIt → Nat
  | [] => 0
  | node :: rest =>
    match parseTaggedNode (node :: rest) (.plain ._case) with
    | some _ => countCases rest + 1
    | none => 0

/-- The result of the scan of a case body for the `fallthrough` symbol: the counts when
the scan ends, or the iterator at a `fallthrough` that has a next sibling. -/
inductive FallthroughScan where
  | done (numOps : Nat) (shouldFallthrough : Bool)
  | notFinal (fallthroughNodeIt : SNodeIt)

/-- The loop of the switch case that counts the operations of a case body. -/
def scanFallthrough : SNodeIt → Nat → Bool → FallthroughScan
  | [], numOps, shouldFallthrough => .done numOps shouldFallthrough
  | node :: rest, numOps, _ =>
    match node with
    | .symbol (.plain ._fallthrough) =>
      match rest with
      | [] => .done numOps true
      | _ :: _ => .notFinal (node :: rest)
    | _ => scanFallthrough rest (numOps + 1) false

/-- The loop of the switch case over the `case` forms: either the `Error` node an early
`return` yields, or the arms parsed and the iterator on the first sibling that is not a
`case`. -/
def parseSwitchArms (self : ParseTyped) (typeClass : TypeClassId) (resultType : TypeId)
    (endTarget : BranchTarget) :
    SNodeIt → List (Nat × Expression) → ParseM (Expression ⊕ (List (Nat × Expression) × SNodeIt))
  | [], arms => pure (.inr (arms, []))
  | node :: rest, arms =>
    match parseTaggedNode (node :: rest) (.plain ._case) with
    | none => pure (.inr (arms, node :: rest))
    | some childNodeIt =>
      match parseInt childNodeIt with
      | none => do
        let error ← recordErrorNode typeClass childNodeIt "switch: missing integer case key"
        pure (.inl error)
      | some (keyValue, childNodeIt) =>
        match scanFallthrough childNodeIt 0 true with
        | .notFinal fallthroughNodeIt => do
          let error ← recordErrorNode typeClass fallthroughNodeIt
            "switch: expected fallthrough to be final symbol in S-expression"
          pure (.inl error)
        | .done numOps shouldFallthrough =>
          if shouldFallthrough then do
            let value ← parseExpressionSequenceOps self .Void .Void childNodeIt
              "switch case body" numOps
            parseSwitchArms self typeClass resultType endTarget rest
              (arms ++ [(toUintptr keyValue, value)])
          else do
            let armValue ← parseExpressionSequenceOps self typeClass resultType childNodeIt
              "switch case body" numOps
            let value :=
              if resultType ≠ .Void then Expression.Branch .Void endTarget (some armValue)
              else Expression.Sequence .Void armValue (.Branch .Void endTarget none)
            parseSwitchArms self typeClass resultType endTarget rest
              (arms ++ [(toUintptr keyValue, value)])

/-- The case `DEFINE_PARAMETRIC_TYPED_OP(Int,switch)` of `parseParametricExpression`. -/
def parseSwitch (self : ParseTyped) (typeClass : TypeClassId) (resultType : TypeId)
    (opType : TypeId) (nodeIt : SNodeIt) : ParseM Expression := do
  let labelName := parseName nodeIt
  let nodeIt := match labelName with
    | some (_, advanced) => advanced
    | none => nodeIt
  let endTarget ← allocateBranchTarget resultType
  let context ← get
  let shadows := match labelName with
    | some (labelName, _) => decide (context.labelToBranchTargetMap.count labelName ≠ 0)
    | none => false
  if shadows then
    recordErrorNode typeClass nodeIt "switch: break label name shadows outer label"
  else do
    let keyType := opType
    let (key, nodeIt) ← self .Int keyType nodeIt "switch key"
    match labelName with
    | some (labelName, _) => setLabel labelName endTarget
    | none => pure ()
    let numArms := countCases nodeIt
    match ← parseSwitchArms self typeClass resultType endTarget nodeIt [] with
    | .inl error => pure error
    | .inr (arms, nodeIt) => do
      let (defaultValue, nodeIt) ← self typeClass resultType nodeIt "switch default value"
      match labelName with
      | some (labelName, _) => eraseLabel labelName
      | none => pure ()
      requireFullMatch typeClass nodeIt "switch"
        (.Switch typeClass key keyType numArms (numArms + 1) (arms ++ [(0, defaultValue)])
          endTarget)

/-- The case `if` of `parseParametricExpression`. -/
def parseIf (self : ParseTyped) (typeClass : TypeClassId) (resultType : TypeId)
    (nodeIt : SNodeIt) : ParseM Expression := do
  let (condition, nodeIt) ← self .Bool .Bool nodeIt "if condition"
  let (thenExpression, nodeIt) ← self typeClass resultType nodeIt "if then"
  match nodeIt with
  | _ :: _ => do
    let (elseExpression, nodeIt) ← self typeClass resultType nodeIt "if else"
    requireFullMatch typeClass nodeIt "if"
      (.IfElse typeClass condition thenExpression elseExpression)
  | [] =>
    if resultType = .Void then
      requireFullMatch typeClass nodeIt "if" (.IfElse typeClass condition thenExpression .Nop)
    else do
      let elseExpression ← recordErrorNode typeClass nodeIt "if without else used as value"
      requireFullMatch typeClass nodeIt "if"
        (.IfElse typeClass condition thenExpression elseExpression)

/-- The case `loop` of `parseParametricExpression`. -/
def parseLoop (self : ParseTyped) (typeClass : TypeClassId) (resultType : TypeId)
    (nodeIt : SNodeIt) : ParseM Expression := do
  let breakTarget ← allocateBranchTarget resultType
  let continueTarget ← allocateBranchTarget .Void
  let breakLabelName := parseName nodeIt
  let nodeIt := match breakLabelName with
    | some (_, advanced) => advanced
    | none => nodeIt
  let continueLabelName := parseName nodeIt
  let nodeIt := match continueLabelName with
    | some (_, advanced) => advanced
    | none => nodeIt
  let context ← get
  let breakShadows := match breakLabelName with
    | some (breakLabelName, _) =>
      decide (context.labelToBranchTargetMap.count breakLabelName ≠ 0)
    | none => false
  if breakShadows then
    recordErrorNode typeClass nodeIt "loop: break label name shadows outer label"
  else do
    match breakLabelName with
    | some (breakLabelName, _) => setLabel breakLabelName breakTarget
    | none => pure ()
    let context ← get
    let continueShadows := match continueLabelName with
      | some (continueLabelName, _) =>
        decide (context.labelToBranchTargetMap.count continueLabelName ≠ 0)
      | none => false
    if continueShadows then
      recordErrorNode typeClass nodeIt "loop: continue label name shadows outer label"
    else do
      match continueLabelName with
      | some (continueLabelName, _) => setLabel continueLabelName continueTarget
      | none => pure ()
      let expression ← parseExpressionSequence self .Void .Void nodeIt "loop body"
      match breakLabelName with
      | some (breakLabelName, _) => eraseLabel breakLabelName
      | none => pure ()
      match continueLabelName with
      | some (continueLabelName, _) => eraseLabel continueLabelName
      | none => pure ()
      pure (.Loop typeClass expression breakTarget continueTarget)

/-- The first part of the case `break` of `parseParametricExpression`: the `branchTarget`
it resolves (`none` for null) and the iterator after the label reference. `parseInt`
advances the iterator before the depth is checked; with no name and no in-range depth
the target is `scopedBranchTargets.back()`, which is undefined on an empty stack. -/
def resolveBranchTarget (nodeIt : SNodeIt) : ParseM (Option BranchTarget × SNodeIt) := do
  let context ← get
  let scopedBranchTargets := context.scopedBranchTargets
  let parsedInt := parseInt nodeIt
  let nodeIt := match parsedInt with
    | some (_, advanced) => advanced
    | none => nodeIt
  let inRange := match parsedInt with
    | some (parsedInt, _) =>
      decide (parsedInt ≥ 0) && decide (toUintptr parsedInt < scopedBranchTargets.length)
    | none => false
  if inRange then
    match parsedInt with
    | some (parsedInt, _) =>
      pure (scopedBranchTargets[scopedBranchTargets.length - 1 - toUintptr parsedInt]?, nodeIt)
    | none => pure (none, nodeIt)
  else
    match parseName nodeIt with
    | some (name, nodeIt) => pure (context.labelToBranchTargetMap.find name, nodeIt)
    | none =>
      match scopedBranchTargets.getLast? with
      | some branchTarget => pure (some branchTarget, nodeIt)
      | none => throw (.undefinedBehaviour "break: scopedBranchTargets.back() on an empty vector")

/-- The case `break` of `parseParametricExpression`. -/
def parseBreak (self : ParseTyped) (typeClass : TypeClassId) (nodeIt : SNodeIt) :
    ParseM Expression := do
  match ← resolveBranchTarget nodeIt with
  | (none, nodeIt) => recordErrorNode typeClass nodeIt "break: expected label name or index"
  | (some branchTarget, nodeIt) =>
    if branchTarget.type = .Void then
      requireFullMatch typeClass nodeIt "break" (.Branch typeClass branchTarget none)
    else do
      let (value, nodeIt) ← parseTypedExpressionOfType self branchTarget.type nodeIt "break value"
      requireFullMatch typeClass nodeIt "break" (.Branch typeClass branchTarget (some value))

/-- The case `return` of `parseParametricExpression`. -/
def parseReturn (self : ParseTyped) (typeClass : TypeClassId) (nodeIt : SNodeIt) :
    ParseM Expression := do
  let returnType := (← get).function.type.returnType
  if returnType = .Void then
    requireFullMatch typeClass nodeIt "return" (.Return typeClass none)
  else do
    let (valueExpression, nodeIt) ←
      parseTypedExpressionOfType self returnType nodeIt "return value"
    requireFullMatch typeClass nodeIt "return" (.Return typeClass (some valueExpression))

/-- The case `call` of `parseParametricExpression`. -/
def parseCall (self : ParseTyped) (typeClass : TypeClassId) (resultType : TypeId)
    (parentNodeIt nodeIt : SNodeIt) : ParseM Expression := do
  let moduleContext := (← get).moduleContext
  match parseNameOrIndex nodeIt moduleContext.functionNameToIndexMap
      moduleContext.module.functions.length with
  | (none, nodeIt) => recordErrorNode typeClass nodeIt "call: expected function name or index"
  | (some functionIndex, nodeIt) =>
    match moduleContext.module.functions[functionIndex]? with
    | none => throw (.undefinedBehaviour "call: function index out of bounds")
    | some callFunction => do
      let (parameters, nodeIt) ←
        parseParameters self "call parameter" callFunction.type.parameters nodeIt
      let result ← coerceExpression typeClass resultType
        ⟨.Call .callDirect (getPrimaryTypeClass callFunction.type.returnType) functionIndex
          parameters, callFunction.type.returnType⟩ parentNodeIt "call return value"
      requireFullMatch typeClass nodeIt "call" result

/-- The case `call_import` of `parseParametricExpression`. -/
def parseCallImport (self : ParseTyped) (typeClass : TypeClassId) (resultType : TypeId)
    (parentNodeIt nodeIt : SNodeIt) : ParseM Expression := do
  let moduleContext := (← get).moduleContext
  match parseNameOrIndex nodeIt moduleContext.functionImportNameToIndexMap
      moduleContext.module.functionImports.length with
  | (none, nodeIt) =>
    recordErrorNode typeClass nodeIt "call_import: expected function import name or index"
  | (some importIndex, nodeIt) =>
    match moduleContext.module.functionImports[importIndex]? with
    | none => throw (.undefinedBehaviour "call_import: import index out of bounds")
    | some functionImport => do
      let (parameters, nodeIt) ←
        parseParameters self "call_import parameter" functionImport.type.parameters nodeIt
      let result ← coerceExpression typeClass resultType
        ⟨.Call .callImport (getPrimaryTypeClass functionImport.type.returnType) importIndex
          parameters, functionImport.type.returnType⟩ parentNodeIt "call_import return value"
      requireFullMatch typeClass nodeIt "call" result

/-- The case `call_indirect` of `parseParametricExpression`. -/
def parseCallIndirect (self : ParseTyped) (typeClass : TypeClassId) (resultType : TypeId)
    (parentNodeIt nodeIt : SNodeIt) : ParseM Expression := do
  let moduleContext := (← get).moduleContext
  match parseNameOrIndex nodeIt moduleContext.functionTableNameToIndexMap
      moduleContext.module.functionTables.length with
  | (none, nodeIt) =>
    recordErrorNode typeClass nodeIt "call_indirect: expected function table index"
  | (some tableIndex, nodeIt) => do
    let (functionIndex, nodeIt) ← self .Int .I32 nodeIt "call_indirect function"
    match moduleContext.module.functionTables[tableIndex]? with
    | none => throw (.undefinedBehaviour "call_indirect: table index out of bounds")
    | some functionTable => do
      let (parameters, nodeIt) ←
        parseParameters self "call_indirect parameter" functionTable.type.parameters nodeIt
      let result ← coerceExpression typeClass resultType
        ⟨.CallIndirect (getPrimaryTypeClass functionTable.type.returnType) tableIndex
          functionIndex parameters, functionTable.type.returnType⟩ parentNodeIt
        "call_indirect return value"
      requireFullMatch typeClass nodeIt "call_indirect" result

/-- The case `label` of `parseParametricExpression`. -/
def parseLabel (self : ParseTyped) (typeClass : TypeClassId) (resultType : TypeId)
    (nodeIt : SNodeIt) : ParseM Expression := do
  let labelName := parseName nodeIt
  let nodeIt := match labelName with
    | some (_, advanced) => advanced
    | none => nodeIt
  let context ← get
  let shadows := match labelName with
    | some (labelName, _) => decide (context.labelToBranchTargetMap.count labelName ≠ 0)
    | none => false
  if shadows then recordErrorNode typeClass nodeIt "label: name shadows outer label"
  else do
    let branchTarget ← allocateBranchTarget resultType
    match labelName with
    | some (labelName, _) => setLabel labelName branchTarget
    | none => pure ()
    pushScopedBranchTarget branchTarget
    let expression ← parseExpressionSequence self typeClass resultType nodeIt "label body"
    popScopedBranchTarget
    match labelName with
    | some (labelName, _) => eraseLabel labelName
    | none => pure ()
    pure (.Label typeClass branchTarget expression)

/-- `FunctionContext::parseParametricExpression<Class>`: the expression it returns, `none`
for null. -/
def parseParametricExpression (self : ParseTyped) (typeClass : TypeClassId)
    (resultType : TypeId) (parentNodeIt : SNodeIt) : ParseM (Option Expression) :=
  match parseTreeNode parentNodeIt with
  | none => pure none
  | some nodeIt =>
    match parseSymbol nodeIt with
    | none => pure none
    | some (tag, nodeIt) =>
      match tag with
      | .typed ._switch .I8 | .typed ._switch .I16 | .typed ._switch .I32
      | .typed ._switch .I64 =>
        match tag with
        | .typed _ opType => some <$> parseSwitch self typeClass resultType opType nodeIt
        | _ => pure none
      | .plain ._if => some <$> parseIf self typeClass resultType nodeIt
      | .plain ._loop => some <$> parseLoop self typeClass resultType nodeIt
      | .plain ._break => some <$> parseBreak self typeClass nodeIt
      | .plain ._return => some <$> parseReturn self typeClass nodeIt
      | .plain ._call => some <$> parseCall self typeClass resultType parentNodeIt nodeIt
      | .plain ._call_import =>
        some <$> parseCallImport self typeClass resultType parentNodeIt nodeIt
      | .plain ._call_indirect =>
        some <$> parseCallIndirect self typeClass resultType parentNodeIt nodeIt
      | .plain ._label => some <$> parseLabel self typeClass resultType nodeIt
      | .plain ._block =>
        some <$> parseExpressionSequence self typeClass resultType nodeIt "block body"
      | .plain ._get_local => do
        let context ← get
        some <$> parseGetVariable typeClass resultType .getLocal context.localNameToIndexMap
          context.function.locals nodeIt
      | .plain ._load_global => do
        let context ← get
        some <$> parseGetVariable typeClass resultType .getGlobal
          context.moduleContext.globalNameToIndexMap context.moduleContext.module.globals nodeIt
      | .plain ._set_local => do
        let context ← get
        some <$> parseSetVariable self typeClass resultType .setLocal
          context.localNameToIndexMap context.function.locals nodeIt
      | .plain ._store_global => do
        let context ← get
        some <$> parseSetVariable self typeClass resultType .setGlobal
          context.moduleContext.globalNameToIndexMap context.moduleContext.module.globals nodeIt
      | _ => pure none

/-- The body of `FunctionContext::parseTypedExpression<Class>`, its recursive calls going
through `self`. On an S-expression error node the `Error` is returned without advancing
the iterator (the copy of the message there writes one byte past its buffer, which is
not modelled); on every other path the iterator is advanced once. -/
def parseTypedExpressionBody (self : ParseTyped) (typeClass : TypeClassId) (type : TypeId)
    (nodeIt : SNodeIt) (errorContext : String) : ParseM (Expression × SNodeIt) :=
  match nodeIt with
  | .error error :: _ => do
    let result ← recordErrorNode typeClass nodeIt error
    pure (result, nodeIt)
  | _ => do
    match ← parseNonParametricExpression self nodeIt with
    | some nonParametricExpression => do
      let result ← coerceExpression typeClass type nonParametricExpression nodeIt errorContext
      pure (result, nodeIt.tail)
    | none => do
      match ← parseParametricExpression self typeClass type nodeIt with
      | some parametricExpression => pure (parametricExpression, nodeIt.tail)
      | none => do
        let error ← recordErrorNode typeClass nodeIt
          ("expected " ++ getTypeName type ++ " expression for " ++ errorContext)
        pure (error, nodeIt.tail)

/-- `FunctionContext::parseTypedExpression<Class>`, with `fuel` bounding the depth of the
recursion: a tree of depth `d` needs `d + 1`. -/
def parseTypedExpression : Nat → ParseTyped
  | 0 => fun _ _ _ _ => throw .outOfFuel
  | fuel + 1 => parseTypedExpressionBody (parseTypedExpression fuel)

/-- `FunctionContext::parseExpressionSequence(type,nodeIt,context)`, the overload that
switches on the type to pick the class. -/
def parseExpressionSequenceOfType (fuel : Nat) (type : TypeId) (nodeIt : SNodeIt)
    (context : String) : ParseM Expression :=
  match getPrimaryTypeClass type with
  | some typeClass => parseExpressionSequence (parseTypedExpression fuel) typeClass type nodeIt context
  | none => throw (.terminate "parseExpressionSequence: default: throw")

/-- The context after `recordError<ErrorRecord>(outErrors,nodeIt,message)` in
`ModuleContext::parse`. -/
def ModuleContext.recordError (moduleContext : ModuleContext) (nodeIt : SNodeIt)
    (message : String) : ModuleContext :=
  { moduleContext with outErrors := WAVM.recordError moduleContext.outErrors nodeIt message }

/-- `parseTaggedNode` with the value it leaves in `outChildIt`, also when it returns
false: `outChildIt` is unchanged when the node is not a tree, stands on the first child
when that is not a symbol, and after the symbol otherwise. -/
def parseTaggedNodeOut (nodeIt : SNodeIt) (tagSymbol : Symbol) (outChildIt : SNodeIt) :
    Bool × SNodeIt :=
  match parseTreeNode nodeIt with
  | none => (false, outChildIt)
  | some childIt =>
    match parseSymbol childIt with
    | none => (false, childIt)
    | some (symbol, childIt) => (decide (symbol = tagSymbol), childIt)

/-- The loop of the function branch of the first pass over the children of a `func` form
after its name: the `result`, `param` and `local` declarations, up to the first child that
is none of them. -/
def parseFunctionDeclarations : SNodeIt → Function → Bool → List ErrorRecord →
    Function × List ErrorRecord
  | [], function, _, outErrors => (function, outErrors)
  | node :: rest, function, hasResult, outErrors =>
    match parseTaggedNode (node :: rest) (.plain ._result) with
    | some innerChildNodeIt =>
      if hasResult then
        parseFunctionDeclarations rest function hasResult
          (recordError outErrors (node :: rest) "duplicate result declaration")
      else
        match parseType innerChildNodeIt with
        | none =>
          parseFunctionDeclarations rest function hasResult
            (recordError outErrors innerChildNodeIt "expected type")
        | some (returnType, innerChildNodeIt) =>
          parseFunctionDeclarations rest
            { function with type := { function.type with returnType := returnType } } true
            (match innerChildNodeIt with
              | [] => outErrors
              | _ :: _ =>
                recordError outErrors innerChildNodeIt
                  "unexpected input following result declaration")
    | none =>
      match parseTaggedNode (node :: rest) (.plain ._param) with
      | some innerChildNodeIt =>
        let baseLocalIndex := function.locals.length
        let (numParameters, innerChildNodeIt, locals, outErrors) :=
          parseVariables innerChildNodeIt function.locals outErrors
        let parameterLocalIndices :=
          (List.range numParameters).map fun parameterIndex => baseLocalIndex + parameterIndex
        let parameterTypes := parameterLocalIndices.filterMap fun localIndex =>
          (locals[localIndex]?).map fun var => var.type
        parseFunctionDeclarations rest
          { function with
            locals := locals
            parameterLocalIndices := function.parameterLocalIndices ++ parameterLocalIndices
            type := { function.type with
              parameters := function.type.parameters ++ parameterTypes } }
          hasResult
          (match innerChildNodeIt with
            | [] => outErrors
            | _ :: _ =>
              recordError outErrors innerChildNodeIt
                "unexpected input following parameter declaration")
      | none =>
        match parseTaggedNode (node :: rest) (.plain ._local) with
        | some innerChildNodeIt =>
          let (_, innerChildNodeIt, locals, outErrors) :=
            parseVariables innerChildNodeIt function.locals outErrors
          parseFunctionDeclarations rest { function with locals := locals } hasResult
            (match innerChildNodeIt with
              | [] => outErrors
              | _ :: _ =>
                recordError outErrors innerChildNodeIt
                  "unexpected input following local declaration")
        | none => (function, outErrors)

/-- The function branch of the first pass, for the children `childNodeIt` of a `func`
form: the function is appended to `module->functions`, its name recorded, and its
declarations parsed. -/
def parseFunctionDeclaration (childNodeIt : SNodeIt) (moduleContext : ModuleContext) :
    ModuleContext :=
  let functionIndex := moduleContext.module.functions.length
  let functionName := parseName childNodeIt
  let childNodeIt := match functionName with
    | some (_, advanced) => advanced
    | none => childNodeIt
  let moduleContext := match functionName with
    | some (functionName, _) =>
      if moduleContext.functionNameToIndexMap.count functionName ≠ 0 then
        moduleContext.recordError childNodeIt "duplicate function name"
      else
        { moduleContext with
          functionNameToIndexMap :=
            moduleContext.functionNameToIndexMap.set functionName functionIndex }
    | none => moduleContext
  let (function, outErrors) :=
    parseFunctionDeclarations childNodeIt
      { name := functionName.map fun parsed => parsed.1 } false moduleContext.outErrors
  { moduleContext with
    module := { moduleContext.module with
      functions := moduleContext.module.functions ++ [function] }
    outErrors := outErrors }

/-- The loop of the import branch over the `param` and `result` declarations of a function
import: the parameters, the return type and the errors when it ends. -/
def parseImportDeclarations : SNodeIt → List Variable → TypeId → Bool → List ErrorRecord →
    List Variable × TypeId × List ErrorRecord
  | [], parameters, returnType, _, outErrors => (parameters, returnType, outErrors)
  | node :: rest, parameters, returnType, hasResult, outErrors =>
    match parseTaggedNodeOut (node :: rest) (.plain ._result) [] with
    | (true, innerChildNodeIt) =>
      if hasResult then
        parseImportDeclarations rest parameters returnType hasResult
          (recordError outErrors (node :: rest) "duplicate result declaration")
      else
        match parseType innerChildNodeIt with
        | none =>
          parseImportDeclarations rest parameters returnType hasResult
            (recordError outErrors innerChildNodeIt "expected type")
        | some (returnType, innerChildNodeIt) =>
          parseImportDeclarations rest parameters returnType true
            (match innerChildNodeIt with
              | [] => outErrors
              | _ :: _ =>
                recordError outErrors innerChildNodeIt
                  "unexpected input following result declaration")
    | (false, innerChildNodeIt) =>
      match parseTaggedNodeOut (node :: rest) (.plain ._param) innerChildNodeIt with
      | (true, innerChildNodeIt) =>
        let (_, innerChildNodeIt, parameters, outErrors) :=
          parseVariables innerChildNodeIt parameters outErrors
        parseImportDeclarations rest parameters returnType hasResult
          (match innerChildNodeIt with
            | [] => outErrors
            | _ :: _ =>
              recordError outErrors innerChildNodeIt
                "unexpected input following parameter declaration")
      | (false, innerChildNodeIt) =>
        parseImportDeclarations rest parameters returnType hasResult
          (recordError outErrors innerChildNodeIt "expected param or result declaration")

/-- The import branch of the first pass, for the children `childNodeIt` of an `import`
form. A variable import with no internal name pushes the uninitialised
`importInternalName` to `module->globals`, which is undefined behaviour. -/
def parseImportDeclaration (childNodeIt : SNodeIt) (moduleContext : ModuleContext) :
    Except Fault ModuleContext :=
  let importIndex := moduleContext.module.functionImports.length
  let importInternalName := parseName childNodeIt
  let childNodeIt := match importInternalName with
    | some (_, advanced) => advanced
    | none => childNodeIt
  let moduleContext := match importInternalName with
    | some (importInternalName, _) =>
      if moduleContext.functionImportNameToIndexMap.count importInternalName ≠ 0 then
        moduleContext.recordError [] "duplicate variable name"
      else
        { moduleContext with
          functionImportNameToIndexMap :=
            moduleContext.functionImportNameToIndexMap.set importInternalName importIndex }
    | none => moduleContext
  match parseString childNodeIt with
  | none => .ok (moduleContext.recordError childNodeIt "expected import name string")
  | some (importExternalName, childNodeIt) =>
    match parseType childNodeIt with
    | some (variableType, childNodeIt) =>
      match importInternalName with
      | none => .error (.undefinedBehaviour "import: importInternalName is uninitialised")
      | some (importInternalName, _) =>
        let globalIndex := moduleContext.module.globals.length
        let moduleContext := { moduleContext with
          module := { moduleContext.module with
            globals := moduleContext.module.globals
              ++ [{ type := variableType, name := some importInternalName }]
            variableImports := moduleContext.module.variableImports
              ++ [{ type := variableType, name := importExternalName,
                    globalIndex := globalIndex }] } }
        match childNodeIt with
        | [] => .ok moduleContext
        | _ :: _ =>
          .ok (moduleContext.recordError childNodeIt
            "unexpected input following import declaration")
    | none =>
      let (parameters, returnType, outErrors) :=
        parseImportDeclarations childNodeIt [] .Void false moduleContext.outErrors
      .ok { moduleContext with
        module := { moduleContext.module with
          functionImports := moduleContext.module.functionImports
            ++ [{ type := { returnType := returnType,
                            parameters := parameters.map fun parameter => parameter.type },
                  name := importExternalName }] }
        outErrors := outErrors }

/-- The global branch of the first pass, for the children `childNodeIt` of a `global`
form. -/
def parseGlobalDeclaration (childNodeIt : SNodeIt) (moduleContext : ModuleContext) :
    ModuleContext :=
  let (_, childNodeIt, globals, outErrors) :=
    parseVariables childNodeIt moduleContext.module.globals moduleContext.outErrors
  { moduleContext with
    module := { moduleContext.module with globals := globals }
    outErrors := match childNodeIt with
      | [] => outErrors
      | _ :: _ => recordError outErrors childNodeIt "unexpected input following global declaration" }

/-- The loop of the memory branch over the `segment` forms, with `initialNumBytesMemory`
already assigned. The length `dataLength` of the string is a `size_t`, of 64 bits. -/
def parseSegments (initialNumBytesMemory : Nat) : SNodeIt → List DataSegment →
    List ErrorRecord → List DataSegment × List ErrorRecord
  | [], dataSegments, outErrors => (dataSegments, outErrors)
  | node :: rest, dataSegments, outErrors =>
    match parseTaggedNodeOut (node :: rest) (.plain ._segment) [] with
    | (false, segmentChildNodeIt) =>
      parseSegments initialNumBytesMemory rest dataSegments
        (recordError outErrors segmentChildNodeIt "expected segment declaration")
    | (true, segmentChildNodeIt) =>
      match parseInt segmentChildNodeIt with
      | none =>
        parseSegments initialNumBytesMemory rest dataSegments
          (recordError outErrors segmentChildNodeIt "expected segment base address integer")
      | some (baseAddress, segmentChildNodeIt) =>
        match parseString segmentChildNodeIt with
        | none =>
          parseSegments initialNumBytesMemory rest dataSegments
            (recordError outErrors segmentChildNodeIt "expected segment data string")
        | some (dataString, segmentChildNodeIt) =>
          let dataLength := dataString.length % 2 ^ 64
          if (toUintptr baseAddress + dataLength) % 2 ^ 64 < toUintptr baseAddress
              ∨ (toUintptr baseAddress + dataLength) % 2 ^ 64 > initialNumBytesMemory then
            parseSegments initialNumBytesMemory rest dataSegments
              (recordError outErrors segmentChildNodeIt
                "data segment bounds aren't contained by initial memory size")
          else
            parseSegments initialNumBytesMemory rest
              (dataSegments ++ [{ baseAddress := toUintptr baseAddress,
                                  numBytes := dataLength, data := dataString }])
              outErrors

/-- The memory branch of the first pass, for the children `childNodeIt` of a `memory` form
at `nodeIt`: the context and `hasMemoryNode` after it. The two size checks read the
fields of the module, which the branch assigns only after them. -/
def parseMemoryDeclaration (nodeIt childNodeIt : SNodeIt) (moduleContext : ModuleContext)
    (hasMemoryNode : Bool) : ModuleContext × Bool :=
  if hasMemoryNode then
    (moduleContext.recordError nodeIt "duplicate memory declaration", hasMemoryNode)
  else
    match parseInt childNodeIt with
    | none =>
      (moduleContext.recordError childNodeIt "expected initial memory size integer", true)
    | some (initialNumBytes, childNodeIt) =>
      let parsedMax := parseInt childNodeIt
      let childNodeIt := match parsedMax with
        | some (_, advanced) => advanced
        | none => childNodeIt
      let maxNumBytes := match parsedMax with
        | some (maxNumBytes, _) => maxNumBytes
        | none => initialNumBytes
      if moduleContext.module.maxNumBytesMemory > 2 ^ 32 then
        (moduleContext.recordError childNodeIt "maximum memory size must be <=2^32 bytes", true)
      else if moduleContext.module.initialNumBytesMemory
          > moduleContext.module.maxNumBytesMemory then
        (moduleContext.recordError childNodeIt
          "initial memory size must be <= maximum memory size", true)
      else
        let (dataSegments, outErrors) :=
          parseSegments (toUintptr initialNumBytes) childNodeIt
            moduleContext.module.dataSegments moduleContext.outErrors
        ({ moduleContext with
            module := { moduleContext.module with
              initialNumBytesMemory := toUintptr initialNumBytes
              maxNumBytesMemory := toUintptr maxNumBytes
              dataSegments := dataSegments }
            outErrors := outErrors }, true)

/-- One iteration of the first pass of `ModuleContext::parse`, on the node at the head of
`nodeIt`: the context and `hasMemoryNode` after it. -/
def parseDeclaration (nodeIt : SNodeIt) (moduleContext : ModuleContext) (hasMemoryNode : Bool) :
    Except Fault (ModuleContext × Bool) :=
  match parseTaggedNode nodeIt (.plain ._func) with
  | some childNodeIt => .ok (parseFunctionDeclaration childNodeIt moduleContext, hasMemoryNode)
  | none =>
    match parseTaggedNode nodeIt (.plain ._import) with
    | some childNodeIt =>
      match parseImportDeclaration childNodeIt moduleContext with
      | .ok moduleContext => .ok (moduleContext, hasMemoryNode)
      | .error fault => .error fault
    | none =>
      match parseTaggedNode nodeIt (.plain ._global) with
      | some childNodeIt => .ok (parseGlobalDeclaration childNodeIt moduleContext, hasMemoryNode)
      | none =>
        match parseTaggedNode nodeIt (.plain ._memory) with
        | some childNodeIt =>
          .ok (parseMemoryDeclaration nodeIt childNodeIt moduleContext hasMemoryNode)
        | none =>
          match parseTaggedNode nodeIt (.plain ._export), parseTaggedNode nodeIt (.plain ._table) with
          | none, none => .ok (moduleContext.recordError nodeIt "unrecognized declaration", hasMemoryNode)
          | _, _ => .ok (moduleContext, hasMemoryNode)

/-- The first pass of `ModuleContext::parse`, over the children of the module from
`nodeIt` on. -/
def parseDeclarations : SNodeIt → ModuleContext → Bool → Except Fault (ModuleContext × Bool)
  | [], moduleContext, hasMemoryNode => .ok (moduleContext, hasMemoryNode)
  | node :: rest, moduleContext, hasMemoryNode =>
    match parseDeclaration (node :: rest) moduleContext hasMemoryNode with
    | .ok (moduleContext, hasMemoryNode) => parseDeclarations rest moduleContext hasMemoryNode
    | .error fault => .error fault

/-- The loop of the table pass over the entries of a `table` form: `numRemaining` more
entries are parsed from `childNodeIt`; an entry that does not resolve is stored as 0. -/
def parseTableEntries (functionNameToIndexMap : NameMap Nat) (numModuleFunctions : Nat) :
    Nat → SNodeIt → List Nat → List ErrorRecord → List Nat × List ErrorRecord
  | 0, _, functionIndices, outErrors => (functionIndices, outErrors)
  | numRemaining + 1, childNodeIt, functionIndices, outErrors =>
    match parseNameOrIndex childNodeIt functionNameToIndexMap numModuleFunctions with
    | (none, childNodeIt) =>
      parseTableEntries functionNameToIndexMap numModuleFunctions numRemaining childNodeIt
        (functionIndices ++ [0])
        (recordError outErrors childNodeIt "expected function name or index")
    | (some functionIndex, childNodeIt) =>
      if functionIndex ≥ numModuleFunctions then
        parseTableEntries functionNameToIndexMap numModuleFunctions numRemaining childNodeIt
          (functionIndices ++ [0]) (recordError outErrors childNodeIt "invalid function index")
      else
        parseTableEntries functionNameToIndexMap numModuleFunctions numRemaining childNodeIt
          (functionIndices ++ [functionIndex]) outErrors

/-- The loop of the table pass that checks that the functions of a table have the type
`functionType`; indexing `module->functions` out of bounds is undefined. -/
def checkTableTypes (functions : List Function) (functionType : FunctionType) (nodeIt : SNodeIt) :
    List Nat → List ErrorRecord → Except Fault (List ErrorRecord)
  | [], outErrors => .ok outErrors
  | functionIndex :: rest, outErrors =>
    match functions[functionIndex]? with
    | none => .error (.undefinedBehaviour "table: function index out of bounds")
    | some function =>
      if function.type ≠ functionType then
        checkTableTypes functions functionType nodeIt rest
          (recordError outErrors nodeIt
            "function table must only contain functions of a single type")
      else checkTableTypes functions functionType nodeIt rest outErrors

/-- The body of the table pass for a `table` form at `nodeIt` with children
`childNodeIt`. -/
def parseTable (nodeIt childNodeIt : SNodeIt) (moduleContext : ModuleContext) :
    Except Fault ModuleContext :=
  let numFunctions := childNodeIt.length
  if numFunctions = 0 then
    let moduleContext :=
      moduleContext.recordError nodeIt "function table must contain atleast 1 function"
    .ok { moduleContext with
      module := { moduleContext.module with
        functionTables := moduleContext.module.functionTables
          ++ [{ type := {}, functionIndices := [], numFunctions := numFunctions }] } }
  else
    let (functionIndices, outErrors) :=
      parseTableEntries moduleContext.functionNameToIndexMap
        moduleContext.module.functions.length numFunctions childNodeIt [] moduleContext.outErrors
    match functionIndices.head? with
    | none => .error (.undefinedBehaviour "table: no function index")
    | some firstIndex =>
      match moduleContext.module.functions[firstIndex]? with
      | none => .error (.undefinedBehaviour "table: function index out of bounds")
      | some firstFunction =>
        match checkTableTypes moduleContext.module.functions firstFunction.type nodeIt
            functionIndices outErrors with
        | .error fault => .error fault
        | .ok outErrors =>
          .ok { moduleContext with
            module := { moduleContext.module with
              functionTables := moduleContext.module.functionTables
                ++ [{ type := firstFunction.type, functionIndices := functionIndices,
                      numFunctions := numFunctions }] }
            outErrors := outErrors }

/-- The table pass of `ModuleContext::parse`, over the children of the module. -/
def parseTables : SNodeIt → ModuleContext → Except Fault ModuleContext
  | [], moduleContext => .ok moduleContext
  | node :: rest, moduleContext =>
    match parseTaggedNode (node :: rest) (.plain ._table) with
    | some childNodeIt =>
      match parseTable (node :: rest) childNodeIt moduleContext with
      | .ok moduleContext => parseTables rest moduleContext
      | .error fault => .error fault
    | none => parseTables rest moduleContext

/-- The constructor of `FunctionContext`: it builds `localNameToIndexMap` from the locals
of the function. -/
def FunctionContext.new (moduleContext : ModuleContext) (function : Function) : FunctionContext :=
  let (localNameToIndexMap, outErrors) :=
    buildVariableNameToIndexMapMap function.locals [] moduleContext.outErrors
  { moduleContext := { moduleContext with outErrors := outErrors }
    function := function
    localNameToIndexMap := localNameToIndexMap }

/-- The loop of the second pass that skips the `local`, `param` and `result` children of a
`func` form. -/
def skipFunctionDeclarations : SNodeIt → SNodeIt
  | [] => []
  | node :: rest =>
    match parseTaggedNode (node :: rest) (.plain ._local),
      parseTaggedNode (node :: rest) (.plain ._param),
      parseTaggedNode (node :: rest) (.plain ._result) with
    | none, none, none => node :: rest
    | _, _, _ => skipFunctionDeclarations rest

/-- The function branch of the second pass, for the children `childNodeIt` of a `func`
form: the body is parsed in a new `FunctionContext` and stored in
`module->functions[currentFunctionIndex]`. -/
def parseFunctionDefinition (fuel : Nat) (childNodeIt : SNodeIt) (moduleContext : ModuleContext)
    (currentFunctionIndex : Nat) : Except Fault ModuleContext :=
  let childNodeIt := match parseName childNodeIt with
    | some (_, advanced) => advanced
    | none => childNodeIt
  let childNodeIt := skipFunctionDeclarations childNodeIt
  match moduleContext.module.functions[currentFunctionIndex]? with
  | none => .error (.undefinedBehaviour "func: function index out of bounds")
  | some function =>
    match parseExpressionSequenceOfType fuel function.type.returnType childNodeIt
        "function body" (FunctionContext.new moduleContext function) with
    | .error fault => .error fault
    | .ok (expression, functionContext) =>
      .ok { functionContext.moduleContext with
        module := { functionContext.moduleContext.module with
          functions := functionContext.moduleContext.module.functions.set currentFunctionIndex
            { function with expression := some expression } } }

/-- The export branch of the second pass, for the children `childNodeIt` of an `export`
form. -/
def parseExportDefinition (childNodeIt : SNodeIt) (moduleContext : ModuleContext) :
    ModuleContext :=
  match parseString childNodeIt with
  | none => moduleContext.recordError childNodeIt "expected export name string"
  | some (exportName, childNodeIt) =>
    match parseNameOrIndex childNodeIt moduleContext.functionNameToIndexMap
        moduleContext.module.functions.length with
    | (none, childNodeIt) =>
      moduleContext.recordError childNodeIt "expected function name or index"
    | (some functionIndex, childNodeIt) =>
      let moduleContext := { moduleContext with
        module := { moduleContext.module with
          exportNameToFunctionIndexMap :=
            moduleContext.module.exportNameToFunctionIndexMap.set exportName functionIndex } }
      match childNodeIt with
      | [] => moduleContext
      | _ :: _ =>
        moduleContext.recordError childNodeIt "unexpected input following export declaration"

/-- The second pass of `ModuleContext::parse`, over the children of the module from
`nodeIt` on. -/
def parseDefinitions (fuel : Nat) : SNodeIt → ModuleContext → Nat → Except Fault ModuleContext
  | [], moduleContext, _ => .ok moduleContext
  | node :: rest, moduleContext, currentFunctionIndex =>
    match parseTaggedNode (node :: rest) (.plain ._func) with
    | some childNodeIt =>
      match parseFunctionDefinition fuel childNodeIt moduleContext currentFunctionIndex with
      | .ok moduleContext => parseDefinitions fuel rest moduleContext (currentFunctionIndex + 1)
      | .error fault => .error fault
    | none =>
      match parseTaggedNode (node :: rest) (.plain ._export) with
      | some childNodeIt =>
        parseDefinitions fuel rest (parseExportDefinition childNodeIt moduleContext)
          currentFunctionIndex
      | none => parseDefinitions fuel rest moduleContext currentFunctionIndex

/-- The step of `ModuleContext::parse` between the table pass and the second pass: the
global name map is built from `module->globals`. -/
def buildGlobalNameToIndexMap (moduleContext : ModuleContext) : ModuleContext :=
  let (globalNameToIndexMap, outErrors) :=
    buildVariableNameToIndexMapMap moduleContext.module.globals
      moduleContext.globalNameToIndexMap moduleContext.outErrors
  { moduleContext with globalNameToIndexMap := globalNameToIndexMap, outErrors := outErrors }

/-- The part of `ModuleContext::parse` before the second pass: the first pass, the table
pass and the construction of the global name map. -/
def ModuleContext.parseDeclarationPasses (firstModuleChildNode : SNodeIt)
    (moduleContext : ModuleContext) : Except Fault ModuleContext :=
  match parseDeclarations firstModuleChildNode moduleContext false with
  | .error fault => .error fault
  | .ok (moduleContext, _) =>
    match parseTables firstModuleChildNode moduleContext with
    | .error fault => .error fault
    | .ok moduleContext => .ok (buildGlobalNameToIndexMap moduleContext)

/-- `ModuleContext::parse` on the children of a `module` form, from the context
`ModuleContext(new Module(),outErrors)`; `fuel` bounds the nesting depth of the function
bodies. The result holds the module returned and the error list. -/
def ModuleContext.parse (fuel : Nat) (firstModuleChildNode : SNodeIt)
    (moduleContext : ModuleContext) : Except Fault ModuleContext :=
  match moduleContext.parseDeclarationPasses firstModuleChildNode with
  | .error fault => .error fault
  | .ok moduleContext => parseDefinitions fuel firstModuleChildNode moduleContext 0

/-- The `dummyFunctionContext` of `WebAssemblyText::parse`: the context of a fresh module
and a default-constructed function, here with an empty error list. -/
def dummyFunctionContext : FunctionContext :=
  { moduleContext := {}, function := {} }

/-! ## The export map (`AST/AST.h`) -/

/-- The `strcmp` of the C library, on strings given by their bytes before the terminating
NUL: the difference of the first bytes that differ, read as `unsigned char`, where the
shorter string continues with its terminator 0. Only the sign of the result is specified. -/
def strcmp : List Nat → List Nat → Int
  | [], [] => 0
  | [], right :: _ => 0 - (right : Int)
  | left :: _, [] => (left : Int)
  | left :: lefts, right :: rights =>
    if left = right then strcmp lefts rights else (left : Int) - (right : Int)

/-- `CaseInsensitiveStringCompareFunctor::operator()` of `AST.h`. -/
def CaseInsensitiveStringCompareFunctor (left right : List Nat) : Bool :=
  decide (strcmp left right < 0)

/-- `std::map::find` of a map ordered by `comp`, on the entries of the map: the value of
the entry whose key is equivalent to `key`, neither ordered before the other. -/
def mapFind {κ β : Type} (comp : κ → κ → Bool) (entries : List (κ × β)) (key : κ) :
    Option β :=
  (entries.find? fun entry => !comp entry.1 key && !comp key entry.1).map fun entry => entry.2

/-! ## The intrinsic registry (`Runtime/Intrinsics.cpp`) and the binding of imports
(`Runtime/LLVMJIT.cpp`) -/

namespace Intrinsics

/-- Modelled from the spec: the `Intrinsics::Function` of the absent `Intrinsics.h`, as its
constructor initialises it: the name, the type and the address `value` of a host function
(0 for a null pointer). -/
structure Function where
  name : String
  type : FunctionType
  value : Nat
  deriving DecidableEq, Repr

/-- Modelled from the spec: the `Intrinsics::Value` of the absent `Intrinsics.h`: the name,
the type and the address of a host value. -/
structure Value where
  name : String
  type : TypeId
  value : Nat
  deriving DecidableEq, Repr

/-- `Intrinsics::Singleton`: the two maps, keyed by `std::string`; the mutex is not
modelled. -/
structure Singleton where
  functionMap : NameMap Function := []
  valueMap : NameMap Value := []
  deriving Repr

/-- The constructor `Function::Function`, on the singleton: `functionMap[inName] = this`. -/
def Function.new (function : Function) (singleton : Singleton) : Singleton :=
  { singleton with functionMap := singleton.functionMap.set function.name function }

/-- The destructor `Function::~Function`, on the singleton:
`functionMap.erase(functionMap.find(name))`; erasing `end()` is undefined. -/
def Function.delete (function : Function) (singleton : Singleton) : Except Fault Singleton :=
  match singleton.functionMap.find function.name with
  | none => .error (.undefinedBehaviour "Function::~Function: functionMap.erase(end())")
  | some _ =>
    .ok { singleton with functionMap := singleton.functionMap.erase function.name }

/-- The constructor `Value::Value`, on the singleton: `valueMap[inName] = this`. -/
def Value.new (value : Value) (singleton : Singleton) : Singleton :=
  { singleton with valueMap := singleton.valueMap.set value.name value }

/-- The destructor `Value::~Value`, on the singleton. -/
def Value.delete (value : Value) (singleton : Singleton) : Except Fault Singleton :=
  match singleton.valueMap.find value.name with
  | none => .error (.undefinedBehaviour "Value::~Value: valueMap.erase(end())")
  | some _ => .ok { singleton with valueMap := singleton.valueMap.erase value.name }

/-- `Intrinsics::findFunction`: `none` for `nullptr`. -/
def findFunction (singleton : Singleton) (name : String) : Option Function :=
  singleton.functionMap.find name

/-- `Intrinsics::findValue`: `none` for `nullptr`. -/
def findValue (singleton : Singleton) (name : String) : Option Value :=
  singleton.valueMap.find name

end Intrinsics

namespace LLVMJIT

/-- The loop of `compileModule` that writes the parameter types of a function import that
is missing to `std::cerr`, separated by commas. -/
def writeParameterTypes : List TypeId → Bool → String → String
  | [], _, output => output
  | parameterType :: rest, isFirst, output =>
    writeParameterTypes rest false
      ((if isFirst then output else output ++ ",") ++ getTypeName parameterType)

/-- The line `compileModule` writes to `std::cerr` for a function import that is missing. -/
def missingFunctionImportMessage (functionImport : FunctionImport) : String :=
  writeParameterTypes functionImport.type.parameters true
      ("Missing imported function " ++ functionImport.name ++ " : (")
    ++ ") -> " ++ getTypeName functionImport.type.returnType

/-- The line `compileModule` writes to `std::cerr` for a variable import that is missing. -/
def missingVariableImportMessage (variableImport : VariableImport) : String :=
  "Missing imported variable " ++ variableImport.name ++ " : "
    ++ getTypeName variableImport.type

/-- The loop of `compileModule` over the function imports: `missingImport` and the lines
written to `std::cerr` when it ends. -/
def linkFunctionImports (singleton : Intrinsics.Singleton) :
    List FunctionImport → Bool → List String → Bool × List String
  | [], missingImport, cerr => (missingImport, cerr)
  | functionImport :: rest, missingImport, cerr =>
    let functionPointer :=
      match Intrinsics.findFunction singleton functionImport.name with
      | some intrinsicFunction =>
        if intrinsicFunction.type = functionImport.type then intrinsicFunction.value else 0
      | none => 0
    if functionPointer = 0 then
      linkFunctionImports singleton rest true
        (cerr ++ [missingFunctionImportMessage functionImport])
    else linkFunctionImports singleton rest missingImport cerr

/-- The loop of `compileModule` over the variable imports; the global mapping it adds to
the execution engine for an import that is found is not modelled. -/
def linkVariableImports (singleton : Intrinsics.Singleton) :
    List VariableImport → Bool → List String → Bool × List String
  | [], missingImport, cerr => (missingImport, cerr)
  | variableImport :: rest, missingImport, cerr =>
    let intrinsicValue :=
      match Intrinsics.findValue singleton variableImport.name with
      | some intrinsicValue =>
        if variableImport.type ≠ intrinsicValue.type then none else some intrinsicValue
      | none => none
    match intrinsicValue with
    | none =>
      linkVariableImports singleton rest true
        (cerr ++ [missingVariableImportMessage variableImport])
    | some _ => linkVariableImports singleton rest missingImport cerr

end LLVMJIT

/-! ## The entry point (`WebAssemblyText::parse`) -/

/-- Modelled from the spec: the assertion record of the absent `WebAssemblyText.h`, with the
fields `parse` fills in: the dummy module, the module of the export (by its position in
`File::modules`), the index of the exported function, the parameters and the expected
value. The locus is left out. -/
structure AssertEq where
  dummyModule : Module
  moduleIndex : Nat
  functionIndex : Nat
  parameters : List TypedExpression
  value : TypedExpression

/-- Modelled from the spec: the `File` of the absent `WebAssemblyText.h`, the result
structure `parse` appends to: the modules, the errors and the assertions. -/
structure File where
  modules : List Module := []
  errors : List ErrorRecord := []
  assertEqs : List AssertEq := []

/-- The first loop of `parse`, over the root nodes: each `module` form is parsed by
`ModuleContext(new Module(),outFile.errors).parse(childNodeIt)` and the module appended to
`outFile.modules`. -/
def parseModules (fuel : Nat) : SNodeIt → File → Except Fault File
  | [], outFile => .ok outFile
  | node :: rest, outFile =>
    match parseTaggedNode (node :: rest) (.plain ._module) with
    | some childNodeIt =>
      match ModuleContext.parse fuel childNodeIt { outErrors := outFile.errors } with
      | .error fault => .error fault
      | .ok moduleContext =>
        parseModules fuel rest
          { outFile with
            modules := outFile.modules ++ [moduleContext.module]
            errors := moduleContext.outErrors }
    | none => parseModules fuel rest outFile

/-- The loop of `parse` that finds the named export in one of the modules: the position of
the first module that exports the name, the module and the function index. -/
def findExport : List Module → String → Nat → Option (Nat × Module × Nat)
  | [], _, _ => none
  | module :: rest, exportName, moduleIndex =>
    match module.exportNameToFunctionIndexMap.find exportName with
    | some exportFunctionIndex => some (moduleIndex, module, exportFunctionIndex)
    | none => findExport rest exportName (moduleIndex + 1)

/-- The loop of `parse` over the parameters of an `invoke`: one expression per parameter
type, parsed by `dummyFunctionContext.parseTypedExpression(parameterType,invokeChildIt,
"invoke parameter")`. -/
def parseInvokeParameters (fuel : Nat) :
    List TypeId → SNodeIt → ParseM (List TypedExpression × SNodeIt)
  | [], invokeChildIt => pure ([], invokeChildIt)
  | parameterType :: rest, invokeChildIt => do
    let (parameterValue, invokeChildIt) ←
      parseTypedExpressionOfType (parseTypedExpression fuel) parameterType invokeChildIt
        "invoke parameter"
    let (parameters, invokeChildIt) ← parseInvokeParameters fuel rest invokeChildIt
    pure (⟨parameterValue, parameterType⟩ :: parameters, invokeChildIt)

/-- The body of the second loop of `parse` for the children `childNodeIt` of an `assert_eq`
form. `parseTaggedNode(childNodeIt++,...)` looks at the first child and leaves the iterator
on the second; every `continue` keeps the errors recorded so far. -/
def parseAssertEq (fuel : Nat) (childNodeIt : SNodeIt) (outFile : File) : Except Fault File :=
  let invoke := parseTaggedNode childNodeIt (.plain ._invoke)
  let childNodeIt := childNodeIt.tail
  match invoke with
  | none =>
    .ok { outFile with
      errors := recordError outFile.errors childNodeIt "expected invoke expression" }
  | some invokeChildIt =>
    match parseString invokeChildIt with
    | none =>
      .ok { outFile with
        errors := recordError outFile.errors invokeChildIt "expected export name string" }
    | some (invokeExportName, afterNameIt) =>
      match findExport outFile.modules invokeExportName 0 with
      | none =>
        .ok { outFile with
          errors := recordError outFile.errors invokeChildIt
            "couldn't find export with this name" }
      | some (moduleIndex, exportModule, exportFunctionIndex) =>
        match exportModule.functions[exportFunctionIndex]? with
        | none => .error (.undefinedBehaviour "assert_eq: function index out of bounds")
        | some function =>
          match parseInvokeParameters fuel function.type.parameters afterNameIt
              (FunctionContext.new { outErrors := outFile.errors } {}) with
          | .error fault => .error fault
          | .ok ((parameters, invokeChildIt), dummyFunctionContext) =>
            match invokeChildIt with
            | _ :: _ =>
              .ok { outFile with
                errors := recordError dummyFunctionContext.outErrors invokeChildIt
                  ("unexpected input following " ++ "invoke parameters") }
            | [] =>
              match parseTypedExpressionOfType (parseTypedExpression fuel)
                  function.type.returnType childNodeIt "assert_eq reference value"
                  dummyFunctionContext with
              | .error fault => .error fault
              | .ok ((value, childNodeIt), dummyFunctionContext) =>
                match childNodeIt with
                | _ :: _ =>
                  .ok { outFile with
                    errors := recordError dummyFunctionContext.outErrors childNodeIt
                      ("unexpected input following " ++ "assert_eq expected value") }
                | [] =>
                  .ok { outFile with
                    errors := dummyFunctionContext.outErrors
                    assertEqs := outFile.assertEqs
                      ++ [{ dummyModule := dummyFunctionContext.moduleContext.module
                            moduleIndex := moduleIndex
                            functionIndex := exportFunctionIndex
                            parameters := parameters
                            value := ⟨value, function.type.returnType⟩ }] }

/-- The second loop of `parse`, over the root nodes: the `assert_eq` forms. -/
def parseAssertEqs (fuel : Nat) : SNodeIt → File → Except Fault File
  | [], outFile => .ok outFile
  | node :: rest, outFile =>
    match parseTaggedNode (node :: rest) (.plain ._assert_eq) with
    | some childNodeIt =>
      match parseAssertEq fuel childNodeIt outFile with
      | .error fault => .error fault
      | .ok outFile => parseAssertEqs fuel rest outFile
    | none => parseAssertEqs fuel rest outFile

/-- `WebAssemblyText::parse` on the root nodes `SExp::parse` yields for the string: the
modules, then the assertions; it returns `!outFile.errors.size()`. `fuel` bounds the
nesting depth of the expressions. -/
def parse (fuel : Nat) (rootNodes : SNodeIt) (outFile : File) : Except Fault (Bool × File) :=
  match parseModules fuel rootNodes outFile with
  | .error fault => .error fault
  | .ok outFile =>
    match parseAssertEqs fuel rootNodes outFile with
    | .error fault => .error fault
    | .ok outFile => .ok (decide (outFile.errors.length = 0), outFile)

namespace LLVMJIT

/-- `getLLVMName`: the name prefixed with `_`, the empty string for a null name. -/
def getLLVMName (nullableName : Option String) : String :=
  match nullableName with
  | some name => "_" ++ name
  | none => String.mk []

/-- The entry of `functionIndexToExportNameMap` for a function index, `none` when `find`
returns `end()`. `compileModule` fills the map by assigning `map[index] = name` for the
entries of the export map in the order of their names, so of the export names of one
function the last in that order stays. -/
def functionIndexToExportName (exportNameToFunctionIndexMap : NameMap Nat)
    (functionIndex : Nat) : Option String :=
  exportNameToFunctionIndexMap.foldl (fun found entry =>
    if entry.2 = functionIndex then
      match found with
      | some name => if name < entry.1 then some entry.1 else some name
      | none => some entry.1
    else found) none

/-- The `functionName` `compileModule` passes to `llvm::Function::Create` for the function
`functionIndex`: its export name when it is exported, `getLLVMName` of its name
otherwise. -/
def functionName (astModule : Module) (functionIndex : Nat) (astFunction : Function) :
    String :=
  match functionIndexToExportName astModule.exportNameToFunctionIndexMap functionIndex with
  | some exportName => exportName
  | none => getLLVMName astFunction.name

/-- The names of the LLVM functions `compileModule` creates, by function index. -/
def functionNames (astModule : Module) : List String :=
  astModule.functions.enum.map fun entry => functionName astModule entry.1 entry.2

/-- The names `compileModule` gives the LLVM global variables it creates for
`astModule->globals`, before the imported ones are renamed. -/
def globalVariableNames (astModule : Module) : List String :=
  astModule.globals.map fun globalVariable => getLLVMName globalVariable.name

end LLVMJIT

namespace LLVMJIT

/-- The instructions `JITFunctionContext::compile` emits into the entry block before the
body: the `alloca` of a local, the store of a zero literal into the slot
`localVariablePointers[localIndex]`, and the store of an incoming argument into it. -/
inductive PrologueInstruction where
  | alloca (type : TypeId) (name : String)
  | storeZero (type : TypeId) (localIndex : Nat)
  | storeArgument (argumentIndex : Nat) (localIndex : Nat)
  deriving DecidableEq, Repr

/-- The first loop of `compile`, over the locals from `localIndex` on: one `alloca` and
one store of the zero literal of the local's type for each. A local of type `void` reaches
`default: throw`, and `asLLVMType` of `TypeId::None` is a null type. -/
def compileLocals : List Variable → Nat → Except Fault (List PrologueInstruction)
  | [], _ => .ok []
  | localVariable :: rest, localIndex =>
    match localVariable.type with
    | .None => .error (.undefinedBehaviour "compile: alloca of a null type")
    | .Void => .error (.terminate "compile: default: throw")
    | type =>
      match compileLocals rest (localIndex + 1) with
      | .error fault => .error fault
      | .ok instructions =>
        .ok (.alloca type (getLLVMName localVariable.name) :: .storeZero type localIndex
          :: instructions)

/-- The second loop of `compile`, over the arguments of the LLVM function from
`parameterIndex` on (one for each parameter type, as `WITH_FUNCTION_PROLOGUE_CHECK` is 0):
the argument is stored into the slot of `parameterLocalIndices[parameterIndex]`. -/
def compileArguments (astFunction : Function) :
    List TypeId → Nat → Except Fault (List PrologueInstruction)
  | [], _ => .ok []
  | _ :: rest, parameterIndex =>
    match astFunction.parameterLocalIndices[parameterIndex]? with
    | none => .error (.undefinedBehaviour "compile: parameter index out of bounds")
    | some localIndex =>
      if localIndex < astFunction.locals.length then
        match compileArguments astFunction rest (parameterIndex + 1) with
        | .error fault => .error fault
        | .ok instructions => .ok (.storeArgument parameterIndex localIndex :: instructions)
      else .error (.undefinedBehaviour "compile: local index out of bounds")

/-- The prologue of `JITFunctionContext::compile`: the instructions emitted before the
body is traversed. -/
def compilePrologue (astFunction : Function) : Except Fault (List PrologueInstruction) :=
  match compileLocals astFunction.locals 0 with
  | .error fault => .error fault
  | .ok locals =>
    match compileArguments astFunction astFunction.type.parameters 0 with
    | .error fault => .error fault
    | .ok arguments => .ok (locals ++ arguments)

/-- What a slot holds: the zero literal of a type (`compileLiteral((T)0)`), or an incoming
argument of the function. -/
inductive SlotValue where
  | zero (type : TypeId)
  | argument (argumentIndex : Nat)
  deriving DecidableEq, Repr

/-- The slots after an instruction of the prologue is executed: an `alloca` adds a slot
that holds nothing yet, a store replaces what the slot holds. -/
def runInstruction (slots : List (Option SlotValue)) :
    PrologueInstruction → List (Option SlotValue)
  | .alloca _ _ => slots ++ [none]
  | .storeZero type localIndex => slots.set localIndex (some (.zero type))
  | .storeArgument argumentIndex localIndex =>
    slots.set localIndex (some (.argument argumentIndex))

/-- The slots on entry to the body: after the instructions of the prologue are executed
in order. -/
def runPrologue (instructions : List PrologueInstruction) : List (Option SlotValue) :=
  instructions.foldl runInstruction []

end LLVMJIT

namespace LLVMJIT

/-- The terminator instructions the code generator emits: `CreateRet`, `CreateRetVoid`,
`CreateBr`, `CreateCondBr` and `CreateSwitch` (with the number of cases reserved). -/
inductive Terminator where
  | ret
  | retVoid
  | br (dest : Nat)
  | condBr (trueDest falseDest : Nat)
  | switch (defaultDest numCases : Nat)
  deriving DecidableEq, Repr

/-- A call of `visitReturn`, recorded to state properties of the traversal: the insertion
block when the visitor is entered, and the insertion block when it tests
`GetInsertBlock() != unreachableBlock`, after the return value is compiled. -/
structure ReturnVisit where
  blockOnEntry : Nat
  blockAtTest : Nat
  deriving DecidableEq, Repr

/-- The `unreachableBlock` of a `JITFunctionContext`: the first basic block of the LLVM
function, created by the constructor. Basic blocks are numbered in the order of their
creation. -/
def unreachableBlock : Nat := 0

/-- The `JITFunctionContext`, as far as the control flow of the generated code goes: the
function being compiled, the number of basic blocks created, the insertion block of
`irBuilder`, the terminators emitted so far with the block each was inserted into, and the
in-scope branch targets with their basic blocks, innermost first. `returnVisits` records
the calls of `visitReturn`. -/
structure JITFunctionContext where
  astFunction : Function
  numBasicBlocks : Nat := 1
  insertBlock : Nat := unreachableBlock
  terminators : List (Nat × Terminator) := []
  branchContext : List (BranchTarget × Nat) := []
  returnVisits : List ReturnVisit := []

/-- A member function of `JITFunctionContext`. -/
abbrev CodeGenM := StateT JITFunctionContext (Except Fault)

/-- `llvm::BasicBlock::Create(context,name,llvmFunction)`: the number of the new block. -/
def createBasicBlock : CodeGenM Nat := fun context =>
  .ok (context.numBasicBlocks, { context with numBasicBlocks := context.numBasicBlocks + 1 })

/-- `irBuilder.SetInsertPoint(block)`. -/
def setInsertPoint (block : Nat) : CodeGenM Unit := fun context =>
  .ok ((), { context with insertBlock := block })

/-- The creation of a terminator by `irBuilder`, at the insertion point. -/
def emit (terminator : Terminator) : CodeGenM Unit := fun context =>
  .ok ((), { context with
    terminators := context.terminators ++ [(context.insertBlock, terminator)] })

/-- The assignment of `branchContext`. -/
def setBranchContext (branchContext : List (BranchTarget × Nat)) : CodeGenM Unit :=
  fun context => .ok ((), { context with branchContext := branchContext })

/-- `compileBranch`: no branch is inserted when the insertion block is the unreachable
block. The old basic block it returns is used for the incoming values of the phi nodes
only. -/
def compileBranch (dest : Nat) : CodeGenM Unit := do
  let context ← get
  if context.insertBlock = unreachableBlock then pure () else emit (.br dest)

/-- `compileCondBranch`. -/
def compileCondBranch (trueDest falseDest : Nat) : CodeGenM Unit := do
  let context ← get
  if context.insertBlock = unreachableBlock then pure () else emit (.condBr trueDest falseDest)

/-- `visitIfElse`, given the traversals of its three operands. -/
def visitIfElse (condition thenExpression elseExpression : CodeGenM Unit) : CodeGenM Unit := do
  condition
  let trueBlock ← createBasicBlock
  let falseBlock ← createBasicBlock
  let successorBlock ← createBasicBlock
  compileCondBranch trueBlock falseBlock
  setInsertPoint trueBlock
  thenExpression
  compileBranch successorBlock
  setInsertPoint falseBlock
  elseExpression
  compileBranch successorBlock
  setInsertPoint successorBlock

/-- `visitLabel`, given the traversal of its expression. -/
def visitLabel (endTarget : BranchTarget) (expression : CodeGenM Unit) : CodeGenM Unit := do
  let labelBlock ← createBasicBlock
  let successorBlock ← createBasicBlock
  compileBranch labelBlock
  setInsertPoint labelBlock
  let outerBranchContext := (← get).branchContext
  setBranchContext ((endTarget, successorBlock) :: outerBranchContext)
  expression
  setBranchContext outerBranchContext
  compileBranch successorBlock
  setInsertPoint successorBlock

/-- `visitLoop`, given the traversal of its expression. -/
def visitLoop (breakTarget continueTarget : BranchTarget) (expression : CodeGenM Unit) :
    CodeGenM Unit := do
  let loopBlock ← createBasicBlock
  let successorBlock ← createBasicBlock
  let outerBranchContext := (← get).branchContext
  setBranchContext
    ((breakTarget, successorBlock) :: (continueTarget, loopBlock) :: outerBranchContext)
  compileBranch loopBlock
  setInsertPoint loopBlock
  expression
  compileBranch loopBlock
  setBranchContext outerBranchContext
  setInsertPoint successorBlock

/-- `visitBranch`, given the traversal of its value: the target is looked up from the
innermost context outwards, and a target that is not in scope reaches `throw`. The value
is compiled when the type of the target is not void. -/
def visitBranch (branchTarget : BranchTarget) (value : CodeGenM Unit) : CodeGenM Unit := do
  let context ← get
  match context.branchContext.find? fun targetContext => targetContext.1 = branchTarget with
  | none => throw (.terminate "visitBranch: throw")
  | some targetContext => do
    (if branchTarget.type = .Void then pure () else value)
    compileBranch targetContext.2
    setInsertPoint unreachableBlock

/-- `visitReturn`, given the traversal of its value: the value is compiled when the return
type of the function is not void; a `ret` is created, and the insertion point moved to the
unreachable block, when the insertion block is then not the unreachable block. -/
def visitReturn (value : CodeGenM Unit) : CodeGenM Unit := do
  let blockOnEntry := (← get).insertBlock
  let returnType := (← get).astFunction.type.returnType
  (if returnType = .Void then pure () else value)
  let blockAtTest := (← get).insertBlock
  modify fun context => { context with
    returnVisits := context.returnVisits ++ [⟨blockOnEntry, blockAtTest⟩] }
  if blockAtTest ≠ unreachableBlock then do
    emit (if returnType = .Void then .retVoid else .ret)
    setInsertPoint unreachableBlock
  else pure ()

/-- The body of the loop of `visitSwitch` over the arms, for the arm `armIndex`, given the
traversal of its value: the case is added for an arm that is not the default (a key type
that is not an integer type reaches `default: throw`), the arm is compiled into its block,
the final arm branches to the successor block and every other arm to the block of the next
arm. `armEntryBlock` is the number of the block of arm 0. -/
def visitSwitchArm (keyType : TypeId) (defaultArmIndex numArms armEntryBlock successorBlock
    armIndex : Nat) (value : CodeGenM Unit) : CodeGenM Unit := do
  (if armIndex ≠ defaultArmIndex ∧ ¬ isTypeClass keyType .Int then
    throw (.terminate "visitSwitch: default: throw")
  else pure ())
  setInsertPoint (armEntryBlock + armIndex)
  value
  if armIndex + 1 = numArms then compileBranch successorBlock
  else compileBranch (armEntryBlock + armIndex + 1)

/-- The creation of the blocks of the arms of a switch. -/
def createArmEntryBlocks : Nat → CodeGenM Unit
  | 0 => pure ()
  | numArms + 1 => do
    let _ ← createBasicBlock
    createArmEntryBlocks numArms

/-- `visitSwitch`, given the traversal of its key and the loop over its arms, which takes
the number of the block of arm 0 and the successor block. A switch without arms indexes
`armEntryBlocks` out of bounds. -/
def visitSwitch (defaultArmIndex numArms : Nat) (endTarget : BranchTarget)
    (key : CodeGenM Unit) (arms : Nat → Nat → CodeGenM Unit) : CodeGenM Unit := do
  key
  let armEntryBlock := (← get).numBasicBlocks
  createArmEntryBlocks numArms
  let successorBlock ← createBasicBlock
  let outerBranchContext := (← get).branchContext
  setBranchContext ((endTarget, successorBlock) :: outerBranchContext)
  (if defaultArmIndex < numArms then pure ()
  else throw (.undefinedBehaviour "visitSwitch: default arm index out of bounds"))
  emit (.switch (armEntryBlock + defaultArmIndex) (numArms - 1))
  arms armEntryBlock successorBlock
  setBranchContext outerBranchContext
  setInsertPoint successorBlock

mutual
/-- The `dispatch` of the absent `ASTDispatch.h` on `JITFunctionContext`: the visitor of
the node is called, and each visitor calls `dispatch` on the operands of the node in the
order of the source: `visitStore` compiles the value before the address, `compileCall` the
parameters in order (the array of a call holds one expression for each parameter of the
callee), `visitCallIndirect` the function index before them. The values the visitors
return are not kept. -/
def dispatch : Expression → CodeGenM Unit
  | .Literal _ _ => pure ()
  | .Error _ _ => throw (.terminate "visitError: throw")
  | .Nop => pure ()
  | .DiscardResult expression _ => dispatch expression
  | .GetVariable _ _ _ => pure ()
  | .SetVariable _ _ value _ => dispatch value
  | .Load _ _ _ _ address _ => dispatch address
  | .Store _ _ _ address value _ _ => do
    dispatch value
    dispatch address
  | .Call _ _ _ parameters => dispatchParameters parameters
  | .CallIndirect _ _ functionIndex parameters => do
    dispatch functionIndex
    dispatchParameters parameters
  | .Unary _ operand => dispatch operand
  | .Binary _ left right => do
    dispatch left
    dispatch right
  | .Cast _ source _ => dispatch source
  | .Comparison _ _ left right => do
    dispatch left
    dispatch right
  | .IfElse _ condition thenExpression elseExpression =>
    visitIfElse (dispatch condition) (dispatch thenExpression) (dispatch elseExpression)
  | .Switch _ key keyType defaultArmIndex numArms arms endTarget =>
    if arms.length = numArms then
      visitSwitch defaultArmIndex numArms endTarget (dispatch key)
        (fun armEntryBlock successorBlock =>
          dispatchArms keyType defaultArmIndex numArms armEntryBlock successorBlock arms 0)
    else throw (.undefinedBehaviour "visitSwitch: the arms are not numArms many")
  | .Label _ endTarget expression => visitLabel endTarget (dispatch expression)
  | .Loop _ expression breakTarget continueTarget =>
    visitLoop breakTarget continueTarget (dispatch expression)
  | .Sequence _ voidExpression resultExpression => do
    dispatch voidExpression
    dispatch resultExpression
  | .Branch _ branchTarget value => visitBranch branchTarget (dispatchNullable value)
  | .Return _ value => visitReturn (dispatchNullable value)
/-- `dispatch` of the value of a `Branch` or `Return`, which is null when the type is
void. -/
def dispatchNullable : Option Expression → CodeGenM Unit
  | none => throw (.undefinedBehaviour "dispatch: null expression")
  | some expression => dispatch expression
/-- The loop of `compileCall` over the parameters of a call. -/
def dispatchParameters : List Expression → CodeGenM Unit
  | [] => pure ()
  | parameter :: parameters => do
    dispatch parameter
    dispatchParameters parameters
/-- The loop of `visitSwitch` over the arms, from the arm `armIndex` on. -/
def dispatchArms (keyType : TypeId) (defaultArmIndex numArms armEntryBlock
    successorBlock : Nat) : List (Nat × Expression) → Nat → CodeGenM Unit
  | [], _ => pure ()
  | (_, value) :: arms, armIndex => do
    visitSwitchArm keyType defaultArmIndex numArms armEntryBlock successorBlock armIndex
      (dispatch value)
    dispatchArms keyType defaultArmIndex numArms armEntryBlock successorBlock arms
      (armIndex + 1)
end

/-- The steps of `JITFunctionContext::compile` that create basic blocks and terminators:
the entry block is created, the body traversed, a `ret` created when the insertion block is
then not the unreachable block, and the unreachable block erased with what was emitted
into it. -/
def compileBody (astFunction : Function) : CodeGenM Unit := do
  let entryBasicBlock ← createBasicBlock
  setInsertPoint entryBasicBlock
  dispatchNullable astFunction.expression
  let context ← get
  (if context.insertBlock ≠ unreachableBlock then
    emit (if astFunction.type.returnType = .Void then .retVoid else .ret)
  else pure ())
  modify fun context => { context with
    terminators := context.terminators.filter fun entry => entry.1 ≠ unreachableBlock }

/-- `JITFunctionContext::compile` from the context its constructor builds, in which the
unreachable block is the one basic block: the prologue is emitted into the entry block,
then the body is compiled. The result is the context when `compile` returns. -/
def compile (astFunction : Function) : Except Fault JITFunctionContext :=
  match compilePrologue astFunction with
  | .error fault => .error fault
  | .ok _ =>
    match compileBody astFunction { astFunction := astFunction } with
    | .error fault => .error fault
    | .ok (_, context) => .ok context

end LLVMJIT

namespace LLVMJIT

/-- The number of bits of `asLLVMType(type)` for the integer types and `bool`, as `init`
fills `llvmTypesByTypeId` (`getInt8Ty` .. `getInt64Ty`, `getInt1Ty`). -/
def llvmTypeBits : TypeId → Nat
  | .I8 => 8 | .I16 => 16 | .I32 => 32 | .I64 => 64 | .Bool => 1
  | _ => 0

/-- The value of `CreateZExt(source,destType)` for a source of `sourceBits` bits, as an
unsigned number: the zero extension keeps it. -/
def createZExt (sourceBits source : Nat) : Nat := source % 2 ^ sourceBits

/-- The value of `CreateICmpNE(left,right)`, an `i1`. -/
def createICmpNE (left right : Nat) : Nat := if left ≠ right then 1 else 0

/-- The value of `CreateICmpEQ(left,right)`, an `i1`. -/
def createICmpEQ (left right : Nat) : Nat := if left = right then 1 else 0

/-- The value, as an unsigned number, of the LLVM value `dispatch` returns for an
expression, for the visitors this development evaluates: `visitLiteral` of an integer
(`compileLiteral` builds the `APInt` of the type's width), `visitGetVariable` of a local
(the load of its slot, `locals` holding the values of the slots), `visitCast` of
`reinterpretBool` (`CreateZExt`) and `visitComparison` of `eq` and `ne` on operands that
are not floats (`CreateICmpEQ`, `CreateICmpNE`). Every other node is `none`. -/
def dispatchValue (locals : List Nat) : Expression → Option Nat
  | .Literal type (.int value) => some (value % 2 ^ llvmTypeBits type)
  | .GetVariable .getLocal _ variableIndex => locals[variableIndex]?
  | .Cast (.Int .reinterpretBool) source sourceType =>
    match dispatchValue locals source with
    | some source => some (createZExt (llvmTypeBits sourceType) source)
    | none => none
  | .Comparison .ne operandType left right =>
    if isTypeClass operandType .Float then none
    else
      match dispatchValue locals left, dispatchValue locals right with
      | some left, some right => some (createICmpNE left right)
      | _, _ => none
  | .Comparison .eq operandType left right =>
    if isTypeClass operandType .Float then none
    else
      match dispatchValue locals left, dispatchValue locals right with
      | some left, some right => some (createICmpEQ left right)
      | _, _ => none
  | _ => none

end LLVMJIT

namespace LLVMJIT

/-- `asLLVMType(const FunctionType&,false)` as `compileModule` uses it: `init` stores a null
pointer in `llvmTypesByTypeId` for `TypeId::None`, and handing `llvm::FunctionType::get` a
null type is undefined. -/
def asLLVMFunctionType (functionType : FunctionType) : Except Fault Unit :=
  if functionType.returnType = .None ∨ TypeId.None ∈ functionType.parameters then
    .error (.undefinedBehaviour "asLLVMType: null type")
  else .ok ()

/-- The loop of `compileModule` that creates the LLVM functions, whose names are
`functionNames`. -/
def createFunctions : List Function → Except Fault Unit
  | [] => .ok ()
  | astFunction :: rest =>
    match asLLVMFunctionType astFunction.type with
    | .error fault => .error fault
    | .ok () => createFunctions rest

/-- The loop of `compileModule` that creates the global variables, whose names are
`globalVariableNames`. -/
def createGlobalVariables : List Variable → Except Fault Unit
  | [] => .ok ()
  | globalVariable :: rest =>
    if globalVariable.type = .None then
      .error (.undefinedBehaviour "asLLVMType: null type")
    else createGlobalVariables rest

/-- The loop of `compileModule` that renames the imported global variables:
`globalVariablePointers[variableImport.globalIndex]` is read for each variable import. -/
def renameVariableImports (numGlobals : Nat) : List VariableImport → Except Fault Unit
  | [] => .ok ()
  | variableImport :: rest =>
    if variableImport.globalIndex < numGlobals then renameVariableImports numGlobals rest
    else .error (.undefinedBehaviour "compileModule: global index out of bounds")

/-- The loop of `compileModule` that creates the globals of the function imports. -/
def createFunctionImportGlobals : List FunctionImport → Except Fault Unit
  | [] => .ok ()
  | functionImport :: rest =>
    match asLLVMFunctionType functionImport.type with
    | .error fault => .error fault
    | .ok () => createFunctionImportGlobals rest

/-- The loop of `compileModule` over the entries of a function table, for the next
`remaining` values of the counter from `functionIndex` on: `functionIndices[functionIndex]`
is read, and `jitModule->functions` is indexed with it. -/
def createFunctionTableElements (numFunctions : Nat) (functionIndices : List Nat) :
    Nat → Nat → Except Fault Unit
  | 0, _ => .ok ()
  | remaining + 1, functionIndex =>
    match functionIndices[functionIndex]? with
    | none => .error (.undefinedBehaviour "compileModule: table entry out of bounds")
    | some index =>
      if index < numFunctions then
        createFunctionTableElements numFunctions functionIndices remaining (functionIndex + 1)
      else .error (.undefinedBehaviour "compileModule: function index out of bounds")

/-- The creation of the global of one function table in `compileModule`. The counter of the
loop over the entries is a `uint32` compared with the `size_t` `numFunctions`: for a table of
`2 ^ 32` entries or more it wraps to 0 after the first `2 ^ 32` entries and the loop does not
end. -/
def createFunctionTable (numFunctions : Nat) (astFunctionTable : FunctionTable) :
    Except Fault Unit :=
  match createFunctionTableElements numFunctions astFunctionTable.functionIndices
      (min astFunctionTable.numFunctions (2 ^ 32)) 0 with
  | .error fault => .error fault
  | .ok () =>
    if astFunctionTable.numFunctions < 2 ^ 32 then asLLVMFunctionType astFunctionTable.type
    else .error (.undefinedBehaviour "compileModule: the uint32 functionIndex wraps")

/-- The loop of `compileModule` that creates the function table globals. -/
def createFunctionTables (numFunctions : Nat) : List FunctionTable → Except Fault Unit
  | [] => .ok ()
  | astFunctionTable :: rest =>
    match createFunctionTable numFunctions astFunctionTable with
    | .error fault => .error fault
    | .ok () => createFunctionTables numFunctions rest

/-- The loop of `compileModule` that compiles each function of the module:
`JITFunctionContext(*jitModule,functionIndex).compile()`. A `throw;` in `compile` is not
caught, so it ends `compileModule` as well. -/
def compileFunctions : List Function → Except Fault Unit
  | [] => .ok ()
  | astFunction :: rest =>
    match compile astFunction with
    | .error fault => .error fault
    | .ok _ => compileFunctions rest

/-- The code generation of `compileModule`, up to the creation of the execution engine: the
LLVM functions, the global variables, the globals of the imports and of the function tables
are created, then every function is compiled. It writes nothing to `std::cerr`. -/
def generateCode (astModule : Module) : Except Fault Unit :=
  match createFunctions astModule.functions with
  | .error fault => .error fault
  | .ok () =>
  match createGlobalVariables astModule.globals with
  | .error fault => .error fault
  | .ok () =>
  match renameVariableImports astModule.globals.length astModule.variableImports with
  | .error fault => .error fault
  | .ok () =>
  match createFunctionImportGlobals astModule.functionImports with
  | .error fault => .error fault
  | .ok () =>
  match createFunctionTables astModule.functions.length astModule.functionTables with
  | .error fault => .error fault
  | .ok () => compileFunctions astModule.functions

/-- `compileModule`: the value it returns and the lines it writes to `std::cerr`, when it
returns. The code is generated first; then the execution engine is created, the imports are
bound to the intrinsics, and the module is verified and optimised. `executionEngine` is the
outcome of `EngineBuilder::create` (the error string when it fails), and `verifyFails` tells
whether the build is a `_DEBUG` build in which `llvm::verifyModule` reports errors. -/
def compileModule (singleton : Intrinsics.Singleton) (executionEngine : Except String Unit)
    (verifyFails : Bool) (astModule : Module) : Except Fault (Bool × List String) :=
  match generateCode astModule with
  | .error fault => .error fault
  | .ok () =>
    match executionEngine with
    | .error errStr => .ok (false, ["Could not create ExecutionEngine: " ++ errStr])
    | .ok () =>
      let (missingImport, cerr) :=
        linkFunctionImports singleton astModule.functionImports false []
      let (missingImport, cerr) :=
        linkVariableImports singleton astModule.variableImports missingImport cerr
      if missingImport then .ok (false, cerr)
      else if verifyFails then .ok (false, cerr ++ ["LLVM verification errors:"])
      else .ok (true, cerr)

end LLVMJIT

/-! ## Inputs and contexts the properties are stated on -/

/-- The nodes of an optional label name: `$name`, or nothing. -/
def nameNodes : Option String → SNodeIt
  | some name => [.unindexedSymbol ("$" ++ name)]
  | none => []

/-- The form `(label $name body...)`, the name optional. -/
def labelForm (name : Option String) (body : SNodeIt) : SNode :=
  .tree (.symbol (.plain ._label) :: (nameNodes name ++ body))

/-- The label forms of the given names nested in each other, outermost first, around
`inner`: `(label $n0 (label $n1 ... inner))`. -/
def nestedLabels : List (Option String) → SNode → SNode
  | [], inner => inner
  | name :: names, inner => labelForm name [nestedLabels names inner]

/-- The form `(break reference operands...)`. -/
def breakForm (reference : SNode) (operands : SNodeIt) : SNode :=
  .tree (.symbol (.plain ._break) :: reference :: operands)

/-- `numLabels` nested `Label` nodes around `inner`, outermost first, whose end targets
are the branch targets number `firstId`, `firstId + 1`, ... of type `type`. -/
def nestedLabelExpressions (typeClass : TypeClassId) (type : TypeId) :
    Nat → Nat → Expression → Expression
  | _, 0, inner => inner
  | firstId, numLabels + 1, inner =>
    .Label typeClass ⟨firstId, type⟩
      (nestedLabelExpressions typeClass type (firstId + 1) numLabels inner)

/-- The number of `BranchTarget`s allocated in the arena of the context's module. -/
def FunctionContext.numBranchTargets (context : FunctionContext) : Nat :=
  context.moduleContext.module.numBranchTargets

/-- The context after `count` more `BranchTarget`s were allocated. -/
def FunctionContext.addBranchTargets (context : FunctionContext) (count : Nat) :
    FunctionContext :=
  { context with moduleContext := { context.moduleContext with
      module := { context.moduleContext.module with
        numBranchTargets := context.moduleContext.module.numBranchTargets + count } } }

/-- The context in which the case `label` parses the body of a label of the given name
and type: the branch target is allocated, named and pushed. -/
def FunctionContext.enterLabel (context : FunctionContext) (name : Option String)
    (type : TypeId) : FunctionContext :=
  { context.addBranchTargets 1 with
    labelToBranchTargetMap := match name with
      | some name => context.labelToBranchTargetMap.set name ⟨context.numBranchTargets, type⟩
      | none => context.labelToBranchTargetMap
    scopedBranchTargets := context.scopedBranchTargets ++ [⟨context.numBranchTargets, type⟩] }

/-- The context inside nested labels of the given names, outermost first. -/
def FunctionContext.enterLabels (context : FunctionContext) (type : TypeId) :
    List (Option String) → FunctionContext
  | [] => context
  | name :: names => (context.enterLabel name type).enterLabels type names

/-- The context after the case `label` has parsed its body in `context`: the branch
target is popped and the name erased. -/
def FunctionContext.leaveLabel (context : FunctionContext) (name : Option String) :
    FunctionContext :=
  { context with
    scopedBranchTargets := context.scopedBranchTargets.dropLast
    labelToBranchTargetMap := match name with
      | some name => context.labelToBranchTargetMap.erase name
      | none => context.labelToBranchTargetMap }

/-- The name a child of a module declares as a function: `some name` (the name optional)
when the node is a `func` form, `none` when it is not. -/
def declaredFunctionName (node : SNode) : Option (Option String) :=
  match parseTaggedNode [node] (.plain ._func) with
  | some childNodeIt => some ((parseName childNodeIt).map fun parsed => parsed.1)
  | none => none

/-- The names of the `func` forms among the children of a module, in source order. -/
def declaredFunctionNames (nodes : SNodeIt) : List (Option String) :=
  nodes.filterMap declaredFunctionName

/-- The position of the first entry of `names` that is the name `name`. -/
def firstIndexOf (name : String) : List (Option String) → Option Nat
  | [] => none
  | entry :: names =>
    if entry = some name then some 0 else (firstIndexOf name names).map fun index => index + 1

/-- A module with the functions `$f` (a parameter `$x` and a local `$y`) and `$h` and the
global `$g`:
`(func $f (param $x i32) (local $y i32) (nop)) (global $g i32) (func $h (nop))`. -/
def exampleDeclarations : SNodeIt :=
  [ .tree [.symbol (.plain ._func), .unindexedSymbol "$f",
      .tree [.symbol (.plain ._param), .unindexedSymbol "$x", .symbol (.plain ._i32)],
      .tree [.symbol (.plain ._local), .unindexedSymbol "$y", .symbol (.plain ._i32)],
      .tree [.symbol (.plain ._nop)]],
    .tree [.symbol (.plain ._global), .unindexedSymbol "$g", .symbol (.plain ._i32)],
    .tree [.symbol (.plain ._func), .unindexedSymbol "$h", .tree [.symbol (.plain ._nop)]] ]

mutual
/-- The check that every `Branch` of an expression targets a branch target of `enclosing`
or of a `Label`, `Loop` or `Switch` node around it: the end target of a `Label` or
`Switch`, the break or continue target of a `Loop`. -/
def branchesEnclosed : List BranchTarget → Expression → Bool
  | _, .Literal _ _ => true
  | _, .Error _ _ => true
  | _, .Nop => true
  | enclosing, .DiscardResult expression _ => branchesEnclosed enclosing expression
  | _, .GetVariable _ _ _ => true
  | enclosing, .SetVariable _ _ value _ => branchesEnclosed enclosing value
  | enclosing, .Load _ _ _ _ address _ => branchesEnclosed enclosing address
  | enclosing, .Store _ _ _ address value _ _ =>
    branchesEnclosed enclosing address && branchesEnclosed enclosing value
  | enclosing, .Call _ _ _ parameters => branchesEnclosedList enclosing parameters
  | enclosing, .CallIndirect _ _ functionIndex parameters =>
    branchesEnclosed enclosing functionIndex && branchesEnclosedList enclosing parameters
  | enclosing, .Unary _ operand => branchesEnclosed enclosing operand
  | enclosing, .Binary _ left right =>
    branchesEnclosed enclosing left && branchesEnclosed enclosing right
  | enclosing, .Cast _ source _ => branchesEnclosed enclosing source
  | enclosing, .Comparison _ _ left right =>
    branchesEnclosed enclosing left && branchesEnclosed enclosing right
  | enclosing, .IfElse _ condition thenExpression elseExpression =>
    branchesEnclosed enclosing condition && branchesEnclosed enclosing thenExpression
      && branchesEnclosed enclosing elseExpression
  | enclosing, .Switch _ key _ _ _ arms endTarget =>
    branchesEnclosed (endTarget :: enclosing) key
      && branchesEnclosedArms (endTarget :: enclosing) arms
  | enclosing, .Label _ endTarget expression =>
    branchesEnclosed (endTarget :: enclosing) expression
  | enclosing, .Loop _ expression breakTarget continueTarget =>
    branchesEnclosed (breakTarget :: continueTarget :: enclosing) expression
  | enclosing, .Sequence _ voidExpression resultExpression =>
    branchesEnclosed enclosing voidExpression && branchesEnclosed enclosing resultExpression
  | enclosing, .Branch _ branchTarget value =>
    enclosing.contains branchTarget && branchesEnclosedOption enclosing value
  | enclosing, .Return _ value => branchesEnclosedOption enclosing value
/-- `branchesEnclosed` on an optional expression. -/
def branchesEnclosedOption : List BranchTarget → Option Expression → Bool
  | _, none => true
  | enclosing, some expression => branchesEnclosed enclosing expression
/-- `branchesEnclosed` on every expression of a list. -/
def branchesEnclosedList : List BranchTarget → List Expression → Bool
  | _, [] => true
  | enclosing, expression :: expressions =>
    branchesEnclosed enclosing expression && branchesEnclosedList enclosing expressions
/-- `branchesEnclosed` on the value of every arm of a switch. -/
def branchesEnclosedArms : List BranchTarget → List (Nat × Expression) → Bool
  | _, [] => true
  | enclosing, (_, value) :: arms =>
    branchesEnclosed enclosing value && branchesEnclosedArms enclosing arms
end

/-- The module `(func (loop $a $a (nop)) (break $a))`: a loop whose continue label repeats
its break label, followed by a break to that name. -/
def repeatedLoopLabelModule : SNodeIt :=
  [ .tree [.symbol (.plain ._func),
      .tree [.symbol (.plain ._loop), .unindexedSymbol "$a", .unindexedSymbol "$a",
        .tree [.symbol (.plain ._nop)]],
      .tree [.symbol (.plain ._break), .unindexedSymbol "$a"]] ]

/-- The module `(module (func (label (break 5))))`: a `break` with depth 5 under a single
enclosing label. -/
def breakDepthModule : SNodeIt :=
  [.tree [.symbol (.plain ._func),
    .tree [.symbol (.plain ._label), .tree [.symbol (.plain ._break), .int 5]]]]

/-- The module `(module (func (label $a (label (break -1 $a)))))`: a `break` with a negative
depth followed by a label name. -/
def breakNegativeDepthModule : SNodeIt :=
  [.tree [.symbol (.plain ._func),
    .tree [.symbol (.plain ._label), .unindexedSymbol "$a",
      .tree [.symbol (.plain ._label),
        .tree [.symbol (.plain ._break), .int (-1), .unindexedSymbol "$a"]]]]]

/-- The module `(module (memory 10 5))`. -/
def memoryInitialAboveMaxModule : SNodeIt :=
  [.tree [.symbol (.plain ._memory), .int 10, .int 5]]

/-- The module `(module (memory 8589934592))`, whose one size 2^33 is both the initial and
the maximum size. -/
def memoryAboveLimitModule : SNodeIt :=
  [.tree [.symbol (.plain ._memory), .int 8589934592]]

/-- The module `(module (func $f (nop)) (table $f $f $f))`. -/
def threeEntryTableModule : SNodeIt :=
  [.tree [.symbol (.plain ._func), .unindexedSymbol "$f", .tree [.symbol (.plain ._nop)]],
   .tree [.symbol (.plain ._table), .unindexedSymbol "$f", .unindexedSymbol "$f",
     .unindexedSymbol "$f"]]

/-- The module `(module (table 0))`, which declares no function. -/
def tableWithoutFunctionsModule : SNodeIt :=
  [.tree [.symbol (.plain ._table), .int 0]]

/-- The form `(case key body...)` of a switch. -/
def caseForm (key : Int) (body : SNodeIt) : SNode :=
  .tree (.symbol (.plain ._case) :: .int key :: body)

/-- The `fallthrough` symbol. -/
def fallthroughSymbol : SNode := .symbol (.plain ._fallthrough)

/-- The form `(switch.i32 (const.i32 0) (case 1) (nop))`, whose one case has an empty body. -/
def emptyCaseSwitch : SNode :=
  .tree [.symbol (.typed ._switch .I32), .tree [.symbol (.typed ._const .I32), .int 0],
    caseForm 1 [], .tree [.symbol (.plain ._nop)]]

/-- The form `(switch.i32 (const.i32 0) (case 1) (const.i32 5))`, whose one case has an empty
body. -/
def emptyCaseValueSwitch : SNode :=
  .tree [.symbol (.typed ._switch .I32), .tree [.symbol (.typed ._const .I32), .int 0],
    caseForm 1 [], .tree [.symbol (.typed ._const .I32), .int 5]]

/-- The integer keys of the leading `case` forms among the children of a switch. -/
def caseKeys : SNodeIt → List Int
  | [] => []
  | node :: rest =>
    match parseTaggedNode (node :: rest) (.plain ._case) with
    | some childNodeIt =>
      match parseInt childNodeIt with
      | some (keyValue, _) => keyValue :: caseKeys rest
      | none => []
    | none => []

/-- The operands of `(switch.i32 (const.i32 0) (case 1 (nop)) (case -1 fallthrough) (nop))`. -/
def twoCaseSwitchOperands : SNodeIt :=
  [.tree [.symbol (.typed ._const .I32), .int 0],
   caseForm 1 [.tree [.symbol (.plain ._nop)]],
   caseForm (-1) [fallthroughSymbol],
   .tree [.symbol (.plain ._nop)]]

/-- The form `(segment base "data")`. -/
def segmentForm (baseAddress : Int) (dataString : String) : SNode :=
  .tree [.symbol (.plain ._segment), .int baseAddress, .string dataString]

/-- The module `(module (memory -1 (segment -4 "abc")))`, whose initial memory size and
segment base are negative integers. -/
def negativeSegmentBaseModule : SNodeIt :=
  [.tree [.symbol (.plain ._memory), .int (-1), segmentForm (-4) "abc"]]

/-- An entry of a `table` form that resolves to the function `index`: the integer `index`
or the name of the function, with `index` below the number of functions. -/
def TableEntryResolves (functionNameToIndexMap : NameMap Nat) (numFunctions : Nat)
    (node : SNode) (index : Nat) : Prop :=
  index < numFunctions ∧
  (node = .int (index : Int) ∨
    ∃ name, node = .unindexedSymbol ("$" ++ name)
      ∧ functionNameToIndexMap.find name = some index)

/-- The entries of a table whose function has a type other than `functionType`. -/
def differingEntries (functions : List Function) (functionType : FunctionType)
    (functionIndices : List Nat) : List Nat :=
  functionIndices.filter fun index =>
    decide ((functions[index]?).map (fun function => function.type) ≠ some functionType)

/-- The module `(func $f) (func $g (param i32)) (table $f $g 1 0)`, after its first pass. -/
def mixedTableContext : ModuleContext :=
  { module := { functions := [{ name := some "f" },
                { name := some "g", locals := [⟨.I32, none⟩], parameterLocalIndices := [0],
                  type := { parameters := [.I32] } }] }
    functionNameToIndexMap := [("g", 1), ("f", 0)] }

/-- The memory store form `(name.opType operands...)`, for `store`, `store8`, `store16`. -/
def storeForm (name : SymbolName) (opType : TypeId) (operands : SNodeIt) : SNode :=
  .tree (.symbol (.typed name opType) :: operands)

/-- The form `(set_local operands...)`. -/
def setLocalForm (operands : SNodeIt) : SNode :=
  .tree (.symbol (.plain ._set_local) :: operands)

/-- The form `(store_global operands...)`. -/
def storeGlobalForm (operands : SNodeIt) : SNode :=
  .tree (.symbol (.plain ._store_global) :: operands)

/-- A function context with the local 0 of type `i32` and the global 0 of type `f32`. -/
def variablesFunctionContext : FunctionContext :=
  { moduleContext := { module := { globals := [⟨.F32, none⟩] } }
    function := { locals := [⟨.I32, none⟩] } }

/-- The bytes of a C string: none of them is the terminator 0, each is below 256. -/
def IsCString (bytes : List Nat) : Prop :=
  ∀ byte ∈ bytes, 0 < byte ∧ byte < 256

/-- A function import that `compileModule` cannot bind: no intrinsic function is registered
under its name, or the one registered has another `FunctionType`. -/
def FunctionImportUnmatched (singleton : Intrinsics.Singleton) (functionImport : FunctionImport) :
    Prop :=
  match Intrinsics.findFunction singleton functionImport.name with
  | none => True
  | some intrinsicFunction => intrinsicFunction.type ≠ functionImport.type

/-- A variable import that `compileModule` cannot bind: no intrinsic value is registered
under its name, or the one registered has another type. -/
def VariableImportUnmatched (singleton : Intrinsics.Singleton) (variableImport : VariableImport) :
    Prop :=
  match Intrinsics.findValue singleton variableImport.name with
  | none => True
  | some intrinsicValue => intrinsicValue.type ≠ variableImport.type

/-- A registry that holds the intrinsic function `_sbrk : (i32) -> i32` and the intrinsic
value `STACKTOP : i32`. -/
def exampleSingleton : Intrinsics.Singleton :=
  Intrinsics.Value.new ⟨"STACKTOP", .I32, 4096⟩
    (Intrinsics.Function.new ⟨"_sbrk", { parameters := [.I32], returnType := .I32 }, 8192⟩ {})

/-- A module that imports the function `_does_not_exist : (i32,f64) -> i32`. -/
def missingImportModule : Module :=
  { functionImports :=
      [{ type := { parameters := [.I32, .F64], returnType := .I32 }, name := "_does_not_exist" }] }

/-- The intrinsic function `f : (i32) -> i32`, at the address 100. -/
def firstIntrinsic : Intrinsics.Function :=
  ⟨"f", { parameters := [.I32], returnType := .I32 }, 100⟩

/-- The intrinsic function `f : () -> void`, at the address 200: the name of
`firstIntrinsic` with another type. -/
def secondIntrinsic : Intrinsics.Function :=
  ⟨"f", { parameters := [], returnType := .Void }, 200⟩

/-- The keys of a name map. -/
def NameMap.keys {β : Type} (map : NameMap β) : Finset String :=
  (map.map Prod.fst).toFinset

/-- The names of the variables that have one, in order. -/
def variableNames (vars : List Variable) : List String :=
  vars.filterMap fun var => var.name

/-- The context after the first pass met `(func $f ...)`: one function, named `f`. -/
def declaredFunctionContext : ModuleContext :=
  { module := { functions := [{ name := some "f" }] }
    functionNameToIndexMap := [("f", 0)] }

/-- The module
`(func (local $x i32) (local $x i32) (nop)) (global $g i32) (global $g i32)
(import $i "a") (import $i "b")`, which declares a local, a global and an import name
twice. -/
def duplicateNamesModule : SNodeIt :=
  [.tree [.symbol (.plain ._func),
      .tree [.symbol (.plain ._local), .unindexedSymbol "$x", .symbol (.plain ._i32)],
      .tree [.symbol (.plain ._local), .unindexedSymbol "$x", .symbol (.plain ._i32)],
      .tree [.symbol (.plain ._nop)]],
   .tree [.symbol (.plain ._global), .unindexedSymbol "$g", .symbol (.plain ._i32)],
   .tree [.symbol (.plain ._global), .unindexedSymbol "$g", .symbol (.plain ._i32)],
   .tree [.symbol (.plain ._import), .unindexedSymbol "$i", .string "a"],
   .tree [.symbol (.plain ._import), .unindexedSymbol "$i", .string "b"]]

mutual
/-- The number of `Error` nodes in an expression. -/
def numErrorNodes : Expression → Nat
  | .Literal _ _ => 0
  | .Error _ _ => 1
  | .Nop => 0
  | .DiscardResult expression _ => numErrorNodes expression
  | .GetVariable _ _ _ => 0
  | .SetVariable _ _ value _ => numErrorNodes value
  | .Load _ _ _ _ address _ => numErrorNodes address
  | .Store _ _ _ address value _ _ => numErrorNodes address + numErrorNodes value
  | .Call _ _ _ parameters => numErrorNodesList parameters
  | .CallIndirect _ _ functionIndex parameters =>
    numErrorNodes functionIndex + numErrorNodesList parameters
  | .Unary _ operand => numErrorNodes operand
  | .Binary _ left right => numErrorNodes left + numErrorNodes right
  | .Cast _ source _ => numErrorNodes source
  | .Comparison _ _ left right => numErrorNodes left + numErrorNodes right
  | .IfElse _ condition thenExpression elseExpression =>
    numErrorNodes condition + numErrorNodes thenExpression + numErrorNodes elseExpression
  | .Switch _ key _ _ _ arms _ => numErrorNodes key + numErrorNodesArms arms
  | .Label _ _ expression => numErrorNodes expression
  | .Loop _ expression _ _ => numErrorNodes expression
  | .Sequence _ voidExpression resultExpression =>
    numErrorNodes voidExpression + numErrorNodes resultExpression
  | .Branch _ _ value => numErrorNodesOption value
  | .Return _ value => numErrorNodesOption value
/-- `numErrorNodes` of an optional expression. -/
def numErrorNodesOption : Option Expression → Nat
  | none => 0
  | some expression => numErrorNodes expression
/-- `numErrorNodes` summed over a list of expressions. -/
def numErrorNodesList : List Expression → Nat
  | [] => 0
  | expression :: expressions => numErrorNodes expression + numErrorNodesList expressions
/-- `numErrorNodes` summed over the values of the arms of a switch. -/
def numErrorNodesArms : List (Nat × Expression) → Nat
  | [] => 0
  | (_, value) :: arms => numErrorNodes value + numErrorNodesArms arms
end

/-- The part of a function context that parsing an expression only reads: the context with
its error list, its count of branch targets, its label map and its stack of branch targets
reset. -/
def FunctionContext.readOnly (context : FunctionContext) : FunctionContext :=
  { context with
    moduleContext := { context.moduleContext with
      outErrors := []
      module := { context.moduleContext.module with numBranchTargets := 0 } }
    labelToBranchTargetMap := []
    scopedBranchTargets := [] }

/-- The number of errors recorded so far. -/
def FunctionContext.numErrors (context : FunctionContext) : Nat :=
  context.moduleContext.outErrors.length

/-- A computation of the parser that keeps the read-only part of the context and pays for
the `Error` nodes of its result: `weight` of the result is at most the number of errors it
records plus `credit`, the number of `Error` nodes of the expressions parsed before it that
the result may hold. -/
def Sound {α : Type} (credit : Nat) (weight : α → Nat) (x : ParseM α) : Prop :=
  ∀ ctx a ctx2, x ctx = .ok (a, ctx2) →
    ctx2.readOnly = ctx.readOnly ∧ weight a + ctx.numErrors ≤ ctx2.numErrors + credit

/-- The number of `Error` nodes of a `TypedExpression` that may be null. -/
def numErrorNodesTyped : Option TypedExpression → Nat
  | none => 0
  | some typedExpression => numErrorNodes typedExpression.expression

/-- The children of the `func` forms among the children of a module, in source order. -/
def funcForms (nodes : SNodeIt) : List SNodeIt :=
  nodes.filterMap fun node => parseTaggedNode [node] (.plain ._func)

/-- The function the first pass builds from the children `childNodeIt` of a `func` form,
with its name and its declarations and no body yet. -/
def declaredFunction (childNodeIt : SNodeIt) : Function :=
  (parseFunctionDeclarations
    (match parseName childNodeIt with
      | some (_, advanced) => advanced
      | none => childNodeIt)
    { name := (parseName childNodeIt).map fun parsed => parsed.1 } false []).1

/-- The children of a `func` form that the second pass parses as its body. -/
def functionBody (childNodeIt : SNodeIt) : SNodeIt :=
  skipFunctionDeclarations
    (match parseName childNodeIt with
      | some (_, advanced) => advanced
      | none => childNodeIt)

/-- The relation between the parameters and the locals of a function:
`parameterLocalIndices` and `type.parameters` have the same length, the indices are
strictly increasing and below `locals.size()`, and the i-th parameter type is the type of
the local the i-th index selects. -/
def ParametersAligned (function : Function) : Prop :=
  function.parameterLocalIndices.length = function.type.parameters.length ∧
  function.parameterLocalIndices.Pairwise (fun earlier later => earlier < later) ∧
  (∀ index ∈ function.parameterLocalIndices, index < function.locals.length) ∧
  ∀ i index : Nat, function.parameterLocalIndices[i]? = some index →
    (function.locals[index]?).map (fun var : Variable => var.type) = function.type.parameters[i]?

/-- The invariant of the loop over the declarations of a function: the types of the locals
the indices select are the parameter types, and the indices are strictly increasing and
below `locals.size()`. -/
def ParametersInvariant (function : Function) : Prop :=
  function.parameterLocalIndices.map
      (fun index => (function.locals[index]?).map fun var : Variable => var.type)
    = function.type.parameters.map some ∧
  function.parameterLocalIndices.Pairwise (fun earlier later => earlier < later) ∧
  ∀ index ∈ function.parameterLocalIndices, index < function.locals.length

/-- A function without its body, as the first pass leaves it. -/
def Function.declaration (function : Function) : Function :=
  { function with expression := none }

/-- The declarations of a module context: what the first pass and the table pass build and
the second pass only reads. The error list, the arena, the bodies of the functions and the
export map are left out. -/
def ModuleContext.declarations (moduleContext : ModuleContext) : ModuleContext :=
  { moduleContext with
    outErrors := []
    module := { moduleContext.module with
      numBranchTargets := 0
      functions := moduleContext.module.functions.map Function.declaration
      exportNameToFunctionIndexMap := [] } }

/-- No `param` form is among the nodes. -/
def noParamForm (nodes : SNodeIt) : Bool :=
  nodes.all fun node => (parseTaggedNode [node] (.plain ._param)).isNone

/-- No `param` form follows a `local` form among the nodes. -/
def paramsBeforeLocals : SNodeIt → Bool
  | [] => true
  | node :: rest =>
    if (parseTaggedNode [node] (.plain ._local)).isSome then noParamForm rest
    else paramsBeforeLocals rest

/-- A module whose function declares a local before its parameter:
`(func (local i32) (param i64) (nop))`. -/
def localBeforeParamModule : SNodeIt :=
  [ .tree [.symbol (.plain ._func),
      .tree [.symbol (.plain ._local), .symbol (.plain ._i32)],
      .tree [.symbol (.plain ._param), .symbol (.plain ._i64)],
      .tree [.symbol (.plain ._nop)]] ]

/-- The function `ModuleContext::parse` builds from `localBeforeParamModule`. -/
def localBeforeParamFunction : Function :=
  { locals := [⟨.I32, none⟩, ⟨.I64, none⟩]
    parameterLocalIndices := [1]
    type := { parameters := [.I64], returnType := .Void }
    expression := some .Nop }

/-- The children of a `func` form that declares its parameters before its local:
`$f (param i32) (result i32) (param i64) (local f32) (const.i32 7)`. -/
def paramsFirstForm : SNodeIt :=
  [ .unindexedSymbol "$f",
    .tree [.symbol (.plain ._param), .symbol (.plain ._i32)],
    .tree [.symbol (.plain ._result), .symbol (.plain ._i32)],
    .tree [.symbol (.plain ._param), .symbol (.plain ._i64)],
    .tree [.symbol (.plain ._local), .symbol (.plain ._f32)],
    .tree [.symbol (.typed ._const .I32), .int 7] ]

/-- The module of the one function `(func $f (param i32) (result i32) (param i64)
(local f32) (const.i32 7))`. -/
def paramsFirstModule : SNodeIt :=
  [.tree (.symbol (.plain ._func) :: paramsFirstForm)]

/-- The function `ModuleContext::parse` builds from `paramsFirstModule`. -/
def paramsFirstFunction : Function :=
  { name := some "f"
    locals := [⟨.I32, none⟩, ⟨.I64, none⟩, ⟨.F32, none⟩]
    parameterLocalIndices := [0, 1]
    type := { parameters := [.I32, .I64], returnType := .I32 }
    expression := some (.Literal .I32 (.int 7)) }

/-- A module whose first function calls the second and reads and writes a global that is
declared after both:
`(func $f (result i32) (store_global $g (call $h (load_global $g))))
(func $h (param i32) (result i32) (get_local 0)) (global $g i32)`. -/
def forwardReferenceModule : SNodeIt :=
  [ .tree [.symbol (.plain ._func), .unindexedSymbol "$f",
      .tree [.symbol (.plain ._result), .symbol (.plain ._i32)],
      .tree [.symbol (.plain ._store_global), .unindexedSymbol "$g",
        .tree [.symbol (.plain ._call), .unindexedSymbol "$h",
          .tree [.symbol (.plain ._load_global), .unindexedSymbol "$g"]]]],
    .tree [.symbol (.plain ._func), .unindexedSymbol "$h",
      .tree [.symbol (.plain ._param), .symbol (.plain ._i32)],
      .tree [.symbol (.plain ._result), .symbol (.plain ._i32)],
      .tree [.symbol (.plain ._get_local), .int 0]],
    .tree [.symbol (.plain ._global), .unindexedSymbol "$g", .symbol (.plain ._i32)] ]

/-- The children of the `global` forms among the children of a module, in source order. -/
def globalForms (nodes : SNodeIt) : List SNodeIt :=
  nodes.filterMap fun node => parseTaggedNode [node] (.plain ._global)

/-- The variables the first pass appends to `module->globals` for the children
`childNodeIt` of a `global` form. -/
def declaredGlobals (childNodeIt : SNodeIt) : List Variable :=
  (parseVariables childNodeIt [] []).2.2.1

/-- The module context `ModuleContext::parse` returns for `forwardReferenceModule`: in the
body of function 0 the call refers to function 1 and the global accesses to global 0. -/
def forwardReferenceResult : ModuleContext :=
  { module :=
      { functions :=
          [ { name := some "f"
              type := { parameters := [], returnType := .I32 }
              expression := some (.SetVariable .setGlobal (some .Int)
                (.Call .callDirect (some .Int) 1 [.GetVariable .getGlobal (some .Int) 0]) 0) },
            { name := some "h"
              locals := [⟨.I32, none⟩]
              parameterLocalIndices := [0]
              type := { parameters := [.I32], returnType := .I32 }
              expression := some (.GetVariable .getLocal (some .Int) 0) } ]
        globals := [⟨.I32, some "g"⟩] }
    functionNameToIndexMap := [("h", 1), ("f", 0)]
    globalNameToIndexMap := [("g", 0)] }

mutual
/-- The nesting depth of an S-expression node: the number of `tree` nodes on the longest
path into it. -/
def SNode.depth : SNode → Nat
  | .tree children => depthIt children + 1
  | .symbol _ => 0
  | .int _ => 0
  | .decimal _ => 0
  | .error _ => 0
  | .string _ => 0
  | .unindexedSymbol _ => 0
/-- The largest nesting depth of the node of an iterator and of the siblings after it. -/
def depthIt : SNodeIt → Nat
  | [] => 0
  | node :: rest => max node.depth (depthIt rest)
end

/-- Two computations of the parser that return the same on every context, do not run out of
fuel, and whose result satisfies `post`. -/
def Agree {α : Type} (post : α → Prop) (x y : ParseM α) : Prop :=
  ∀ ctx, x ctx = y ctx ∧ x ctx ≠ .error .outOfFuel ∧ ∀ a ctx2, x ctx = .ok (a, ctx2) → post a

/-- Two parsers of expressions that agree, without running out of fuel, on every iterator
of a nesting depth below `depth`, and leave an iterator of a depth below it. -/
def AgreeBelow (depth : Nat) (self other : ParseTyped) : Prop :=
  ∀ typeClass type nodeIt errorContext, depthIt nodeIt < depth →
    Agree (fun result => depthIt result.2 < depth) (self typeClass type nodeIt errorContext)
      (other typeClass type nodeIt errorContext)

/-- The form `(const.iN v)`: the typed `const` symbol of `opType` and the integer `v`. -/
def constForm (opType : TypeId) (v : Int) : SNode :=
  .tree [.symbol (.typed ._const opType), .int v]

/-- The form `(loop $a $a (nop))`: a loop whose continue label repeats its break label. -/
def repeatedLabelLoop : SNode :=
  .tree [.symbol (.plain ._loop), .unindexedSymbol "$a", .unindexedSymbol "$a",
    .tree [.symbol (.plain ._nop)]]

/-- The form `(switch.i32 $e (const.i32 0) (case))`: a switch with an end label whose
`case` has no key. -/
def keylessCaseSwitch : SNode :=
  .tree [.symbol (.typed ._switch .I32), .unindexedSymbol "$e",
    .tree [.symbol (.typed ._const .I32), .int 0], .tree [.symbol (.plain ._case)]]

/-- The form `(label $l (nop))`. -/
def namedNopLabel : SNode :=
  .tree [.symbol (.plain ._label), .unindexedSymbol "$l", .tree [.symbol (.plain ._nop)]]

/-- The label scope of a context: `labelToBranchTargetMap` and `scopedBranchTargets`. -/
def FunctionContext.labelScope (context : FunctionContext) :
    NameMap BranchTarget × List BranchTarget :=
  (context.labelToBranchTargetMap, context.scopedBranchTargets)

/-- The module `(module (import $v "x" i32) (func (call_import $v)))`: a variable import
with the internal name `$v`, and a function that calls `$v` as a function import. -/
def variableImportCallModule : SNodeIt :=
  [ .tree [.symbol (.plain ._import), .unindexedSymbol "$v", .string "x",
      .symbol (.plain ._i32)],
    .tree [.symbol (.plain ._func),
      .tree [.symbol (.plain ._call_import), .unindexedSymbol "$v"]] ]

/-- The module `(module (import $v "x" i32) (import $f "f") (func (call_import $v)))`: the
variable import `$v`, then the function import `$f`, and a function that calls `$v`. -/
def variableThenFunctionImportModule : SNodeIt :=
  [ .tree [.symbol (.plain ._import), .unindexedSymbol "$v", .string "x",
      .symbol (.plain ._i32)],
    .tree [.symbol (.plain ._import), .unindexedSymbol "$f", .string "f"],
    .tree [.symbol (.plain ._func),
      .tree [.symbol (.plain ._call_import), .unindexedSymbol "$v"]] ]

/-- The siblings `<error> (nop)`: an S-expression error node followed by a `nop` form. -/
def errorThenNop : SNodeIt :=
  [.error "bad token", .tree [.symbol (.plain ._nop)]]

/-- The first `count` siblings from `nodeIt`, each parsed on its own at type void, in
source order. -/
def parseVoidSiblings (self : ParseTyped) (errorContext : String) :
    Nat → SNodeIt → ParseM (List Expression)
  | 0, _ => pure []
  | count + 1, nodeIt => do
    let (expression, _) ← self .Void .Void nodeIt errorContext
    let expressions ← parseVoidSiblings self errorContext count nodeIt.tail
    pure (expression :: expressions)

/-- The left-nested chain of void `Sequence` nodes over `first` and the expressions after
it: one `Sequence` node for each expression of the list. -/
def sequenceChain : Expression → List Expression → Expression
  | first, [] => first
  | first, next :: more => sequenceChain (.Sequence .Void first next) more

/-- The chain over the void expressions parsed so far (`none` before the first) and the
ones parsed after them. -/
def sequenceChainFrom : Option Expression → List Expression → Option Expression
  | some result, expressions => some (sequenceChain result expressions)
  | none, [] => none
  | none, first :: more => some (sequenceChain first more)

/-- The sequence over `n >= 1` siblings as a chain: the first `n - 1` siblings parsed at
type void, the last at the requested type, and one `Sequence` node for each sibling but
the first; the one sibling of `n = 1` is returned as it is parsed. -/
def sequenceOfSiblings (self : ParseTyped) (typeClass : TypeClassId) (type : TypeId)
    (nodeIt : SNodeIt) (errorContext : String) : ParseM Expression := do
  let voidExpressions ← parseVoidSiblings self errorContext (nodeIt.length - 1) nodeIt
  let (resultExpression, _) ←
    self typeClass type (nodeIt.drop (nodeIt.length - 1)) errorContext
  match voidExpressions with
  | [] => pure resultExpression
  | first :: more => pure (.Sequence typeClass (sequenceChain first more) resultExpression)

/-- The module `(module (func $foo (nop)) (func $bar (nop)) (global $baz i32)
(export "_foo" $bar) (export "_baz" $foo))`... -/
def underscoreExportModule : SNodeIt :=
  [ .tree [.symbol (.plain ._func), .unindexedSymbol "$foo", .tree [.symbol (.plain ._nop)]],
    .tree [.symbol (.plain ._func), .unindexedSymbol "$bar", .tree [.symbol (.plain ._nop)]],
    .tree [.symbol (.plain ._export), .string "_foo", .unindexedSymbol "$bar"] ]

/-- The instructions the specification describes for the locals from `localIndex` on: for each
local the `alloca` of one slot and the store of the zero of the local's type into it. -/
def zeroedSlotsFrom : List Variable → Nat → List LLVMJIT.PrologueInstruction
  | [], _ => []
  | localVariable :: rest, localIndex =>
    .alloca localVariable.type (LLVMJIT.getLLVMName localVariable.name)
      :: .storeZero localVariable.type localIndex :: zeroedSlotsFrom rest (localIndex + 1)

/-- The instructions the specification describes for the parameters from `parameterIndex` on: the
i-th incoming argument is stored into the slot `parameterLocalIndices[i]`. -/
def argumentStoresFrom : List Nat → Nat → List LLVMJIT.PrologueInstruction
  | [], _ => []
  | localIndex :: rest, parameterIndex =>
    .storeArgument parameterIndex localIndex :: argumentStoresFrom rest (parameterIndex + 1)

/-- The prologue the specification describes: the zeroed slots of all locals, then the stores of
all arguments. -/
def prologueOf (function : Function) : List LLVMJIT.PrologueInstruction :=
  zeroedSlotsFrom function.locals 0 ++ argumentStoresFrom function.parameterLocalIndices 0

/-- The type is one of `i8`, `i16`, `i32`, `i64`, `f32`, `f64`, `bool`. -/
def isValueType (type : TypeId) : Bool :=
  type != .None && type != .Void

/-- The number of `alloca` instructions among the instructions. -/
def numAllocas (instructions : List LLVMJIT.PrologueInstruction) : Nat :=
  (instructions.filter fun instruction =>
    match instruction with
    | .alloca _ _ => true
    | _ => false).length

/-- The terminator is a `ret`. -/
def isRet : LLVMJIT.Terminator → Bool
  | .ret => true
  | .retVoid => true
  | _ => false

/-- The number of `ret` instructions among the terminators emitted into blocks other than
the unreachable block. -/
def numRets (terminators : List (Nat × LLVMJIT.Terminator)) : Nat :=
  (terminators.filter fun entry => entry.1 ≠ LLVMJIT.unreachableBlock && isRet entry.2).length

/-- The number of `Return` nodes visited so far at which the insertion block was not the
unreachable block when `visitReturn` tested it, after the return value was compiled. -/
def numReturnsReachableAtTest (context : LLVMJIT.JITFunctionContext) : Nat :=
  (context.returnVisits.filter fun visit => visit.blockAtTest ≠ LLVMJIT.unreachableBlock).length

/-- The number of `Return` nodes visited so far while the insertion block was not the
unreachable block, the count of the specification, taken when `visitReturn` is entered. -/
def numReturnsVisitedReachable (context : LLVMJIT.JITFunctionContext) : Nat :=
  (context.returnVisits.filter fun visit =>
    visit.blockOnEntry ≠ LLVMJIT.unreachableBlock).length

/-- The `ret` instructions emitted so far are `base` more than the `Return` nodes at which
the insertion block was not the unreachable block when tested. -/
def RetsBalanced (base : Nat) (context : LLVMJIT.JITFunctionContext) : Prop :=
  numRets context.terminators = base + numReturnsReachableAtTest context

/-- A step of the code generator that emits one `ret` for each `Return` node at which the
insertion block is not the unreachable block when tested, and no other. -/
def KeepsRets {α : Type} (x : LLVMJIT.CodeGenM α) : Prop :=
  ∀ context a context2, x context = .ok (a, context2) →
    ∀ base, RetsBalanced base context → RetsBalanced base context2

/-- The module `(module (func (return)))`. -/
def returnOnlyModule : SNodeIt :=
  [.tree [.symbol (.plain ._func), .tree [.symbol (.plain ._return)]]]

/-- The function `ModuleContext::parse` builds from `returnOnlyModule`. -/
def returnOnlyFunction : Function :=
  { expression := some (.Return .Void none) }

/-- The context when `compile` returns for `returnOnlyFunction`: the one `ret` is the one
`visitReturn` created in the entry block, and the insertion block is the unreachable
block. -/
def returnOnlyCompiled : LLVMJIT.JITFunctionContext :=
  { astFunction := returnOnlyFunction
    numBasicBlocks := 2
    insertBlock := LLVMJIT.unreachableBlock
    terminators := [(1, .retVoid)]
    returnVisits := [⟨1, 1⟩] }

/-- The function `(func (nop))` and the context when `compile` returns for it. -/
def nopFunction : Function :=
  { expression := some .Nop }

/-- The module `(module (import $f "_does_not_exist") (func (local void) (nop)))`: a
function import, and a function with a local of type `void`. -/
def voidLocalImportModule : SNodeIt :=
  [ .tree [.symbol (.plain ._import), .unindexedSymbol "$f", .string "_does_not_exist"],
    .tree [.symbol (.plain ._func),
      .tree [.symbol (.plain ._local), .symbol (.plain ._void)],
      .tree [.symbol (.plain ._nop)]] ]

/-- The module of `missingImportModule` with the function `(func (nop))`. -/
def missingImportNopModule : Module :=
  { missingImportModule with functions := [nopFunction] }

/-- An arm of a `switch`: the key, the forms of the body, and whether the `fallthrough`
symbol ends the body. -/
structure SwitchArm where
  key : Int
  body : SNodeIt
  fallthrough : Bool := false

/-- The form `(case key body...)` of an arm, `fallthrough` its last child when the arm falls
through. -/
def SwitchArm.form (arm : SwitchArm) : SNode :=
  caseForm arm.key (arm.body ++ if arm.fallthrough then [fallthroughSymbol] else [])

/-- The symbol of a type in the text format; `none` has no symbol. -/
def typeNode (type : TypeId) : SNode :=
  .symbol (.plain (match type with
    | .I8 => ._i8 | .I16 => ._i16 | .I32 => ._i32 | .I64 => ._i64
    | .F32 => ._f32 | .F64 => ._f64 | .Bool => ._bool | .Void => ._void
    | .None => ._typeBase))

/-- The declaration `(tag $name type)` of one variable, the name optional: a `param`, a
`local` or a `global` form. -/
def variableForm (tag : SymbolName) (var : Variable) : SNode :=
  .tree (.symbol (.plain tag) :: (nameNodes var.name ++ [typeNode var.type]))

/-- The `result` form of a function, or none when it returns `void`. -/
def resultForms : Option TypeId → SNodeIt
  | some type => [.tree [.symbol (.plain ._result), typeNode type]]
  | none => []

/-- A function of a module as its `func` form gives it: the name, the parameters, the
result type (`none` for a function without a `result` form), the local variables and the
forms of the body. -/
structure FunctionSource where
  name : Option String := none
  parameters : List Variable := []
  result : Option TypeId := none
  locals : List Variable := []
  body : SNodeIt

/-- The children of the form `(func $name (param ..)... (result ..) (local ..)... body...)`
of a function: the parameters one to a `param` form, then the result, then the locals one to
a `local` form, then the body. -/
def FunctionSource.children (source : FunctionSource) : SNodeIt :=
  nameNodes source.name ++ (source.parameters.map (variableForm ._param)
    ++ (resultForms source.result ++ (source.locals.map (variableForm ._local)
      ++ source.body)))

/-- The type of a function: the types of its parameters and its result type, `void` without
a `result` form. -/
def FunctionSource.type (source : FunctionSource) : FunctionType :=
  { parameters := source.parameters.map fun var => var.type
    returnType := source.result.getD .Void }

/-- A function a module takes from its host, as its form gives it: the name it has in the
module, the name it has in the host, the parameters and the result type. -/
structure ImportSource where
  name : Option String := none
  externalName : String
  parameters : List Variable := []
  result : Option TypeId := none

/-- The children of the form `(import $name "externalName" (param ..)... (result ..))` of a
function import. -/
def ImportSource.children (source : ImportSource) : SNodeIt :=
  nameNodes source.name ++ (.string source.externalName
    :: (source.parameters.map (variableForm ._param) ++ resultForms source.result))

/-- The type of a function import. -/
def ImportSource.type (source : ImportSource) : FunctionType :=
  { parameters := source.parameters.map fun var => var.type
    returnType := source.result.getD .Void }

/-- A child of a `module` form: a function, the export of a function under a name, a global
variable, a variable or a function taken from the host, the memory with its size, its
maximal size and its data segments (the base address and the data of each), or a table of
functions of one type. -/
inductive ModuleItem where
  | func (source : FunctionSource)
  | exportFunction (name : String) (reference : SNode)
  | global (var : Variable)
  | importVariable (name externalName : String) (type : TypeId)
  | importFunction (source : ImportSource)
  | memory (initialNumBytes : Nat) (maxNumBytes : Option Nat)
      (segments : List (Nat × String))
  | table (type : FunctionType) (entries : SNodeIt)

/-- The form of a child of a module: `(func ...)`, `(export "name" reference)`,
`(global $name type)`, `(import $name "externalName" type)`, `(import ...)` of a function,
`(memory initial max (segment base "data")...)` with `max` optional, or
`(table reference...)`. -/
def ModuleItem.form : ModuleItem → SNode
  | .func source => .tree (.symbol (.plain ._func) :: source.children)
  | .exportFunction name reference => .tree [.symbol (.plain ._export), .string name, reference]
  | .global var => variableForm ._global var
  | .importVariable name externalName type =>
    .tree [.symbol (.plain ._import), .unindexedSymbol ("$" ++ name), .string externalName,
      typeNode type]
  | .importFunction source => .tree (.symbol (.plain ._import) :: source.children)
  | .memory initialNumBytes maxNumBytes segments =>
    .tree (.symbol (.plain ._memory) :: .int (initialNumBytes : Int)
      :: ((match maxNumBytes with
          | some maxNumBytes => [.int (maxNumBytes : Int)]
          | none => [])
        ++ segments.map fun segment => segmentForm (segment.1 : Int) segment.2))
  | .table _ entries => .tree (.symbol (.plain ._table) :: entries)

open LLVMJIT

theorem instanceMemoryAddressMask_pow (s k : Nat) (hk : k ≤ 63) (hs : s = 8 ∨ k ≤ 32) :
    instanceMemoryAddressMask s (2 ^ k) = 2 ^ k - 1 := by
  have h1 : 2 ^ k ≤ 2 ^ 63 := Nat.pow_le_pow_right (by decide) hk
  have hpos : 0 < 2 ^ k := Nat.pow_pos (by decide)
  have h2 : k ≤ 32 → 2 ^ k ≤ 2 ^ 32 := fun h => Nat.pow_le_pow_right (by decide) h
  simp only [instanceMemoryAddressMask]
  generalize 2 ^ k = M at *
  rcases hs with hs | hs
  · simp only [hs, if_true]
    omega
  · have := h2 hs
    split <;> omega

theorem functionIndexMask_pow (t : FunctionTable) (k i : Nat)
    (hn : t.numFunctions = 2 ^ k) (hi : i < 2 ^ 32) :
    maskedFunctionIndex t i = i % 2 ^ k := by
  simp only [maskedFunctionIndex, functionIndexMask, hn]
  rw [Nat.mod_eq_of_lt hi]
  by_cases hk : k < 32
  · have h1 : 2 ^ k < 2 ^ 32 := Nat.pow_lt_pow_right (by decide) hk
    have hpos : 0 < 2 ^ k := Nat.pow_pos (by decide)
    have e : (2 ^ k % 2 ^ 32 + 2 ^ 32 - 1) % 2 ^ 32 = 2 ^ k - 1 := by
      generalize 2 ^ k = M at *
      omega
    rw [e, Nat.and_pow_two_sub_one_eq_mod]
  · have hk2 : 32 ≤ k := Nat.le_of_not_lt hk
    have h1 : 2 ^ 32 ≤ 2 ^ k := Nat.pow_le_pow_right (by decide) hk2
    have hd : 2 ^ 32 ∣ 2 ^ k := Nat.pow_dvd_pow 2 hk2
    have e : (2 ^ k % 2 ^ 32 + 2 ^ 32 - 1) % 2 ^ 32 = 2 ^ 32 - 1 := by
      rw [Nat.mod_eq_zero_of_dvd hd]; decide
    rw [e, Nat.and_pow_two_sub_one_eq_mod, Nat.mod_eq_of_lt hi,
      Nat.mod_eq_of_lt (Nat.lt_of_lt_of_le hi h1)]

/-- C1: for a power-of-two address space of `M = 2 ^ k` bytes (`M` a 64-bit unsigned value,
so `k <= 63`; on a host whose `uintptr_t` is not 8 bytes wide the mask is a 32-bit literal
and `k <= 32`) and a guest address `a` (32-bit when the access is not far, 64-bit when it
is), the byte offset `compileAddress` computes is the zero-extended address ANDed with
`M - 1`, equals `a mod M`, and lies in `[0, M)`: read as the signed index of the
`getelementptr` it is never negative, also when the top bit of a 32-bit address is set. -/
theorem compileAddress_offset_in_address_space (sizeofUintptr k a : Nat) (isFarAddress : Bool)
    (hk : k ≤ 63) (hs : sizeofUintptr = 8 ∨ k ≤ 32)
    (ha : a < if isFarAddress then 2 ^ 64 else 2 ^ 32) :
    maskedByteIndex sizeofUintptr (2 ^ k) a isFarAddress
        = (if isFarAddress then a else zext32 a) &&& (2 ^ k - 1) ∧
      compileAddress sizeofUintptr (2 ^ k) a isFarAddress = ((a % 2 ^ k : Nat) : Int) ∧
      0 ≤ compileAddress sizeofUintptr (2 ^ k) a isFarAddress ∧
      compileAddress sizeofUintptr (2 ^ k) a isFarAddress < ((2 ^ k : Nat) : Int) := by
  have hmask := instanceMemoryAddressMask_pow sizeofUintptr k hk hs
  have h1 : 2 ^ k ≤ 2 ^ 63 := Nat.pow_le_pow_right (by decide) hk
  have hpos : 0 < 2 ^ k := Nat.pow_pos (by decide)
  have hidx : maskedByteIndex sizeofUintptr (2 ^ k) a isFarAddress = a % 2 ^ k := by
    simp only [maskedByteIndex, hmask, zext32]
    cases isFarAddress
    · simp only [Bool.false_eq_true, if_false] at ha ⊢
      rw [Nat.mod_eq_of_lt ha, Nat.and_pow_two_sub_one_eq_mod]
    · simp only [if_true] at ha ⊢
      rw [Nat.mod_eq_of_lt ha, Nat.and_pow_two_sub_one_eq_mod]
  have hlt : a % 2 ^ k < 2 ^ k := Nat.mod_lt _ hpos
  have hoff : compileAddress sizeofUintptr (2 ^ k) a isFarAddress = ((a % 2 ^ k : Nat) : Int) := by
    simp only [compileAddress, hidx, asSigned64]
    have h3 : a % 2 ^ k % 2 ^ 64 = a % 2 ^ k := Nat.mod_eq_of_lt (by omega)
    rw [h3, if_pos (by omega)]
  refine ⟨?_, hoff, ?_, ?_⟩
  · rw [hidx]
    cases isFarAddress
    · simp only [Bool.false_eq_true, if_false] at ha ⊢
      rw [zext32, Nat.mod_eq_of_lt ha, Nat.and_pow_two_sub_one_eq_mod]
    · simp only [if_true]
      rw [Nat.and_pow_two_sub_one_eq_mod]
  · rw [hoff]; exact Int.ofNat_nonneg _
  · rw [hoff]; exact Int.ofNat_lt.mpr hlt

/-- C1, at a concrete input: a 4 GiB address space and the 32-bit address `0x80000000`. -/
theorem compileAddress_offset_in_address_space_witness :
    maskedByteIndex 8 (2 ^ 32) 0x80000000 false
        = (if false then 0x80000000 else zext32 0x80000000) &&& (2 ^ 32 - 1) ∧
      compileAddress 8 (2 ^ 32) 0x80000000 false = ((0x80000000 % 2 ^ 32 : Nat) : Int) ∧
      0 ≤ compileAddress 8 (2 ^ 32) 0x80000000 false ∧
      compileAddress 8 (2 ^ 32) 0x80000000 false < ((2 ^ 32 : Nat) : Int) :=
  compileAddress_offset_in_address_space 8 32 0x80000000 false (by decide) (Or.inl rfl)
    (by decide)

/-- C2, evaluated: with an address space of 1024 bytes a 4-byte load or store at guest
address 1023 touches the offsets 1023 to 1026, and with a 4 GiB address space a 4-byte
access at `0xFFFFFFFF` touches offsets up to `2 ^ 32 + 2`: bytes at and beyond
`addressSpaceMaxBytes` are accessed. -/
theorem accessedByteOffsets_beyond_address_space :
    accessedByteOffsets 8 1024 1023 false .I32 = [1023, 1024, 1025, 1026] ∧
      accessedByteOffsets 8 (2 ^ 32) 0xFFFFFFFF false .I32
        = [4294967295, 4294967296, 4294967297, 4294967298] ∧
      ¬ (∀ o ∈ accessedByteOffsets 8 1024 1023 false .I32, 0 ≤ o ∧ o < 1024) := by
  refine ⟨by decide, by decide, ?_⟩
  intro h
  have := h 1026 (by decide)
  omega

/-- A 32-bit value below `2 ^ 31` is its own signed reading. -/
theorem asSigned32_of_lt (v : Nat) (hv : v < 2 ^ 31) : asSigned32 v = (v : Int) := by
  unfold asSigned32
  have h : v % 2 ^ 32 = v := Nat.mod_eq_of_lt (by omega)
  rw [h, if_pos hv]

/-- The creation of the function tables returns only when it returns for each table. -/
theorem createFunctionTables_ok (numFunctions : Nat) (tables : List FunctionTable)
    (hok : createFunctionTables numFunctions tables = .ok ()) (t : FunctionTable)
    (ht : t ∈ tables) : createFunctionTable numFunctions t = .ok () := by
  induction tables with
  | nil => cases ht
  | cons head rest ih =>
    unfold createFunctionTables at hok
    cases hhead : createFunctionTable numFunctions head with
    | error fault => rw [hhead] at hok; cases hok
    | ok u =>
      cases u
      rw [hhead] at hok
      rcases List.mem_cons.mp ht with rfl | hmem
      · exact hhead
      · exact ih hok hmem

/-- The loop over the entries of a table of `2 ^ 32` entries or more does not end. -/
theorem createFunctionTable_ok (numFunctions : Nat) (t : FunctionTable)
    (hok : createFunctionTable numFunctions t = .ok ()) : t.numFunctions < 2 ^ 32 := by
  unfold createFunctionTable at hok
  by_contra hlarge
  cases helements : createFunctionTableElements numFunctions t.functionIndices
      (min t.numFunctions (2 ^ 32)) 0 with
  | error fault => rw [helements] at hok; cases hok
  | ok u =>
    cases u
    rw [helements] at hok
    simp only [if_neg hlarge] at hok
    cases hok

/-- The code generation of a module returns only when every function table of the module
has fewer than `2 ^ 32` entries. -/
theorem generateCode_ok_table (astModule : Module) (hok : generateCode astModule = .ok ())
    (t : FunctionTable) (ht : t ∈ astModule.functionTables) : t.numFunctions < 2 ^ 32 := by
  unfold generateCode at hok
  cases h1 : createFunctions astModule.functions with
  | error fault => rw [h1] at hok; cases hok
  | ok u1 =>
    cases u1
    cases h2 : createGlobalVariables astModule.globals with
    | error fault => rw [h1, h2] at hok; cases hok
    | ok u2 =>
      cases u2
      cases h3 : renameVariableImports astModule.globals.length astModule.variableImports with
      | error fault => rw [h1, h2, h3] at hok; cases hok
      | ok u3 =>
        cases u3
        cases h4 : createFunctionImportGlobals astModule.functionImports with
        | error fault => rw [h1, h2, h3, h4] at hok; cases hok
        | ok u4 =>
          cases u4
          cases h5 : createFunctionTables astModule.functions.length
              astModule.functionTables with
          | error fault => rw [h1, h2, h3, h4, h5] at hok; cases hok
          | ok u5 =>
            cases u5
            exact createFunctionTable_ok _ t (createFunctionTables_ok _ _ h5 t ht)

/-- `compileModule` returns only when its code generation does. -/
theorem compileModule_ok_generateCode (singleton : Intrinsics.Singleton)
    (executionEngine : Except String Unit) (verifyFails : Bool) (astModule : Module)
    (result : Bool × List String)
    (hok : compileModule singleton executionEngine verifyFails astModule = .ok result) :
    generateCode astModule = .ok () := by
  unfold compileModule at hok
  cases hgen : generateCode astModule with
  | error fault => rw [hgen] at hok; cases hok
  | ok u => rfl

/-- C3: for a function table of `n = 2 ^ k` entries (`functionIndices` holding
`numFunctions = n` indices) and a 32-bit index `i`, the slot `visitCallIndirect` selects,
`i AND (n - 1)`, is `i mod n`; for `k <= 31` the function dispatched is
`functionIndices[i mod n]` whenever that function's prefix word is zero, as it is for the
prefix data `compileModule` gives every function. For `k >= 32` no call is dispatched:
`compileModule` does not return for a module that holds the table, as the `uint32` counter
of its loop over the entries never reaches `numFunctions`. -/
theorem visitCallIndirect_dispatches_mod (t : FunctionTable) (k i : Nat)
    (prefixData : Nat → Nat)
    (hn : t.numFunctions = 2 ^ k) (hlen : t.functionIndices.length = t.numFunctions)
    (hi : i < 2 ^ 32) :
    maskedFunctionIndex t i = i % 2 ^ k ∧
      ∃ f, t.functionIndices[i % 2 ^ k]? = some f ∧
        (k ≤ 31 →
          (prefixData f = 0 → visitCallIndirect t prefixData i = some f) ∧
          visitCallIndirect t compileModulePrefixData i = some f) ∧
        (32 ≤ k → ∀ singleton executionEngine verifyFails (astModule : Module),
          t ∈ astModule.functionTables → ∀ result,
            compileModule singleton executionEngine verifyFails astModule ≠ .ok result) := by
  have hslot := functionIndexMask_pow t k i hn hi
  have hpos : 0 < 2 ^ k := Nat.pow_pos (by decide)
  have hlt : i % 2 ^ k < t.functionIndices.length := by
    rw [hlen, hn]; exact Nat.mod_lt _ hpos
  refine ⟨hslot, t.functionIndices[i % 2 ^ k], List.getElem?_eq_getElem hlt, ?_, ?_⟩
  · intro hk
    have hsmall : i % 2 ^ k < 2 ^ 31 :=
      Nat.lt_of_lt_of_le (Nat.mod_lt _ hpos) (Nat.pow_le_pow_right (by decide) hk)
    have hinBounds : (0 : Int) ≤ ((i % 2 ^ k : Nat) : Int)
        ∧ ((i % 2 ^ k : Nat) : Int) < (t.numFunctions : Int) :=
      ⟨Int.ofNat_nonneg _, Int.ofNat_lt.mpr (by rw [← hlen]; exact hlt)⟩
    constructor
    · intro hp
      simp only [visitCallIndirect, hslot, asSigned32_of_lt _ hsmall]
      rw [if_pos hinBounds, Int.toNat_ofNat, List.getElem?_eq_getElem hlt]
      simp only [hp, if_true]
    · simp only [visitCallIndirect, hslot, asSigned32_of_lt _ hsmall]
      rw [if_pos hinBounds, Int.toNat_ofNat, List.getElem?_eq_getElem hlt]
      simp only [compileModulePrefixData, if_true]
  · intro hk singleton executionEngine verifyFails astModule ht result hok
    have hsize := generateCode_ok_table astModule
      (compileModule_ok_generateCode _ _ _ _ _ hok) t ht
    have hlarge : 2 ^ 32 ≤ 2 ^ k := Nat.pow_le_pow_right (by decide) hk
    omega

/-- C3, at a concrete input: a 4-entry table and the guest index 6 select slot 2. -/
theorem visitCallIndirect_dispatches_mod_witness :
    maskedFunctionIndex ⟨{}, [10, 11, 12, 13], 4⟩ 6 = 6 % 2 ^ 2 ∧
      ∃ f, ([10, 11, 12, 13] : List Nat)[6 % 2 ^ 2]? = some f ∧
        (compileModulePrefixData f = 0 →
          visitCallIndirect ⟨{}, [10, 11, 12, 13], 4⟩ compileModulePrefixData 6 = some f) ∧
        visitCallIndirect ⟨{}, [10, 11, 12, 13], 4⟩ compileModulePrefixData 6 = some f :=
  match visitCallIndirect_dispatches_mod ⟨{}, [10, 11, 12, 13], 4⟩ 2 6 compileModulePrefixData
    rfl rfl (by decide) with
  | ⟨hslot, f, hentry, hdispatch, _⟩ =>
    ⟨hslot, f, hentry, (hdispatch (by decide)).1, (hdispatch (by decide)).2⟩

theorem nameOfString_dollar (name : String) : nameOfString ("$" ++ name) = some name := by
  simp [nameOfString, String.data_append]

theorem parseName_dollar (name : String) (rest : SNodeIt) :
    parseName (.unindexedSymbol ("$" ++ name) :: rest) = some (name, rest) := by
  simp [parseName, nameOfString_dollar]

theorem toUintptr_of_nonneg (n : Int) (h0 : 0 ≤ n) (h1 : n < 2 ^ 64) : toUintptr n = n.toNat := by
  unfold toUintptr
  rw [Int.emod_eq_of_lt h0 h1]

/-- C6: `parseNameOrIndex` returns true with `outIndex = n` on an integer node `n` with
`0 <= n < numValidIndices`; returns true with `outIndex = nameToIndex[name]` on a `$name`
node whose name is a key; and returns false on a `$name` node whose name is not a key, on
a node that is neither an integer nor a `$name`, and on the null iterator. -/
theorem parseNameOrIndex_resolves (nameToIndex : NameMap Nat) (numValidIndices : Nat)
    (rest : SNodeIt) (hsize : numValidIndices < 2 ^ 64) :
    (∀ n : Int, 0 ≤ n → n < (numValidIndices : Int) →
        parseNameOrIndex (.int n :: rest) nameToIndex numValidIndices = (some n.toNat, rest)) ∧
    (∀ (name : String) (index : Nat), nameToIndex.find name = some index →
        parseNameOrIndex (.unindexedSymbol ("$" ++ name) :: rest) nameToIndex numValidIndices
          = (some index, rest)) ∧
    (∀ name : String, nameToIndex.find name = none →
        (parseNameOrIndex (.unindexedSymbol ("$" ++ name) :: rest) nameToIndex
          numValidIndices).1 = none) ∧
    (∀ node : SNode, (∀ n, node ≠ .int n) → (∀ name, node ≠ .unindexedSymbol ("$" ++ name)) →
        (parseNameOrIndex (node :: rest) nameToIndex numValidIndices).1 = none) ∧
    (parseNameOrIndex [] nameToIndex numValidIndices).1 = none := by
  refine ⟨?_, ?_, ?_, ?_, ?_⟩
  · intro n h0 h1
    have h2 : n < 2 ^ 64 := by
      have : (numValidIndices : Int) < 2 ^ 64 := by exact_mod_cast hsize
      omega
    have h3 : toUintptr n = n.toNat := toUintptr_of_nonneg n h0 h2
    have h4 : n.toNat < numValidIndices := by omega
    simp [parseNameOrIndex, parseInt, h3, h4, h0]
  · intro name index hfind
    simp [parseNameOrIndex, parseInt, parseName_dollar, hfind]
  · intro name hfind
    simp [parseNameOrIndex, parseInt, parseName_dollar, hfind]
  · intro node hint hname
    cases node with
    | int n => exact absurd rfl (hint n)
    | unindexedSymbol s =>
      simp only [parseNameOrIndex, parseInt, parseName]
      cases hs : nameOfString s with
      | none => simp
      | some name =>
        exfalso
        apply hname name
        have : s = "$" ++ name := by
          unfold nameOfString at hs
          split at hs
          · next n hd =>
            injection hs with hs
            subst hs
            apply String.ext
            simp [String.data_append, hd]
          · exact absurd hs (by simp)
        rw [this]
    | tree c => simp [parseNameOrIndex, parseInt, parseName]
    | symbol c => simp [parseNameOrIndex, parseInt, parseName]
    | decimal c => simp [parseNameOrIndex, parseInt, parseName]
    | error c => simp [parseNameOrIndex, parseInt, parseName]
    | string c => simp [parseNameOrIndex, parseInt, parseName]
  · simp [parseNameOrIndex, parseInt, parseName]

/-- C6, at concrete inputs: with functions `$f` and `$g` declared, `1` and `$g` resolve to
index 1, `$h` and a string node do not resolve. -/
theorem parseNameOrIndex_resolves_witness :
    parseNameOrIndex [.int 1] [("f", 0), ("g", 1)] 2 = (some (1 : Int).toNat, []) ∧
    parseNameOrIndex [.unindexedSymbol ("$" ++ "g")] [("f", 0), ("g", 1)] 2 = (some 1, []) ∧
    (parseNameOrIndex [.unindexedSymbol ("$" ++ "h")] [("f", 0), ("g", 1)] 2).1 = none ∧
    (parseNameOrIndex [.string "g"] [("f", 0), ("g", 1)] 2).1 = none :=
  have h := parseNameOrIndex_resolves [("f", 0), ("g", 1)] 2 [] (by decide)
  ⟨h.1 1 (by decide) (by decide), h.2.1 "g" 1 rfl, h.2.2.1 "h" rfl,
    h.2.2.2.1 (.string "g") (fun _ hc => by cases hc) (fun _ hc => by cases hc)⟩

/-- C7, evaluated: with one function `$f`, the out-of-range integer 7 followed by `$f`
makes `parseNameOrIndex` return true with `outIndex = 0`; likewise for the negative
integer `-1`. An out-of-range integer followed by anything but a known `$name` returns
false. -/
theorem parseNameOrIndex_out_of_range_then_name :
    parseNameOrIndex [.int 7, .unindexedSymbol "$f"] [("f", 0)] 1 = (some 0, []) ∧
    parseNameOrIndex [.int (-1), .unindexedSymbol "$f"] [("f", 0)] 1 = (some 0, []) ∧
    parseNameOrIndex [.int 7] [("f", 0)] 1 = (none, []) := by
  refine ⟨rfl, rfl, rfl⟩

/-- The message `typeError` records. -/
theorem typeError_run (cls : TypeClassId) (E : TypeId) (te : TypedExpression) (nodeIt : SNodeIt)
    (errorContext : String) (ctx : FunctionContext) :
    typeError cls E te nodeIt errorContext ctx =
      .ok (.Error cls ("type error: expecting a " ++ getTypeName E ++ " " ++ errorContext
          ++ " but found " ++ getTypeName te.type),
        ctx.recordError nodeIt ("type error: expecting a " ++ getTypeName E ++ " "
          ++ errorContext ++ " but found " ++ getTypeName te.type)) := rfl

theorem recordError_outErrors (ctx : FunctionContext) (nodeIt : SNodeIt) (message : String) :
    (ctx.recordError nodeIt message).outErrors
      = ctx.outErrors ++ [{ message := message, node := nodeIt.head? }] := rfl

/-- C4: for a produced expression `v` of type `T` and an expected type `E` (of class
`cls`), `coerceExpression` returns, leaving the context and so the error list unchanged:
`v` when `E = T`; `DiscardResult(v)` when `E` is void and `T` is not; `Comparison(ne, T,
v, Literal<T>(0))` when `E` is bool and `T` is an integer type; `Cast(reinterpretBool, v)`
when `E` is an integer type and `T` is bool. -/
theorem coerceExpression_rules (v : Expression) (T E : TypeId) (cls : TypeClassId)
    (nodeIt : SNodeIt) (errorContext : String) (ctx : FunctionContext)
    (hcls : getPrimaryTypeClass E = some cls) :
    (E = T → coerceExpression cls E ⟨v, T⟩ nodeIt errorContext ctx = .ok (v, ctx)) ∧
    (E = .Void → T ≠ .Void →
      coerceExpression cls E ⟨v, T⟩ nodeIt errorContext ctx = .ok (.DiscardResult v T, ctx)) ∧
    (E = .Bool → isTypeClass T .Int = true →
      coerceExpression cls E ⟨v, T⟩ nodeIt errorContext ctx
        = .ok (.Comparison .ne T v (.Literal T (.int 0)), ctx)) ∧
    (isTypeClass E .Int = true → T = .Bool →
      coerceExpression cls E ⟨v, T⟩ nodeIt errorContext ctx
        = .ok (.Cast (.Int .reinterpretBool) v T, ctx)) := by
  refine ⟨?_, ?_, ?_, ?_⟩
  · intro h
    subst h
    cases E <;> simp [getPrimaryTypeClass] at hcls <;> subst hcls <;> rfl
  · intro hE hT
    subst hE
    simp [getPrimaryTypeClass] at hcls
    subst hcls
    cases T <;> first | exact absurd rfl hT | rfl
  · intro hE hT
    subst hE
    simp [getPrimaryTypeClass] at hcls
    subst hcls
    cases T <;> first | rfl | exact absurd hT (by decide)
  · intro hE hT
    subst hT
    cases E <;> first | exact absurd hE (by decide) | skip
    all_goals simp [getPrimaryTypeClass] at hcls
    all_goals subst hcls
    all_goals rfl

/-- C4, at concrete inputs: a local of type `i32` where `i32`, void and bool are
expected, and a bool where `i64` is expected. -/
theorem coerceExpression_rules_witness :
    let ctx := dummyFunctionContext
    coerceExpression .Int .I32 ⟨.GetVariable .getLocal (some .Int) 0, .I32⟩ [] "variable" ctx
      = .ok (.GetVariable .getLocal (some .Int) 0, ctx) ∧
    coerceExpression .Void .Void ⟨.GetVariable .getLocal (some .Int) 0, .I32⟩ [] "variable" ctx
      = .ok (.DiscardResult (.GetVariable .getLocal (some .Int) 0) .I32, ctx) ∧
    coerceExpression .Bool .Bool ⟨.GetVariable .getLocal (some .Int) 0, .I32⟩ [] "variable" ctx
      = .ok (.Comparison .ne .I32 (.GetVariable .getLocal (some .Int) 0)
          (.Literal .I32 (.int 0)), ctx) ∧
    coerceExpression .Int .I64 ⟨.GetVariable .getLocal (some .Bool) 0, .Bool⟩ [] "variable" ctx
      = .ok (.Cast (.Int .reinterpretBool) (.GetVariable .getLocal (some .Bool) 0) .Bool, ctx) :=
  ⟨(coerceExpression_rules _ .I32 .I32 .Int [] "variable" dummyFunctionContext rfl).1 rfl,
   (coerceExpression_rules _ .I32 .Void .Void [] "variable" dummyFunctionContext rfl).2.1 rfl
     (by decide),
   (coerceExpression_rules _ .I32 .Bool .Bool [] "variable" dummyFunctionContext rfl).2.2.1
     rfl rfl,
   (coerceExpression_rules _ .Bool .I64 .Int [] "variable" dummyFunctionContext rfl).2.2.2
     rfl rfl⟩

/-- The mismatches no coercion rule covers. -/
theorem coerceExpression_mismatch (v : Expression) (T E : TypeId) (cls : TypeClassId)
    (nodeIt : SNodeIt) (errorContext : String) (ctx : FunctionContext)
    (hcls : getPrimaryTypeClass E = some cls)
    (hcond : T ≠ E ∧ E ≠ .Void ∧ ¬ (E = .Bool ∧ isTypeClass T .Int = true) ∧
      ¬ (isTypeClass E .Int = true ∧ T = .Bool)) :
    coerceExpression cls E ⟨v, T⟩ nodeIt errorContext ctx
      = typeError cls E ⟨v, T⟩ nodeIt errorContext ctx := by
  cases E <;> simp [getPrimaryTypeClass] at hcls <;> subst hcls <;> cases T <;>
    first
    | rfl
    | (exfalso; revert hcond; decide)

/-- The pairs some coercion rule covers: the context is returned unchanged. -/
theorem coerceExpression_covered (v : Expression) (T E : TypeId) (cls : TypeClassId)
    (nodeIt : SNodeIt) (errorContext : String) (ctx : FunctionContext)
    (hcls : getPrimaryTypeClass E = some cls)
    (hcond : ¬ (T ≠ E ∧ E ≠ .Void ∧ ¬ (E = .Bool ∧ isTypeClass T .Int = true) ∧
      ¬ (isTypeClass E .Int = true ∧ T = .Bool))) :
    ∃ e, coerceExpression cls E ⟨v, T⟩ nodeIt errorContext ctx = .ok (e, ctx) := by
  cases E <;> simp [getPrimaryTypeClass] at hcls <;> subst hcls <;> cases T <;>
    first
    | exact ⟨_, rfl⟩
    | (exfalso; revert hcond; decide)

/-- C5: `coerceExpression` records a type error, that is appends exactly one record to
the error list and returns an `Error` node of the expected class carrying its message, if
and only if the produced type `T` differs from the expected type `E` and no coercion rule
applies: `E` is not void, not (`E` bool with `T` an integer type), and not (`E` an integer
type with `T` bool). -/
theorem coerceExpression_type_error_iff (v : Expression) (T E : TypeId) (cls : TypeClassId)
    (nodeIt : SNodeIt) (errorContext : String) (ctx : FunctionContext)
    (hcls : getPrimaryTypeClass E = some cls) :
    (∃ message ctx', coerceExpression cls E ⟨v, T⟩ nodeIt errorContext ctx
          = .ok (.Error cls message, ctx') ∧
        ctx'.outErrors = ctx.outErrors ++ [{ message := message, node := nodeIt.head? }]) ↔
      (T ≠ E ∧ E ≠ .Void ∧ ¬ (E = .Bool ∧ isTypeClass T .Int = true) ∧
        ¬ (isTypeClass E .Int = true ∧ T = .Bool)) := by
  constructor
  · rintro ⟨message, ctx', hrun, herr⟩
    by_contra hcond
    obtain ⟨e, he⟩ := coerceExpression_covered v T E cls nodeIt errorContext ctx hcls hcond
    rw [he] at hrun
    injection hrun with hrun
    injection hrun with _ hctx
    subst hctx
    have := congrArg List.length herr
    simp at this
  · intro hcond
    rw [coerceExpression_mismatch v T E cls nodeIt errorContext ctx hcls hcond, typeError_run]
    exact ⟨_, _, rfl, recordError_outErrors ctx nodeIt _⟩

/-- C5, at concrete inputs: an `i64` where `i32` is expected, an `i32` where `f32` is
expected, an `f64` where bool is expected and a bool where `f64` is expected are type
errors. -/
theorem coerceExpression_type_error_iff_witness :
    (∃ message ctx', coerceExpression .Int .I32 ⟨.Nop, .I64⟩ [] "operand" dummyFunctionContext
          = .ok (.Error .Int message, ctx') ∧
        ctx'.outErrors = dummyFunctionContext.outErrors ++ [{ message := message, node := none }]) ∧
    (∃ message ctx', coerceExpression .Float .F32 ⟨.Nop, .I32⟩ [] "operand" dummyFunctionContext
          = .ok (.Error .Float message, ctx') ∧
        ctx'.outErrors = dummyFunctionContext.outErrors ++ [{ message := message, node := none }]) ∧
    (∃ message ctx', coerceExpression .Bool .Bool ⟨.Nop, .F64⟩ [] "operand" dummyFunctionContext
          = .ok (.Error .Bool message, ctx') ∧
        ctx'.outErrors = dummyFunctionContext.outErrors ++ [{ message := message, node := none }]) ∧
    (∃ message ctx', coerceExpression .Float .F64 ⟨.Nop, .Bool⟩ [] "operand" dummyFunctionContext
          = .ok (.Error .Float message, ctx') ∧
        ctx'.outErrors = dummyFunctionContext.outErrors ++ [{ message := message, node := none }]) :=
  ⟨(coerceExpression_type_error_iff .Nop .I64 .I32 .Int [] "operand" dummyFunctionContext rfl).mpr
      (by decide),
   (coerceExpression_type_error_iff .Nop .I32 .F32 .Float [] "operand" dummyFunctionContext rfl).mpr
      (by decide),
   (coerceExpression_type_error_iff .Nop .F64 .Bool .Bool [] "operand" dummyFunctionContext rfl).mpr
      (by decide),
   (coerceExpression_type_error_iff .Nop .Bool .F64 .Float [] "operand" dummyFunctionContext rfl).mpr
      (by decide)⟩

theorem lookup_cons_self {β : Type} (k : String) (v : β) (rest : List (String × β)) :
    List.lookup k ((k, v) :: rest) = some v := by
  simp [List.lookup]

theorem lookup_cons_ne {β : Type} (k k' : String) (v : β) (rest : List (String × β))
    (h : k' ≠ k) : List.lookup k' ((k, v) :: rest) = List.lookup k' rest := by
  have hb : (k' == k) = false := by simpa using h
  simp only [List.lookup, hb]

theorem NameMap.find_erase_ne {β : Type} (map : NameMap β) (key key' : String) (h : key' ≠ key) :
    (map.erase key).find key' = map.find key' := by
  induction map with
  | nil => rfl
  | cons entry rest ih =>
    obtain ⟨k, v⟩ := entry
    simp only [NameMap.erase, NameMap.find] at ih ⊢
    by_cases hk : k = key
    · subst hk
      rw [lookup_cons_ne _ _ _ _ h]
      simpa [List.filter_cons] using ih
    · have hb : (k != key) = true := by simpa using hk
      rw [List.filter_cons, if_pos (by simpa using hk)]
      by_cases hk' : key' = k
      · subst hk'
        rw [lookup_cons_self, lookup_cons_self]
      · rw [lookup_cons_ne _ _ _ _ hk', lookup_cons_ne _ _ _ _ hk', ih]

theorem NameMap.find_set {β : Type} (map : NameMap β) (key key' : String) (value : β) :
    (map.set key value).find key' = if key' = key then some value else map.find key' := by
  by_cases h : key' = key
  · subst h
    simp only [NameMap.set, NameMap.find, lookup_cons_self, if_true]
  · have := NameMap.find_erase_ne map key key' h
    simp only [NameMap.find] at this
    simp only [NameMap.set, NameMap.find, lookup_cons_ne _ _ _ _ h, this, if_neg h]

theorem NameMap.erase_of_find_none {β : Type} (map : NameMap β) (key : String)
    (h : map.find key = none) : map.erase key = map := by
  induction map with
  | nil => rfl
  | cons entry rest ih =>
    obtain ⟨k, v⟩ := entry
    simp only [NameMap.find, NameMap.erase] at h ih ⊢
    by_cases hk : key = k
    · subst hk
      rw [lookup_cons_self] at h
      exact absurd h (by simp)
    · rw [lookup_cons_ne _ _ _ _ hk] at h
      have hk' : ¬ k = key := fun h' => hk h'.symm
      rw [List.filter_cons, if_pos (by simpa using hk'), ih h]

theorem NameMap.erase_set {β : Type} (map : NameMap β) (key : String) (value : β)
    (h : map.find key = none) : (map.set key value).erase key = map := by
  have h1 := NameMap.erase_of_find_none map key h
  simp only [NameMap.set, NameMap.erase] at h1 ⊢
  rw [List.filter_cons, if_neg (by simp), List.filter_filter]
  simpa using h1

theorem NameMap.count_eq_zero {β : Type} (map : NameMap β) (key : String)
    (h : map.find key = none) : map.count key = 0 := by
  simp [NameMap.count, h]

theorem parseTypedExpressionBody_label (self : ParseTyped) (cls : TypeClassId) (T : TypeId)
    (name : Option String) (children rest : SNodeIt) (ec : String)
    (ctx ctx' : FunctionContext) (e : Expression)
    (hfresh : ∀ n, name = some n → ctx.labelToBranchTargetMap.find n = none)
    (hbody : self cls T [.tree children] "label body" (ctx.enterLabel name T)
      = .ok ((e, rest), ctx')) :
    parseTypedExpressionBody self cls T [labelForm name [.tree children]] ec ctx
      = .ok ((.Label cls ⟨ctx.numBranchTargets, T⟩ e, []), ctx'.leaveLabel name) := by
  cases name with
  | none =>
    simp only [FunctionContext.enterLabel, FunctionContext.addBranchTargets,
      FunctionContext.numBranchTargets] at hbody
    simp [parseTypedExpressionBody, labelForm, nameNodes, parseNonParametricExpression,
      parseTreeNode, parseSymbol, parseParametricExpression, parseLabel, parseName,
      bind, StateT.bind, get, getThe, MonadStateOf.get, StateT.get, pure, StateT.pure,
      Except.pure, Except.bind, Functor.map, StateT.map, Except.map,
      allocateBranchTarget, pushScopedBranchTarget,
      popScopedBranchTarget, parseExpressionSequence, parseExpressionSequenceOps,
      FunctionContext.leaveLabel, FunctionContext.numBranchTargets, hbody]
  | some n =>
    have hc : ctx.labelToBranchTargetMap.count n = 0 :=
      NameMap.count_eq_zero _ _ (hfresh n rfl)
    simp only [FunctionContext.enterLabel, FunctionContext.addBranchTargets,
      FunctionContext.numBranchTargets] at hbody
    simp [parseTypedExpressionBody, labelForm, nameNodes, parseNonParametricExpression,
      parseTreeNode, parseSymbol, parseParametricExpression, parseLabel, parseName,
      nameOfString_dollar, hc, setLabel, eraseLabel,
      bind, StateT.bind, get, getThe, MonadStateOf.get, StateT.get, pure, StateT.pure,
      Except.pure, Except.bind, Functor.map, StateT.map, Except.map,
      allocateBranchTarget, pushScopedBranchTarget,
      popScopedBranchTarget, parseExpressionSequence, parseExpressionSequenceOps,
      FunctionContext.leaveLabel, FunctionContext.numBranchTargets, hbody]

theorem parseTypedExpressionBody_break_index (self : ParseTyped) (cls : TypeClassId) (T : TypeId)
    (k : Nat) (operands : SNodeIt) (value : Option Expression) (ec : String)
    (ctx : FunctionContext) (target : BranchTarget)
    (hk : k < ctx.scopedBranchTargets.length) (hk64 : k < 2 ^ 63)
    (htarget : ctx.scopedBranchTargets[ctx.scopedBranchTargets.length - 1 - k]? = some target)
    (hvalue : (target.type = .Void ∧ operands = [] ∧ value = none) ∨
      (target.type ≠ .Void ∧ ∃ v, value = some v ∧
        parseTypedExpressionOfType self target.type operands "break value" ctx
          = .ok ((v, []), ctx))) :
    parseTypedExpressionBody self cls T [breakForm (.int (k : Int)) operands] ec ctx
      = .ok ((.Branch cls target value, []), ctx) := by
  have h1 : toUintptr (k : Int) = k := by
    rw [toUintptr_of_nonneg _ (Int.ofNat_nonneg k) (by omega)]
    simp
  rcases hvalue with ⟨hv, ho, hval⟩ | ⟨hv, v, hval, hparse⟩
  · subst ho hval
    simp [parseTypedExpressionBody, breakForm, parseNonParametricExpression,
      parseTreeNode, parseSymbol, parseParametricExpression, parseBreak, resolveBranchTarget,
      parseInt, h1, hk, htarget, hv, requireFullMatch,
      bind, StateT.bind, get, getThe, MonadStateOf.get, StateT.get, pure, StateT.pure,
      Except.pure, Except.bind, Functor.map, StateT.map, Except.map]
  · subst hval
    simp [parseTypedExpressionBody, breakForm, parseNonParametricExpression,
      parseTreeNode, parseSymbol, parseParametricExpression, parseBreak, resolveBranchTarget,
      parseInt, h1, hk, htarget, hv, hparse, requireFullMatch,
      bind, StateT.bind, get, getThe, MonadStateOf.get, StateT.get, pure, StateT.pure,
      Except.pure, Except.bind, Functor.map, StateT.map, Except.map]

theorem parseTypedExpressionBody_break_name (self : ParseTyped) (cls : TypeClassId) (T : TypeId)
    (n : String) (operands : SNodeIt) (value : Option Expression) (ec : String)
    (ctx : FunctionContext) (target : BranchTarget)
    (hfind : ctx.labelToBranchTargetMap.find n = some target)
    (hvalue : (target.type = .Void ∧ operands = [] ∧ value = none) ∨
      (target.type ≠ .Void ∧ ∃ v, value = some v ∧
        parseTypedExpressionOfType self target.type operands "break value" ctx
          = .ok ((v, []), ctx))) :
    parseTypedExpressionBody self cls T [breakForm (.unindexedSymbol ("$" ++ n)) operands] ec ctx
      = .ok ((.Branch cls target value, []), ctx) := by
  rcases hvalue with ⟨hv, ho, hval⟩ | ⟨hv, v, hval, hparse⟩
  · subst ho hval
    simp [parseTypedExpressionBody, breakForm, parseNonParametricExpression,
      parseTreeNode, parseSymbol, parseParametricExpression, parseBreak, resolveBranchTarget,
      parseInt, parseName, nameOfString_dollar, hfind, hv, requireFullMatch,
      bind, StateT.bind, get, getThe, MonadStateOf.get, StateT.get, pure, StateT.pure,
      Except.pure, Except.bind, Functor.map, StateT.map, Except.map]
  · subst hval
    simp [parseTypedExpressionBody, breakForm, parseNonParametricExpression,
      parseTreeNode, parseSymbol, parseParametricExpression, parseBreak, resolveBranchTarget,
      parseInt, parseName, nameOfString_dollar, hfind, hv, hparse, requireFullMatch,
      bind, StateT.bind, get, getThe, MonadStateOf.get, StateT.get, pure, StateT.pure,
      Except.pure, Except.bind, Functor.map, StateT.map, Except.map]

theorem nestedLabels_tree (names : List (Option String)) (children : SNodeIt) :
    ∃ ch, nestedLabels names (.tree children) = .tree ch := by
  cases names with
  | nil => exact ⟨children, rfl⟩
  | cons name rest => exact ⟨_, rfl⟩

theorem leaveLabel_enterLabel (ctx : FunctionContext) (name : Option String) (T : TypeId)
    (k : Nat) (hfresh : ∀ n, name = some n → ctx.labelToBranchTargetMap.find n = none) :
    ((ctx.enterLabel name T).addBranchTargets k).leaveLabel name = ctx.addBranchTargets (k + 1) := by
  cases name with
  | none =>
    simp [FunctionContext.enterLabel, FunctionContext.addBranchTargets,
      FunctionContext.leaveLabel]
    omega
  | some n =>
    simp [FunctionContext.enterLabel, FunctionContext.addBranchTargets,
      FunctionContext.leaveLabel, NameMap.erase_set _ _ _ (hfresh n rfl)]
    omega

theorem enterLabel_find (ctx : FunctionContext) (name : Option String) (T : TypeId)
    (n : String) (hne : name ≠ some n) :
    (ctx.enterLabel name T).labelToBranchTargetMap.find n = ctx.labelToBranchTargetMap.find n := by
  cases name with
  | none => rfl
  | some m =>
    have : n ≠ m := fun h => hne (by rw [h])
    simp [FunctionContext.enterLabel, NameMap.find_set, this]

theorem enterLabels_numBranchTargets (T : TypeId) (names : List (Option String))
    (ctx : FunctionContext) :
    (ctx.enterLabels T names).numBranchTargets = ctx.numBranchTargets + names.length := by
  induction names generalizing ctx with
  | nil => rfl
  | cons name rest ih =>
    simp only [FunctionContext.enterLabels, ih, List.length_cons]
    simp [FunctionContext.enterLabel, FunctionContext.addBranchTargets,
      FunctionContext.numBranchTargets]
    omega

theorem enterLabels_scoped (T : TypeId) (names : List (Option String)) (ctx : FunctionContext) :
    (ctx.enterLabels T names).scopedBranchTargets
      = ctx.scopedBranchTargets
        ++ (List.range names.length).map fun i => (⟨ctx.numBranchTargets + i, T⟩ : BranchTarget) := by
  induction names generalizing ctx with
  | nil => simp [FunctionContext.enterLabels]
  | cons name rest ih =>
    simp only [FunctionContext.enterLabels, ih, List.length_cons, List.range_succ_eq_map,
      List.map_cons, List.map_map]
    simp [FunctionContext.enterLabel, FunctionContext.addBranchTargets,
      FunctionContext.numBranchTargets, Function.comp_def]
    intro a _
    omega

theorem enterLabels_find_of_not_mem (T : TypeId) (names : List (Option String))
    (ctx : FunctionContext) (n : String) (h : some n ∉ names) :
    (ctx.enterLabels T names).labelToBranchTargetMap.find n
      = ctx.labelToBranchTargetMap.find n := by
  induction names generalizing ctx with
  | nil => rfl
  | cons name rest ih =>
    simp only [List.mem_cons, not_or] at h
    simp only [FunctionContext.enterLabels]
    rw [ih _ h.2, enterLabel_find _ _ _ _ (fun hc => h.1 hc.symm)]

theorem enterLabels_find (T : TypeId) (names : List (Option String)) (ctx : FunctionContext)
    (n : String) (j : Nat) (hnodup : (names.filterMap id).Nodup)
    (hj : names[j]? = some (some n)) :
    (ctx.enterLabels T names).labelToBranchTargetMap.find n
      = some ⟨ctx.numBranchTargets + j, T⟩ := by
  induction names generalizing ctx j with
  | nil => simp at hj
  | cons name rest ih =>
    simp only [FunctionContext.enterLabels]
    cases j with
    | zero =>
      simp only [List.getElem?_cons_zero, Option.some.injEq] at hj
      subst hj
      have hnot : some n ∉ rest := by
        intro hmem
        simp only [List.filterMap_cons, id_eq, List.nodup_cons] at hnodup
        exact hnodup.1 (List.mem_filterMap.mpr ⟨some n, hmem, rfl⟩)
      rw [enterLabels_find_of_not_mem _ _ _ _ hnot]
      simp [FunctionContext.enterLabel, NameMap.find_set]
    | succ j =>
      simp only [List.getElem?_cons_succ] at hj
      have hnodup' : (rest.filterMap id).Nodup := by
        cases name with
        | none => simpa [List.filterMap_cons] using hnodup
        | some m =>
          simp only [List.filterMap_cons, id_eq, List.nodup_cons] at hnodup
          exact hnodup.2
      rw [ih _ _ hnodup' hj]
      simp [FunctionContext.enterLabel, FunctionContext.addBranchTargets,
        FunctionContext.numBranchTargets]
      omega

theorem parseTypedExpression_nestedLabels (f : Nat) (cls : TypeClassId) (T : TypeId)
    (names : List (Option String)) (innerChildren : SNodeIt) (e : Expression)
    (ctx : FunctionContext)
    (hnodup : (names.filterMap id).Nodup)
    (hfresh : ∀ n, some n ∈ names → ctx.labelToBranchTargetMap.find n = none)
    (hinner : ∀ ec, parseTypedExpression (f + 1) cls T [.tree innerChildren] ec
        (ctx.enterLabels T names) = .ok ((e, []), ctx.enterLabels T names)) :
    ∀ ec, parseTypedExpression (f + 1 + names.length) cls T
        [nestedLabels names (.tree innerChildren)] ec ctx
      = .ok ((nestedLabelExpressions cls T ctx.numBranchTargets names.length e, []),
          ctx.addBranchTargets names.length) := by
  induction names generalizing ctx with
  | nil =>
    intro ec
    exact hinner ec
  | cons name rest ih =>
    intro ec
    have hnodup' : (rest.filterMap id).Nodup := by
      cases name with
      | none => simpa [List.filterMap_cons] using hnodup
      | some m =>
        simp only [List.filterMap_cons, id_eq, List.nodup_cons] at hnodup
        exact hnodup.2
    have hfreshName : ∀ n, name = some n → ctx.labelToBranchTargetMap.find n = none :=
      fun n hn => hfresh n (by rw [hn]; exact List.mem_cons_self _ _)
    have hfresh' : ∀ n, some n ∈ rest →
        (ctx.enterLabel name T).labelToBranchTargetMap.find n = none := by
      intro n hn
      have hne : name ≠ some n := by
        intro hc
        subst hc
        simp only [List.filterMap_cons, id_eq, List.nodup_cons] at hnodup
        exact hnodup.1 (List.mem_filterMap.mpr ⟨some n, hn, rfl⟩)
      rw [enterLabel_find _ _ _ _ hne]
      exact hfresh n (List.mem_cons_of_mem _ hn)
    have hbody := ih (ctx.enterLabel name T) hnodup' hfresh' hinner "label body"
    obtain ⟨ch, hch⟩ := nestedLabels_tree rest innerChildren
    rw [hch] at hbody
    show parseTypedExpressionBody (parseTypedExpression (f + 1 + rest.length)) cls T
        [labelForm name [nestedLabels rest (.tree innerChildren)]] ec ctx = _
    rw [hch, parseTypedExpressionBody_label _ cls T name ch [] ec ctx _ _ hfreshName hbody,
      leaveLabel_enterLabel ctx name T rest.length hfreshName]
    rfl

/-- C9: inside label forms nested in each other, the names `names` given outermost first
(`m + 1 = names.length` of them, their names distinct and not shadowing a label in
scope), `break k` with `k <= m` parses to a `Branch` whose target is the end target of the
label at position `m - k` (depth 0 is the innermost label), and when that label is
declared with the name `$n`, `break $n` parses to a `Branch` with the same target. The
labels are parsed with expected type `T`; the break has no operand when `T` is void and
otherwise one operand that parses to `v` at type `T`. -/
theorem break_resolves_in_nested_labels (names : List (Option String)) (k : Nat)
    (cls : TypeClassId) (T : TypeId) (operands : SNodeIt) (value : Option Expression)
    (f : Nat) (ec : String) (ctx : FunctionContext)
    (hcls : getPrimaryTypeClass T = some cls)
    (hk : k < names.length) (hlen : names.length < 2 ^ 63)
    (hnodup : (names.filterMap id).Nodup)
    (hfresh : ∀ n, some n ∈ names → ctx.labelToBranchTargetMap.find n = none)
    (hvalue : (T = .Void ∧ operands = [] ∧ value = none) ∨
      (T ≠ .Void ∧ ∃ v, value = some v ∧
        ∀ ctx', parseTypedExpression f cls T operands "break value" ctx' = .ok ((v, []), ctx'))) :
    parseTypedExpression (f + 1 + names.length) cls T
        [nestedLabels names (breakForm (.int (k : Int)) operands)] ec ctx
      = .ok ((nestedLabelExpressions cls T ctx.numBranchTargets names.length
            (.Branch cls ⟨ctx.numBranchTargets + (names.length - 1 - k), T⟩ value), []),
          ctx.addBranchTargets names.length) ∧
    ∀ n, names[names.length - 1 - k]? = some (some n) →
      parseTypedExpression (f + 1 + names.length) cls T
          [nestedLabels names (breakForm (.unindexedSymbol ("$" ++ n)) operands)] ec ctx
        = .ok ((nestedLabelExpressions cls T ctx.numBranchTargets names.length
              (.Branch cls ⟨ctx.numBranchTargets + (names.length - 1 - k), T⟩ value), []),
            ctx.addBranchTargets names.length) := by
  have hvalue' : ∀ ctx' : FunctionContext,
      (T = .Void ∧ operands = [] ∧ value = none) ∨
      (T ≠ .Void ∧ ∃ v, value = some v ∧
        parseTypedExpressionOfType (parseTypedExpression f) T operands "break value" ctx'
          = .ok ((v, []), ctx')) := by
    intro ctx'
    rcases hvalue with h | ⟨h1, v, h2, h3⟩
    · exact Or.inl h
    · refine Or.inr ⟨h1, v, h2, ?_⟩
      simp only [parseTypedExpressionOfType, hcls]
      exact h3 ctx'
  constructor
  · refine parseTypedExpression_nestedLabels f cls T names _ _ ctx hnodup hfresh ?_ ec
    intro ec'
    show parseTypedExpressionBody (parseTypedExpression f) cls T
      [breakForm (.int (k : Int)) operands] ec' (ctx.enterLabels T names) = _
    have hsc := enterLabels_scoped T names ctx
    apply parseTypedExpressionBody_break_index _ cls T k operands value ec' _
      ⟨ctx.numBranchTargets + (names.length - 1 - k), T⟩
    · rw [hsc]; simp; omega
    · omega
    · rw [hsc]
      have hidx : (ctx.scopedBranchTargets
          ++ List.map (fun i => (⟨ctx.numBranchTargets + i, T⟩ : BranchTarget))
            (List.range names.length)).length - 1 - k
          = ctx.scopedBranchTargets.length + (names.length - 1 - k) := by
        simp; omega
      rw [hidx, List.getElem?_append_right (by omega)]
      have hlt : names.length - 1 - k < names.length := by omega
      simp [List.getElem?_range hlt]
    · exact hvalue' _
  · intro n hn
    refine parseTypedExpression_nestedLabels f cls T names _ _ ctx hnodup hfresh ?_ ec
    intro ec'
    show parseTypedExpressionBody (parseTypedExpression f) cls T
      [breakForm (.unindexedSymbol ("$" ++ n)) operands] ec' (ctx.enterLabels T names) = _
    apply parseTypedExpressionBody_break_name _ cls T n operands value ec' _
      ⟨ctx.numBranchTargets + (names.length - 1 - k), T⟩
    · exact enterLabels_find T names ctx n _ hnodup hn
    · exact hvalue' _

/-- C9, at concrete inputs: in `(label $x (label (label $z (break 2))))` and in
`(label $x (label (label $z (break $x))))` parsed as a void function body the branch
targets the end target of `$x`; in `(label $a (label $b (break 0 (const.i32 7))))` and with
`break $b`, parsed at type `i32`, it targets the end target of `$b`. -/
theorem break_resolves_in_nested_labels_witness :
    (parseTypedExpression (0 + 1 + 3) .Void .Void
        [nestedLabels [some "x", none, some "z"] (breakForm (.int ((2 : Nat) : Int)) [])]
        "function body" dummyFunctionContext
      = .ok ((nestedLabelExpressions .Void .Void dummyFunctionContext.numBranchTargets 3
            (.Branch .Void ⟨dummyFunctionContext.numBranchTargets + (3 - 1 - 2), .Void⟩ none), []),
          dummyFunctionContext.addBranchTargets 3)) ∧
    (parseTypedExpression (0 + 1 + 3) .Void .Void
        [nestedLabels [some "x", none, some "z"] (breakForm (.unindexedSymbol ("$" ++ "x")) [])]
        "function body" dummyFunctionContext
      = .ok ((nestedLabelExpressions .Void .Void dummyFunctionContext.numBranchTargets 3
            (.Branch .Void ⟨dummyFunctionContext.numBranchTargets + (3 - 1 - 2), .Void⟩ none), []),
          dummyFunctionContext.addBranchTargets 3)) ∧
    (parseTypedExpression (1 + 1 + 2) .Int .I32
        [nestedLabels [some "a", some "b"] (breakForm (.int ((0 : Nat) : Int))
          [.tree [.symbol (.typed ._const .I32), .int 7]])]
        "function body" dummyFunctionContext
      = .ok ((nestedLabelExpressions .Int .I32 dummyFunctionContext.numBranchTargets 2
            (.Branch .Int ⟨dummyFunctionContext.numBranchTargets + (2 - 1 - 0), .I32⟩
              (some (.Literal .I32 (.int 7)))), []),
          dummyFunctionContext.addBranchTargets 2)) ∧
    (parseTypedExpression (1 + 1 + 2) .Int .I32
        [nestedLabels [some "a", some "b"] (breakForm (.unindexedSymbol ("$" ++ "b"))
          [.tree [.symbol (.typed ._const .I32), .int 7]])]
        "function body" dummyFunctionContext
      = .ok ((nestedLabelExpressions .Int .I32 dummyFunctionContext.numBranchTargets 2
            (.Branch .Int ⟨dummyFunctionContext.numBranchTargets + (2 - 1 - 0), .I32⟩
              (some (.Literal .I32 (.int 7)))), []),
          dummyFunctionContext.addBranchTargets 2)) :=
  have h1 := break_resolves_in_nested_labels [some "x", none, some "z"] 2 .Void .Void [] none 0
    "function body" dummyFunctionContext rfl (by decide) (by decide) (by decide)
    (fun _ _ => rfl) (Or.inl ⟨rfl, rfl, rfl⟩)
  have h2 := break_resolves_in_nested_labels [some "a", some "b"] 0 .Int .I32
    [.tree [.symbol (.typed ._const .I32), .int 7]] (some (.Literal .I32 (.int 7))) 1
    "function body" dummyFunctionContext rfl (by decide) (by decide) (by decide)
    (fun _ _ => rfl) (Or.inr ⟨by decide, _, rfl, fun _ => rfl⟩)
  ⟨h1.1, h1.2 "x" rfl, h2.1, h2.2 "b" rfl⟩

theorem firstIndexOf_eq_some (name : String) (names : List (Option String)) (k : Nat)
    (hk : names[k]? = some (some name))
    (hfirst : ∀ i, i < k → names[i]? ≠ some (some name)) :
    firstIndexOf name names = some k := by
  induction names generalizing k with
  | nil => simp at hk
  | cons entry rest ih =>
    cases k with
    | zero =>
      simp only [List.getElem?_cons_zero, Option.some.injEq] at hk
      simp [firstIndexOf, hk]
    | succ k =>
      have h0 : entry ≠ some name := by
        have := hfirst 0 (Nat.succ_pos k)
        simpa using this
      simp only [List.getElem?_cons_succ] at hk
      have hrest : ∀ i, i < k → rest[i]? ≠ some (some name) := by
        intro i hi
        have := hfirst (i + 1) (Nat.succ_lt_succ hi)
        simpa using this
      simp [firstIndexOf, h0, ih k hk hrest]

theorem parseTaggedNode_head (node : SNode) (rest : SNodeIt) (tag : Symbol) :
    parseTaggedNode (node :: rest) tag = parseTaggedNode [node] tag := by
  cases node <;> rfl

theorem buildVariableNameToIndexMapMapFrom_find (vars : List Variable) (index : Nat)
    (map : NameMap Nat) (outErrors : List ErrorRecord) (name : String) :
    (buildVariableNameToIndexMapMapFrom vars index map outErrors).1.find name
      = match map.find name with
        | some i => some i
        | none => (firstIndexOf name (vars.map fun var => var.name)).map fun i => index + i := by
  induction vars generalizing index map outErrors with
  | nil =>
    simp only [buildVariableNameToIndexMapMapFrom, List.map_nil, firstIndexOf, Option.map_none']
    cases map.find name <;> rfl
  | cons var rest ih =>
    obtain ⟨type, varName⟩ := var
    cases varName with
    | none =>
      simp only [buildVariableNameToIndexMapMapFrom, ih, List.map_cons, firstIndexOf]
      cases hfind : map.find name with
      | some i => simp
      | none =>
        simp only [if_neg (show (none : Option String) ≠ some name by simp), Option.map_map]
        cases firstIndexOf name (rest.map fun var => var.name) with
        | none => rfl
        | some i => simp; omega
    | some m =>
      simp only [buildVariableNameToIndexMapMapFrom, List.map_cons, firstIndexOf]
      by_cases hcount : map.count m ≠ 0
      · rw [if_pos hcount, ih]
        have hm : (map.find m).isSome := by
          simp only [NameMap.count] at hcount
          by_contra hc
          simp [hc] at hcount
        cases hfind : map.find name with
        | some i => simp
        | none =>
          have hne : m ≠ name := by
            intro h
            subst h
            simp [hfind] at hm
          simp only [Option.some.injEq, hne, if_false, Option.map_map]
          cases firstIndexOf name (rest.map fun var => var.name) with
          | none => rfl
          | some i => simp; omega
      · rw [if_neg hcount, ih, NameMap.find_set]
        have hm : map.find m = none := by
          simp only [NameMap.count, ne_eq, ite_eq_right_iff, not_forall] at hcount
          by_contra hc
          apply hcount
          cases h : map.find m with
          | none => exact absurd h hc
          | some v => simp
        by_cases hname : name = m
        · subst hname
          simp [hm]
        · have hne : ¬ (m = name) := fun h => hname h.symm
          simp only [if_neg hname, Option.some.injEq, hne, if_false, Option.map_map]
          cases hfind : map.find name with
          | some i => rfl
          | none =>
            cases firstIndexOf name (rest.map fun var => var.name) with
            | none => rfl
            | some i => simp; omega

theorem parseFunctionDeclaration_frame (childNodeIt : SNodeIt) (mc : ModuleContext) :
    (parseFunctionDeclaration childNodeIt mc).globalNameToIndexMap = mc.globalNameToIndexMap ∧
    (parseFunctionDeclaration childNodeIt mc).module.functions.length
      = mc.module.functions.length + 1 ∧
    (parseFunctionDeclaration childNodeIt mc).functionNameToIndexMap
      = (match (parseName childNodeIt).map (fun parsed => parsed.1) with
        | some n =>
          if mc.functionNameToIndexMap.count n ≠ 0 then mc.functionNameToIndexMap
          else mc.functionNameToIndexMap.set n mc.module.functions.length
        | none => mc.functionNameToIndexMap) := by
  unfold parseFunctionDeclaration
  cases hname : parseName childNodeIt with
  | none => simp
  | some parsed =>
    obtain ⟨n, advanced⟩ := parsed
    by_cases hcount : mc.functionNameToIndexMap.count n ≠ 0
    · simp [hcount, ModuleContext.recordError]
    · simp [hcount]

theorem parseImportDeclaration_frame (childNodeIt : SNodeIt) (mc mc' : ModuleContext)
    (h : parseImportDeclaration childNodeIt mc = .ok mc') :
    mc'.globalNameToIndexMap = mc.globalNameToIndexMap ∧
    mc'.module.functions = mc.module.functions ∧
    mc'.functionNameToIndexMap = mc.functionNameToIndexMap := by
  unfold parseImportDeclaration at h
  simp only at h
  repeat' split at h
  all_goals first
    | (injection h with h; subst h; simp [ModuleContext.recordError])
    | (exact absurd h (by simp))

theorem parseGlobalDeclaration_frame (childNodeIt : SNodeIt) (mc : ModuleContext) :
    (parseGlobalDeclaration childNodeIt mc).globalNameToIndexMap = mc.globalNameToIndexMap ∧
    (parseGlobalDeclaration childNodeIt mc).module.functions = mc.module.functions ∧
    (parseGlobalDeclaration childNodeIt mc).functionNameToIndexMap
      = mc.functionNameToIndexMap := by
  unfold parseGlobalDeclaration
  simp

theorem parseMemoryDeclaration_frame (nodeIt childNodeIt : SNodeIt) (mc : ModuleContext)
    (hm : Bool) :
    (parseMemoryDeclaration nodeIt childNodeIt mc hm).1.globalNameToIndexMap
      = mc.globalNameToIndexMap ∧
    (parseMemoryDeclaration nodeIt childNodeIt mc hm).1.module.functions = mc.module.functions ∧
    (parseMemoryDeclaration nodeIt childNodeIt mc hm).1.functionNameToIndexMap
      = mc.functionNameToIndexMap := by
  unfold parseMemoryDeclaration
  simp only
  repeat' split
  all_goals simp [ModuleContext.recordError]

theorem parseDeclaration_frame (node : SNode) (rest : SNodeIt) (mc mc' : ModuleContext)
    (hm hm' : Bool) (h : parseDeclaration (node :: rest) mc hm = .ok (mc', hm')) :
    mc'.globalNameToIndexMap = mc.globalNameToIndexMap ∧
    match declaredFunctionName node with
    | some name =>
      mc'.module.functions.length = mc.module.functions.length + 1 ∧
      mc'.functionNameToIndexMap
        = (match name with
          | some n =>
            if mc.functionNameToIndexMap.count n ≠ 0 then mc.functionNameToIndexMap
            else mc.functionNameToIndexMap.set n mc.module.functions.length
          | none => mc.functionNameToIndexMap)
    | none =>
      mc'.module.functions.length = mc.module.functions.length ∧
      mc'.functionNameToIndexMap = mc.functionNameToIndexMap := by
  unfold parseDeclaration at h
  simp only [parseTaggedNode_head node rest] at h
  unfold declaredFunctionName
  cases hfunc : parseTaggedNode [node] (.plain ._func) with
  | some childNodeIt =>
    simp only [hfunc] at h ⊢
    injection h with h
    injection h with h1 h2
    subst h1
    have := parseFunctionDeclaration_frame childNodeIt mc
    exact ⟨this.1, this.2.1, this.2.2⟩
  | none =>
    simp only [hfunc] at h ⊢
    split at h
    · split at h
      · next mcI hI =>
        injection h with h
        injection h with h1 h2
        subst h1
        have := parseImportDeclaration_frame _ _ _ hI
        exact ⟨this.1, by rw [this.2.1], this.2.2⟩
      · exact absurd h (by simp)
    · split at h
      · injection h with h
        injection h with h1 h2
        subst h1
        have := parseGlobalDeclaration_frame (by assumption) mc
        exact ⟨this.1, by rw [this.2.1], this.2.2⟩
      · split at h
        · injection h with h
          have h1 := congrArg Prod.fst h
          simp only at h1
          subst h1
          have := parseMemoryDeclaration_frame (node :: rest) (by assumption) mc hm
          exact ⟨this.1, by rw [this.2.1], this.2.2⟩
        · split at h
          all_goals
            injection h with h
            injection h with h1 h2
            subst h1
            simp [ModuleContext.recordError]

theorem parseDeclarations_names (nodes : SNodeIt) (mc mc' : ModuleContext) (hm hm' : Bool)
    (h : parseDeclarations nodes mc hm = .ok (mc', hm')) :
    mc'.globalNameToIndexMap = mc.globalNameToIndexMap ∧
    mc'.module.functions.length
      = mc.module.functions.length + (declaredFunctionNames nodes).length ∧
    ∀ n, mc'.functionNameToIndexMap.find n
      = match mc.functionNameToIndexMap.find n with
        | some i => some i
        | none => (firstIndexOf n (declaredFunctionNames nodes)).map
            fun i => mc.module.functions.length + i := by
  induction nodes generalizing mc hm with
  | nil =>
    simp only [parseDeclarations] at h
    injection h with h
    injection h with h1 h2
    subst h1
    refine ⟨rfl, by simp [declaredFunctionNames], ?_⟩
    intro n
    cases mc.functionNameToIndexMap.find n <;> simp [declaredFunctionNames, firstIndexOf]
  | cons node rest ih =>
    simp only [parseDeclarations] at h
    split at h
    · next mc1 hm1 hstep =>
      obtain ⟨hg, hlen, hfind⟩ := ih mc1 hm1 h
      obtain ⟨hg1, hstep1⟩ := parseDeclaration_frame node rest mc mc1 hm hm1 hstep
      refine ⟨by rw [hg, hg1], ?_, ?_⟩
      · cases hd : declaredFunctionName node with
        | none =>
          rw [hd] at hstep1
          simp only [declaredFunctionNames, List.filterMap_cons, hd] at hlen ⊢
          rw [hlen, hstep1.1]
        | some name =>
          rw [hd] at hstep1
          simp only [declaredFunctionNames, List.filterMap_cons, hd, List.length_cons] at hlen ⊢
          rw [hlen, hstep1.1]
          omega
      · intro n
        rw [hfind n]
        cases hd : declaredFunctionName node with
        | none =>
          rw [hd] at hstep1
          simp only [declaredFunctionNames, List.filterMap_cons, hd]
          rw [hstep1.1, hstep1.2]
        | some name =>
          rw [hd] at hstep1
          simp only [declaredFunctionNames, List.filterMap_cons, hd]
          obtain ⟨hl, hmap⟩ := hstep1
          rw [hl, hmap]
          cases name with
          | none =>
            simp only [firstIndexOf, if_neg (show (none : Option String) ≠ some n by simp),
              Option.map_map]
            cases mc.functionNameToIndexMap.find n with
            | some i => rfl
            | none =>
              cases firstIndexOf n (List.filterMap declaredFunctionName rest) with
              | none => rfl
              | some i => simp; omega
          | some m =>
            simp only [firstIndexOf, Option.some.injEq]
            by_cases hcount : mc.functionNameToIndexMap.count m ≠ 0
            · simp only [if_pos hcount]
              cases hfn : mc.functionNameToIndexMap.find n with
              | some i => rfl
              | none =>
                have hne : ¬ (m = n) := by
                  intro hc
                  subst hc
                  simp [NameMap.count, hfn] at hcount
                simp only [if_neg hne, Option.map_map]
                cases firstIndexOf n (List.filterMap declaredFunctionName rest) with
                | none => rfl
                | some i => simp; omega
            · simp only [if_neg hcount, NameMap.find_set]
              have hm0 : mc.functionNameToIndexMap.find m = none := by
                cases hc : mc.functionNameToIndexMap.find m with
                | none => rfl
                | some v => simp [NameMap.count, hc] at hcount
              by_cases hnm : n = m
              · subst hnm
                simp [hm0]
              · have hne : ¬ (m = n) := fun hc => hnm hc.symm
                simp only [if_neg hnm, if_neg hne, Option.map_map]
                cases mc.functionNameToIndexMap.find n with
                | some i => rfl
                | none =>
                  cases firstIndexOf n (List.filterMap declaredFunctionName rest) with
                  | none => rfl
                  | some i => simp; omega
    · exact absurd h (by simp)

theorem parseTable_frame (nodeIt childNodeIt : SNodeIt) (mc mc' : ModuleContext)
    (h : parseTable nodeIt childNodeIt mc = .ok mc') :
    mc'.globalNameToIndexMap = mc.globalNameToIndexMap ∧
    mc'.module.globals = mc.module.globals ∧
    mc'.module.functions = mc.module.functions ∧
    mc'.functionNameToIndexMap = mc.functionNameToIndexMap := by
  unfold parseTable at h
  simp only at h
  repeat' split at h
  all_goals first
    | (injection h with h; subst h; simp [ModuleContext.recordError])
    | (exact absurd h (by simp))

theorem parseTables_frame (nodes : SNodeIt) (mc mc' : ModuleContext)
    (h : parseTables nodes mc = .ok mc') :
    mc'.globalNameToIndexMap = mc.globalNameToIndexMap ∧
    mc'.module.globals = mc.module.globals ∧
    mc'.module.functions = mc.module.functions ∧
    mc'.functionNameToIndexMap = mc.functionNameToIndexMap := by
  induction nodes generalizing mc with
  | nil =>
    simp only [parseTables] at h
    injection h with h
    subst h
    exact ⟨rfl, rfl, rfl, rfl⟩
  | cons node rest ih =>
    simp only [parseTables] at h
    split at h
    · split at h
      · next mc1 h1 =>
        obtain ⟨a, b, c, d⟩ := ih mc1 h
        obtain ⟨a1, b1, c1, d1⟩ := parseTable_frame _ _ _ _ h1
        exact ⟨by rw [a, a1], by rw [b, b1], by rw [c, c1], by rw [d, d1]⟩
      · exact absurd h (by simp)
    · exact ih mc h

theorem parseNameOrIndex_name (nameToIndex : NameMap Nat) (numValidIndices : Nat)
    (name : String) (index : Nat) (rest : SNodeIt) (h : nameToIndex.find name = some index) :
    parseNameOrIndex (.unindexedSymbol ("$" ++ name) :: rest) nameToIndex numValidIndices
      = (some index, rest) := by
  simp [parseNameOrIndex, parseInt, parseName_dollar, h]

theorem parseNameOrIndex_index (nameToIndex : NameMap Nat) (numValidIndices : Nat)
    (k : Nat) (rest : SNodeIt) (hk : k < numValidIndices) (hsize : numValidIndices < 2 ^ 64) :
    parseNameOrIndex (.int (k : Int) :: rest) nameToIndex numValidIndices = (some k, rest) := by
  have h3 : toUintptr (k : Int) = k := by
    rw [toUintptr_of_nonneg _ (Int.ofNat_nonneg k) (by omega)]
    simp
  simp [parseNameOrIndex, parseInt, h3, hk]

theorem parseDeclarationPasses_names (nodes : SNodeIt) (outErrors : List ErrorRecord)
    (mc : ModuleContext)
    (h : ModuleContext.parseDeclarationPasses nodes { outErrors := outErrors } = .ok mc) :
    mc.module.functions.length = (declaredFunctionNames nodes).length ∧
    (∀ n, mc.functionNameToIndexMap.find n = firstIndexOf n (declaredFunctionNames nodes)) ∧
    (∀ n, mc.globalNameToIndexMap.find n
      = firstIndexOf n (mc.module.globals.map fun var => var.name)) := by
  unfold ModuleContext.parseDeclarationPasses at h
  split at h
  · exact absurd h (by simp)
  · next mc1 hm1 h1 =>
    split at h
    · exact absurd h (by simp)
    · next mc2 h2 =>
      injection h with h
      subst h
      obtain ⟨hg1, hlen1, hfind1⟩ :=
        parseDeclarations_names nodes { outErrors := outErrors } mc1 false hm1 h1
      obtain ⟨hg2, hgl2, hf2, hm2⟩ := parseTables_frame nodes mc1 mc2 h2
      refine ⟨?_, ?_, ?_⟩
      · show mc2.module.functions.length = _
        rw [hf2, hlen1]
        simp
      · intro n
        show mc2.functionNameToIndexMap.find n = _
        rw [hm2, hfind1 n]
        have : (({ outErrors := outErrors } : ModuleContext).functionNameToIndexMap.find n)
            = none := rfl
        rw [this]
        cases firstIndexOf n (declaredFunctionNames nodes) with
        | none => rfl
        | some i => simp
      · intro n
        show (buildVariableNameToIndexMapMap mc2.module.globals mc2.globalNameToIndexMap
          mc2.outErrors).1.find n = firstIndexOf n (mc2.module.globals.map fun var => var.name)
        rw [buildVariableNameToIndexMapMap, buildVariableNameToIndexMapMapFrom_find, hg2, hg1]
        have : (({ outErrors := outErrors } : ModuleContext).globalNameToIndexMap.find n)
            = none := rfl
        rw [this]
        cases firstIndexOf n (mc2.module.globals.map fun var => var.name) with
        | none => rfl
        | some i => simp

theorem FunctionContext.new_localNameToIndexMap (mc : ModuleContext) (function : Function)
    (n : String) :
    (FunctionContext.new mc function).localNameToIndexMap.find n
      = firstIndexOf n (function.locals.map fun var => var.name) := by
  show (buildVariableNameToIndexMapMap function.locals [] mc.outErrors).1.find n = _
  rw [buildVariableNameToIndexMapMap, buildVariableNameToIndexMapMapFrom_find]
  have : NameMap.find ([] : NameMap Nat) n = none := rfl
  rw [this]
  cases firstIndexOf n (function.locals.map fun var => var.name) with
  | none => rfl
  | some i => simp

theorem lt_length_of_getElem? {α : Type} (l : List α) (k : Nat) (a : α) (h : l[k]? = some a) :
    k < l.length := by
  by_contra hc
  rw [List.getElem?_eq_none (by omega)] at h
  exact absurd h (by simp)

/-- C8: in every module (parsed from a new module and any error list), if the `k`-th
`func` form is the first to declare the function name `$name`, then `$name` and the
integer `k` resolve to the same function index `k` (against the function name map and the
function count the declaration passes leave); likewise for the `k`-th local of a function
against the local name map its `FunctionContext` builds, and for the `k`-th global against
the global name map of the module. -/
theorem name_and_index_resolve_alike (nodes : SNodeIt) (outErrors : List ErrorRecord)
    (mc : ModuleContext) (function : Function) (k : Nat) (name : String) (rest : SNodeIt)
    (hparse : ModuleContext.parseDeclarationPasses nodes { outErrors := outErrors } = .ok mc) :
    ((declaredFunctionNames nodes)[k]? = some (some name) →
      (∀ i, i < k → (declaredFunctionNames nodes)[i]? ≠ some (some name)) →
      mc.module.functions.length < 2 ^ 64 →
      parseNameOrIndex (.unindexedSymbol ("$" ++ name) :: rest) mc.functionNameToIndexMap
          mc.module.functions.length = (some k, rest) ∧
        parseNameOrIndex (.int (k : Int) :: rest) mc.functionNameToIndexMap
          mc.module.functions.length = (some k, rest)) ∧
    ((function.locals.map fun var => var.name)[k]? = some (some name) →
      (∀ i, i < k → (function.locals.map fun var => var.name)[i]? ≠ some (some name)) →
      function.locals.length < 2 ^ 64 →
      parseNameOrIndex (.unindexedSymbol ("$" ++ name) :: rest)
          (FunctionContext.new mc function).localNameToIndexMap
          (FunctionContext.new mc function).function.locals.length = (some k, rest) ∧
        parseNameOrIndex (.int (k : Int) :: rest)
          (FunctionContext.new mc function).localNameToIndexMap
          (FunctionContext.new mc function).function.locals.length = (some k, rest)) ∧
    ((mc.module.globals.map fun var => var.name)[k]? = some (some name) →
      (∀ i, i < k → (mc.module.globals.map fun var => var.name)[i]? ≠ some (some name)) →
      mc.module.globals.length < 2 ^ 64 →
      parseNameOrIndex (.unindexedSymbol ("$" ++ name) :: rest) mc.globalNameToIndexMap
          mc.module.globals.length = (some k, rest) ∧
        parseNameOrIndex (.int (k : Int) :: rest) mc.globalNameToIndexMap
          mc.module.globals.length = (some k, rest)) := by
  obtain ⟨hlen, hfun, hglob⟩ := parseDeclarationPasses_names nodes outErrors mc hparse
  refine ⟨?_, ?_, ?_⟩
  · intro hk hfirst hsize
    have hklt : k < mc.module.functions.length := by
      rw [hlen]; exact lt_length_of_getElem? _ _ _ hk
    exact ⟨parseNameOrIndex_name _ _ _ _ _
        (by rw [hfun, firstIndexOf_eq_some name _ k hk hfirst]),
      parseNameOrIndex_index _ _ _ _ hklt hsize⟩
  · intro hk hfirst hsize
    have hklt : k < function.locals.length := by
      have := lt_length_of_getElem? _ _ _ hk
      simpa using this
    exact ⟨parseNameOrIndex_name _ _ _ _ _
        (by rw [FunctionContext.new_localNameToIndexMap,
          firstIndexOf_eq_some name _ k hk hfirst]),
      parseNameOrIndex_index _ _ _ _ hklt hsize⟩
  · intro hk hfirst hsize
    have hklt : k < mc.module.globals.length := by
      have := lt_length_of_getElem? _ _ _ hk
      simpa using this
    exact ⟨parseNameOrIndex_name _ _ _ _ _
        (by rw [hglob, firstIndexOf_eq_some name _ k hk hfirst]),
      parseNameOrIndex_index _ _ _ _ hklt hsize⟩

/-- C8, at a concrete input: in the module `exampleDeclarations`, `$h` and `1` both
resolve to function 1, in its function `$f` the local `$y` and `1` both resolve to local
1, and `$g` and `0` both resolve to global 0. -/
theorem name_and_index_resolve_alike_witness :
    (parseNameOrIndex [.unindexedSymbol ("$" ++ "h")] [("h", 1), ("f", 0)] 2 = (some 1, []) ∧
      parseNameOrIndex [.int ((1 : Nat) : Int)] [("h", 1), ("f", 0)] 2 = (some 1, [])) ∧
    (parseNameOrIndex [.unindexedSymbol ("$" ++ "y")] [("y", 1), ("x", 0)] 2 = (some 1, []) ∧
      parseNameOrIndex [.int ((1 : Nat) : Int)] [("y", 1), ("x", 0)] 2 = (some 1, [])) ∧
    (parseNameOrIndex [.unindexedSymbol ("$" ++ "g")] [("g", 0)] 1 = (some 0, []) ∧
      parseNameOrIndex [.int ((0 : Nat) : Int)] [("g", 0)] 1 = (some 0, [])) :=
  ⟨(name_and_index_resolve_alike exampleDeclarations [] _ {} 1 "h" [] rfl).1 rfl
      (fun i hi => by interval_cases i; decide) (by decide),
    (name_and_index_resolve_alike exampleDeclarations [] _
      { name := some "f", locals := [⟨.I32, some "x"⟩, ⟨.I32, some "y"⟩],
        parameterLocalIndices := [0], type := { parameters := [.I32] } } 1 "y" [] rfl).2.1 rfl
      (fun i hi => by interval_cases i; decide) (by decide),
    (name_and_index_resolve_alike exampleDeclarations [] _ {} 0 "g" [] rfl).2.2 rfl
      (fun i hi => absurd hi (Nat.not_lt_zero i)) (by decide)⟩

/-- C10, evaluated: for the module `(func (loop $a $a (nop)) (break $a))` the parser
records one error and returns the function body `Sequence(Error, Branch(target 0))`: the
loop form yields an `Error` node, its break label stays in scope, and the `Branch` of the
following `break $a` targets the break target allocated for that loop, which belongs to
no `Label`, `Loop` or `Switch` node of the body. -/
theorem branch_targets_unparsed_loop :
    (match ModuleContext.parse 8 repeatedLoopLabelModule {} with
      | .ok moduleContext =>
        (moduleContext.module.functions.map fun function => function.expression,
          moduleContext.outErrors.map fun error => error.message)
      | .error _ => ([], []))
      = ([some (.Sequence .Void
            (.Error .Void "loop: continue label name shadows outer label")
            (.Branch .Void ⟨0, .Void⟩ none))],
          ["loop: continue label name shadows outer label"]) ∧
    branchesEnclosed []
      (.Sequence .Void (.Error .Void "loop: continue label name shadows outer label")
        (.Branch .Void ⟨0, .Void⟩ none)) = false :=
  ⟨rfl, rfl⟩

set_option maxRecDepth 4000 in
/-- C11, evaluated: in `(func (label (break 5)))` the depth 5 names no enclosing label (there
is one), yet the parser records no error and the body is `Label(t0, Branch(t0))`: the
reference falls through to the branch that takes the top of the target stack. In
`(func (label $a (label (break -1 $a))))` the negative depth is consumed and the name after
it is resolved, again without an error. -/
theorem break_out_of_range_depth_branches :
    (ModuleContext.parse 8 breakDepthModule {}).map
        (fun mc => (mc.module.functions.map (·.expression), mc.outErrors))
      = .ok ([some (.Label .Void ⟨0, .Void⟩ (.Branch .Void ⟨0, .Void⟩ none))], [])
    ∧ (ModuleContext.parse 8 breakNegativeDepthModule {}).map
        (fun mc => (mc.module.functions.map (·.expression), mc.outErrors))
      = .ok ([some (.Label .Void ⟨0, .Void⟩ (.Label .Void ⟨1, .Void⟩
                (.Branch .Void ⟨0, .Void⟩ none)))], []) :=
  ⟨rfl, rfl⟩

/-- C15, evaluated: `(module (memory 10 5))` is parsed without an error although the initial
size 10 exceeds the maximum 5, and `(module (memory 8589934592))` is parsed without an error
although its maximum 2^33 exceeds 2^32: both checks read the sizes stored in the module,
which the branch assigns only after them. -/
theorem memory_size_checks_never_fire :
    (ModuleContext.parse 8 memoryInitialAboveMaxModule {}).map
        (fun mc => (mc.module.initialNumBytesMemory, mc.module.maxNumBytesMemory, mc.outErrors))
      = .ok (10, 5, [])
    ∧ (ModuleContext.parse 8 memoryAboveLimitModule {}).map
        (fun mc => (mc.module.initialNumBytesMemory, mc.module.maxNumBytesMemory, mc.outErrors))
      = .ok (2 ^ 33, 2 ^ 33, []) :=
  ⟨rfl, rfl⟩

/-- C17, evaluated: `(module (func $f (nop)) (table $f $f $f))` is parsed without an error
and its function table has `numFunctions = 3`, which is not a power of two. -/
theorem table_of_three_entries_accepted :
    (ModuleContext.parse 8 threeEntryTableModule {}).map
        (fun mc => (mc.module.functionTables, mc.outErrors))
      = .ok ([{ type := {}, functionIndices := [0, 0, 0], numFunctions := 3 }], [])
    ∧ ¬ ∃ k : Nat, 3 = 2 ^ k := by
  refine ⟨rfl, ?_⟩
  rintro ⟨k, hk⟩
  match k, hk with
  | 0, hk => omega
  | 1, hk => omega
  | k + 2, hk =>
    have : 2 ^ (k + 2) = 4 * 2 ^ k := by ring
    omega

/-- C19, evaluated: in `(module (table 0))` no function is declared, the entry `0` does not
resolve and is stored as index 0, which is not below the number of functions (0); the
signature check that follows reads `module->functions[0]` of the empty list, which is
undefined behaviour, so no module is returned. -/
theorem table_entry_without_functions :
    parseTableEntries [] 0 1 [.int 0] [] []
      = ([0], [⟨"expected function name or index", none⟩])
    ∧ ModuleContext.parse 8 tableWithoutFunctionsModule {}
      = .error (.undefinedBehaviour "table: function index out of bounds") :=
  ⟨rfl, rfl⟩

/-- A node that `parseNonParametricExpression` parses is coerced to the expected type. -/
theorem parseTypedExpressionBody_nonParametric (self : ParseTyped) (cls : TypeClassId)
    (T : TypeId) (node : SNode) (more : SNodeIt) (errorContext : String)
    (ctx ctx2 : FunctionContext) (te : TypedExpression)
    (hnode : ∀ message, node ≠ .error message)
    (hparse : parseNonParametricExpression self (node :: more) ctx = .ok (some te, ctx2)) :
    parseTypedExpressionBody self cls T (node :: more) errorContext ctx
      = (coerceExpression cls T te (node :: more) errorContext >>= fun result =>
          pure (result, more)) ctx2 := by
  cases node with
  | error message => exact absurd rfl (hnode message)
  | _ => simp only [parseTypedExpressionBody, bind, StateT.bind, hparse, Except.bind]; rfl

/-- The scan of a case body steps over a node that is not the `fallthrough` symbol. -/
theorem scanFallthrough_cons (node : SNode) (rest : SNodeIt) (numOps : Nat) (flag : Bool)
    (hnode : node ≠ fallthroughSymbol) :
    scanFallthrough (node :: rest) numOps flag = scanFallthrough rest (numOps + 1) false := by
  conv_lhs => unfold scanFallthrough
  split
  · exact absurd rfl hnode
  · rfl

/-- The scan of a case body without a `fallthrough` symbol counts its nodes. -/
theorem scanFallthrough_none (body : SNodeIt) (numOps : Nat) (flag : Bool)
    (hbody : ∀ node ∈ body, node ≠ fallthroughSymbol) :
    scanFallthrough body numOps flag
      = .done (numOps + body.length) (flag && body.isEmpty) := by
  induction body generalizing numOps flag with
  | nil => simp [scanFallthrough]
  | cons node rest ih =>
    rw [scanFallthrough_cons node rest numOps flag (hbody node (List.mem_cons_self _ _)),
      ih (numOps + 1) false (fun n hn => hbody n (List.mem_cons_of_mem _ hn))]
    simp; omega

/-- The scan of a case body up to its first `fallthrough` symbol. -/
theorem scanFallthrough_append (pre post : SNodeIt) (numOps : Nat) (flag : Bool)
    (hpre : ∀ node ∈ pre, node ≠ fallthroughSymbol) :
    scanFallthrough (pre ++ fallthroughSymbol :: post) numOps flag
      = match post with
        | [] => .done (numOps + pre.length) true
        | _ :: _ => .notFinal (fallthroughSymbol :: post) := by
  induction pre generalizing numOps flag with
  | nil => cases post <;> simp [scanFallthrough, fallthroughSymbol]
  | cons node rest ih =>
    rw [List.cons_append,
      scanFallthrough_cons node _ numOps flag (hpre node (List.mem_cons_self _ _)),
      ih (numOps + 1) false (fun n hn => hpre n (List.mem_cons_of_mem _ hn))]
    cases post
    · simp; omega
    · simp

/-- The loop over the `case` forms at a `case` form, by the result of the scan of its body. -/
theorem parseSwitchArms_case (self : ParseTyped) (cls : TypeClassId) (R : TypeId)
    (t : BranchTarget) (key : Int) (body rest : SNodeIt) (arms : List (Nat × Expression)) :
    parseSwitchArms self cls R t (caseForm key body :: rest) arms
      = (match scanFallthrough body 0 true with
        | .notFinal fallthroughNodeIt => do
          let error ← recordErrorNode cls fallthroughNodeIt
            "switch: expected fallthrough to be final symbol in S-expression"
          pure (.inl error)
        | .done numOps shouldFallthrough =>
          if shouldFallthrough then do
            let value ← parseExpressionSequenceOps self .Void .Void body "switch case body" numOps
            parseSwitchArms self cls R t rest (arms ++ [(toUintptr key, value)])
          else do
            let armValue ← parseExpressionSequenceOps self cls R body "switch case body" numOps
            parseSwitchArms self cls R t rest
              (arms ++ [(toUintptr key,
                if R ≠ .Void then Expression.Branch .Void t (some armValue)
                else Expression.Sequence .Void armValue (.Branch .Void t none))])) := by
  rfl

/-- C13, as amended. For a `case` form with the key `key` and the body `body` in a switch
with the result type `R` and the end target `t`. When the last sibling of the body is the
`fallthrough` symbol, the value of the arm is the void sequence of the siblings before it,
and no `Branch` is appended. When the body is empty, the value of the arm is `Nop`, and no
`Branch` is appended either. When the body is not empty and has no `fallthrough` symbol,
the value is `Branch(t, v)` for `R` not void and `Sequence(v, Branch(t, null))` for `R`
void, with `v` the body parsed as a sequence whose last expression has the type `R`. When
the first `fallthrough` symbol of the body has a next sibling, the error is recorded and
the switch yields the `Error` node. -/
theorem switch_case_arm_value (self : ParseTyped) (cls : TypeClassId) (R : TypeId)
    (t : BranchTarget) (key : Int) (body rest : SNodeIt) (arms : List (Nat × Expression)) :
    (∀ pre, body = pre ++ [fallthroughSymbol] → (∀ node ∈ pre, node ≠ fallthroughSymbol) →
      parseSwitchArms self cls R t (caseForm key body :: rest) arms
        = (parseExpressionSequenceOps self .Void .Void body "switch case body" pre.length
            >>= fun value =>
              parseSwitchArms self cls R t rest (arms ++ [(toUintptr key, value)]))) ∧
    (body = [] →
      parseSwitchArms self cls R t (caseForm key body :: rest) arms
        = parseSwitchArms self cls R t rest (arms ++ [(toUintptr key, .Nop)])) ∧
    (body ≠ [] → (∀ node ∈ body, node ≠ fallthroughSymbol) →
      parseSwitchArms self cls R t (caseForm key body :: rest) arms
        = (parseExpressionSequenceOps self cls R body "switch case body" body.length
            >>= fun armValue =>
              parseSwitchArms self cls R t rest
                (arms ++ [(toUintptr key,
                  if R ≠ .Void then Expression.Branch .Void t (some armValue)
                  else Expression.Sequence .Void armValue (.Branch .Void t none))]))) ∧
    (∀ pre post, body = pre ++ fallthroughSymbol :: post →
      (∀ node ∈ pre, node ≠ fallthroughSymbol) → post ≠ [] →
      ∀ ctx, parseSwitchArms self cls R t (caseForm key body :: rest) arms ctx
        = .ok (.inl (.Error cls
              "switch: expected fallthrough to be final symbol in S-expression"),
            ctx.recordError (fallthroughSymbol :: post)
              "switch: expected fallthrough to be final symbol in S-expression")) := by
  refine ⟨?_, ?_, ?_, ?_⟩
  · intro pre hbody hpre
    subst hbody
    rw [parseSwitchArms_case, scanFallthrough_append pre [] 0 true hpre]
    simp
  · intro hbody
    subst hbody
    rw [parseSwitchArms_case]
    rfl
  · intro hne hbody
    rw [parseSwitchArms_case, scanFallthrough_none body 0 true hbody]
    cases body with
    | nil => exact absurd rfl hne
    | cons node more => simp
  · intro pre post hbody hpre hpost ctx
    subst hbody
    rw [parseSwitchArms_case, scanFallthrough_append pre post 0 true hpre]
    cases post with
    | nil => exact absurd rfl hpost
    | cons node more => rfl

/-- C13, counterexample: the case `(case 1)` of `(switch.i32 (const.i32 0) (case 1) (nop))`
has no `fallthrough` symbol as its last sibling (it has no sibling at all), yet its arm is
`Nop`, which falls through, and not a `Sequence` that ends in a `Branch` to the end target;
likewise with the result type `i32` its arm is `Nop` and not a `Branch`. -/
theorem switch_empty_case_falls_through :
    parseTypedExpression 3 .Void .Void [emptyCaseSwitch] "body" dummyFunctionContext
      = .ok ((.Switch .Void (.Literal .I32 (.int 0)) .I32 1 2 [(1, .Nop), (0, .Nop)]
          ⟨0, .Void⟩, []), dummyFunctionContext.addBranchTargets 1) ∧
    (∀ body, Expression.Nop ≠ .Sequence .Void body (.Branch .Void ⟨0, .Void⟩ none)) ∧
    parseTypedExpression 3 .Int .I32 [emptyCaseValueSwitch] "body" dummyFunctionContext
      = .ok ((.Switch .Int (.Literal .I32 (.int 0)) .I32 1 2
          [(1, .Nop), (0, .Literal .I32 (.int 5))] ⟨0, .I32⟩, []),
          dummyFunctionContext.addBranchTargets 1) ∧
    (∀ value, Expression.Nop ≠ .Branch .Void ⟨0, .I32⟩ value) :=
  ⟨rfl, fun _ h => (by cases h), rfl, fun _ h => (by cases h)⟩

/-- C13 as amended, at concrete inputs, for a void switch with the end target `t0`:
`(case 1 (nop) fallthrough)` gives the arm `Nop` without a `Branch`, `(case 2 (nop))` gives
`Sequence(Nop, Branch(t0))`, `(case 3)` gives `Nop`, and `(case 4 fallthrough (nop))` is an
error. -/
theorem switch_case_arm_value_witness :
    parseSwitchArms (parseTypedExpression 1) .Void .Void ⟨0, .Void⟩
        [caseForm 1 [.tree [.symbol (.plain ._nop)], fallthroughSymbol]] [] dummyFunctionContext
      = .ok (.inr ([(1, .Nop)], []), dummyFunctionContext) ∧
    parseSwitchArms (parseTypedExpression 1) .Void .Void ⟨0, .Void⟩
        [caseForm 2 [.tree [.symbol (.plain ._nop)]]] [] dummyFunctionContext
      = .ok (.inr ([(2, .Sequence .Void .Nop (.Branch .Void ⟨0, .Void⟩ none))], []),
          dummyFunctionContext) ∧
    parseSwitchArms (parseTypedExpression 1) .Void .Void ⟨0, .Void⟩
        [caseForm 3 []] [] dummyFunctionContext
      = .ok (.inr ([(3, .Nop)], []), dummyFunctionContext) ∧
    parseSwitchArms (parseTypedExpression 1) .Void .Void ⟨0, .Void⟩
        [caseForm 4 [fallthroughSymbol, .tree [.symbol (.plain ._nop)]]] [] dummyFunctionContext
      = .ok (.inl (.Error .Void
            "switch: expected fallthrough to be final symbol in S-expression"),
          dummyFunctionContext.recordError
            [fallthroughSymbol, .tree [.symbol (.plain ._nop)]]
            "switch: expected fallthrough to be final symbol in S-expression") :=
  ⟨(congrFun ((switch_case_arm_value (parseTypedExpression 1) .Void .Void ⟨0, .Void⟩ 1
        [.tree [.symbol (.plain ._nop)], fallthroughSymbol] [] []).1
        [.tree [.symbol (.plain ._nop)]] rfl (by simp [fallthroughSymbol]))
      dummyFunctionContext).trans rfl,
    (congrFun ((switch_case_arm_value (parseTypedExpression 1) .Void .Void ⟨0, .Void⟩ 2
        [.tree [.symbol (.plain ._nop)]] [] []).2.2.1 (by simp) (by simp [fallthroughSymbol]))
      dummyFunctionContext).trans rfl,
    (congrFun ((switch_case_arm_value (parseTypedExpression 1) .Void .Void ⟨0, .Void⟩ 3
        [] [] []).2.1 rfl) dummyFunctionContext).trans rfl,
    (switch_case_arm_value (parseTypedExpression 1) .Void .Void ⟨0, .Void⟩ 4
        [fallthroughSymbol, .tree [.symbol (.plain ._nop)]] [] []).2.2.2 []
      [.tree [.symbol (.plain ._nop)]] rfl (by simp) (by simp) dummyFunctionContext⟩

/-- A sequenced computation returns when both of its parts do. -/
theorem bind_eq_ok {α β : Type} (x : ParseM α) (f : α → ParseM β) (ctx ctx2 : FunctionContext)
    (b : β) (h : (x >>= f) ctx = .ok (b, ctx2)) :
    ∃ a ctx1, x ctx = .ok (a, ctx1) ∧ f a ctx1 = .ok (b, ctx2) := by
  simp only [bind, StateT.bind, Except.bind] at h
  cases hx : x ctx with
  | error e => rw [hx] at h; exact absurd h (by simp)
  | ok r =>
    rw [hx] at h
    exact ⟨r.1, r.2, rfl, h⟩

/-- The arms the loop over the `case` forms returns: one more arm for each leading `case`
form, keyed by its integer, and the iterator on the sibling after them. -/
theorem parseSwitchArms_inr (self : ParseTyped) (cls : TypeClassId) (R : TypeId)
    (t : BranchTarget) (nodeIt : SNodeIt) :
    ∀ (arms0 : List (Nat × Expression)) (ctx ctx2 : FunctionContext)
      (arms : List (Nat × Expression)) (rest : SNodeIt),
      parseSwitchArms self cls R t nodeIt arms0 ctx = .ok (.inr (arms, rest), ctx2) →
      rest = nodeIt.drop (countCases nodeIt) ∧
      arms.length = arms0.length + countCases nodeIt ∧
      arms.map Prod.fst = arms0.map Prod.fst ++ (caseKeys nodeIt).map toUintptr := by
  induction nodeIt with
  | nil =>
    intro arms0 ctx ctx2 arms rest h
    simp only [parseSwitchArms, pure, StateT.pure, Except.pure] at h
    injection h with h
    injection h with h1 h2
    injection h1 with h1
    injection h1 with h3 h4
    subst h3 h4
    simp [countCases, caseKeys]
  | cons node more ih =>
    intro arms0 ctx ctx2 arms rest h
    rw [parseSwitchArms] at h
    rw [countCases, caseKeys]
    cases hp : parseTaggedNode (node :: more) (.plain ._case) with
    | none =>
      simp only [hp, pure, StateT.pure, Except.pure] at h ⊢
      injection h with h
      injection h with h1 h2
      injection h1 with h1
      injection h1 with h3 h4
      subst h3 h4
      simp
    | some childNodeIt =>
      simp only [hp] at h ⊢
      cases hk : parseInt childNodeIt with
      | none =>
        simp only [hk] at h
        obtain ⟨e, c1, -, hpure⟩ := bind_eq_ok _ _ _ _ _ h
        cases hpure
      | some parsed =>
        obtain ⟨keyValue, body⟩ := parsed
        simp only [hk] at h ⊢
        cases hs : scanFallthrough body 0 true with
        | notFinal fallthroughNodeIt =>
          simp only [hs] at h
          obtain ⟨e, c1, -, hpure⟩ := bind_eq_ok _ _ _ _ _ h
          cases hpure
        | done numOps shouldFallthrough =>
          simp only [hs] at h
          have hrec : ∃ value c1, parseSwitchArms self cls R t more
              (arms0 ++ [(toUintptr keyValue, value)]) c1 = .ok (.inr (arms, rest), ctx2) := by
            cases shouldFallthrough with
            | true =>
              obtain ⟨v, c1, -, hrec⟩ := bind_eq_ok _ _ _ _ _ h
              exact ⟨v, c1, hrec⟩
            | false =>
              obtain ⟨v, c1, -, hrec⟩ := bind_eq_ok _ _ _ _ _ h
              exact ⟨_, c1, hrec⟩
          obtain ⟨value, c1, hrec⟩ := hrec
          obtain ⟨h1, h2, h3⟩ := ih _ _ _ _ _ hrec
          refine ⟨by simpa using h1, by simp at h2; omega, by simpa using h3⟩

/-- An early return of the loop over the `case` forms is an `Error` node. -/
theorem parseSwitchArms_inl (self : ParseTyped) (cls : TypeClassId) (R : TypeId)
    (t : BranchTarget) (nodeIt : SNodeIt) :
    ∀ (arms0 : List (Nat × Expression)) (ctx ctx2 : FunctionContext) (e : Expression),
      parseSwitchArms self cls R t nodeIt arms0 ctx = .ok (.inl e, ctx2) →
      ∃ message, e = .Error cls message := by
  induction nodeIt with
  | nil =>
    intro arms0 ctx ctx2 e h
    cases h
  | cons node more ih =>
    intro arms0 ctx ctx2 e h
    rw [parseSwitchArms] at h
    cases hp : parseTaggedNode (node :: more) (.plain ._case) with
    | none =>
      simp only [hp] at h
      cases h
    | some childNodeIt =>
      simp only [hp] at h
      cases hk : parseInt childNodeIt with
      | none =>
        simp only [hk] at h
        obtain ⟨e1, c1, he, hpure⟩ := bind_eq_ok _ _ _ _ _ h
        cases hpure
        cases he
        exact ⟨_, rfl⟩
      | some parsed =>
        obtain ⟨keyValue, body⟩ := parsed
        simp only [hk] at h
        cases hs : scanFallthrough body 0 true with
        | notFinal fallthroughNodeIt =>
          simp only [hs] at h
          obtain ⟨e1, c1, he, hpure⟩ := bind_eq_ok _ _ _ _ _ h
          cases hpure
          cases he
          exact ⟨_, rfl⟩
        | done numOps shouldFallthrough =>
          simp only [hs] at h
          cases shouldFallthrough with
          | true =>
            obtain ⟨v, c1, -, hrec⟩ := bind_eq_ok _ _ _ _ _ h
            exact ih _ _ _ _ hrec
          | false =>
            obtain ⟨v, c1, -, hrec⟩ := bind_eq_ok _ _ _ _ _ h
            exact ih _ _ _ _ hrec

/-- The switch case from the loop over the `case` forms on: a `Switch` node it returns has
one arm for each leading `case` form and the default arm after them. -/
theorem parseSwitch_tail (self : ParseTyped) (cls : TypeClassId) (R opType : TypeId)
    (target : BranchTarget) (key0 : Expression) (cases : SNodeIt) (finish : ParseM Unit)
    (ctx ctx2 : FunctionContext) (c : TypeClassId) (key : Expression)
    (keyType : TypeId) (defaultArmIndex numArms : Nat) (arms : List (Nat × Expression))
    (t : BranchTarget)
    (h : (parseSwitchArms self cls R target cases [] >>= fun r =>
          match r with
          | .inl error => pure error
          | .inr (arms, nodeIt) =>
            self cls R nodeIt "switch default value" >>= fun d =>
              finish >>= fun _ =>
                requireFullMatch cls d.2 "switch"
                  (.Switch cls key0 opType (countCases cases) (countCases cases + 1)
                    (arms ++ [(0, d.1)]) target)) ctx
      = .ok (.Switch c key keyType defaultArmIndex numArms arms t, ctx2)) :
    c = cls ∧ key = key0 ∧ keyType = opType ∧ t = target ∧
    defaultArmIndex = countCases cases ∧ numArms = countCases cases + 1 ∧
    arms.length = countCases cases + 1 ∧
    arms.map Prod.fst = (caseKeys cases).map toUintptr ++ [0] ∧
    ∃ ctx3 ctx4 value,
      self cls R (cases.drop (countCases cases)) "switch default value" ctx3
        = .ok ((value, []), ctx4) ∧
      arms[countCases cases]? = some (0, value) := by
  obtain ⟨r, c1, harms, h⟩ := bind_eq_ok _ _ _ _ _ h
  cases r with
  | inl e =>
    obtain ⟨message, he⟩ := parseSwitchArms_inl _ _ _ _ _ _ _ _ _ harms
    subst he
    cases h
  | inr parsed =>
    obtain ⟨arms1, nodeIt1⟩ := parsed
    obtain ⟨h1, h2, h3⟩ := parseSwitchArms_inr _ _ _ _ _ _ _ _ _ _ harms
    obtain ⟨d, c2, hd, h⟩ := bind_eq_ok _ _ _ _ _ h
    obtain ⟨u, c3, -, h⟩ := bind_eq_ok _ _ _ _ _ h
    obtain ⟨value, rest⟩ := d
    cases rest with
    | cons node more => cases h
    | nil =>
      simp only [requireFullMatch, pure, StateT.pure, Except.pure] at h
      injection h with h
      injection h with h4 h5
      injection h4 with e1 e2 e3 e4 e5 e6 e7
      subst e1 e2 e3 e4 e5 e6 e7 h1
      simp only [List.length_nil, Nat.zero_add, List.map_nil, List.nil_append] at h2 h3
      refine ⟨rfl, rfl, rfl, rfl, rfl, rfl, by simp [h2], by simp [h3], c1, c2, value, hd, ?_⟩
      rw [← h2]
      simp

/-- C14. When the switch case returns a `Switch` node for a switch of the result type `R`
and the key type `opType`: the iterator `cases` that the parse of the key leaves has
`n = countCases cases` leading `case` forms, the node has `n + 1` arms and its
`defaultArmIndex` is `n`, the keys of the arms are the integers of the `case` forms as
unsigned 64-bit values followed by 0 for the default arm, and the value of the arm `n` is
what `parseTypedExpression<Class>(R, ..., "switch default value")` returns for the sibling
after the cases, which is the last sibling. -/
theorem switch_arms_and_default (self : ParseTyped) (cls : TypeClassId) (R opType : TypeId)
    (nodeIt : SNodeIt) (ctx ctx2 : FunctionContext) (c : TypeClassId) (key : Expression)
    (keyType : TypeId) (defaultArmIndex numArms : Nat) (arms : List (Nat × Expression))
    (t : BranchTarget)
    (h : parseSwitch self cls R opType nodeIt ctx
      = .ok (.Switch c key keyType defaultArmIndex numArms arms t, ctx2)) :
    c = cls ∧ keyType = opType ∧ t = ⟨ctx.numBranchTargets, R⟩ ∧
    ∃ ctx1 cases,
      self .Int opType
          (match parseName nodeIt with
            | some (_, advanced) => advanced
            | none => nodeIt) "switch key" (ctx.addBranchTargets 1)
        = .ok ((key, cases), ctx1) ∧
      defaultArmIndex = countCases cases ∧ numArms = countCases cases + 1 ∧
      arms.length = countCases cases + 1 ∧
      arms.map Prod.fst = (caseKeys cases).map toUintptr ++ [0] ∧
      ∃ ctx3 ctx4 value,
        self cls R (cases.drop (countCases cases)) "switch default value" ctx3
          = .ok ((value, []), ctx4) ∧
        arms[countCases cases]? = some (0, value) := by
  rw [parseSwitch] at h
  dsimp only at h
  cases hname : parseName nodeIt with
  | none =>
    simp only [hname] at h ⊢
    obtain ⟨target, c0, halloc, h⟩ := bind_eq_ok _ _ _ _ _ h
    obtain ⟨context, c1, hget, h⟩ := bind_eq_ok _ _ _ _ _ h
    cases halloc
    cases hget
    simp only [Bool.false_eq_true, if_false] at h
    obtain ⟨kd, c2, hkey, h⟩ := bind_eq_ok _ _ _ _ _ h
    obtain ⟨u, c3, -, h⟩ := bind_eq_ok _ _ _ _ _ h
    obtain ⟨h1, h2, h3, h4, h5⟩ :=
      parseSwitch_tail self cls R opType _ kd.1 kd.2 (pure ()) c3 ctx2 c key keyType
        defaultArmIndex numArms arms t h
    subst h2
    exact ⟨h1, h3, h4, c2, kd.2, hkey, h5⟩
  | some p =>
    obtain ⟨labelName, advanced⟩ := p
    simp only [hname] at h ⊢
    obtain ⟨target, c0, halloc, h⟩ := bind_eq_ok _ _ _ _ _ h
    obtain ⟨context, c1, hget, h⟩ := bind_eq_ok _ _ _ _ _ h
    cases halloc
    cases hget
    dsimp only at h
    by_cases hshadow : decide (NameMap.count ctx.labelToBranchTargetMap labelName ≠ 0) = true
    · rw [if_pos hshadow] at h
      cases h
    · rw [if_neg hshadow] at h
      obtain ⟨kd, c2, hkey, h⟩ := bind_eq_ok _ _ _ _ _ h
      obtain ⟨u, c3, -, h⟩ := bind_eq_ok _ _ _ _ _ h
      obtain ⟨h1, h2, h3, h4, h5⟩ :=
        parseSwitch_tail self cls R opType _ kd.1 kd.2 (eraseLabel labelName) c3 ctx2 c key
          keyType defaultArmIndex numArms arms t h
      subst h2
      exact ⟨h1, h3, h4, c2, kd.2, hkey, h5⟩

/-- C14, at a concrete input: `(switch.i32 (const.i32 0) (case 1 (nop)) (case -1 fallthrough)
(nop))` in a void context yields a `Switch` node with three arms, the keys 1 and 2^64 - 1 of
the two cases, and the default arm last, its value the `Nop` of the sibling after the
cases. -/
theorem switch_arms_and_default_witness :
    parseSwitch (parseTypedExpression 2) .Void .Void .I32 twoCaseSwitchOperands
        dummyFunctionContext
      = .ok (.Switch .Void (.Literal .I32 (.int 0)) .I32 2 3
          [(1, .Sequence .Void .Nop (.Branch .Void ⟨0, .Void⟩ none)),
           (2 ^ 64 - 1, .Nop), (0, .Nop)] ⟨0, .Void⟩,
          dummyFunctionContext.addBranchTargets 1) ∧
    ∃ ctx1 cases,
      parseTypedExpression 2 .Int .I32 twoCaseSwitchOperands "switch key"
          (dummyFunctionContext.addBranchTargets 1)
        = .ok ((.Literal .I32 (.int 0), cases), ctx1) ∧
      2 = countCases cases ∧ 3 = countCases cases + 1 ∧
      [(1, Expression.Sequence .Void .Nop (.Branch .Void ⟨0, .Void⟩ none)),
        (2 ^ 64 - 1, Expression.Nop), (0, Expression.Nop)].length = countCases cases + 1 ∧
      [(1, Expression.Sequence .Void .Nop (.Branch .Void ⟨0, .Void⟩ none)),
        (2 ^ 64 - 1, Expression.Nop), (0, Expression.Nop)].map Prod.fst
        = (caseKeys cases).map toUintptr ++ [0] ∧
      ∃ ctx3 ctx4 value,
        parseTypedExpression 2 .Void .Void (cases.drop (countCases cases))
            "switch default value" ctx3 = .ok ((value, []), ctx4) ∧
        [(1, Expression.Sequence .Void .Nop (.Branch .Void ⟨0, .Void⟩ none)),
          (2 ^ 64 - 1, Expression.Nop), (0, Expression.Nop)][countCases cases]?
          = some (0, value) :=
  ⟨rfl, (switch_arms_and_default (parseTypedExpression 2) .Void .Void .I32
      twoCaseSwitchOperands dummyFunctionContext (dummyFunctionContext.addBranchTargets 1)
      .Void (.Literal .I32 (.int 0)) .I32 2 3
      [(1, .Sequence .Void .Nop (.Branch .Void ⟨0, .Void⟩ none)), (2 ^ 64 - 1, .Nop), (0, .Nop)]
      ⟨0, .Void⟩ (by rfl)).2.2.2⟩

/-- An `int64` reinterpreted as unsigned is below 2^64. -/
theorem toUintptr_lt (value : Int) : toUintptr value < 2 ^ 64 := by
  unfold toUintptr
  have h1 : (0 : Int) ≤ value % 2 ^ 64 := Int.emod_nonneg _ (by norm_num)
  have h2 : value % 2 ^ 64 < 2 ^ 64 := Int.emod_lt_of_pos _ (by norm_num)
  omega

/-- A negative `int64` reinterpreted as unsigned is at least 2^63. -/
theorem toUintptr_of_neg (value : Int) (h0 : value < 0) (h1 : -2 ^ 63 ≤ value) :
    2 ^ 63 ≤ toUintptr value := by
  unfold toUintptr
  omega

/-- The loop over the segments at a form `(segment base "data")`: the segment is appended
exactly when base + length does not wrap around 2^64 and is at most the initial size, and
one error is recorded otherwise. -/
theorem parseSegments_segment (initialNumBytesMemory : Nat) (baseAddress : Int)
    (dataString : String) (rest : SNodeIt) (dataSegments : List DataSegment)
    (outErrors : List ErrorRecord) :
    parseSegments initialNumBytesMemory (segmentForm baseAddress dataString :: rest)
        dataSegments outErrors
      = if toUintptr baseAddress + dataString.length % 2 ^ 64 < 2 ^ 64
            ∧ toUintptr baseAddress + dataString.length % 2 ^ 64 ≤ initialNumBytesMemory then
          parseSegments initialNumBytesMemory rest
            (dataSegments ++ [{ baseAddress := toUintptr baseAddress,
                                numBytes := dataString.length % 2 ^ 64, data := dataString }])
            outErrors
        else
          parseSegments initialNumBytesMemory rest dataSegments
            (outErrors ++ [{ message := "data segment bounds aren't contained by initial memory size",
                             node := none }]) := by
  have hb := toUintptr_lt baseAddress
  have hl : dataString.length % 2 ^ 64 < 2 ^ 64 := Nat.mod_lt _ (by norm_num)
  rw [segmentForm, parseSegments]
  simp only [parseTaggedNodeOut, parseTreeNode, parseSymbol, parseInt, parseString, decide_True,
    recordError, List.head?_nil]
  by_cases hsum : toUintptr baseAddress + dataString.length % 2 ^ 64 < 2 ^ 64
  · rw [Nat.mod_eq_of_lt hsum]
    by_cases hle : toUintptr baseAddress + dataString.length % 2 ^ 64 ≤ initialNumBytesMemory
    · rw [if_neg (by omega), if_pos ⟨hsum, hle⟩]
    · rw [if_pos (by omega), if_neg (fun h => hle h.2)]
  · have hmod : (toUintptr baseAddress + dataString.length % 2 ^ 64) % 2 ^ 64
        = toUintptr baseAddress + dataString.length % 2 ^ 64 - 2 ^ 64 := by
      rw [Nat.mod_eq_sub_mod (by omega), Nat.mod_eq_of_lt (by omega)]
    rw [if_pos (by rw [hmod]; left; omega), if_neg (fun h => hsum h.1)]

/-- Every data segment the loop over the segments appends lies within the initial size. -/
theorem parseSegments_bounds (initialNumBytesMemory : Nat) (nodes : SNodeIt) :
    ∀ (dataSegments : List DataSegment) (outErrors : List ErrorRecord),
      (∀ segment ∈ dataSegments,
        segment.baseAddress + segment.numBytes ≤ initialNumBytesMemory) →
      ∀ segment ∈ (parseSegments initialNumBytesMemory nodes dataSegments outErrors).1,
        segment.baseAddress + segment.numBytes ≤ initialNumBytesMemory := by
  induction nodes with
  | nil => intro dataSegments outErrors h; simpa [parseSegments] using h
  | cons node rest ih =>
    intro dataSegments outErrors h
    rw [parseSegments]
    split
    · exact ih _ _ h
    · split
      · exact ih _ _ h
      · split
        · exact ih _ _ h
        · rename_i baseAddress _ _ _ dataString _ _
          have hb := toUintptr_lt baseAddress
          have hl : dataString.length % 2 ^ 64 < 2 ^ 64 := Nat.mod_lt _ (by norm_num)
          dsimp only
          split
          · exact ih _ _ h
          · rename_i hcond
            apply ih
            intro segment hmem
            rcases List.mem_append.1 hmem with hold | hnew
            · exact h segment hold
            · simp only [List.mem_singleton] at hnew
              subst hnew
              simp only
              by_cases hsum : toUintptr baseAddress + dataString.length % 2 ^ 64 < 2 ^ 64
              · rw [Nat.mod_eq_of_lt hsum] at hcond
                omega
              · exfalso
                apply hcond
                left
                rw [Nat.mod_eq_sub_mod (by omega), Nat.mod_eq_of_lt (by omega)]
                omega

/-- C16, evaluated: `(module (memory -1 (segment -4 "abc")))` is parsed without an error. The
initial size -1 is stored as 2^64 - 1 (no size check rejects it), the base -4 as 2^64 - 4,
and the segment of 3 bytes ends at 2^64 - 1 without wrapping, so the segment with the
negative base is appended. -/
theorem segment_with_negative_base_accepted :
    (ModuleContext.parse 8 negativeSegmentBaseModule {}).map
        (fun mc => (mc.module.initialNumBytesMemory, mc.module.dataSegments, mc.outErrors))
      = .ok (2 ^ 64 - 1, [{ baseAddress := 2 ^ 64 - 4, numBytes := 3, data := "abc" }], []) := by
  rfl

/-- The loop over the entries of a table stores the index of every entry that resolves. -/
theorem parseTableEntries_resolved (functionNameToIndexMap : NameMap Nat) (numFunctions : Nat)
    (hsize : numFunctions < 2 ^ 64) (entries : SNodeIt) (indices : List Nat)
    (hres : List.Forall₂ (TableEntryResolves functionNameToIndexMap numFunctions) entries
      indices) :
    ∀ (functionIndices : List Nat) (outErrors : List ErrorRecord),
      parseTableEntries functionNameToIndexMap numFunctions entries.length entries
          functionIndices outErrors
        = (functionIndices ++ indices, outErrors) := by
  induction hres with
  | nil => intro functionIndices outErrors; simp [parseTableEntries]
  | @cons node index entries indices hhead _ ih =>
    intro functionIndices outErrors
    obtain ⟨hlt, hnode⟩ := hhead
    have hparse : parseNameOrIndex (node :: entries) functionNameToIndexMap numFunctions
        = (some index, entries) := by
      rcases hnode with hint | ⟨name, hname, hfind⟩
      · subst hint
        exact parseNameOrIndex_index _ _ _ _ hlt hsize
      · subst hname
        exact parseNameOrIndex_name _ _ _ _ _ hfind
    rw [List.length_cons, parseTableEntries]
    simp only [hparse]
    rw [if_neg (by omega), ih]
    simp

/-- The signature check records one error for each entry whose function has another
type. -/
theorem checkTableTypes_count (functions : List Function) (functionType : FunctionType)
    (nodeIt : SNodeIt) (functionIndices : List Nat)
    (hlt : ∀ index ∈ functionIndices, index < functions.length) :
    ∀ outErrors : List ErrorRecord,
      checkTableTypes functions functionType nodeIt functionIndices outErrors
        = .ok (outErrors ++ List.replicate
            (differingEntries functions functionType functionIndices).length
            { message := "function table must only contain functions of a single type",
              node := nodeIt.head? }) := by
  induction functionIndices with
  | nil => intro outErrors; simp [checkTableTypes, differingEntries]
  | cons index rest ih =>
    intro outErrors
    have hindex : index < functions.length := hlt index (List.mem_cons_self _ _)
    have hrest := ih (fun i hi => hlt i (List.mem_cons_of_mem _ hi))
    rw [checkTableTypes]
    simp only [List.getElem?_eq_getElem hindex]
    by_cases htype : functions[index].type = functionType
    · rw [if_neg (by simpa using htype), hrest]
      simp [differingEntries, List.filter_cons, List.getElem?_eq_getElem hindex, htype]
    · rw [if_pos htype, hrest]
      simp [differingEntries, List.filter_cons, List.getElem?_eq_getElem hindex, htype,
        recordError, List.replicate_succ]

/-- Every index of resolving entries is below the number of functions. -/
theorem TableEntryResolves.index_lt (functionNameToIndexMap : NameMap Nat) (numFunctions : Nat)
    (entries : SNodeIt) (indices : List Nat)
    (hres : List.Forall₂ (TableEntryResolves functionNameToIndexMap numFunctions) entries
      indices) :
    ∀ index ∈ indices, index < numFunctions := by
  induction hres with
  | nil => intro index hmem; cases hmem
  | cons hhead _ ih =>
    intro index hmem
    rcases List.mem_cons.1 hmem with heq | htail
    · subst heq; exact hhead.1
    · exact ih index htail

/-- C18. For a non-empty `table` form whose entries all resolve to functions, the indices
`indices` in order: the parser returns, the type of the table is the `FunctionType` of the
function of the first entry, and the errors it records are one "function table must only
contain functions of a single type" for each entry whose function has a `FunctionType`
other than that one; so an error is recorded if and only if some entry differs. -/
theorem table_type_and_signature_errors (mc : ModuleContext) (nodeIt entries : SNodeIt)
    (indices : List Nat) (hsize : mc.module.functions.length < 2 ^ 64) (hne : entries ≠ [])
    (hres : List.Forall₂
      (TableEntryResolves mc.functionNameToIndexMap mc.module.functions.length) entries
      indices) :
    ∃ firstIndex firstFunction,
      indices.head? = some firstIndex ∧
      mc.module.functions[firstIndex]? = some firstFunction ∧
      parseTable nodeIt entries mc
        = .ok { mc with
            module := { mc.module with
              functionTables := mc.module.functionTables
                ++ [{ type := firstFunction.type, functionIndices := indices,
                      numFunctions := entries.length }] }
            outErrors := mc.outErrors ++ List.replicate
              (differingEntries mc.module.functions firstFunction.type indices).length
              { message := "function table must only contain functions of a single type",
                node := nodeIt.head? } } ∧
      ((differingEntries mc.module.functions firstFunction.type indices).length = 0 ↔
        ∀ index ∈ indices, ∃ function,
          mc.module.functions[index]? = some function ∧ function.type = firstFunction.type) := by
  have hlt := TableEntryResolves.index_lt _ _ _ _ hres
  have hentries := parseTableEntries_resolved _ _ hsize _ _ hres [] mc.outErrors
  cases hres with
  | nil => exact absurd rfl hne
  | @cons node firstIndex entries indices hhead htail =>
    have hfirst : firstIndex < mc.module.functions.length := hhead.1
    refine ⟨firstIndex, mc.module.functions[firstIndex], rfl,
      List.getElem?_eq_getElem hfirst, ?_, ?_⟩
    · rw [parseTable]
      simp only [List.length_cons, Nat.add_one_ne_zero, if_false]
      rw [List.length_cons] at hentries
      rw [hentries]
      simp only [List.nil_append, List.head?_cons, List.getElem?_eq_getElem hfirst]
      rw [checkTableTypes_count _ _ _ _ hlt]
    · rw [List.length_eq_zero, differingEntries, List.filter_eq_nil_iff]
      constructor
      · intro hall index hmem
        have hindex := hlt index hmem
        have := hall index hmem
        simp only [List.getElem?_eq_getElem hindex, Option.map_some', ne_eq,
          Option.some.injEq, decide_not, Bool.not_eq_true', decide_eq_false_iff_not,
          not_not] at this
        exact ⟨_, List.getElem?_eq_getElem hindex, this⟩
      · intro hall index hmem
        obtain ⟨function, hfunction, htype⟩ := hall index hmem
        simp [hfunction, htype]

/-- C18, at a concrete input: in a module with the functions `$f` of type `() -> void` and
`$g` of type `(i32) -> void`, the table `(table $f $g 1 0)` gets the type of `$f`, and one
error is recorded for each of its two entries that name `$g`. -/
theorem table_type_and_signature_errors_witness :
    (parseTable []
        [.unindexedSymbol ("$" ++ "f"), .unindexedSymbol ("$" ++ "g"), .int ((1 : Nat) : Int),
          .int ((0 : Nat) : Int)] mixedTableContext).map
      (fun mc => (mc.module.functionTables, mc.outErrors.length))
      = .ok ([{ type := {}, functionIndices := [0, 1, 1, 0], numFunctions := 4 }], 2) ∧
    ∃ firstIndex firstFunction,
      [0, 1, 1, 0].head? = some firstIndex ∧
      mixedTableContext.module.functions[firstIndex]? = some firstFunction ∧
      parseTable []
          [.unindexedSymbol ("$" ++ "f"), .unindexedSymbol ("$" ++ "g"), .int ((1 : Nat) : Int),
            .int ((0 : Nat) : Int)] mixedTableContext
        = .ok { mixedTableContext with
            module := { mixedTableContext.module with
              functionTables := mixedTableContext.module.functionTables
                ++ [{ type := firstFunction.type, functionIndices := [0, 1, 1, 0],
                      numFunctions := [SNode.unindexedSymbol ("$" ++ "f"),
                        .unindexedSymbol ("$" ++ "g"), .int ((1 : Nat) : Int),
                        .int ((0 : Nat) : Int)].length }] }
            outErrors := mixedTableContext.outErrors ++ List.replicate
              (differingEntries mixedTableContext.module.functions firstFunction.type
                [0, 1, 1, 0]).length
              { message := "function table must only contain functions of a single type",
                node := ([] : SNodeIt).head? } } ∧
      ((differingEntries mixedTableContext.module.functions firstFunction.type
          [0, 1, 1, 0]).length = 0 ↔
        ∀ index ∈ [0, 1, 1, 0], ∃ function,
          mixedTableContext.module.functions[index]? = some function
            ∧ function.type = firstFunction.type) :=
  ⟨rfl,
    table_type_and_signature_errors mixedTableContext [] _ [0, 1, 1, 0] (by decide) (by simp)
      (.cons ⟨by decide, .inr ⟨"f", rfl, rfl⟩⟩
        (.cons ⟨by decide, .inr ⟨"g", rfl, rfl⟩⟩
          (.cons ⟨by decide, .inl rfl⟩ (.cons ⟨by decide, .inl rfl⟩ .nil))))⟩

/-- The store symbols: the class of the store is the class of its value type, which is not
void, and the memory type is of that class. -/
theorem memoryOp_store (name : SymbolName) (opType : TypeId) (cls : TypeClassId)
    (memoryType : TypeId) (h : memoryOp name opType = some (.store cls memoryType)) :
    getPrimaryTypeClass opType = some cls ∧ opType ≠ .Void ∧
      isTypeClass memoryType cls = true := by
  unfold memoryOp at h
  split at h <;> first
    | (injection h with h; injection h with h1 h2; subst h1 h2; decide)
    | (injection h with h; cases h)
    | (cases h)

/-- The type of the typed expression `parseStoreExpression` returns is the value type. -/
theorem parseStoreExpression_type (self : ParseTyped) (cls : TypeClassId)
    (valueType memoryType : TypeId) (nodeIt : SNodeIt) (ctx ctx1 : FunctionContext)
    (te : TypedExpression) (hclass : isTypeClass memoryType cls = true)
    (h : parseStoreExpression self cls valueType memoryType false true nodeIt ctx
      = .ok (te, ctx1)) :
    te.type = valueType := by
  rw [parseStoreExpression] at h
  simp only [hclass, Bool.not_true, Bool.false_eq_true, if_false] at h
  obtain ⟨a, c1, -, h⟩ := bind_eq_ok _ _ _ _ _ h
  obtain ⟨b, c2, -, h⟩ := bind_eq_ok _ _ _ _ _ h
  obtain ⟨r, c3, -, h⟩ := bind_eq_ok _ _ _ _ _ h
  cases h
  rfl

/-- An expression of the expected type is returned as it is. -/
theorem coerceExpression_same (cls : TypeClassId) (T : TypeId) (te : TypedExpression)
    (nodeIt : SNodeIt) (errorContext : String) (ctx : FunctionContext) (h : te.type = T) :
    coerceExpression cls T te nodeIt errorContext ctx = .ok (te.expression, ctx) := by
  subst h
  cases cls <;> simp [coerceExpression, pure, StateT.pure, Except.pure]

/-- In a void context an expression of a type that is not void is wrapped in
`DiscardResult`. -/
theorem coerceExpression_discard (te : TypedExpression) (nodeIt : SNodeIt)
    (errorContext : String) (ctx : FunctionContext) (h : te.type ≠ .Void) :
    coerceExpression .Void .Void te nodeIt errorContext ctx
      = .ok (.DiscardResult te.expression te.type, ctx) := by
  simp [coerceExpression, pure, StateT.pure, Except.pure, Ne.symm h]

/-- A memory store form is parsed by `parseStoreExpression` and then coerced to the expected
type. -/
theorem parseTypedExpressionBody_store (self : ParseTyped) (typeClass : TypeClassId)
    (type : TypeId) (name : SymbolName) (opType : TypeId) (cls : TypeClassId)
    (memoryType : TypeId) (operands rest : SNodeIt) (errorContext : String)
    (ctx ctx1 : FunctionContext) (te : TypedExpression)
    (hop : memoryOp name opType = some (.store cls memoryType))
    (hstore : parseStoreExpression self cls opType memoryType false true operands ctx
      = .ok (te, ctx1)) :
    parseTypedExpressionBody self typeClass type (storeForm name opType operands :: rest)
        errorContext ctx
      = (coerceExpression typeClass type te (storeForm name opType operands :: rest)
          errorContext >>= fun result => pure (result, rest)) ctx1 := by
  simp only [parseTypedExpressionBody, storeForm, parseNonParametricExpression, parseTreeNode,
    parseSymbol, parseTypedOp, hop, bind, StateT.bind, Functor.map, StateT.map, Except.bind,
    Except.map, hstore, List.tail_cons]
  rfl

/-- The case of a variable store after the variable is resolved and its value parsed. -/
theorem parseSetVariable_resolved (self : ParseTyped) (cls : TypeClassId) (R : TypeId)
    (op : AnyOp) (nameToIndexMap : NameMap Nat) (vars : List Variable)
    (nodeIt afterName afterValue : SNodeIt) (variableIndex : Nat) (var : Variable)
    (value : Expression) (ctx ctx1 : FunctionContext)
    (hindex : parseNameOrIndex nodeIt nameToIndexMap vars.length
      = (some variableIndex, afterName))
    (hvar : vars[variableIndex]? = some var)
    (hvalue : parseTypedExpressionOfType self var.type afterName "store value" ctx
      = .ok ((value, afterValue), ctx1)) :
    parseSetVariable self cls R op nameToIndexMap vars nodeIt ctx
      = (coerceExpression cls R
            ⟨.SetVariable op (getPrimaryTypeClass var.type) value variableIndex, var.type⟩
            afterValue "variable" >>= fun result =>
          requireFullMatch cls afterValue (getAnyOpName op) result) ctx1 := by
  simp only [parseSetVariable, hindex, hvar, bind, StateT.bind, Except.bind, hvalue]

/-- A `set_local` form is parsed by `parseSetVariable` on the locals of the function. -/
theorem parseTypedExpressionBody_setLocal (self : ParseTyped) (cls : TypeClassId) (R : TypeId)
    (operands rest : SNodeIt) (errorContext : String) (ctx : FunctionContext) :
    parseTypedExpressionBody self cls R (setLocalForm operands :: rest) errorContext ctx
      = (parseSetVariable self cls R .setLocal ctx.localNameToIndexMap ctx.function.locals
          operands >>= fun result => pure (result, rest)) ctx := by
  simp only [parseTypedExpressionBody, setLocalForm, parseNonParametricExpression,
    parseParametricExpression, parseTreeNode, parseSymbol, bind, StateT.bind, Functor.map,
    StateT.map, Except.bind, Except.map, pure, StateT.pure, Except.pure, get, getThe,
    MonadStateOf.get, StateT.get, List.tail_cons]
  cases parseSetVariable self cls R .setLocal ctx.localNameToIndexMap ctx.function.locals
    operands ctx <;> rfl

/-- A `store_global` form is parsed by `parseSetVariable` on the globals of the module. -/
theorem parseTypedExpressionBody_storeGlobal (self : ParseTyped) (cls : TypeClassId)
    (R : TypeId) (operands rest : SNodeIt) (errorContext : String) (ctx : FunctionContext) :
    parseTypedExpressionBody self cls R (storeGlobalForm operands :: rest) errorContext ctx
      = (parseSetVariable self cls R .setGlobal ctx.moduleContext.globalNameToIndexMap
          ctx.moduleContext.module.globals operands >>= fun result => pure (result, rest))
          ctx := by
  simp only [parseTypedExpressionBody, storeGlobalForm, parseNonParametricExpression,
    parseParametricExpression, parseTreeNode, parseSymbol, bind, StateT.bind, Functor.map,
    StateT.map, Except.bind, Except.map, pure, StateT.pure, Except.pure, get, getThe,
    MonadStateOf.get, StateT.get, List.tail_cons]
  cases parseSetVariable self cls R .setGlobal ctx.moduleContext.globalNameToIndexMap
    ctx.moduleContext.module.globals operands ctx <;> rfl

/-- C20, as amended. The typed expression `parseStoreExpression` returns for a memory store
form (`store`, `store8`, `store16` of a value type) has that value type as its declared
type: where the value type is expected the `Store` node is returned as it is, with no error
recorded by the coercion, and in a void context it is wrapped in `DiscardResult`. Likewise
a `set_local` or `store_global` whose variable resolves, of a type that is not void, and
whose value is the last operand: the `SetVariable` node has the type of the variable, is
returned as it is where that type is expected, and is wrapped in `DiscardResult` in a void
context. -/
theorem store_and_set_yield_value_type (fuel : Nat) (rest : SNodeIt) (errorContext : String)
    (ctx ctx1 : FunctionContext) (operands : SNodeIt) :
    (∀ name opType cls memoryType te,
      memoryOp name opType = some (.store cls memoryType) →
      parseStoreExpression (parseTypedExpression fuel) cls opType memoryType false true
          operands ctx = .ok (te, ctx1) →
      te.type = opType ∧
      parseTypedExpression (fuel + 1) cls opType (storeForm name opType operands :: rest)
          errorContext ctx = .ok ((te.expression, rest), ctx1) ∧
      parseTypedExpression (fuel + 1) .Void .Void (storeForm name opType operands :: rest)
          errorContext ctx = .ok ((.DiscardResult te.expression opType, rest), ctx1)) ∧
    (∀ afterName variableIndex var value cls,
      parseNameOrIndex operands ctx.localNameToIndexMap ctx.function.locals.length
        = (some variableIndex, afterName) →
      ctx.function.locals[variableIndex]? = some var → var.type ≠ .Void →
      parseTypedExpressionOfType (parseTypedExpression fuel) var.type afterName "store value"
          ctx = .ok ((value, []), ctx1) →
      parseTypedExpression (fuel + 1) cls var.type (setLocalForm operands :: rest)
          errorContext ctx
        = .ok ((.SetVariable .setLocal (getPrimaryTypeClass var.type) value variableIndex,
            rest), ctx1) ∧
      parseTypedExpression (fuel + 1) .Void .Void (setLocalForm operands :: rest)
          errorContext ctx
        = .ok ((.DiscardResult
            (.SetVariable .setLocal (getPrimaryTypeClass var.type) value variableIndex)
            var.type, rest), ctx1)) ∧
    (∀ afterName variableIndex var value cls,
      parseNameOrIndex operands ctx.moduleContext.globalNameToIndexMap
          ctx.moduleContext.module.globals.length = (some variableIndex, afterName) →
      ctx.moduleContext.module.globals[variableIndex]? = some var → var.type ≠ .Void →
      parseTypedExpressionOfType (parseTypedExpression fuel) var.type afterName "store value"
          ctx = .ok ((value, []), ctx1) →
      parseTypedExpression (fuel + 1) cls var.type (storeGlobalForm operands :: rest)
          errorContext ctx
        = .ok ((.SetVariable .setGlobal (getPrimaryTypeClass var.type) value variableIndex,
            rest), ctx1) ∧
      parseTypedExpression (fuel + 1) .Void .Void (storeGlobalForm operands :: rest)
          errorContext ctx
        = .ok ((.DiscardResult
            (.SetVariable .setGlobal (getPrimaryTypeClass var.type) value variableIndex)
            var.type, rest), ctx1)) := by
  refine ⟨?_, ?_, ?_⟩
  · intro name opType cls memoryType te hop hstore
    obtain ⟨-, hvoid, hclass⟩ := memoryOp_store name opType cls memoryType hop
    have htype := parseStoreExpression_type _ _ _ _ _ _ _ _ hclass hstore
    refine ⟨htype, ?_, ?_⟩
    · rw [parseTypedExpression, parseTypedExpressionBody_store _ _ _ _ _ _ _ _ _ _ _ _ _
        hop hstore]
      simp only [bind, StateT.bind, coerceExpression_same _ _ _ _ _ _ htype, Except.bind]
      rfl
    · rw [parseTypedExpression, parseTypedExpressionBody_store _ _ _ _ _ _ _ _ _ _ _ _ _
        hop hstore]
      simp only [bind, StateT.bind,
        coerceExpression_discard te _ _ _ (by rw [htype]; exact hvoid), Except.bind, htype]
      rfl
  · intro afterName variableIndex var value cls hindex hvar hvoid hvalue
    constructor
    · rw [parseTypedExpression, parseTypedExpressionBody_setLocal]
      simp only [bind, StateT.bind,
        parseSetVariable_resolved _ _ _ _ _ _ _ _ _ _ _ _ _ _ hindex hvar hvalue,
        coerceExpression_same _ _ ⟨_, var.type⟩ _ _ _ rfl, Except.bind]
      rfl
    · rw [parseTypedExpression, parseTypedExpressionBody_setLocal]
      simp only [bind, StateT.bind,
        parseSetVariable_resolved _ _ _ _ _ _ _ _ _ _ _ _ _ _ hindex hvar hvalue,
        coerceExpression_discard ⟨_, var.type⟩ _ _ _ hvoid, Except.bind]
      rfl
  · intro afterName variableIndex var value cls hindex hvar hvoid hvalue
    constructor
    · rw [parseTypedExpression, parseTypedExpressionBody_storeGlobal]
      simp only [bind, StateT.bind,
        parseSetVariable_resolved _ _ _ _ _ _ _ _ _ _ _ _ _ _ hindex hvar hvalue,
        coerceExpression_same _ _ ⟨_, var.type⟩ _ _ _ rfl, Except.bind]
      rfl
    · rw [parseTypedExpression, parseTypedExpressionBody_storeGlobal]
      simp only [bind, StateT.bind,
        parseSetVariable_resolved _ _ _ _ _ _ _ _ _ _ _ _ _ _ hindex hvar hvalue,
        coerceExpression_discard ⟨_, var.type⟩ _ _ _ hvoid, Except.bind]
      rfl

/-- C20, counterexample: `(store.i32 (const.i32 0) (const.i32 1))` has the declared type
`i32`; where an `i32` is expected it is returned as it is and no error is recorded, and in a
void context it is wrapped in `DiscardResult`. The same holds for `(set_local 0 (const.i32
1))` with the local 0 of type `i32`. -/
theorem store_has_value_type :
    (parseStoreExpression (parseTypedExpression 1) .Int .I32 .I32 false true
        [.tree [.symbol (.typed ._const .I32), .int 0],
          .tree [.symbol (.typed ._const .I32), .int 1]] dummyFunctionContext).map
      (fun result => result.1.type) = .ok .I32 ∧
    parseTypedExpression 2 .Int .I32
        [storeForm ._store .I32 [.tree [.symbol (.typed ._const .I32), .int 0],
          .tree [.symbol (.typed ._const .I32), .int 1]]] "body" dummyFunctionContext
      = .ok ((.Store .Int false true (.Literal .I32 (.int 0)) (.Literal .I32 (.int 1))
          .I32 .I32, []), dummyFunctionContext) ∧
    parseTypedExpression 2 .Void .Void
        [storeForm ._store .I32 [.tree [.symbol (.typed ._const .I32), .int 0],
          .tree [.symbol (.typed ._const .I32), .int 1]]] "body" dummyFunctionContext
      = .ok ((.DiscardResult (.Store .Int false true (.Literal .I32 (.int 0))
          (.Literal .I32 (.int 1)) .I32 .I32) .I32, []), dummyFunctionContext) ∧
    parseTypedExpression 2 .Int .I32
        [setLocalForm [.int 0, .tree [.symbol (.typed ._const .I32), .int 1]]] "body"
        variablesFunctionContext
      = .ok ((.SetVariable .setLocal (some .Int) (.Literal .I32 (.int 1)) 0, []),
          variablesFunctionContext) ∧
    parseTypedExpression 2 .Void .Void
        [setLocalForm [.int 0, .tree [.symbol (.typed ._const .I32), .int 1]]] "body"
        variablesFunctionContext
      = .ok ((.DiscardResult (.SetVariable .setLocal (some .Int) (.Literal .I32 (.int 1)) 0)
          .I32, []), variablesFunctionContext) :=
  ⟨rfl, rfl, rfl, rfl, rfl⟩

/-- C20 as amended, at concrete inputs: `(store8.i32 (const.i32 0) (const.i32 1))` where an
`i32` is expected and in a void context, and `(set_local 0 (const.i32 1))` with the local 0
of type `i32` in the same two contexts. -/
theorem store_and_set_yield_value_type_witness :
    (parseTypedExpression 2 .Int .I32
        [storeForm ._store8 .I32 [.tree [.symbol (.typed ._const .I32), .int 0],
          .tree [.symbol (.typed ._const .I32), .int 1]]] "body" variablesFunctionContext
      = .ok ((.Store .Int false true (.Literal .I32 (.int 0)) (.Literal .I32 (.int 1))
          .I32 .I8, []), variablesFunctionContext) ∧
    parseTypedExpression 2 .Void .Void
        [storeForm ._store8 .I32 [.tree [.symbol (.typed ._const .I32), .int 0],
          .tree [.symbol (.typed ._const .I32), .int 1]]] "body" variablesFunctionContext
      = .ok ((.DiscardResult (.Store .Int false true (.Literal .I32 (.int 0))
          (.Literal .I32 (.int 1)) .I32 .I8) .I32, []), variablesFunctionContext)) ∧
    (parseTypedExpression 2 .Int .I32
        [setLocalForm [.int 0, .tree [.symbol (.typed ._const .I32), .int 1]]] "body"
        variablesFunctionContext
      = .ok ((.SetVariable .setLocal (some .Int) (.Literal .I32 (.int 1)) 0, []),
          variablesFunctionContext) ∧
    parseTypedExpression 2 .Void .Void
        [setLocalForm [.int 0, .tree [.symbol (.typed ._const .I32), .int 1]]] "body"
        variablesFunctionContext
      = .ok ((.DiscardResult (.SetVariable .setLocal (some .Int) (.Literal .I32 (.int 1)) 0)
          .I32, []), variablesFunctionContext)) :=
  ⟨((store_and_set_yield_value_type 1 [] "body" variablesFunctionContext
        variablesFunctionContext
        [.tree [.symbol (.typed ._const .I32), .int 0],
          .tree [.symbol (.typed ._const .I32), .int 1]]).1 ._store8 .I32 .Int .I8
        ⟨.Store .Int false true (.Literal .I32 (.int 0)) (.Literal .I32 (.int 1)) .I32 .I8,
          .I32⟩ rfl rfl).2,
    (store_and_set_yield_value_type 1 [] "body" variablesFunctionContext
        variablesFunctionContext
        [.int 0, .tree [.symbol (.typed ._const .I32), .int 1]]).2.1
      [.tree [.symbol (.typed ._const .I32), .int 1]] 0 ⟨.I32, none⟩ (.Literal .I32 (.int 1))
      .Int rfl rfl (by decide) rfl⟩

/-- `strcmp` of a string with itself is 0. -/
theorem strcmp_self (a : List Nat) : strcmp a a = 0 := by
  induction a with
  | nil => rfl
  | cons x xs ih => simp [strcmp, ih]

/-- Two C strings that `strcmp` finds equal have the same bytes. -/
theorem strcmp_eq_zero (a : List Nat) :
    ∀ b : List Nat, IsCString a → IsCString b → strcmp a b = 0 → a = b := by
  induction a with
  | nil =>
    intro b _ hb h
    cases b with
    | nil => rfl
    | cons y ys =>
      have := (hb y (List.mem_cons_self _ _)).1
      simp only [strcmp] at h
      omega
  | cons x xs ih =>
    intro b ha hb h
    cases b with
    | nil =>
      have := (ha x (List.mem_cons_self _ _)).1
      simp only [strcmp] at h
      omega
    | cons y ys =>
      simp only [strcmp] at h
      by_cases hxy : x = y
      · rw [if_pos hxy] at h
        rw [hxy, ih ys (fun c hc => ha c (List.mem_cons_of_mem _ hc))
          (fun c hc => hb c (List.mem_cons_of_mem _ hc)) h]
      · rw [if_neg hxy] at h
        omega

/-- The sign of `strcmp` flips when its arguments are swapped. -/
theorem strcmp_swap (a : List Nat) : ∀ b : List Nat, strcmp a b < 0 ↔ 0 < strcmp b a := by
  induction a with
  | nil =>
    intro b
    cases b with
    | nil => simp [strcmp]
    | cons y ys => simp only [strcmp]; omega
  | cons x xs ih =>
    intro b
    cases b with
    | nil => simp only [strcmp]; omega
    | cons y ys =>
      simp only [strcmp]
      by_cases hxy : x = y
      · rw [if_pos hxy, if_pos hxy.symm]; exact ih ys
      · rw [if_neg hxy, if_neg (fun h => hxy h.symm)]; omega

/-- `strcmp` orders C strings transitively. -/
theorem strcmp_trans (a : List Nat) :
    ∀ b c : List Nat, IsCString a → IsCString b → IsCString c →
      strcmp a b < 0 → strcmp b c < 0 → strcmp a c < 0 := by
  induction a with
  | nil =>
    intro b c _ hb hc hab hbc
    cases c with
    | nil =>
      cases b with
      | nil => exact hab
      | cons y ys =>
        have := (hb y (List.mem_cons_self _ _)).1
        simp only [strcmp] at hbc
        omega
    | cons z zs =>
      have := (hc z (List.mem_cons_self _ _)).1
      simp only [strcmp]
      omega
  | cons x xs ih =>
    intro b c ha hb hc hab hbc
    have hx := (ha x (List.mem_cons_self _ _)).1
    cases b with
    | nil => simp only [strcmp] at hab; omega
    | cons y ys =>
      have hy := (hb y (List.mem_cons_self _ _)).1
      cases c with
      | nil => simp only [strcmp] at hbc; omega
      | cons z zs =>
        simp only [strcmp] at hab hbc ⊢
        by_cases hxy : x = y
        · rw [if_pos hxy] at hab
          by_cases hyz : y = z
          · rw [if_pos hyz] at hbc
            rw [if_pos (hxy.trans hyz)]
            exact ih ys zs (fun c hc => ha c (List.mem_cons_of_mem _ hc))
              (fun c hc => hb c (List.mem_cons_of_mem _ hc))
              (fun d hd => hc d (List.mem_cons_of_mem _ hd)) hab hbc
          · rw [if_neg hyz] at hbc
            rw [if_neg (by omega)]
            omega
        · rw [if_neg hxy] at hab
          by_cases hyz : y = z
          · rw [if_pos hyz] at hbc
            rw [if_neg (by omega)]
            omega
          · rw [if_neg hyz] at hbc
            rw [if_neg (by omega)]
            omega

/-- Two C strings are equivalent keys under the comparator exactly when they have the same
bytes. -/
theorem comparator_equiv_iff (a b : List Nat) (ha : IsCString a) (hb : IsCString b) :
    (CaseInsensitiveStringCompareFunctor a b = false
      ∧ CaseInsensitiveStringCompareFunctor b a = false) ↔ a = b := by
  simp only [CaseInsensitiveStringCompareFunctor, decide_eq_false_iff_not, not_lt]
  constructor
  · rintro ⟨h1, h2⟩
    have h3 : ¬ (0 < strcmp a b) := fun h => absurd ((strcmp_swap b a).2 h) (by omega)
    exact strcmp_eq_zero a b ha hb (by omega)
  · intro h
    subst h
    rw [strcmp_self]
    exact ⟨le_refl _, le_refl _⟩

/-- C28. On C strings the comparator of the export map is a strict weak ordering: it is
irreflexive and transitive, and equivalence under it (neither key ordered before the other)
is transitive. Two names are equivalent keys if and only if they have the same bytes, so
`find` returns the entry stored under exactly the bytes looked up, whatever the letter case
of the other keys. -/
theorem export_name_comparator (a b c : List Nat) (ha : IsCString a) (hb : IsCString b)
    (hc : IsCString c) :
    CaseInsensitiveStringCompareFunctor a a = false ∧
    (CaseInsensitiveStringCompareFunctor a b = true →
      CaseInsensitiveStringCompareFunctor b c = true →
      CaseInsensitiveStringCompareFunctor a c = true) ∧
    ((CaseInsensitiveStringCompareFunctor a b = false
        ∧ CaseInsensitiveStringCompareFunctor b a = false) →
      (CaseInsensitiveStringCompareFunctor b c = false
        ∧ CaseInsensitiveStringCompareFunctor c b = false) →
      (CaseInsensitiveStringCompareFunctor a c = false
        ∧ CaseInsensitiveStringCompareFunctor c a = false)) ∧
    ((CaseInsensitiveStringCompareFunctor a b = false
        ∧ CaseInsensitiveStringCompareFunctor b a = false) ↔ a = b) ∧
    (∀ entries : List (List Nat × Nat), (∀ entry ∈ entries, IsCString entry.1) →
      mapFind CaseInsensitiveStringCompareFunctor entries a = entries.lookup a) := by
  refine ⟨?_, ?_, ?_, comparator_equiv_iff a b ha hb, ?_⟩
  · simp [CaseInsensitiveStringCompareFunctor, strcmp_self]
  · simp only [CaseInsensitiveStringCompareFunctor, decide_eq_true_eq]
    exact strcmp_trans a b c ha hb hc
  · intro hab hbc
    have h1 := (comparator_equiv_iff a b ha hb).1 hab
    have h2 := (comparator_equiv_iff b c hb hc).1 hbc
    exact (comparator_equiv_iff a c ha hc).2 (h1.trans h2)
  · intro entries hentries
    induction entries with
    | nil => rfl
    | cons entry rest ih =>
      obtain ⟨key, value⟩ := entry
      have hkey : IsCString key := hentries (key, value) (List.mem_cons_self _ _)
      have hrest := ih (fun e he => hentries e (List.mem_cons_of_mem _ he))
      have hiff := comparator_equiv_iff key a hkey ha
      by_cases heq : key = a
      · subst heq
        have h := hiff.2 rfl
        simp [mapFind, List.find?_cons, h.1, List.lookup]
      · have hne : ¬ (CaseInsensitiveStringCompareFunctor key a = false
            ∧ CaseInsensitiveStringCompareFunctor a key = false) := fun h => heq (hiff.1 h)
        have hp : (!CaseInsensitiveStringCompareFunctor key a
            && !CaseInsensitiveStringCompareFunctor a key) = false := by
          cases h1 : CaseInsensitiveStringCompareFunctor key a <;>
            cases h2 : CaseInsensitiveStringCompareFunctor a key <;> simp_all
        have hb' : (a == key) = false := by simpa using fun h : a = key => heq h.symm
        simp only [mapFind, List.find?_cons, hp, List.lookup, hb']
        exact hrest

/-- C28, at concrete inputs: the names "Inc" and "inc" (bytes 73 110 99 and 105 110 99) are
not equivalent keys, "Inc" is ordered before "inc", and looking "Inc" up in a map that holds
"inc" finds nothing. -/
theorem export_name_comparator_witness :
    (((CaseInsensitiveStringCompareFunctor [73, 110, 99] [105, 110, 99] = false
        ∧ CaseInsensitiveStringCompareFunctor [105, 110, 99] [73, 110, 99] = false)
      ↔ [73, 110, 99] = [105, 110, 99]) ∧
    CaseInsensitiveStringCompareFunctor [73, 110, 99] [105, 110, 99] = true) ∧
    mapFind CaseInsensitiveStringCompareFunctor [([105, 110, 99], 0)] [73, 110, 99] = none :=
  ⟨⟨(export_name_comparator [73, 110, 99] [105, 110, 99] [105, 110, 99]
        (by unfold IsCString; decide) (by unfold IsCString; decide)
        (by unfold IsCString; decide)).2.2.2.1, by decide⟩,
    ((export_name_comparator [73, 110, 99] [105, 110, 99] [105, 110, 99]
        (by unfold IsCString; decide) (by unfold IsCString; decide)
        (by unfold IsCString; decide)).2.2.2.2 [([105, 110, 99], 0)]
        (by unfold IsCString; decide)).trans (by decide)⟩

/-- The loop over the function imports keeps `missingImport` once it is set and only adds
lines. -/
theorem linkFunctionImports_mono (singleton : Intrinsics.Singleton)
    (functionImports : List FunctionImport) :
    ∀ (missingImport : Bool) (cerr : List String),
      (missingImport = true →
        (linkFunctionImports singleton functionImports missingImport cerr).1 = true) ∧
      ∀ line ∈ cerr, line ∈ (linkFunctionImports singleton functionImports missingImport cerr).2 := by
  induction functionImports with
  | nil => intro missingImport cerr; exact ⟨fun h => h, fun line h => h⟩
  | cons functionImport rest ih =>
    intro missingImport cerr
    rw [linkFunctionImports]
    split
    · exact ⟨fun _ => (ih true _).1 rfl,
        fun line h => (ih true _).2 line (List.mem_append_left _ h)⟩
    · exact ih missingImport cerr

/-- The loop over the function imports sets `missingImport` and writes the line of
every import that is not matched. -/
theorem linkFunctionImports_unmatched (singleton : Intrinsics.Singleton)
    (functionImports : List FunctionImport) :
    ∀ (missingImport : Bool) (cerr : List String) (functionImport : FunctionImport),
      functionImport ∈ functionImports → FunctionImportUnmatched singleton functionImport →
      (linkFunctionImports singleton functionImports missingImport cerr).1 = true ∧
      missingFunctionImportMessage functionImport
        ∈ (linkFunctionImports singleton functionImports missingImport cerr).2 := by
  induction functionImports with
  | nil => intro _ _ functionImport hmem; cases hmem
  | cons head rest ih =>
    intro missingImport cerr functionImport hmem hunmatched
    rw [linkFunctionImports]
    rcases List.mem_cons.1 hmem with heq | htail
    · subst heq
      have hpointer : (match Intrinsics.findFunction singleton functionImport.name with
          | some intrinsicFunction =>
            if intrinsicFunction.type = functionImport.type then intrinsicFunction.value else 0
          | none => 0) = 0 := by
        unfold FunctionImportUnmatched at hunmatched
        cases hfind : Intrinsics.findFunction singleton functionImport.name with
        | none => rfl
        | some intrinsicFunction =>
          rw [hfind] at hunmatched
          simp only [if_neg hunmatched]
      rw [if_pos hpointer]
      exact ⟨(linkFunctionImports_mono singleton rest true _).1 rfl,
        (linkFunctionImports_mono singleton rest true _).2 _ (by simp)⟩
    · split
      · exact ih true _ functionImport htail hunmatched
      · exact ih missingImport cerr functionImport htail hunmatched

/-- The loop over the variable imports keeps `missingImport` once it is set and only adds
lines. -/
theorem linkVariableImports_mono (singleton : Intrinsics.Singleton)
    (variableImports : List VariableImport) :
    ∀ (missingImport : Bool) (cerr : List String),
      (missingImport = true →
        (linkVariableImports singleton variableImports missingImport cerr).1 = true) ∧
      ∀ line ∈ cerr, line ∈ (linkVariableImports singleton variableImports missingImport cerr).2 := by
  induction variableImports with
  | nil => intro missingImport cerr; exact ⟨fun h => h, fun line h => h⟩
  | cons variableImport rest ih =>
    intro missingImport cerr
    rw [linkVariableImports]
    split
    · exact ⟨fun _ => (ih true _).1 rfl,
        fun line h => (ih true _).2 line (List.mem_append_left _ h)⟩
    · exact ih missingImport cerr

/-- The loop over the variable imports sets `missingImport` when an import is not
matched. -/
theorem linkVariableImports_unmatched (singleton : Intrinsics.Singleton)
    (variableImports : List VariableImport) :
    ∀ (missingImport : Bool) (cerr : List String) (variableImport : VariableImport),
      variableImport ∈ variableImports → VariableImportUnmatched singleton variableImport →
      (linkVariableImports singleton variableImports missingImport cerr).1 = true := by
  induction variableImports with
  | nil => intro _ _ variableImport hmem; cases hmem
  | cons head rest ih =>
    intro missingImport cerr variableImport hmem hunmatched
    rw [linkVariableImports]
    rcases List.mem_cons.1 hmem with heq | htail
    · subst heq
      have hvalue : (match Intrinsics.findValue singleton variableImport.name with
          | some intrinsicValue =>
            if variableImport.type ≠ intrinsicValue.type then none else some intrinsicValue
          | none => none) = none := by
        unfold VariableImportUnmatched at hunmatched
        cases hfind : Intrinsics.findValue singleton variableImport.name with
        | none => rfl
        | some intrinsicValue =>
          rw [hfind] at hunmatched
          simp only [if_pos (Ne.symm hunmatched)]
      rw [hvalue]
      exact (linkVariableImports_mono singleton rest true _).1 rfl
    · split
      · exact ih true _ variableImport htail hunmatched
      · exact ih missingImport cerr variableImport htail hunmatched

/-- C29, counterexample: the module
`(module (import $f "_does_not_exist") (func (local void) (nop)))` is parsed without an
error, its function import `_does_not_exist : () -> void` is matched by no intrinsic of the
registry, and `compileModule` does not return false for it: the code generation, which runs
before the imports are looked up, reaches `default: throw;` for the local of type `void`,
whatever the registry, the outcome of creating the execution engine and the build. -/
theorem compileModule_throws_before_import_check :
    (parse 3 [.tree (.symbol (.plain ._module) :: voidLocalImportModule)] {}).map
        (fun result => (result.1, result.2.errors,
          result.2.modules.map (fun astModule => (astModule.functionImports,
            astModule.functions.map (fun astFunction => astFunction.locals)))))
      = .ok (true, [], [([⟨{}, "_does_not_exist"⟩], [[⟨.Void, none⟩]])]) ∧
    FunctionImportUnmatched exampleSingleton ⟨{}, "_does_not_exist"⟩ ∧
    ∀ singleton executionEngine verifyFails,
      (ModuleContext.parse 3 voidLocalImportModule {}).map
          (fun moduleContext =>
            compileModule singleton executionEngine verifyFails moduleContext.module)
        = .ok (.error (.terminate "compile: default: throw")) :=
  ⟨rfl, trivial, fun _ _ _ => rfl⟩

/-- C29 as amended. When the code generation of the module, which `compileModule` runs
first, completes, and some function import of the module is not matched by the registry (no
intrinsic function under its name, or one of another `FunctionType`), or some
variable import is not matched (no intrinsic value under its name, or one of another type),
`compileModule` returns false, whatever the outcome of creating the execution engine; and
when the execution engine was created, the line
`Missing imported function <name> : (p1,...,pn) -> <ret>` of every function import that is
not matched is written to `std::cerr`. When the code generation does not complete,
`compileModule` returns nothing. -/
theorem compileModule_missing_import (singleton : Intrinsics.Singleton)
    (executionEngine : Except String Unit) (verifyFails : Bool) (astModule : Module)
    (hgenerated : generateCode astModule = .ok ())
    (hmissing : (∃ functionImport ∈ astModule.functionImports,
        FunctionImportUnmatched singleton functionImport)
      ∨ ∃ variableImport ∈ astModule.variableImports,
        VariableImportUnmatched singleton variableImport) :
    (∃ cerr, compileModule singleton executionEngine verifyFails astModule = .ok (false, cerr) ∧
      (executionEngine = .ok () →
        ∀ functionImport ∈ astModule.functionImports,
          FunctionImportUnmatched singleton functionImport →
          missingFunctionImportMessage functionImport ∈ cerr)) ∧
    ∀ (otherModule : Module) fault, generateCode otherModule = .error fault →
      compileModule singleton executionEngine verifyFails otherModule = .error fault := by
  refine ⟨?_, fun otherModule fault hfault => by simp only [compileModule, hfault]⟩
  cases executionEngine with
  | error errStr =>
    exact ⟨["Could not create ExecutionEngine: " ++ errStr],
      by simp only [compileModule, hgenerated], fun h => by cases h⟩
  | ok u =>
    have hflag : (linkVariableImports singleton astModule.variableImports
        (linkFunctionImports singleton astModule.functionImports false []).1
        (linkFunctionImports singleton astModule.functionImports false []).2).1 = true := by
      rcases hmissing with ⟨functionImport, hmem, hun⟩ | ⟨variableImport, hmem, hun⟩
      · exact (linkVariableImports_mono singleton _ _ _).1
          (linkFunctionImports_unmatched singleton _ false [] functionImport hmem hun).1
      · exact linkVariableImports_unmatched singleton _ _ _ variableImport hmem hun
    refine ⟨(linkVariableImports singleton astModule.variableImports
        (linkFunctionImports singleton astModule.functionImports false []).1
        (linkFunctionImports singleton astModule.functionImports false []).2).2, ?_,
      fun _ functionImport hmem hun => ?_⟩
    · simp only [compileModule, hgenerated, hflag, if_true]
    · exact (linkVariableImports_mono singleton _ _ _).2 _
        (linkFunctionImports_unmatched singleton _ false [] functionImport hmem hun).2

/-- C29 as amended, at concrete inputs: with `_sbrk` and `STACKTOP` registered, a module
that imports the function `_does_not_exist : (i32,f64) -> i32` fails to load, with or
without a function `(func (nop))` to compile first, and the diagnostic names the
signature. -/
theorem compileModule_missing_import_witness :
    compileModule exampleSingleton (.ok ()) false missingImportModule
      = .ok (false, ["Missing imported function _does_not_exist : (i32,f64) -> i32"]) ∧
    compileModule exampleSingleton (.ok ()) false missingImportNopModule
      = .ok (false, ["Missing imported function _does_not_exist : (i32,f64) -> i32"]) ∧
    (∃ cerr, compileModule exampleSingleton (.ok ()) false missingImportNopModule
        = .ok (false, cerr) ∧
      ((.ok () : Except String Unit) = .ok () →
        ∀ functionImport ∈ missingImportNopModule.functionImports,
          FunctionImportUnmatched exampleSingleton functionImport →
          missingFunctionImportMessage functionImport ∈ cerr)) :=
  ⟨rfl, rfl,
    (compileModule_missing_import exampleSingleton (.ok ()) false missingImportNopModule
      rfl (.inl ⟨_, List.mem_cons_self _ _, trivial⟩)).1⟩

/-- An erased key is not found. -/
theorem NameMap.find_erase_self {β : Type} (map : NameMap β) (key : String) :
    (map.erase key).find key = none := by
  induction map with
  | nil => rfl
  | cons entry rest ih =>
    obtain ⟨k, v⟩ := entry
    simp only [NameMap.erase, NameMap.find] at ih ⊢
    by_cases h : k = key
    · subst h
      simpa [List.filter_cons] using ih
    · rw [List.filter_cons, if_pos (by simpa using h), lookup_cons_ne _ _ _ _ (Ne.symm h)]
      exact ih

/-- C30, as amended. The registry is keyed by the name alone. After `first` and then
`second` are registered under one name, `findFunction` returns `second`; an import that
declares the name with the type of `first` is not matched when the two types differ; and
destroying either of the two leaves no registration under the name. -/
theorem intrinsic_registry_keyed_by_name (singleton : Intrinsics.Singleton)
    (first second : Intrinsics.Function) (hname : first.name = second.name) :
    Intrinsics.findFunction (second.new (first.new singleton)) first.name = some second ∧
    (first.type ≠ second.type →
      FunctionImportUnmatched (second.new (first.new singleton))
        { type := first.type, name := first.name }) ∧
    (∃ afterDelete, first.delete (second.new (first.new singleton)) = .ok afterDelete
      ∧ Intrinsics.findFunction afterDelete second.name = none) ∧
    (∃ afterDelete, second.delete (second.new (first.new singleton)) = .ok afterDelete
      ∧ Intrinsics.findFunction afterDelete first.name = none) := by
  have hfind : Intrinsics.findFunction (second.new (first.new singleton)) second.name
      = some second := by
    simp [Intrinsics.findFunction, Intrinsics.Function.new, NameMap.find_set]
  refine ⟨by rw [hname]; exact hfind, ?_, ?_, ?_⟩
  · intro htype
    unfold FunctionImportUnmatched
    simp only [hname, hfind]
    exact fun h => htype h.symm
  · refine ⟨{ second.new (first.new singleton) with
        functionMap := (second.new (first.new singleton)).functionMap.erase second.name },
      ?_, ?_⟩
    · unfold Intrinsics.findFunction at hfind
      rw [Intrinsics.Function.delete, hname, hfind]
    · simp only [Intrinsics.findFunction]
      exact NameMap.find_erase_self _ _
  · refine ⟨{ second.new (first.new singleton) with
        functionMap := (second.new (first.new singleton)).functionMap.erase second.name },
      ?_, ?_⟩
    · unfold Intrinsics.findFunction at hfind
      rw [Intrinsics.Function.delete, hfind]
    · simp only [Intrinsics.findFunction, hname]
      exact NameMap.find_erase_self _ _

/-- C30, counterexample: after `f : (i32) -> i32` and then `f : () -> void` are registered,
the name `f` resolves to the second one only; a module that imports `f : (i32) -> i32`
fails to load; and destroying the first intrinsic removes the registration of the second. -/
theorem intrinsic_same_name_replaces :
    Intrinsics.findFunction (secondIntrinsic.new (firstIntrinsic.new {})) "f"
      = some secondIntrinsic ∧
    compileModule (secondIntrinsic.new (firstIntrinsic.new {})) (.ok ()) false
        { functionImports := [{ type := firstIntrinsic.type, name := "f" }] }
      = .ok (false, ["Missing imported function f : (i32) -> i32"]) ∧
    (firstIntrinsic.delete (secondIntrinsic.new (firstIntrinsic.new {}))).map
        (fun afterDelete => Intrinsics.findFunction afterDelete "f") = .ok none :=
  ⟨by decide, rfl, rfl⟩

/-- C30 as amended, at a concrete input: the two intrinsics `f` of the counterexample. -/
theorem intrinsic_registry_keyed_by_name_witness :
    Intrinsics.findFunction (secondIntrinsic.new (firstIntrinsic.new {})) firstIntrinsic.name
      = some secondIntrinsic ∧
    (firstIntrinsic.type ≠ secondIntrinsic.type →
      FunctionImportUnmatched (secondIntrinsic.new (firstIntrinsic.new {}))
        { type := firstIntrinsic.type, name := firstIntrinsic.name }) ∧
    (∃ afterDelete,
      firstIntrinsic.delete (secondIntrinsic.new (firstIntrinsic.new {})) = .ok afterDelete
        ∧ Intrinsics.findFunction afterDelete secondIntrinsic.name = none) ∧
    (∃ afterDelete,
      secondIntrinsic.delete (secondIntrinsic.new (firstIntrinsic.new {})) = .ok afterDelete
        ∧ Intrinsics.findFunction afterDelete firstIntrinsic.name = none) :=
  intrinsic_registry_keyed_by_name {} firstIntrinsic secondIntrinsic rfl

/-- A key is counted exactly when it is among the keys of the map. -/
theorem NameMap.count_ne_zero_iff {β : Type} (map : NameMap β) (key : String) :
    map.count key ≠ 0 ↔ key ∈ map.keys := by
  induction map with
  | nil => simp [NameMap.count, NameMap.find, NameMap.keys]
  | cons entry rest ih =>
    obtain ⟨k, v⟩ := entry
    by_cases h : key = k
    · subst h
      simp [NameMap.count, NameMap.find, NameMap.keys, lookup_cons_self]
    · have hrest : (NameMap.count ((k, v) :: rest) key) = NameMap.count rest key := by
        simp only [NameMap.count, NameMap.find, lookup_cons_ne _ _ _ _ h]
      rw [hrest, ih]
      simp [NameMap.keys, h]

/-- The keys after `map[key] = value`. -/
theorem NameMap.keys_set {β : Type} (map : NameMap β) (key : String) (value : β) :
    (map.set key value).keys = insert key map.keys := by
  ext k
  rw [← NameMap.count_ne_zero_iff, Finset.mem_insert, ← NameMap.count_ne_zero_iff]
  simp only [NameMap.count, NameMap.find_set]
  by_cases h : k = key
  · simp [h]
  · simp [h]

/-- The errors of `buildVariableNameToIndexMapMap`: one for each name that is already a key
or was seen before. -/
theorem buildVariableNameToIndexMapMapFrom_errors (vars : List Variable) :
    ∀ (index : Nat) (map : NameMap Nat) (outErrors : List ErrorRecord),
      ∃ count,
        (buildVariableNameToIndexMapMapFrom vars index map outErrors).2
          = outErrors ++ List.replicate count
              { message := "duplicate variable name", node := none } ∧
        count + (map.keys ∪ (variableNames vars).toFinset).card
          = (variableNames vars).length + map.keys.card := by
  induction vars with
  | nil =>
    intro index map outErrors
    exact ⟨0, by simp [buildVariableNameToIndexMapMapFrom], by simp [variableNames]⟩
  | cons var rest ih =>
    intro index map outErrors
    obtain ⟨type, varName⟩ := var
    cases varName with
    | none =>
      obtain ⟨count, h1, h2⟩ := ih (index + 1) map outErrors
      exact ⟨count, by simpa [buildVariableNameToIndexMapMapFrom] using h1,
        by simpa [variableNames] using h2⟩
    | some name =>
      have hnames : variableNames (⟨type, some name⟩ :: rest) = name :: variableNames rest := by
        simp [variableNames]
      rw [hnames]
      by_cases hdup : map.count name ≠ 0
      · obtain ⟨count, h1, h2⟩ := ih (index + 1) map
          (recordError outErrors [] "duplicate variable name")
        refine ⟨count + 1, ?_, ?_⟩
        · simp only [buildVariableNameToIndexMapMapFrom, if_pos hdup]
          rw [h1, recordError, List.append_assoc]
          rfl
        · have hmem := (NameMap.count_ne_zero_iff map name).1 hdup
          have hunion : map.keys ∪ (name :: variableNames rest).toFinset
              = map.keys ∪ (variableNames rest).toFinset := by
            ext k
            simp only [List.toFinset_cons, Finset.mem_union, Finset.mem_insert]
            constructor
            · rintro (h | h | h)
              · exact .inl h
              · exact .inl (h ▸ hmem)
              · exact .inr h
            · rintro (h | h)
              · exact .inl h
              · exact .inr (.inr h)
          rw [hunion, List.length_cons]
          omega
      · obtain ⟨count, h1, h2⟩ := ih (index + 1) (map.set name index) outErrors
        refine ⟨count, ?_, ?_⟩
        · simp only [buildVariableNameToIndexMapMapFrom, if_neg hdup, h1]
        · have hnot : name ∉ map.keys := fun h => hdup ((NameMap.count_ne_zero_iff map name).2 h)
          rw [NameMap.keys_set] at h2
          have hunion : map.keys ∪ (name :: variableNames rest).toFinset
              = insert name map.keys ∪ (variableNames rest).toFinset := by
            ext k
            simp only [List.toFinset_cons, Finset.mem_union, Finset.mem_insert]
            tauto
          rw [hunion, List.length_cons]
          rw [Finset.card_insert_of_not_mem hnot] at h2
          omega

/-- The loop of `parseVariables` only appends to the errors. -/
theorem parseVariablesLoop_append (nodeIt : SNodeIt) :
    ∀ (vars : List Variable) (numVariables : Nat),
      ∃ (result : Nat × SNodeIt × List Variable) (added : List ErrorRecord),
        ∀ outErrors : List ErrorRecord,
        parseVariablesLoop nodeIt vars outErrors numVariables
          = (result.1, result.2.1, result.2.2, outErrors ++ added) := by
  induction nodeIt with
  | nil =>
    intro vars numVariables
    exact ⟨(numVariables, [], vars), [], fun outErrors => by simp [parseVariablesLoop]⟩
  | cons node rest ih =>
    intro vars numVariables
    cases htype : parseType (node :: rest) with
    | none =>
      exact ⟨(numVariables, node :: rest, vars),
        [{ message := "expected type", node := (node :: rest).head? }], fun outErrors => by
        simp only [parseVariablesLoop, htype, recordError]⟩
    | some parsed =>
      obtain ⟨result, added, h⟩ := ih (vars ++ [{ type := parsed.1, name := none }])
        (numVariables + 1)
      exact ⟨result, added, fun outErrors => by
        simp only [parseVariablesLoop, htype, h]⟩

/-- `parseVariables` only appends to the errors. -/
theorem parseVariables_append (nodeIt : SNodeIt) (vars : List Variable) :
    ∃ (result : Nat × SNodeIt × List Variable) (added : List ErrorRecord),
      ∀ outErrors : List ErrorRecord,
      parseVariables nodeIt vars outErrors
        = (result.1, result.2.1, result.2.2, outErrors ++ added) := by
  cases hname : parseName nodeIt with
  | none =>
    obtain ⟨result, added, h⟩ := parseVariablesLoop_append nodeIt vars 0
    exact ⟨result, added, fun outErrors => by simp only [parseVariables, hname, h]⟩
  | some parsed =>
    cases htype : parseType parsed.2 with
    | none =>
      exact ⟨(0, parsed.2, vars), [{ message := "expected type", node := parsed.2.head? }],
        fun outErrors => by simp only [parseVariables, hname, htype, recordError]⟩
    | some typed =>
      exact ⟨(1, typed.2, vars ++ [{ type := typed.1, name := some parsed.1 }]), [],
        fun outErrors => by simp only [parseVariables, hname, htype, List.append_nil]⟩

/-- The loop over the declarations of a function only appends to the errors, and the
function it builds does not depend on them. -/
theorem parseFunctionDeclarations_append (nodeIt : SNodeIt) :
    ∀ (function : Function) (hasResult : Bool),
      ∃ (result : Function) (added : List ErrorRecord), ∀ outErrors : List ErrorRecord,
        parseFunctionDeclarations nodeIt function hasResult outErrors
          = (result, outErrors ++ added) := by
  induction nodeIt with
  | nil =>
    intro function hasResult
    exact ⟨function, [], fun outErrors => by simp [parseFunctionDeclarations]⟩
  | cons node rest ih =>
    intro function hasResult
    cases hresult : parseTaggedNode (node :: rest) (.plain ._result) with
    | some inner =>
      cases hasResult with
      | true =>
        obtain ⟨result, added, h⟩ := ih function true
        exact ⟨result,
          [{ message := "duplicate result declaration", node := (node :: rest).head? }]
            ++ added, fun outErrors => by
          simp only [parseFunctionDeclarations, hresult, if_true, h, recordError,
            List.append_assoc]⟩
      | false =>
        cases htype : parseType inner with
        | none =>
          obtain ⟨result, added, h⟩ := ih function false
          exact ⟨result, [{ message := "expected type", node := inner.head? }] ++ added,
            fun outErrors => by
            simp only [parseFunctionDeclarations, hresult, htype, h, recordError,
              List.append_assoc, Bool.false_eq_true, if_false]⟩
        | some typed =>
          obtain ⟨result, added, h⟩ := ih
            { function with type := { function.type with returnType := typed.1 } } true
          cases hrest : typed.2 with
          | nil =>
            exact ⟨result, added, fun outErrors => by
              simp only [parseFunctionDeclarations, hresult, htype, h, hrest,
                Bool.false_eq_true, if_false]⟩
          | cons extra more =>
            exact ⟨result,
              [{ message := "unexpected input following result declaration",
                 node := (extra :: more).head? }] ++ added, fun outErrors => by
              simp only [parseFunctionDeclarations, hresult, htype, h, hrest, recordError,
                List.append_assoc, Bool.false_eq_true, if_false]⟩
    | none =>
      cases hparam : parseTaggedNode (node :: rest) (.plain ._param) with
      | some inner =>
        obtain ⟨parsed, addedVars, hvars⟩ := parseVariables_append inner function.locals
        obtain ⟨result, added, h⟩ := ih
          { function with
            locals := parsed.2.2
            parameterLocalIndices := function.parameterLocalIndices
              ++ (List.range parsed.1).map fun parameterIndex =>
                function.locals.length + parameterIndex
            type := { function.type with
              parameters := function.type.parameters
                ++ ((List.range parsed.1).map fun parameterIndex =>
                  function.locals.length + parameterIndex).filterMap fun localIndex =>
                    (parsed.2.2[localIndex]?).map fun var => var.type } } hasResult
        cases hrest : parsed.2.1 with
        | nil =>
          exact ⟨result, addedVars ++ added, fun outErrors => by
            simp only [parseFunctionDeclarations, hresult, hparam, hvars, h, hrest,
              List.append_assoc]⟩
        | cons extra more =>
          exact ⟨result,
            addedVars ++ ([{ message := "unexpected input following parameter declaration",
                             node := (extra :: more).head? }] ++ added), fun outErrors => by
            simp only [parseFunctionDeclarations, hresult, hparam, hvars, h, hrest,
              recordError, List.append_assoc]⟩
      | none =>
        cases hlocal : parseTaggedNode (node :: rest) (.plain ._local) with
        | some inner =>
          obtain ⟨parsed, addedVars, hvars⟩ := parseVariables_append inner function.locals
          obtain ⟨result, added, h⟩ := ih { function with locals := parsed.2.2 } hasResult
          cases hrest : parsed.2.1 with
          | nil =>
            exact ⟨result, addedVars ++ added, fun outErrors => by
              simp only [parseFunctionDeclarations, hresult, hparam, hlocal, hvars, h, hrest,
                List.append_assoc]⟩
          | cons extra more =>
            exact ⟨result,
              addedVars ++ ([{ message := "unexpected input following local declaration",
                               node := (extra :: more).head? }] ++ added), fun outErrors => by
              simp only [parseFunctionDeclarations, hresult, hparam, hlocal, hvars, h, hrest,
                recordError, List.append_assoc]⟩
        | none =>
          exact ⟨function, [], fun outErrors => by
            simp only [parseFunctionDeclarations, hresult, hparam, hlocal,
              List.append_nil]⟩

/-- The loop over the declarations of a function, from any error list, in terms of its run
from the empty list. -/
theorem parseFunctionDeclarations_errors (nodeIt : SNodeIt) (function : Function)
    (hasResult : Bool) (outErrors : List ErrorRecord) :
    parseFunctionDeclarations nodeIt function hasResult outErrors
      = ((parseFunctionDeclarations nodeIt function hasResult []).1,
         outErrors ++ (parseFunctionDeclarations nodeIt function hasResult []).2) := by
  obtain ⟨result, added, h⟩ := parseFunctionDeclarations_append nodeIt function hasResult
  rw [h outErrors, h []]
  simp

/-- C22. `buildVariableNameToIndexMapMap` from an empty map appends one "duplicate variable
name" error for each named variable beyond the distinct names (named variables minus
distinct names in all) and maps every name to the index of its first occurrence. A `func`
form whose name is already in `functionNameToIndexMap` appends exactly one error, "duplicate
function name", before the errors of its own declarations; the function is still appended
to `module->functions`, and the map, and so the index of the name, is left as it was. A
`func` form with a new name records only the errors of its declarations. -/
theorem duplicate_declarations (vars : List Variable) (outErrors : List ErrorRecord)
    (mc : ModuleContext) (name : String) (declarations : SNodeIt) :
    ((buildVariableNameToIndexMapMap vars [] outErrors).2
        = outErrors ++ List.replicate
            ((variableNames vars).length - (variableNames vars).dedup.length)
            { message := "duplicate variable name", node := none } ∧
      ∀ n, (buildVariableNameToIndexMapMap vars [] outErrors).1.find n
        = firstIndexOf n (vars.map fun var => var.name)) ∧
    (∀ index, mc.functionNameToIndexMap.find name = some index →
      parseFunctionDeclaration (.unindexedSymbol ("$" ++ name) :: declarations) mc
        = { mc with
            module := { mc.module with
              functions := mc.module.functions
                ++ [(parseFunctionDeclarations declarations { name := some name } false []).1] }
            outErrors := mc.outErrors
              ++ [{ message := "duplicate function name", node := declarations.head? }]
              ++ (parseFunctionDeclarations declarations { name := some name } false []).2 }) ∧
    (mc.functionNameToIndexMap.find name = none →
      parseFunctionDeclaration (.unindexedSymbol ("$" ++ name) :: declarations) mc
        = { mc with
            functionNameToIndexMap :=
              mc.functionNameToIndexMap.set name mc.module.functions.length
            module := { mc.module with
              functions := mc.module.functions
                ++ [(parseFunctionDeclarations declarations { name := some name } false []).1] }
            outErrors := mc.outErrors
              ++ (parseFunctionDeclarations declarations { name := some name } false []).2 }) := by
  refine ⟨⟨?_, ?_⟩, ?_, ?_⟩
  · obtain ⟨count, h1, h2⟩ := buildVariableNameToIndexMapMapFrom_errors vars 0 [] outErrors
    rw [buildVariableNameToIndexMapMap, h1]
    have hkeys : (NameMap.keys ([] : NameMap Nat)) = ∅ := rfl
    rw [hkeys, Finset.empty_union, Finset.card_empty, List.card_toFinset] at h2
    have : count = (variableNames vars).length - (variableNames vars).dedup.length := by omega
    rw [this]
  · intro n
    rw [buildVariableNameToIndexMapMap, buildVariableNameToIndexMapMapFrom_find]
    simp [NameMap.find]
  · intro index hfind
    have hcount : mc.functionNameToIndexMap.count name ≠ 0 := by
      simp [NameMap.count, hfind]
    rw [parseFunctionDeclaration]
    simp only [parseName_dollar, hcount, ne_eq, not_false_eq_true, if_true, Option.map_some',
      ModuleContext.recordError, recordError]
    rw [parseFunctionDeclarations_errors]
  · intro hfind
    have hcount : ¬ (mc.functionNameToIndexMap.count name ≠ 0) := by
      simp [NameMap.count, hfind]
    rw [parseFunctionDeclaration]
    simp only [parseName_dollar, hcount, if_false, Option.map_some']
    rw [parseFunctionDeclarations_errors]

/-- C22, at concrete inputs: the variables `$x $y $x _ $x` give two errors and the map
`x -> 0, y -> 1`; and a second `(func $f (param i32) (nop))` records one error, is appended
as function 1, and leaves `f` mapped to 0. -/
theorem duplicate_declarations_witness :
    (buildVariableNameToIndexMapMap
        [⟨.I32, some "x"⟩, ⟨.I32, some "y"⟩, ⟨.F32, some "x"⟩, ⟨.I32, none⟩, ⟨.I32, some "x"⟩]
        [] []).2
      = [] ++ List.replicate 2 { message := "duplicate variable name", node := none } ∧
    (parseFunctionDeclaration
        [.unindexedSymbol ("$" ++ "f"), .tree [.symbol (.plain ._param), .symbol (.plain ._i32)],
          .tree [.symbol (.plain ._nop)]] declaredFunctionContext).functionNameToIndexMap.find "f"
      = some 0 ∧
    (parseFunctionDeclaration
        [.unindexedSymbol ("$" ++ "f"), .tree [.symbol (.plain ._param), .symbol (.plain ._i32)],
          .tree [.symbol (.plain ._nop)]] declaredFunctionContext).module.functions.length = 2 ∧
    (parseFunctionDeclaration
        [.unindexedSymbol ("$" ++ "f"), .tree [.symbol (.plain ._param), .symbol (.plain ._i32)],
          .tree [.symbol (.plain ._nop)]] declaredFunctionContext).outErrors
      = [{ message := "duplicate function name",
           node := some (.tree [.symbol (.plain ._param), .symbol (.plain ._i32)]) }] :=
  have h := duplicate_declarations
    [⟨.I32, some "x"⟩, ⟨.I32, some "y"⟩, ⟨.F32, some "x"⟩, ⟨.I32, none⟩, ⟨.I32, some "x"⟩] []
    declaredFunctionContext "f"
    [.tree [.symbol (.plain ._param), .symbol (.plain ._i32)], .tree [.symbol (.plain ._nop)]]
  ⟨h.1.1.trans (congrArg (fun count => [] ++ List.replicate count _) (by decide)), by rw [h.2.1 0 rfl]; rfl, by rw [h.2.1 0 rfl]; rfl,
    by rw [h.2.1 0 rfl]; rfl⟩

/-- C23, evaluated: the module `duplicateNamesModule` declares the import name `$i`, the
global name `$g` and the local name `$x` twice. The three errors recorded are built from
`SNodeIt(nullptr)`: their record has no node, so the locus their message starts with is the
one of a null iterator and not the locus of the second declaration. -/
theorem duplicate_name_errors_have_no_node :
    (ModuleContext.parse 8 duplicateNamesModule {}).map (fun mc => mc.outErrors)
      = .ok [{ message := "duplicate variable name", node := none },
             { message := "duplicate variable name", node := none },
             { message := "duplicate variable name", node := none }] := by
  rfl

/-- The case `call` after the function is resolved. -/
theorem parseCall_resolved (self : ParseTyped) (cls : TypeClassId) (E : TypeId)
    (parentNodeIt nodeIt operands : SNodeIt) (ctx : FunctionContext) (functionIndex : Nat)
    (callFunction : Function)
    (hindex : parseNameOrIndex nodeIt ctx.moduleContext.functionNameToIndexMap
      ctx.moduleContext.module.functions.length = (some functionIndex, operands))
    (hfunction : ctx.moduleContext.module.functions[functionIndex]? = some callFunction) :
    parseCall self cls E parentNodeIt nodeIt ctx
      = (parseParameters self "call parameter" callFunction.type.parameters operands
          >>= fun parsed =>
            coerceExpression cls E
                ⟨.Call .callDirect (getPrimaryTypeClass callFunction.type.returnType)
                  functionIndex parsed.1, callFunction.type.returnType⟩ parentNodeIt
                "call return value" >>= fun result =>
              requireFullMatch cls parsed.2 "call" result) ctx := by
  simp only [parseCall, bind, StateT.bind, get, getThe, MonadStateOf.get, StateT.get, pure,
    StateT.pure, Except.pure, Except.bind, hindex, hfunction]

theorem Sound.pure {α : Type} (credit : Nat) (weight : α → Nat) (a : α)
    (h : weight a ≤ credit) : Sound credit weight (pure a : ParseM α) := by
  intro ctx b ctx2 hrun
  cases hrun
  exact ⟨rfl, by omega⟩

theorem Sound.throw {α : Type} (credit : Nat) (weight : α → Nat) (fault : Fault) :
    Sound credit weight (throw fault : ParseM α) := by
  intro ctx b ctx2 hrun
  cases hrun

theorem Sound.bind {α β : Type} (credit : Nat) (weightA : α → Nat) (weight : β → Nat)
    (x : ParseM α) (f : α → ParseM β) (hx : Sound 0 weightA x)
    (hf : ∀ a, Sound (credit + weightA a) weight (f a)) : Sound credit weight (x >>= f) := by
  intro ctx b ctx2 hrun
  obtain ⟨a, ctx1, h1, h2⟩ := bind_eq_ok _ _ _ _ _ hrun
  obtain ⟨hr1, hw1⟩ := hx ctx a ctx1 h1
  obtain ⟨hr2, hw2⟩ := hf a ctx1 b ctx2 h2
  exact ⟨hr2.trans hr1, by omega⟩

theorem Sound.map {α β : Type} (credit : Nat) (weight : β → Nat) (f : α → β) (x : ParseM α)
    (hx : Sound credit (fun a => weight (f a)) x) : Sound credit weight (f <$> x) := by
  intro ctx b ctx2 hrun
  simp only [Functor.map, StateT.map, bind, Except.bind] at hrun
  cases hx1 : x ctx with
  | error e => rw [hx1] at hrun; cases hrun
  | ok r =>
    rw [hx1] at hrun
    cases hrun
    exact hx ctx r.1 r.2 hx1

theorem Sound.weaken {α : Type} (credit credit2 : Nat) (weight weight2 : α → Nat)
    (x : ParseM α) (hx : Sound credit weight x) (hcredit : credit ≤ credit2)
    (hweight : ∀ a, weight2 a ≤ weight a) : Sound credit2 weight2 x := by
  intro ctx a ctx2 hrun
  obtain ⟨hr, hw⟩ := hx ctx a ctx2 hrun
  have := hweight a
  exact ⟨hr, by omega⟩

theorem Sound.get : Sound 0 (fun _ => 0) (get : ParseM FunctionContext) := by
  intro ctx a ctx2 hrun
  cases hrun
  exact ⟨rfl, by simp⟩

theorem Sound.recordErrorNode (credit : Nat) (weight : Expression → Nat)
    (cls : TypeClassId) (nodeIt : SNodeIt) (message : String)
    (h : weight (.Error cls message) ≤ credit + 1) :
    Sound credit weight (recordErrorNode cls nodeIt message) := by
  intro ctx a ctx2 hrun
  cases hrun
  refine ⟨rfl, ?_⟩
  simp only [FunctionContext.numErrors, FunctionContext.recordError, WAVM.recordError,
    List.length_append, List.length_singleton]
  omega
theorem Sound.bind_spend {α β : Type} (credit : Nat) (weightA : α → Nat) (weight : β → Nat)
    (x : ParseM α) (f : α → ParseM β) (hx : Sound credit weightA x)
    (hf : ∀ a, Sound (weightA a) weight (f a)) : Sound credit weight (x >>= f) := by
  intro ctx b ctx2 hrun
  obtain ⟨a, ctx1, h1, h2⟩ := bind_eq_ok _ _ _ _ _ hrun
  obtain ⟨hr1, hw1⟩ := hx ctx a ctx1 h1
  obtain ⟨hr2, hw2⟩ := hf a ctx1 b ctx2 h2
  exact ⟨hr2.trans hr1, by omega⟩

/-- The recursive call of the parser is sound. -/
def SoundSelf (self : ParseTyped) : Prop :=
  ∀ typeClass type nodeIt errorContext,
    Sound 0 (fun result => numErrorNodes result.1) (self typeClass type nodeIt errorContext)

theorem requireFullMatch_sound (credit : Nat) (typeClass : TypeClassId) (nodeIt : SNodeIt)
    (errorContext : String) (result : Expression) (h : numErrorNodes result ≤ credit) :
    Sound credit numErrorNodes (requireFullMatch typeClass nodeIt errorContext result) := by
  unfold requireFullMatch
  split
  · exact Sound.pure _ _ _ h
  · exact Sound.recordErrorNode _ _ _ _ _ (by simp [numErrorNodes])

theorem coerceExpression_sound (credit : Nat) (typeClass : TypeClassId) (resultType : TypeId)
    (typedExpression : TypedExpression) (nodeIt : SNodeIt) (errorContext : String)
    (h : numErrorNodes typedExpression.expression ≤ credit) :
    Sound credit numErrorNodes
      (coerceExpression typeClass resultType typedExpression nodeIt errorContext) := by
  unfold coerceExpression typeError
  repeat' split
  all_goals first
    | exact Sound.pure _ _ _ (by simpa [numErrorNodes] using h)
    | exact Sound.throw _ _ _
    | exact Sound.recordErrorNode _ _ _ _ _ (by simp [numErrorNodes])

theorem parseTypedExpressionOfType_sound (self : ParseTyped) (hself : SoundSelf self)
    (type : TypeId) (nodeIt : SNodeIt) (errorContext : String) :
    Sound 0 (fun result => numErrorNodes result.1)
      (parseTypedExpressionOfType self type nodeIt errorContext) := by
  unfold parseTypedExpressionOfType
  split
  · exact hself _ _ _ _
  · exact Sound.throw _ _ _

theorem parseBinaryExpression_sound (self : ParseTyped) (hself : SoundSelf self)
    (opType : TypeId) (op : Opcode) (operandNodeIt : SNodeIt) :
    Sound 0 (fun result => numErrorNodes result.expression)
      (parseBinaryExpression self opType op operandNodeIt) := by
  unfold parseBinaryExpression
  refine Sound.bind _ _ _ _ _ (hself _ _ _ _) ?_
  rintro ⟨left, nodeIt⟩
  refine Sound.bind _ _ _ _ _ (hself _ _ _ _) ?_
  rintro ⟨right, nodeIt⟩
  refine Sound.bind_spend _ _ _ _ _
    (requireFullMatch_sound _ _ _ _ _ (by simp [numErrorNodes])) ?_
  intro result
  exact Sound.pure _ _ _ (Nat.le_refl _)
theorem parseVoidExpressions_sound (self : ParseTyped) (hself : SoundSelf self)
    (numRemaining : Nat) :
    ∀ (credit : Nat) (result : Option Expression) (nodeIt : SNodeIt) (errorContext : String),
      numErrorNodesOption result ≤ credit →
      Sound credit (fun parsed => numErrorNodesOption parsed.1)
        (parseVoidExpressions self numRemaining result nodeIt errorContext) := by
  induction numRemaining with
  | zero =>
    intro credit result nodeIt errorContext h
    unfold parseVoidExpressions
    exact Sound.pure _ _ _ h
  | succ numRemaining ih =>
    intro credit result nodeIt errorContext h
    unfold parseVoidExpressions
    refine Sound.bind _ _ _ _ _ (hself _ _ _ _) ?_
    rintro ⟨expression, nodeIt⟩
    cases result with
    | none => exact ih _ _ _ _ (by simp [numErrorNodesOption])
    | some result =>
      exact ih _ _ _ _ (by simp only [numErrorNodesOption, numErrorNodes] at h ⊢; omega)

theorem parseExpressionSequenceOps_sound (self : ParseTyped) (hself : SoundSelf self)
    (typeClass : TypeClassId) (type : TypeId) (nodeIt : SNodeIt) (errorContext : String)
    (numOps : Nat) :
    Sound 0 numErrorNodes
      (parseExpressionSequenceOps self typeClass type nodeIt errorContext numOps) := by
  unfold parseExpressionSequenceOps
  split
  · exact Sound.pure _ _ _ (by simp [numErrorNodes])
  split
  · refine Sound.bind _ _ _ _ _ (hself _ _ _ _) ?_
    rintro ⟨expression, nodeIt⟩
    exact Sound.pure _ _ _ (by simp)
  · refine Sound.bind _ _ _ _ _
      (parseVoidExpressions_sound self hself _ 0 none _ _ (by simp [numErrorNodesOption])) ?_
    rintro ⟨result, nodeIt⟩
    refine Sound.bind _ _ _ _ _ (hself _ _ _ _) ?_
    rintro ⟨resultExpression, nodeIt⟩
    cases result with
    | none => exact Sound.throw _ _ _
    | some result =>
      exact Sound.pure _ _ _ (by simp only [numErrorNodesOption, numErrorNodes]; omega)

theorem parseExpressionSequence_sound (self : ParseTyped) (hself : SoundSelf self)
    (typeClass : TypeClassId) (type : TypeId) (nodeIt : SNodeIt) (context : String) :
    Sound 0 numErrorNodes (parseExpressionSequence self typeClass type nodeIt context) := by
  unfold parseExpressionSequence
  split
  · exact Sound.recordErrorNode _ _ _ _ _ (by simp [numErrorNodes])
  · exact parseExpressionSequenceOps_sound self hself _ _ _ _ _

theorem parseComparisonExpression_sound (self : ParseTyped) (hself : SoundSelf self)
    (opType : TypeId) (op : BoolOp) (childNodeIt : SNodeIt) :
    Sound 0 (fun result => numErrorNodes result.expression)
      (parseComparisonExpression self opType op childNodeIt) := by
  unfold parseComparisonExpression
  refine Sound.bind _ _ _ _ _ (parseTypedExpressionOfType_sound self hself _ _ _) ?_
  rintro ⟨left, nodeIt⟩
  refine Sound.bind _ _ _ _ _ (parseTypedExpressionOfType_sound self hself _ _ _) ?_
  rintro ⟨right, nodeIt⟩
  refine Sound.bind_spend _ _ _ _ _
    (requireFullMatch_sound _ _ _ _ _ (by simp [numErrorNodes])) ?_
  intro result
  exact Sound.pure _ _ _ (Nat.le_refl _)

theorem parseUnaryExpression_sound (self : ParseTyped) (hself : SoundSelf self)
    (opType : TypeId) (op : Opcode) (operandNodeIt : SNodeIt) :
    Sound 0 (fun result => numErrorNodes result.expression)
      (parseUnaryExpression self opType op operandNodeIt) := by
  unfold parseUnaryExpression
  refine Sound.bind _ _ _ _ _ (hself _ _ _ _) ?_
  rintro ⟨operand, nodeIt⟩
  refine Sound.bind_spend _ _ _ _ _
    (requireFullMatch_sound _ _ _ _ _ (by simp [numErrorNodes])) ?_
  intro result
  exact Sound.pure _ _ _ (Nat.le_refl _)

theorem parseLoadExpression_sound (self : ParseTyped) (hself : SoundSelf self)
    (typeClass : TypeClassId) (resultType memoryType : TypeId) (loadOp : Opcode)
    (isFarAddress isAligned : Bool) (nodeIt : SNodeIt) :
    Sound 0 (fun result => numErrorNodes result.expression)
      (parseLoadExpression self typeClass resultType memoryType loadOp isFarAddress isAligned
        nodeIt) := by
  unfold parseLoadExpression
  split
  · refine Sound.bind_spend _ _ _ _ _
      (Sound.recordErrorNode _ numErrorNodes _ _ _ (by simp [numErrorNodes])) ?_
    intro result
    exact Sound.pure _ _ _ (Nat.le_refl _)
  · refine Sound.bind _ _ _ _ _ (hself _ _ _ _) ?_
    rintro ⟨address, nodeIt⟩
    refine Sound.bind_spend _ _ _ _ _
      (requireFullMatch_sound _ _ _ _ _ (by simp [numErrorNodes])) ?_
    intro result
    exact Sound.pure _ _ _ (Nat.le_refl _)

theorem parseStoreExpression_sound (self : ParseTyped) (hself : SoundSelf self)
    (operandClass : TypeClassId) (valueType memoryType : TypeId)
    (isFarAddress isAligned : Bool) (nodeIt : SNodeIt) :
    Sound 0 (fun result => numErrorNodes result.expression)
      (parseStoreExpression self operandClass valueType memoryType isFarAddress isAligned
        nodeIt) := by
  unfold parseStoreExpression
  split
  · refine Sound.bind_spend _ _ _ _ _
      (Sound.recordErrorNode _ numErrorNodes _ _ _ (by simp [numErrorNodes])) ?_
    intro result
    exact Sound.pure _ _ _ (Nat.le_refl _)
  · refine Sound.bind _ _ _ _ _ (hself _ _ _ _) ?_
    rintro ⟨address, nodeIt⟩
    refine Sound.bind _ _ _ _ _ (hself _ _ _ _) ?_
    rintro ⟨value, nodeIt⟩
    refine Sound.bind_spend _ _ _ _ _
      (requireFullMatch_sound _ _ _ _ _ (by simp [numErrorNodes])) ?_
    intro result
    exact Sound.pure _ _ _ (Nat.le_refl _)

theorem parseCastExpression_sound (self : ParseTyped) (hself : SoundSelf self)
    (op : Opcode) (sourceType destType : TypeId) (nodeIt : SNodeIt) :
    Sound 0 (fun result => numErrorNodes result.expression)
      (parseCastExpression self op sourceType destType nodeIt) := by
  unfold parseCastExpression
  refine Sound.bind _ _ _ _ _ (parseTypedExpressionOfType_sound self hself _ _ _) ?_
  rintro ⟨source, nodeIt⟩
  refine Sound.bind_spend _ _ _ _ _
    (requireFullMatch_sound _ _ _ _ _ (by simp [numErrorNodes])) ?_
  intro result
  exact Sound.pure _ _ _ (Nat.le_refl _)

theorem parseIntConst_sound (opType : TypeId) (nodeIt : SNodeIt) :
    Sound 0 (fun result => numErrorNodes result.expression) (parseIntConst opType nodeIt) := by
  unfold parseIntConst
  repeat' split
  all_goals first
    | exact Sound.throw _ _ _
    | exact Sound.bind_spend _ _ _ _ _
        (Sound.recordErrorNode _ numErrorNodes _ _ _ (by simp [numErrorNodes]))
        fun result => Sound.pure _ _ _ (Nat.le_refl _)
    | exact Sound.bind_spend _ _ _ _ _
        (requireFullMatch_sound _ _ _ _ _ (by simp [numErrorNodes]))
        fun result => Sound.pure _ _ _ (Nat.le_refl _)

theorem parseFloatConst_sound (opType : TypeId) (nodeIt : SNodeIt) :
    Sound 0 (fun result => numErrorNodes result.expression) (parseFloatConst opType nodeIt) := by
  unfold parseFloatConst
  repeat' split
  all_goals first
    | exact Sound.throw _ _ _
    | exact Sound.bind_spend _ _ _ _ _
        (Sound.recordErrorNode _ numErrorNodes _ _ _ (by simp [numErrorNodes]))
        fun result => Sound.pure _ _ _ (Nat.le_refl _)
    | exact Sound.bind_spend _ _ _ _ _
        (requireFullMatch_sound _ _ _ _ _ (by simp [numErrorNodes]))
        fun result => Sound.pure _ _ _ (Nat.le_refl _)

theorem parseTypedOp_sound (self : ParseTyped) (hself : SoundSelf self) (name : SymbolName)
    (opType : TypeId) (nodeIt : SNodeIt) :
    Sound 0 numErrorNodesTyped (parseTypedOp self name opType nodeIt) := by
  unfold parseTypedOp
  repeat' split
  all_goals first
    | exact Sound.pure _ _ _ (Nat.le_refl _)
    | exact Sound.map _ _ _ _ (parseLoadExpression_sound self hself _ _ _ _ _ _ _)
    | exact Sound.map _ _ _ _ (parseStoreExpression_sound self hself _ _ _ _ _ _)
    | exact Sound.map _ _ _ _ (parseIntConst_sound _ _)
    | exact Sound.map _ _ _ _ (parseFloatConst_sound _ _)
    | exact Sound.map _ _ _ _ (parseUnaryExpression_sound self hself _ _ _)
    | exact Sound.map _ _ _ _ (parseBinaryExpression_sound self hself _ _ _)
    | exact Sound.map _ _ _ _ (parseComparisonExpression_sound self hself _ _ _)

theorem parseNonParametricExpression_sound (self : ParseTyped) (hself : SoundSelf self)
    (parentNodeIt : SNodeIt) :
    Sound 0 numErrorNodesTyped (parseNonParametricExpression self parentNodeIt) := by
  unfold parseNonParametricExpression
  repeat' split
  all_goals first
    | exact Sound.pure _ _ _ (Nat.le_refl _)
    | exact parseTypedOp_sound self hself _ _ _
    | exact Sound.map _ _ _ _ (parseCastExpression_sound self hself _ _ _ _)
theorem allocateBranchTarget_sound (type : TypeId) :
    Sound 0 (fun _ => 0) (allocateBranchTarget type) := by
  intro ctx a ctx2 hrun
  cases hrun
  exact ⟨rfl, by simp [FunctionContext.numErrors]⟩

theorem setLabel_sound (labelName : String) (branchTarget : BranchTarget) :
    Sound 0 (fun _ => 0) (setLabel labelName branchTarget) := by
  intro ctx a ctx2 hrun
  cases hrun
  exact ⟨rfl, by simp [FunctionContext.numErrors]⟩

theorem eraseLabel_sound (labelName : String) :
    Sound 0 (fun _ => 0) (eraseLabel labelName) := by
  intro ctx a ctx2 hrun
  cases hrun
  exact ⟨rfl, by simp [FunctionContext.numErrors]⟩

theorem pushScopedBranchTarget_sound (branchTarget : BranchTarget) :
    Sound 0 (fun _ => 0) (pushScopedBranchTarget branchTarget) := by
  intro ctx a ctx2 hrun
  cases hrun
  exact ⟨rfl, by simp [FunctionContext.numErrors]⟩

theorem popScopedBranchTarget_sound : Sound 0 (fun _ => 0) popScopedBranchTarget := by
  intro ctx a ctx2 hrun
  cases hrun
  exact ⟨rfl, by simp [FunctionContext.numErrors]⟩

theorem parseParameters_sound (self : ParseTyped) (hself : SoundSelf self)
    (errorContext : String) (parameterTypes : List TypeId) :
    ∀ nodeIt : SNodeIt, Sound 0 (fun parsed => numErrorNodesList parsed.1)
      (parseParameters self errorContext parameterTypes nodeIt) := by
  induction parameterTypes with
  | nil =>
    intro nodeIt
    unfold parseParameters
    exact Sound.pure _ _ _ (by simp [numErrorNodesList])
  | cons parameterType rest ih =>
    intro nodeIt
    unfold parseParameters
    refine Sound.bind _ _ _ _ _ (parseTypedExpressionOfType_sound self hself _ _ _) ?_
    rintro ⟨parameterValue, nodeIt⟩
    refine Sound.bind _ _ _ _ _ (ih _) ?_
    rintro ⟨parameters, nodeIt⟩
    exact Sound.pure _ _ _ (by simp only [numErrorNodesList]; omega)

theorem parseGetVariable_sound (typeClass : TypeClassId) (resultType : TypeId) (op : AnyOp)
    (nameToIndexMap : NameMap Nat) (vars : List Variable) (nodeIt : SNodeIt) :
    Sound 0 numErrorNodes
      (parseGetVariable typeClass resultType op nameToIndexMap vars nodeIt) := by
  unfold parseGetVariable
  repeat' split
  all_goals first
    | exact Sound.throw _ _ _
    | exact Sound.recordErrorNode _ _ _ _ _ (by simp [numErrorNodes])
    | exact Sound.bind_spend _ _ _ _ _
        (coerceExpression_sound _ _ _ _ _ _ (by simp [numErrorNodes]))
        fun result => requireFullMatch_sound _ _ _ _ _ (Nat.le_refl _)

theorem parseSetVariable_sound (self : ParseTyped) (hself : SoundSelf self)
    (typeClass : TypeClassId) (resultType : TypeId) (op : AnyOp)
    (nameToIndexMap : NameMap Nat) (vars : List Variable) (nodeIt : SNodeIt) :
    Sound 0 numErrorNodes
      (parseSetVariable self typeClass resultType op nameToIndexMap vars nodeIt) := by
  unfold parseSetVariable
  repeat' split
  all_goals first
    | exact Sound.throw _ _ _
    | exact Sound.recordErrorNode _ _ _ _ _ (by simp [numErrorNodes])
    | skip
  refine Sound.bind _ _ _ _ _ (parseTypedExpressionOfType_sound self hself _ _ _) ?_
  rintro ⟨valueExpression, nodeIt⟩
  exact Sound.bind_spend _ _ _ _ _
    (coerceExpression_sound _ _ _ _ _ _ (by simp [numErrorNodes]))
    fun result => requireFullMatch_sound _ _ _ _ _ (Nat.le_refl _)

theorem numErrorNodesArms_append (arms : List (Nat × Expression)) (key : Nat)
    (value : Expression) :
    numErrorNodesArms (arms ++ [(key, value)]) = numErrorNodesArms arms + numErrorNodes value := by
  induction arms with
  | nil => simp [numErrorNodesArms]
  | cons arm arms ih =>
    obtain ⟨armKey, armValue⟩ := arm
    rw [List.cons_append, numErrorNodesArms, numErrorNodesArms, ih]
    omega

theorem parseSwitchArms_sound (self : ParseTyped) (hself : SoundSelf self)
    (typeClass : TypeClassId) (resultType : TypeId) (endTarget : BranchTarget)
    (nodeIt : SNodeIt) :
    ∀ (credit : Nat) (arms : List (Nat × Expression)), numErrorNodesArms arms ≤ credit →
      Sound credit (Sum.elim numErrorNodes fun parsed => numErrorNodesArms parsed.1)
        (parseSwitchArms self typeClass resultType endTarget nodeIt arms) := by
  induction nodeIt with
  | nil =>
    intro credit arms h
    unfold parseSwitchArms
    exact Sound.pure _ _ _ h
  | cons node rest ih =>
    intro credit arms h
    unfold parseSwitchArms
    repeat' split
    all_goals first
      | exact Sound.pure _ _ _ h
      | exact Sound.bind _ _ _ _ _
          (Sound.recordErrorNode _ numErrorNodes _ _ _ (by simp [numErrorNodes]))
          fun error => Sound.pure _ _ _ (by simp)
      | skip
    all_goals
      refine Sound.bind _ _ _ _ _ (parseExpressionSequenceOps_sound self hself _ _ _ _ _) ?_
      intro value
      refine ih _ _ ?_
      rw [numErrorNodesArms_append]
      first
        | omega
        | (simp only [numErrorNodes, numErrorNodesOption]; omega)
theorem pureUnit_sound : Sound 0 (fun _ => 0) (pure () : ParseM Unit) :=
  Sound.pure _ _ _ (Nat.le_refl _)

theorem parseSwitch_sound (self : ParseTyped) (hself : SoundSelf self)
    (typeClass : TypeClassId) (resultType opType : TypeId) (nodeIt : SNodeIt) :
    Sound 0 numErrorNodes (parseSwitch self typeClass resultType opType nodeIt) := by
  unfold parseSwitch
  dsimp only
  refine Sound.bind _ _ _ _ _ (allocateBranchTarget_sound _) ?_
  intro endTarget
  refine Sound.bind _ _ _ _ _ Sound.get ?_
  intro context
  split
  · exact Sound.recordErrorNode _ _ _ _ _ (by simp [numErrorNodes])
  refine Sound.bind _ _ _ _ _ (hself _ _ _ _) ?_
  rintro ⟨key, nodeIt⟩
  split
  all_goals
    refine Sound.bind _ (fun _ => 0) _ _ _
      (by first | exact setLabel_sound _ _ | exact pureUnit_sound) ?_
    intro _
    refine Sound.bind _ _ _ _ _
      (parseSwitchArms_sound self hself _ _ _ _ 0 [] (by simp [numErrorNodesArms])) ?_
    rintro (error | ⟨arms, nodeIt⟩)
    · exact Sound.pure _ _ _ (by simp)
    refine Sound.bind _ _ _ _ _ (hself _ _ _ _) ?_
    rintro ⟨defaultValue, nodeIt⟩
    split
    all_goals
      refine Sound.bind _ (fun _ => 0) _ _ _
        (by first | exact eraseLabel_sound _ | exact pureUnit_sound) ?_
      intro _
      refine requireFullMatch_sound _ _ _ _ _ ?_
      simp only [numErrorNodes, numErrorNodesArms_append, Sum.elim_inr]
      omega

theorem parseIf_sound (self : ParseTyped) (hself : SoundSelf self)
    (typeClass : TypeClassId) (resultType : TypeId) (nodeIt : SNodeIt) :
    Sound 0 numErrorNodes (parseIf self typeClass resultType nodeIt) := by
  unfold parseIf
  refine Sound.bind _ _ _ _ _ (hself _ _ _ _) ?_
  rintro ⟨condition, nodeIt⟩
  refine Sound.bind _ _ _ _ _ (hself _ _ _ _) ?_
  rintro ⟨thenExpression, nodeIt⟩
  dsimp only
  split
  · refine Sound.bind _ _ _ _ _ (hself _ _ _ _) ?_
    rintro ⟨elseExpression, nodeIt⟩
    exact requireFullMatch_sound _ _ _ _ _ (by simp only [numErrorNodes]; omega)
  split
  · exact requireFullMatch_sound _ _ _ _ _ (by simp only [numErrorNodes]; omega)
  · refine Sound.bind _ _ _ _ _
      (Sound.recordErrorNode 0 numErrorNodes _ _ _ (by simp [numErrorNodes])) ?_
    intro elseExpression
    exact requireFullMatch_sound _ _ _ _ _ (by simp only [numErrorNodes]; omega)

theorem parseLoop_sound (self : ParseTyped) (hself : SoundSelf self)
    (typeClass : TypeClassId) (resultType : TypeId) (nodeIt : SNodeIt) :
    Sound 0 numErrorNodes (parseLoop self typeClass resultType nodeIt) := by
  unfold parseLoop
  dsimp only
  refine Sound.bind _ _ _ _ _ (allocateBranchTarget_sound _) ?_
  intro breakTarget
  refine Sound.bind _ _ _ _ _ (allocateBranchTarget_sound _) ?_
  intro continueTarget
  refine Sound.bind _ _ _ _ _ Sound.get ?_
  intro context
  split
  · exact Sound.recordErrorNode _ _ _ _ _ (by simp [numErrorNodes])
  split
  all_goals
    refine Sound.bind _ (fun _ => 0) _ _ _
      (by first | exact setLabel_sound _ _ | exact pureUnit_sound) ?_
    intro _
    refine Sound.bind _ _ _ _ _ Sound.get ?_
    intro context
    split
    · exact Sound.recordErrorNode _ _ _ _ _ (by simp [numErrorNodes])
    split
    all_goals
      refine Sound.bind _ (fun _ => 0) _ _ _
        (by first | exact setLabel_sound _ _ | exact pureUnit_sound) ?_
      intro _
      refine Sound.bind _ _ _ _ _ (parseExpressionSequence_sound self hself _ _ _ _) ?_
      intro expression
      split
      all_goals
        refine Sound.bind _ (fun _ => 0) _ _ _
          (by first | exact eraseLabel_sound _ | exact pureUnit_sound) ?_
        intro _
        split
        all_goals
          refine Sound.bind _ (fun _ => 0) _ _ _
            (by first | exact eraseLabel_sound _ | exact pureUnit_sound) ?_
          intro _
          exact Sound.pure _ _ _ (by simp only [numErrorNodes]; omega)
theorem resolveBranchTarget_sound (nodeIt : SNodeIt) :
    Sound 0 (fun _ => 0) (resolveBranchTarget nodeIt) := by
  unfold resolveBranchTarget
  dsimp only
  refine Sound.bind _ _ _ _ _ Sound.get ?_
  intro context
  repeat' split
  all_goals first
    | exact Sound.throw _ _ _
    | exact Sound.pure _ _ _ (by simp)

theorem parseBreak_sound (self : ParseTyped) (hself : SoundSelf self)
    (typeClass : TypeClassId) (nodeIt : SNodeIt) :
    Sound 0 numErrorNodes (parseBreak self typeClass nodeIt) := by
  unfold parseBreak
  refine Sound.bind _ _ _ _ _ (resolveBranchTarget_sound _) ?_
  rintro ⟨_ | branchTarget, nodeIt⟩
  · exact Sound.recordErrorNode _ _ _ _ _ (by simp [numErrorNodes])
  dsimp only
  split
  · exact requireFullMatch_sound _ _ _ _ _ (by simp [numErrorNodes, numErrorNodesOption])
  · refine Sound.bind _ _ _ _ _ (parseTypedExpressionOfType_sound self hself _ _ _) ?_
    rintro ⟨value, nodeIt⟩
    exact requireFullMatch_sound _ _ _ _ _
      (by simp only [numErrorNodes, numErrorNodesOption]; omega)

theorem parseReturn_sound (self : ParseTyped) (hself : SoundSelf self)
    (typeClass : TypeClassId) (nodeIt : SNodeIt) :
    Sound 0 numErrorNodes (parseReturn self typeClass nodeIt) := by
  unfold parseReturn
  refine Sound.bind _ _ _ _ _ Sound.get ?_
  intro context
  dsimp only
  split
  · exact requireFullMatch_sound _ _ _ _ _ (by simp [numErrorNodes, numErrorNodesOption])
  · refine Sound.bind _ _ _ _ _ (parseTypedExpressionOfType_sound self hself _ _ _) ?_
    rintro ⟨value, nodeIt⟩
    exact requireFullMatch_sound _ _ _ _ _
      (by simp only [numErrorNodes, numErrorNodesOption]; omega)

theorem parseCall_sound (self : ParseTyped) (hself : SoundSelf self)
    (typeClass : TypeClassId) (resultType : TypeId) (parentNodeIt nodeIt : SNodeIt) :
    Sound 0 numErrorNodes (parseCall self typeClass resultType parentNodeIt nodeIt) := by
  unfold parseCall
  refine Sound.bind _ _ _ _ _ Sound.get ?_
  intro context
  dsimp only
  repeat' split
  all_goals first
    | exact Sound.throw _ _ _
    | exact Sound.recordErrorNode _ _ _ _ _ (by simp [numErrorNodes])
    | skip
  refine Sound.bind _ _ _ _ _ (parseParameters_sound self hself _ _ _) ?_
  rintro ⟨parameters, nodeIt⟩
  exact Sound.bind_spend _ _ _ _ _
    (coerceExpression_sound _ _ _ _ _ _ (by simp only [numErrorNodes]; omega))
    fun result => requireFullMatch_sound _ _ _ _ _ (Nat.le_refl _)

theorem parseCallImport_sound (self : ParseTyped) (hself : SoundSelf self)
    (typeClass : TypeClassId) (resultType : TypeId) (parentNodeIt nodeIt : SNodeIt) :
    Sound 0 numErrorNodes (parseCallImport self typeClass resultType parentNodeIt nodeIt) := by
  unfold parseCallImport
  refine Sound.bind _ _ _ _ _ Sound.get ?_
  intro context
  dsimp only
  repeat' split
  all_goals first
    | exact Sound.throw _ _ _
    | exact Sound.recordErrorNode _ _ _ _ _ (by simp [numErrorNodes])
    | skip
  refine Sound.bind _ _ _ _ _ (parseParameters_sound self hself _ _ _) ?_
  rintro ⟨parameters, nodeIt⟩
  exact Sound.bind_spend _ _ _ _ _
    (coerceExpression_sound _ _ _ _ _ _ (by simp only [numErrorNodes]; omega))
    fun result => requireFullMatch_sound _ _ _ _ _ (Nat.le_refl _)

theorem parseCallIndirect_sound (self : ParseTyped) (hself : SoundSelf self)
    (typeClass : TypeClassId) (resultType : TypeId) (parentNodeIt nodeIt : SNodeIt) :
    Sound 0 numErrorNodes
      (parseCallIndirect self typeClass resultType parentNodeIt nodeIt) := by
  unfold parseCallIndirect
  refine Sound.bind _ _ _ _ _ Sound.get ?_
  intro context
  dsimp only
  split
  · exact Sound.recordErrorNode _ _ _ _ _ (by simp [numErrorNodes])
  refine Sound.bind _ _ _ _ _ (hself _ _ _ _) ?_
  rintro ⟨functionIndex, nodeIt⟩
  dsimp only
  split
  · exact Sound.throw _ _ _
  refine Sound.bind _ _ _ _ _ (parseParameters_sound self hself _ _ _) ?_
  rintro ⟨parameters, nodeIt⟩
  exact Sound.bind_spend _ _ _ _ _
    (coerceExpression_sound _ _ _ _ _ _ (by simp only [numErrorNodes]; omega))
    fun result => requireFullMatch_sound _ _ _ _ _ (Nat.le_refl _)

theorem parseLabel_sound (self : ParseTyped) (hself : SoundSelf self)
    (typeClass : TypeClassId) (resultType : TypeId) (nodeIt : SNodeIt) :
    Sound 0 numErrorNodes (parseLabel self typeClass resultType nodeIt) := by
  unfold parseLabel
  dsimp only
  refine Sound.bind _ _ _ _ _ Sound.get ?_
  intro context
  split
  · exact Sound.recordErrorNode _ _ _ _ _ (by simp [numErrorNodes])
  refine Sound.bind _ _ _ _ _ (allocateBranchTarget_sound _) ?_
  intro branchTarget
  split
  all_goals
    refine Sound.bind _ (fun _ => 0) _ _ _
      (by first | exact setLabel_sound _ _ | exact pureUnit_sound) ?_
    intro _
    refine Sound.bind _ _ _ _ _ (pushScopedBranchTarget_sound _) ?_
    intro _
    refine Sound.bind _ _ _ _ _ (parseExpressionSequence_sound self hself _ _ _ _) ?_
    intro expression
    refine Sound.bind _ _ _ _ _ popScopedBranchTarget_sound ?_
    intro _
    split
    all_goals
      refine Sound.bind _ (fun _ => 0) _ _ _
        (by first | exact eraseLabel_sound _ | exact pureUnit_sound) ?_
      intro _
      exact Sound.pure _ _ _ (by simp only [numErrorNodes]; omega)

theorem parseParametricExpression_sound (self : ParseTyped) (hself : SoundSelf self)
    (typeClass : TypeClassId) (resultType : TypeId) (parentNodeIt : SNodeIt) :
    Sound 0 numErrorNodesOption
      (parseParametricExpression self typeClass resultType parentNodeIt) := by
  unfold parseParametricExpression
  repeat' split
  all_goals first
    | exact Sound.pure _ _ _ (Nat.le_refl _)
    | exact Sound.map _ _ _ _ (parseSwitch_sound self hself _ _ _ _)
    | exact Sound.map _ _ _ _ (parseIf_sound self hself _ _ _)
    | exact Sound.map _ _ _ _ (parseLoop_sound self hself _ _ _)
    | exact Sound.map _ _ _ _ (parseBreak_sound self hself _ _)
    | exact Sound.map _ _ _ _ (parseReturn_sound self hself _ _)
    | exact Sound.map _ _ _ _ (parseCall_sound self hself _ _ _ _)
    | exact Sound.map _ _ _ _ (parseCallImport_sound self hself _ _ _ _)
    | exact Sound.map _ _ _ _ (parseCallIndirect_sound self hself _ _ _ _)
    | exact Sound.map _ _ _ _ (parseLabel_sound self hself _ _ _)
    | exact Sound.map _ _ _ _ (parseExpressionSequence_sound self hself _ _ _ _)
    | exact Sound.bind _ _ _ _ _ Sound.get fun context =>
        Sound.map _ _ _ _ (parseGetVariable_sound _ _ _ _ _ _)
    | exact Sound.bind _ _ _ _ _ Sound.get fun context =>
        Sound.map _ _ _ _ (parseSetVariable_sound self hself _ _ _ _ _ _)

theorem parseTypedExpressionBody_sound (self : ParseTyped) (hself : SoundSelf self) :
    SoundSelf (parseTypedExpressionBody self) := by
  intro typeClass type nodeIt errorContext
  unfold parseTypedExpressionBody
  split
  · exact Sound.bind_spend _ _ _ _ _
      (Sound.recordErrorNode _ numErrorNodes _ _ _ (by simp [numErrorNodes]))
      fun result => Sound.pure _ _ _ (Nat.le_refl _)
  refine Sound.bind _ _ _ _ _ (parseNonParametricExpression_sound self hself _) ?_
  rintro (_ | nonParametricExpression)
  · refine Sound.bind _ _ _ _ _ (parseParametricExpression_sound self hself _ _ _) ?_
    rintro (_ | parametricExpression)
    · exact Sound.bind _ _ _ _ _
        (Sound.recordErrorNode 0 numErrorNodes _ _ _ (by simp [numErrorNodes]))
        fun result => Sound.pure _ _ _ (by simp)
    · exact Sound.pure _ _ _ (by simp [numErrorNodesOption])
  · exact Sound.bind_spend _ _ _ _ _
      (coerceExpression_sound _ _ _ _ _ _ (by simp [numErrorNodesTyped]))
      fun result => Sound.pure _ _ _ (Nat.le_refl _)

theorem parseTypedExpression_sound (fuel : Nat) : SoundSelf (parseTypedExpression fuel) := by
  induction fuel with
  | zero =>
    intro typeClass type nodeIt errorContext
    exact Sound.throw _ _ _
  | succ fuel ih => exact parseTypedExpressionBody_sound _ ih

theorem parseExpressionSequenceOfType_sound (fuel : Nat) (type : TypeId) (nodeIt : SNodeIt)
    (context : String) :
    Sound 0 numErrorNodes (parseExpressionSequenceOfType fuel type nodeIt context) := by
  unfold parseExpressionSequenceOfType
  split
  · exact parseExpressionSequence_sound _ (parseTypedExpression_sound fuel) _ _ _ _
  · exact Sound.throw _ _ _

theorem parseVariablesLoop_locals (nodeIt : SNodeIt) :
    ∀ (vars : List Variable) (outErrors : List ErrorRecord) (numVariables : Nat),
      ∃ new : List Variable,
        (parseVariablesLoop nodeIt vars outErrors numVariables).2.2.1 = vars ++ new ∧
        (parseVariablesLoop nodeIt vars outErrors numVariables).1
          = numVariables + new.length := by
  induction nodeIt with
  | nil =>
    intro vars outErrors numVariables
    exact ⟨[], by simp [parseVariablesLoop]⟩
  | cons node rest ih =>
    intro vars outErrors numVariables
    cases htype : parseType (node :: rest) with
    | none => exact ⟨[], by simp [parseVariablesLoop, htype]⟩
    | some parsed =>
      obtain ⟨new, h1, h2⟩ := ih (vars ++ [{ type := parsed.1, name := none }]) outErrors
        (numVariables + 1)
      refine ⟨{ type := parsed.1, name := none } :: new, ?_, ?_⟩
      · simp only [parseVariablesLoop, htype, h1, List.append_assoc, List.singleton_append]
      · simp only [parseVariablesLoop, htype, h2, List.length_cons]
        omega

theorem parseVariables_locals (nodeIt : SNodeIt) (vars : List Variable)
    (outErrors : List ErrorRecord) :
    ∃ new : List Variable,
      (parseVariables nodeIt vars outErrors).2.2.1 = vars ++ new ∧
      (parseVariables nodeIt vars outErrors).1 = new.length := by
  unfold parseVariables
  cases hname : parseName nodeIt with
  | none =>
    obtain ⟨new, h1, h2⟩ := parseVariablesLoop_locals nodeIt vars outErrors 0
    exact ⟨new, h1, by simpa using h2⟩
  | some parsed =>
    cases htype : parseType parsed.2 with
    | none => exact ⟨[], by simp [htype]⟩
    | some typed => exact ⟨[{ type := typed.1, name := some parsed.1 }], by simp [htype]⟩

/-- The invariant of the loop over the declarations of a function, from which
`ParametersAligned` follows. -/
theorem parametersAligned_of_map (function : Function)
    (hmap : function.parameterLocalIndices.map
        (fun index => (function.locals[index]?).map fun var => var.type)
      = function.type.parameters.map some)
    (hsorted : function.parameterLocalIndices.Pairwise fun earlier later => earlier < later)
    (hbound : ∀ index ∈ function.parameterLocalIndices, index < function.locals.length) :
    ParametersAligned function := by
  refine ⟨?_, hsorted, hbound, ?_⟩
  · have := congrArg List.length hmap
    simpa using this
  · intro i index hi
    have := congrArg (fun list => list[i]?) hmap
    simp only [List.getElem?_map, hi, Option.map_some'] at this
    cases hp : function.type.parameters[i]? with
    | none => rw [hp] at this; simp at this
    | some parameterType => rw [hp] at this; simpa using this
theorem filterMap_of_map_eq_some {α β : Type} (f : α → Option β) :
    ∀ (list : List α) (values : List β), list.map f = values.map some →
      list.filterMap f = values := by
  intro list
  induction list with
  | nil =>
    intro values h
    cases values with
    | nil => rfl
    | cons value values => simp at h
  | cons a list ih =>
    intro values h
    cases values with
    | nil => simp at h
    | cons value values =>
      simp only [List.map_cons, List.cons.injEq] at h
      rw [List.filterMap_cons, h.1, ih values h.2]

theorem newParameters_map (locals new : List Variable) :
    ((List.range new.length).map fun parameterIndex => locals.length + parameterIndex).map
        (fun index => ((locals ++ new)[index]?).map fun var : Variable => var.type)
      = (new.map fun var => var.type).map some := by
  apply List.ext_getElem?
  intro i
  simp only [List.getElem?_map, List.getElem?_range']
  by_cases hi : i < new.length
  · rw [List.getElem?_range hi]
    simp only [Option.map_some']
    rw [List.getElem?_append_right (by omega)]
    simp [List.getElem?_eq_getElem hi]
  · rw [List.getElem?_eq_none (by simpa using hi)]
    rw [List.getElem?_eq_none (by simpa using hi)]
    simp

theorem ParametersInvariant.param (function : Function) (new : List Variable)
    (h : ParametersInvariant function) :
    ParametersInvariant
      { function with
        locals := function.locals ++ new
        parameterLocalIndices := function.parameterLocalIndices
          ++ (List.range new.length).map fun parameterIndex =>
            function.locals.length + parameterIndex
        type := { function.type with
          parameters := function.type.parameters
            ++ ((List.range new.length).map fun parameterIndex =>
                function.locals.length + parameterIndex).filterMap fun localIndex =>
              ((function.locals ++ new)[localIndex]?).map fun var => var.type } } := by
  obtain ⟨hmap, hsorted, hbound⟩ := h
  have hnew := newParameters_map function.locals new
  rw [filterMap_of_map_eq_some _ _ _ hnew]
  refine ⟨?_, ?_, ?_⟩
  · simp only [List.map_append]
    rw [hnew, ← hmap]
    congr 1
    apply List.map_congr_left
    intro index hindex
    rw [List.getElem?_append_left (hbound index hindex)]
  · simp only
    rw [List.pairwise_append]
    refine ⟨hsorted, ?_, ?_⟩
    · rw [List.pairwise_map]
      exact (List.pairwise_lt_range _).imp (by intro a b hab; omega)
    · intro a ha b hb
      simp only [List.mem_map, List.mem_range] at hb
      obtain ⟨j, _, rfl⟩ := hb
      have := hbound a ha
      omega
  · intro index hindex
    simp only [List.mem_append, List.mem_map, List.mem_range] at hindex
    simp only [List.length_append]
    rcases hindex with hold | ⟨j, hj, rfl⟩
    · have := hbound index hold
      omega
    · omega

theorem ParametersInvariant.local (function : Function) (new : List Variable)
    (h : ParametersInvariant function) :
    ParametersInvariant { function with locals := function.locals ++ new } := by
  obtain ⟨hmap, hsorted, hbound⟩ := h
  refine ⟨?_, hsorted, ?_⟩
  · simp only
    rw [← hmap]
    apply List.map_congr_left
    intro index hindex
    rw [List.getElem?_append_left (hbound index hindex)]
  · intro index hindex
    have := hbound index hindex
    simp only [List.length_append]
    omega

theorem ParametersInvariant.aligned (function : Function) (h : ParametersInvariant function) :
    ParametersAligned function :=
  parametersAligned_of_map function h.1 h.2.1 h.2.2
/-- Induction over the loop that parses the declarations of a function: a property of the
remaining children and the function that every `result`, `param` and `local` declaration
keeps holds when the loop ends. -/
theorem parseFunctionDeclarations_induction (P : SNodeIt → Function → Prop)
    (hskip : ∀ node rest function, P (node :: rest) function → P rest function)
    (hresult : ∀ node rest function returnType, P (node :: rest) function →
      P rest { function with type := { function.type with returnType := returnType } })
    (hparam : ∀ node rest inner function new,
      parseTaggedNode [node] (.plain ._param) = some inner → P (node :: rest) function →
      P rest
        { function with
          locals := function.locals ++ new
          parameterLocalIndices := function.parameterLocalIndices
            ++ (List.range new.length).map fun parameterIndex =>
              function.locals.length + parameterIndex
          type := { function.type with
            parameters := function.type.parameters
              ++ ((List.range new.length).map fun parameterIndex =>
                  function.locals.length + parameterIndex).filterMap fun localIndex =>
                ((function.locals ++ new)[localIndex]?).map fun var => var.type } })
    (hlocal : ∀ node rest inner function new,
      parseTaggedNode [node] (.plain ._local) = some inner → P (node :: rest) function →
      P rest { function with locals := function.locals ++ new })
    (nodeIt : SNodeIt) :
    ∀ (function : Function) (hasResult : Bool) (outErrors : List ErrorRecord),
      P nodeIt function →
      ∃ remaining, P remaining
        (parseFunctionDeclarations nodeIt function hasResult outErrors).1 := by
  induction nodeIt with
  | nil =>
    intro function hasResult outErrors h
    exact ⟨[], by simpa [parseFunctionDeclarations] using h⟩
  | cons node rest ih =>
    intro function hasResult outErrors h
    cases hresultNode : parseTaggedNode (node :: rest) (.plain ._result) with
    | some inner =>
      cases hasResult with
      | true =>
        simp only [parseFunctionDeclarations, hresultNode, if_true]
        exact ih _ _ _ (hskip _ _ _ h)
      | false =>
        cases htype : parseType inner with
        | none =>
          simp only [parseFunctionDeclarations, hresultNode, htype, Bool.false_eq_true,
            if_false]
          exact ih _ _ _ (hskip _ _ _ h)
        | some typed =>
          simp only [parseFunctionDeclarations, hresultNode, htype, Bool.false_eq_true,
            if_false]
          exact ih _ _ _ (hresult _ _ _ _ h)
    | none =>
      cases hparamNode : parseTaggedNode (node :: rest) (.plain ._param) with
      | some inner =>
        obtain ⟨new, hnew, hcount⟩ := parseVariables_locals inner function.locals outErrors
        simp only [parseFunctionDeclarations, hresultNode, hparamNode, hnew, hcount]
        rw [parseTaggedNode_head] at hparamNode
        exact ih _ _ _ (hparam _ _ _ _ new hparamNode h)
      | none =>
        cases hlocalNode : parseTaggedNode (node :: rest) (.plain ._local) with
        | some inner =>
          obtain ⟨new, hnew, hcount⟩ := parseVariables_locals inner function.locals outErrors
          simp only [parseFunctionDeclarations, hresultNode, hparamNode, hlocalNode, hnew]
          rw [parseTaggedNode_head] at hlocalNode
          exact ih _ _ _ (hlocal _ _ _ _ new hlocalNode h)
        | none =>
          simp only [parseFunctionDeclarations, hresultNode, hparamNode, hlocalNode]
          exact ⟨_, h⟩

theorem parseFunctionDeclarations_invariant (nodeIt : SNodeIt) (function : Function)
    (hasResult : Bool) (outErrors : List ErrorRecord) (h : ParametersInvariant function) :
    ParametersInvariant (parseFunctionDeclarations nodeIt function hasResult outErrors).1 := by
  obtain ⟨_, hresult⟩ := parseFunctionDeclarations_induction
    (fun _ function => ParametersInvariant function)
    (fun _ _ _ h => h) (fun _ _ _ _ h => h)
    (fun _ _ _ function new _ h => ParametersInvariant.param function new h)
    (fun _ _ _ function new _ h => ParametersInvariant.local function new h)
    nodeIt function hasResult outErrors h
  exact hresult

theorem declaredFunction_invariant (childNodeIt : SNodeIt) :
    ParametersInvariant (declaredFunction childNodeIt) := by
  unfold declaredFunction
  apply parseFunctionDeclarations_invariant
  exact ⟨rfl, List.Pairwise.nil, by intro index h; cases h⟩
theorem parseFunctionDeclaration_functions (childNodeIt : SNodeIt) (mc : ModuleContext) :
    (parseFunctionDeclaration childNodeIt mc).module.functions
      = mc.module.functions ++ [declaredFunction childNodeIt] := by
  unfold parseFunctionDeclaration declaredFunction
  dsimp only
  rw [parseFunctionDeclarations_errors]
  cases hname : parseName childNodeIt with
  | none => rfl
  | some parsed =>
    dsimp only
    split <;> rfl

theorem parseDeclaration_functions (node : SNode) (rest : SNodeIt) (mc mc' : ModuleContext)
    (hm hm' : Bool) (h : parseDeclaration (node :: rest) mc hm = .ok (mc', hm')) :
    mc'.module.functions
      = mc.module.functions ++ (funcForms [node]).map declaredFunction := by
  unfold parseDeclaration at h
  simp only [parseTaggedNode_head node rest] at h
  unfold funcForms
  simp only [List.filterMap_cons, List.filterMap_nil]
  cases hfunc : parseTaggedNode [node] (.plain ._func) with
  | some childNodeIt =>
    simp only [hfunc] at h ⊢
    injection h with h
    injection h with h1 h2
    subst h1
    exact parseFunctionDeclaration_functions childNodeIt mc
  | none =>
    simp only [hfunc, List.map_nil, List.append_nil] at h ⊢
    split at h
    · split at h
      · next mcI hI =>
        injection h with h
        injection h with h1 h2
        subst h1
        exact (parseImportDeclaration_frame _ _ _ hI).2.1
      · exact absurd h (by simp)
    · split at h
      · injection h with h
        injection h with h1 h2
        subst h1
        exact (parseGlobalDeclaration_frame (by assumption) mc).2.1
      · split at h
        · injection h with h
          have h1 := congrArg Prod.fst h
          simp only at h1
          subst h1
          exact (parseMemoryDeclaration_frame (node :: rest) (by assumption) mc hm).2.1
        · split at h
          all_goals
            injection h with h
            injection h with h1 h2
            subst h1
            simp [ModuleContext.recordError]

theorem funcForms_cons (node : SNode) (rest : SNodeIt) :
    funcForms (node :: rest) = funcForms [node] ++ funcForms rest := by
  unfold funcForms
  simp only [List.filterMap_cons, List.filterMap_nil]
  cases parseTaggedNode [node] (.plain ._func) <;> rfl

theorem parseDeclarations_functions (nodes : SNodeIt) :
    ∀ (mc mc' : ModuleContext) (hm hm' : Bool),
      parseDeclarations nodes mc hm = .ok (mc', hm') →
      mc'.module.functions = mc.module.functions ++ (funcForms nodes).map declaredFunction := by
  induction nodes with
  | nil =>
    intro mc mc' hm hm' h
    simp only [parseDeclarations] at h
    injection h with h
    injection h with h1 h2
    subst h1
    simp [funcForms]
  | cons node rest ih =>
    intro mc mc' hm hm' h
    rw [parseDeclarations] at h
    cases hstep : parseDeclaration (node :: rest) mc hm with
    | error fault => simp only [hstep] at h; cases h
    | ok step =>
      obtain ⟨mc1, hm1⟩ := step
      simp only [hstep] at h
      rw [ih mc1 mc' hm1 hm' h, parseDeclaration_functions node rest mc mc1 hm hm1 hstep,
        funcForms_cons node rest, List.map_append, List.append_assoc]

theorem parseDeclarationPasses_functions (nodes : SNodeIt) (mc mc' : ModuleContext)
    (h : ModuleContext.parseDeclarationPasses nodes mc = .ok mc') :
    mc'.module.functions = mc.module.functions ++ (funcForms nodes).map declaredFunction := by
  unfold ModuleContext.parseDeclarationPasses at h
  split at h
  · exact absurd h (by simp)
  · next mc1 hm1 h1 =>
    split at h
    · exact absurd h (by simp)
    · next mc2 h2 =>
      injection h with h
      subst h
      show mc2.module.functions = _
      rw [(parseTables_frame nodes mc1 mc2 h2).2.2.1]
      exact parseDeclarations_functions nodes mc mc1 false hm1 h1

theorem map_declaration_set (functions : List Function) (index : Nat) (function : Function)
    (body : Option Expression) (h : functions[index]? = some function) :
    (functions.set index { function with expression := body }).map Function.declaration
      = functions.map Function.declaration := by
  apply List.ext_getElem?
  intro i
  simp only [List.getElem?_map, List.getElem?_set]
  by_cases hi : index = i
  · subst hi
    have hlt : index < functions.length := by
      rcases Nat.lt_or_ge index functions.length with hlt | hge
      · exact hlt
      · rw [List.getElem?_eq_none hge] at h
        cases h
    simp [hlt, h, Function.declaration]
  · simp [hi]

theorem FunctionContext.new_numErrors (mc : ModuleContext) (function : Function) :
    mc.outErrors.length ≤ (FunctionContext.new mc function).numErrors := by
  obtain ⟨count, herrors, _⟩ :=
    buildVariableNameToIndexMapMapFrom_errors function.locals 0 [] mc.outErrors
  unfold FunctionContext.new FunctionContext.numErrors buildVariableNameToIndexMapMap
  simp only [herrors, List.length_append]
  omega

theorem FunctionContext.new_declarations (mc : ModuleContext) (function : Function) :
    (FunctionContext.new mc function).moduleContext.declarations = mc.declarations ∧
    (FunctionContext.new mc function).moduleContext.module.functions = mc.module.functions ∧
    (FunctionContext.new mc function).function = function := by
  unfold FunctionContext.new
  exact ⟨rfl, rfl, rfl⟩

theorem FunctionContext.readOnly_declarations (ctx ctx2 : FunctionContext)
    (h : ctx2.readOnly = ctx.readOnly) :
    ctx2.moduleContext.declarations = ctx.moduleContext.declarations ∧
    ctx2.moduleContext.module.functions = ctx.moduleContext.module.functions ∧
    ctx2.function = ctx.function ∧
    ctx2.localNameToIndexMap = ctx.localNameToIndexMap :=
  ⟨congrArg (fun context => context.moduleContext.declarations) h,
   congrArg (fun context => context.moduleContext.module.functions) h,
   congrArg (fun context => context.function) h,
   congrArg (fun context => context.localNameToIndexMap) h⟩

/-- The function branch of the second pass: the body it parses, where it stores it, and
what it keeps. -/
theorem parseFunctionDefinition_spec (fuel : Nat) (childNodeIt : SNodeIt)
    (mc mc2 : ModuleContext) (currentFunctionIndex : Nat)
    (h : parseFunctionDefinition fuel childNodeIt mc currentFunctionIndex = .ok mc2) :
    ∃ function body ctx2,
      mc.module.functions[currentFunctionIndex]? = some function ∧
      parseExpressionSequenceOfType fuel function.type.returnType (functionBody childNodeIt)
        "function body" (FunctionContext.new mc function) = .ok (body, ctx2) ∧
      mc2.module.functions
        = mc.module.functions.set currentFunctionIndex
            { function with expression := some body } ∧
      mc2.declarations = mc.declarations ∧
      mc.outErrors.length ≤ mc2.outErrors.length ∧
      numErrorNodes body ≤ mc2.outErrors.length := by
  unfold parseFunctionDefinition at h
  dsimp only at h
  cases hfunction : mc.module.functions[currentFunctionIndex]? with
  | none => simp only [hfunction] at h; cases h
  | some function =>
    simp only [hfunction] at h
    split at h
    · cases h
    · next body ctx2 hparse =>
      injection h with h
      subst h
      obtain ⟨hreadOnly, hweight⟩ :=
        parseExpressionSequenceOfType_sound fuel _ _ _ _ _ _ hparse
      obtain ⟨hdecl, hfunctions, _, _⟩ :=
        FunctionContext.readOnly_declarations _ _ hreadOnly
      have hnew := FunctionContext.new_declarations mc function
      have herrors := FunctionContext.new_numErrors mc function
      refine ⟨function, body, ctx2, rfl, hparse, ?_, ?_, ?_, ?_⟩
      · show ctx2.moduleContext.module.functions.set _ _ = _
        rw [hfunctions, hnew.2.1]
      · rw [← hnew.1, ← hdecl]
        unfold ModuleContext.declarations
        simp only
        rw [map_declaration_set _ _ _ _ (by rw [hfunctions, hnew.2.1]; exact hfunction)]
      · show _ ≤ ctx2.numErrors
        omega
      · show _ ≤ ctx2.numErrors
        omega
theorem parseExportDefinition_frame (childNodeIt : SNodeIt) (mc : ModuleContext) :
    (parseExportDefinition childNodeIt mc).declarations = mc.declarations ∧
    (parseExportDefinition childNodeIt mc).module.functions = mc.module.functions ∧
    mc.outErrors.length ≤ (parseExportDefinition childNodeIt mc).outErrors.length := by
  unfold parseExportDefinition
  repeat' split
  all_goals
    refine ⟨rfl, rfl, ?_⟩
    simp [ModuleContext.recordError, WAVM.recordError]

/-- The second pass: it keeps the declarations, only appends errors, stores the body of the
k-th `func` form among `nodes` in `functions[currentFunctionIndex + k]`, parsed in a context
that has the declarations of the whole module, and leaves the other functions as they
are. -/
theorem parseDefinitions_spec (fuel : Nat) (nodes : SNodeIt) :
    ∀ (mc mc2 : ModuleContext) (currentFunctionIndex : Nat),
      parseDefinitions fuel nodes mc currentFunctionIndex = .ok mc2 →
      mc2.declarations = mc.declarations ∧
      mc.outErrors.length ≤ mc2.outErrors.length ∧
      (∀ j, j < currentFunctionIndex ∨ currentFunctionIndex + (funcForms nodes).length ≤ j →
        mc2.module.functions[j]? = mc.module.functions[j]?) ∧
      ∀ k form, (funcForms nodes)[k]? = some form →
        ∃ function mcK body ctx2,
          mcK.declarations = mc.declarations ∧
          mc.module.functions[currentFunctionIndex + k]? = some function ∧
          mcK.module.functions[currentFunctionIndex + k]? = some function ∧
          parseExpressionSequenceOfType fuel function.type.returnType (functionBody form)
            "function body" (FunctionContext.new mcK function) = .ok (body, ctx2) ∧
          mc2.module.functions[currentFunctionIndex + k]?
            = some { function with expression := some body } ∧
          numErrorNodes body ≤ mc2.outErrors.length := by
  induction nodes with
  | nil =>
    intro mc mc2 currentFunctionIndex h
    simp only [parseDefinitions] at h
    injection h with h
    subst h
    exact ⟨rfl, Nat.le_refl _, fun _ _ => rfl, fun k form hk => by simp [funcForms] at hk⟩
  | cons node rest ih =>
    intro mc mc2 currentFunctionIndex h
    rw [parseDefinitions, parseTaggedNode_head] at h
    cases hfunc : parseTaggedNode [node] (.plain ._func) with
    | some childNodeIt =>
      have hforms : funcForms (node :: rest) = childNodeIt :: funcForms rest := by
        rw [funcForms_cons]
        simp [funcForms, hfunc]
      simp only [hfunc] at h
      cases hstep : parseFunctionDefinition fuel childNodeIt mc currentFunctionIndex with
      | error fault => simp only [hstep] at h; cases h
      | ok mc1 =>
        simp only [hstep] at h
        obtain ⟨function, body, ctx2, hfunction, hparse, hfunctions, hdecl, herrors, hbody⟩ :=
          parseFunctionDefinition_spec fuel childNodeIt mc mc1 currentFunctionIndex hstep
        obtain ⟨hdecl2, herrors2, hkeep, hbodies⟩ := ih mc1 mc2 (currentFunctionIndex + 1) h
        have hlt : currentFunctionIndex < mc.module.functions.length := by
          rcases Nat.lt_or_ge currentFunctionIndex mc.module.functions.length with hlt | hge
          · exact hlt
          · rw [List.getElem?_eq_none hge] at hfunction
            cases hfunction
        refine ⟨hdecl2.trans hdecl, by omega, ?_, ?_⟩
        · intro j hj
          rw [hforms, List.length_cons] at hj
          rw [hkeep j (by omega), hfunctions, List.getElem?_set_ne (by omega)]
        · intro k form hk
          rw [hforms] at hk
          cases k with
          | zero =>
            simp only [List.getElem?_cons_zero, Option.some.injEq] at hk
            subst hk
            refine ⟨function, mc, body, ctx2, rfl, hfunction, hfunction, hparse, ?_, by omega⟩
            rw [Nat.add_zero, hkeep currentFunctionIndex (by omega), hfunctions]
            simp [hlt]
          | succ k =>
            simp only [List.getElem?_cons_succ] at hk
            obtain ⟨function2, mcK, body2, ctx3, h1, h0, h2, h3, h4, h5⟩ := hbodies k form hk
            have hindex : currentFunctionIndex + (k + 1) = currentFunctionIndex + 1 + k := by
              omega
            rw [hindex]
            refine ⟨function2, mcK, body2, ctx3, h1.trans hdecl, ?_, h2, h3, h4, h5⟩
            rw [← h0, hfunctions, List.getElem?_set_ne (by omega)]
    | none =>
      have hforms : funcForms (node :: rest) = funcForms rest := by
        rw [funcForms_cons]
        simp [funcForms, hfunc]
      simp only [hfunc] at h
      rw [hforms]
      split at h
      · next childNodeIt hexport =>
        obtain ⟨hdecl, hfunctions, herrors⟩ := parseExportDefinition_frame childNodeIt mc
        obtain ⟨hdecl2, herrors2, hkeep, hbodies⟩ := ih _ mc2 currentFunctionIndex h
        refine ⟨hdecl2.trans hdecl, by omega, ?_, ?_⟩
        · intro j hj
          rw [hkeep j hj, hfunctions]
        · intro k form hk
          obtain ⟨function2, mcK, body2, ctx3, h1, h0, h2, h3, h4, h5⟩ := hbodies k form hk
          exact ⟨function2, mcK, body2, ctx3, h1.trans hdecl, by rw [← hfunctions]; exact h0,
            h2, h3, h4, h5⟩
      · exact ih mc mc2 currentFunctionIndex h

theorem recordError_length (outErrors : List ErrorRecord) (nodeIt : SNodeIt)
    (message : String) :
    (recordError outErrors nodeIt message).length = outErrors.length + 1 := by
  simp [recordError]

theorem parseVariables_mono (nodeIt : SNodeIt) (vars : List Variable)
    (outErrors : List ErrorRecord) :
    outErrors.length ≤ (parseVariables nodeIt vars outErrors).2.2.2.length := by
  obtain ⟨result, added, h⟩ := parseVariables_append nodeIt vars
  rw [h outErrors]
  simp

theorem parseFunctionDeclarations_mono (nodeIt : SNodeIt) (function : Function)
    (hasResult : Bool) (outErrors : List ErrorRecord) :
    outErrors.length
      ≤ (parseFunctionDeclarations nodeIt function hasResult outErrors).2.length := by
  rw [parseFunctionDeclarations_errors]
  simp

theorem parseFunctionDeclaration_mono (childNodeIt : SNodeIt) (mc : ModuleContext) :
    mc.outErrors.length ≤ (parseFunctionDeclaration childNodeIt mc).outErrors.length := by
  unfold parseFunctionDeclaration
  dsimp only
  refine Nat.le_trans ?_ (parseFunctionDeclarations_mono _ _ _ _)
  repeat' split
  all_goals simp [ModuleContext.recordError, recordError_length]

theorem parseImportDeclarations_mono (nodeIt : SNodeIt) :
    ∀ (parameters : List Variable) (returnType : TypeId) (hasResult : Bool)
      (outErrors : List ErrorRecord),
      outErrors.length
        ≤ (parseImportDeclarations nodeIt parameters returnType hasResult
            outErrors).2.2.length := by
  induction nodeIt with
  | nil =>
    intro parameters returnType hasResult outErrors
    simp [parseImportDeclarations]
  | cons node rest ih =>
    intro parameters returnType hasResult outErrors
    unfold parseImportDeclarations
    repeat' split
    all_goals
      refine Nat.le_trans ?_ (ih _ _ _ _)
      first
        | exact Nat.le_refl _
        | (rw [recordError_length]; omega)
        | skip
    all_goals
      rename_i hvars
      have key : ∀ it result, parseVariables it parameters outErrors = result →
          outErrors.length ≤ result.2.2.2.length :=
        fun it result h => h ▸ parseVariables_mono it parameters outErrors
      have := key _ _ hvars
      first
        | exact this
        | (rw [recordError_length]; exact Nat.le_succ_of_le this)

theorem parseSegments_mono (initialNumBytesMemory : Nat) (nodeIt : SNodeIt) :
    ∀ (dataSegments : List DataSegment) (outErrors : List ErrorRecord),
      outErrors.length
        ≤ (parseSegments initialNumBytesMemory nodeIt dataSegments outErrors).2.length := by
  induction nodeIt with
  | nil =>
    intro dataSegments outErrors
    simp [parseSegments]
  | cons node rest ih =>
    intro dataSegments outErrors
    unfold parseSegments
    dsimp only
    repeat' split
    all_goals
      refine Nat.le_trans ?_ (ih _ _)
      first
        | exact Nat.le_refl _
        | (rw [recordError_length]; omega)

theorem parseTableEntries_mono (functionNameToIndexMap : NameMap Nat)
    (numModuleFunctions numRemaining : Nat) :
    ∀ (childNodeIt : SNodeIt) (functionIndices : List Nat) (outErrors : List ErrorRecord),
      outErrors.length
        ≤ (parseTableEntries functionNameToIndexMap numModuleFunctions numRemaining
            childNodeIt functionIndices outErrors).2.length := by
  induction numRemaining with
  | zero =>
    intro childNodeIt functionIndices outErrors
    simp [parseTableEntries]
  | succ numRemaining ih =>
    intro childNodeIt functionIndices outErrors
    unfold parseTableEntries
    repeat' split
    all_goals
      refine Nat.le_trans ?_ (ih _ _ _)
      first
        | exact Nat.le_refl _
        | (rw [recordError_length]; omega)

theorem checkTableTypes_mono (functions : List Function) (functionType : FunctionType)
    (nodeIt : SNodeIt) (functionIndices : List Nat) :
    ∀ (outErrors result : List ErrorRecord),
      checkTableTypes functions functionType nodeIt functionIndices outErrors = .ok result →
      outErrors.length ≤ result.length := by
  induction functionIndices with
  | nil =>
    intro outErrors result h
    simp only [checkTableTypes] at h
    injection h with h
    subst h
    exact Nat.le_refl _
  | cons functionIndex rest ih =>
    intro outErrors result h
    unfold checkTableTypes at h
    repeat' split at h
    · cases h
    · have := ih _ _ h
      rw [recordError_length] at this
      omega
    · exact ih _ _ h
theorem ModuleContext.recordError_grows (mc : ModuleContext) (nodeIt : SNodeIt)
    (message : String) :
    (mc.recordError nodeIt message).outErrors.length = mc.outErrors.length + 1 := by
  simp [ModuleContext.recordError, WAVM.recordError]

theorem parseImportDeclaration_mono (childNodeIt : SNodeIt) (mc mc2 : ModuleContext)
    (h : parseImportDeclaration childNodeIt mc = .ok mc2) :
    mc.outErrors.length ≤ mc2.outErrors.length := by
  unfold parseImportDeclaration at h
  dsimp only at h
  repeat' split at h
  all_goals cases h
  all_goals first
    | exact Nat.le_refl _
    | (simp only [ModuleContext.recordError_grows]; omega)
    | skip
  all_goals
    dsimp only
    refine Nat.le_trans ?_ (parseImportDeclarations_mono _ _ _ _ _)
    first
      | exact Nat.le_refl _
      | (simp only [ModuleContext.recordError_grows]; omega)
theorem parseGlobalDeclaration_mono (childNodeIt : SNodeIt) (mc : ModuleContext) :
    mc.outErrors.length ≤ (parseGlobalDeclaration childNodeIt mc).outErrors.length := by
  unfold parseGlobalDeclaration
  dsimp only
  have := parseVariables_mono childNodeIt mc.module.globals mc.outErrors
  split
  · exact this
  · rw [recordError_length]
    exact Nat.le_succ_of_le this

theorem parseMemoryDeclaration_mono (nodeIt childNodeIt : SNodeIt) (mc : ModuleContext)
    (hm : Bool) :
    mc.outErrors.length
      ≤ (parseMemoryDeclaration nodeIt childNodeIt mc hm).1.outErrors.length := by
  unfold parseMemoryDeclaration
  dsimp only
  repeat' split
  all_goals first
    | (simp only [ModuleContext.recordError_grows]; omega)
    | exact parseSegments_mono _ _ _ _

theorem parseDeclaration_mono (nodeIt : SNodeIt) (mc mc2 : ModuleContext) (hm hm2 : Bool)
    (h : parseDeclaration nodeIt mc hm = .ok (mc2, hm2)) :
    mc.outErrors.length ≤ mc2.outErrors.length := by
  unfold parseDeclaration at h
  repeat' split at h
  all_goals first
    | (cases h; done)
    | skip
  all_goals
    injection h with h
    have h1 := congrArg Prod.fst h
    simp only at h1
    subst h1
    first
      | exact parseFunctionDeclaration_mono _ _
      | exact parseImportDeclaration_mono _ _ _ (by assumption)
      | exact parseGlobalDeclaration_mono _ _
      | exact parseMemoryDeclaration_mono _ _ _ _
      | (simp only [ModuleContext.recordError_grows]; omega)
      | exact Nat.le_refl _

theorem parseDeclarations_mono (nodes : SNodeIt) :
    ∀ (mc mc2 : ModuleContext) (hm hm2 : Bool),
      parseDeclarations nodes mc hm = .ok (mc2, hm2) →
      mc.outErrors.length ≤ mc2.outErrors.length := by
  induction nodes with
  | nil =>
    intro mc mc2 hm hm2 h
    simp only [parseDeclarations] at h
    injection h with h
    injection h with h1 h2
    subst h1
    exact Nat.le_refl _
  | cons node rest ih =>
    intro mc mc2 hm hm2 h
    rw [parseDeclarations] at h
    cases hstep : parseDeclaration (node :: rest) mc hm with
    | error fault => simp only [hstep] at h; cases h
    | ok step =>
      obtain ⟨mc1, hm1⟩ := step
      simp only [hstep] at h
      exact Nat.le_trans (parseDeclaration_mono _ _ _ _ _ hstep) (ih _ _ _ _ h)

theorem parseTable_mono (nodeIt childNodeIt : SNodeIt) (mc mc2 : ModuleContext)
    (h : parseTable nodeIt childNodeIt mc = .ok mc2) :
    mc.outErrors.length ≤ mc2.outErrors.length := by
  unfold parseTable at h
  dsimp only at h
  repeat' split at h
  all_goals first
    | (cases h; done)
    | skip
  · injection h with h
    subst h
    simp only [ModuleContext.recordError_grows]
    omega
  · injection h with h
    subst h
    rename_i hcheck
    have := checkTableTypes_mono _ _ _ _ _ _ hcheck
    have := parseTableEntries_mono mc.functionNameToIndexMap mc.module.functions.length
      childNodeIt.length childNodeIt [] mc.outErrors
    dsimp only
    omega

theorem parseTables_mono (nodes : SNodeIt) :
    ∀ (mc mc2 : ModuleContext), parseTables nodes mc = .ok mc2 →
      mc.outErrors.length ≤ mc2.outErrors.length := by
  induction nodes with
  | nil =>
    intro mc mc2 h
    simp only [parseTables] at h
    injection h with h
    subst h
    exact Nat.le_refl _
  | cons node rest ih =>
    intro mc mc2 h
    rw [parseTables] at h
    split at h
    · split at h
      · next mc1 hstep => exact Nat.le_trans (parseTable_mono _ _ _ _ hstep) (ih _ _ h)
      · cases h
    · exact ih _ _ h

theorem buildGlobalNameToIndexMap_mono (mc : ModuleContext) :
    mc.outErrors.length ≤ (buildGlobalNameToIndexMap mc).outErrors.length := by
  obtain ⟨count, herrors, _⟩ := buildVariableNameToIndexMapMapFrom_errors mc.module.globals 0
    mc.globalNameToIndexMap mc.outErrors
  unfold buildGlobalNameToIndexMap buildVariableNameToIndexMapMap
  simp only [herrors, List.length_append]
  omega

theorem parseDeclarationPasses_mono (nodes : SNodeIt) (mc mc2 : ModuleContext)
    (h : ModuleContext.parseDeclarationPasses nodes mc = .ok mc2) :
    mc.outErrors.length ≤ mc2.outErrors.length := by
  unfold ModuleContext.parseDeclarationPasses at h
  split at h
  · cases h
  · next mc1 hm1 h1 =>
    split at h
    · cases h
    · next mc3 h3 =>
      injection h with h
      subst h
      have := parseDeclarations_mono nodes _ _ _ _ h1
      have := parseTables_mono nodes _ _ h3
      have := buildGlobalNameToIndexMap_mono mc3
      omega

theorem parseFunctionDeclarations_expression (nodeIt : SNodeIt) (function : Function)
    (hasResult : Bool) (outErrors : List ErrorRecord) :
    (parseFunctionDeclarations nodeIt function hasResult outErrors).1.expression
      = function.expression ∧
    (parseFunctionDeclarations nodeIt function hasResult outErrors).1.name = function.name := by
  obtain ⟨_, hresult⟩ := parseFunctionDeclarations_induction
    (fun _ result => result.expression = function.expression ∧ result.name = function.name)
    (fun _ _ _ h => h) (fun _ _ _ _ h => h) (fun _ _ _ _ _ _ h => h) (fun _ _ _ _ _ _ h => h)
    nodeIt function hasResult outErrors ⟨rfl, rfl⟩
  exact hresult

theorem declaredFunction_declaration (childNodeIt : SNodeIt) :
    (declaredFunction childNodeIt).declaration = declaredFunction childNodeIt := by
  have h := (parseFunctionDeclarations_expression
    (match parseName childNodeIt with
      | some (_, advanced) => advanced
      | none => childNodeIt)
    { name := (parseName childNodeIt).map fun parsed => parsed.1 } false []).1
  unfold Function.declaration
  have h2 : (declaredFunction childNodeIt).expression = none := h
  cases hd : declaredFunction childNodeIt with
  | mk name locals parameterLocalIndices type expression =>
    rw [hd] at h2
    simp only at h2
    subst h2
    rfl

/-- `ModuleContext::parse` from a fresh module: the functions of the module it returns are
those the `func` forms declare, in source order, each with the body the second pass parsed
for it in a context that has the declarations of the whole module; the declarations are
those of the first pass, and the error list has only grown. -/
theorem ModuleContext.parse_spec (fuel : Nat) (nodes : SNodeIt) (outErrors : List ErrorRecord)
    (mc : ModuleContext)
    (h : ModuleContext.parse fuel nodes { outErrors := outErrors } = .ok mc) :
    ∃ mc1, ModuleContext.parseDeclarationPasses nodes { outErrors := outErrors } = .ok mc1 ∧
      mc1.module.functions = (funcForms nodes).map declaredFunction ∧
      mc.declarations = mc1.declarations ∧
      outErrors.length ≤ mc.outErrors.length ∧
      mc.module.functions.length = (funcForms nodes).length ∧
      ∀ (k : Nat) (form : SNodeIt), (funcForms nodes)[k]? = some form →
        ∃ (mcK : ModuleContext) (body : Expression) (ctx2 : FunctionContext),
          mcK.declarations = mc.declarations ∧
          parseExpressionSequenceOfType fuel (declaredFunction form).type.returnType
            (functionBody form) "function body"
            (FunctionContext.new mcK (declaredFunction form)) = .ok (body, ctx2) ∧
          mc.module.functions[k]? = some { declaredFunction form with expression := some body } ∧
          numErrorNodes body ≤ mc.outErrors.length := by
  unfold ModuleContext.parse at h
  cases hpasses : ModuleContext.parseDeclarationPasses nodes { outErrors := outErrors } with
  | error fault => simp only [hpasses] at h; cases h
  | ok mc1 =>
    simp only [hpasses] at h
    have hfunctions := parseDeclarationPasses_functions nodes _ mc1 hpasses
    simp only [List.nil_append] at hfunctions
    have hmono := parseDeclarationPasses_mono nodes _ mc1 hpasses
    obtain ⟨hdecl, herrors, hkeep, hbodies⟩ := parseDefinitions_spec fuel nodes mc1 mc 0 h
    have hlength : mc.module.functions.length = (funcForms nodes).length := by
      have := congrArg (fun context : ModuleContext => context.module.functions.length) hdecl
      simp only [ModuleContext.declarations, List.length_map] at this
      rw [this, hfunctions, List.length_map]
    refine ⟨mc1, rfl, hfunctions, hdecl, Nat.le_trans hmono herrors, hlength, ?_⟩
    intro k form hk
    obtain ⟨function, mcK, body, ctx2, h1, h0, h2, h3, h4, h5⟩ := hbodies k form hk
    rw [Nat.zero_add] at h0 h4
    rw [hfunctions, List.getElem?_map, hk] at h0
    simp only [Option.map_some', Option.some.injEq] at h0
    subst h0
    exact ⟨mcK, body, ctx2, h1.trans hdecl.symm, h3, h4, h5⟩
theorem mem_functions_of_parse (fuel : Nat) (nodes : SNodeIt) (outErrors : List ErrorRecord)
    (mc : ModuleContext)
    (h : ModuleContext.parse fuel nodes { outErrors := outErrors } = .ok mc)
    (function : Function) (hmem : function ∈ mc.module.functions) :
    ∃ (k : Nat) (form : SNodeIt) (body : Expression), (funcForms nodes)[k]? = some form ∧
      mc.module.functions[k]? = some function ∧
      function = { declaredFunction form with expression := some body } := by
  obtain ⟨mc1, _, _, _, _, hlength, hbodies⟩ := ModuleContext.parse_spec fuel nodes outErrors mc h
  obtain ⟨k, hk, hget⟩ := List.getElem_of_mem hmem
  have hk2 : k < (funcForms nodes).length := by omega
  have hform : (funcForms nodes)[k]? = some (funcForms nodes)[k] :=
    List.getElem?_eq_getElem hk2
  obtain ⟨mcK, body, ctx2, _, _, hfunction, _⟩ := hbodies k _ hform
  rw [List.getElem?_eq_getElem hk, hget] at hfunction
  injection hfunction with hfunction
  exact ⟨k, _, body, hform, by rw [List.getElem?_eq_getElem hk, hget], hfunction⟩

/-- C27. For every function of the module `ModuleContext::parse` returns, from any input:
`parameterLocalIndices` and `type.parameters` have the same length, `parameterLocalIndices`
is strictly increasing with every entry below `locals.size()`, and the type of the local
that the i-th entry selects is the i-th parameter type. -/
theorem parameters_select_locals_of_their_type (fuel : Nat) (nodes : SNodeIt)
    (outErrors : List ErrorRecord) (mc : ModuleContext)
    (h : ModuleContext.parse fuel nodes { outErrors := outErrors } = .ok mc)
    (function : Function) (hmem : function ∈ mc.module.functions) :
    function.parameterLocalIndices.length = function.type.parameters.length ∧
    function.parameterLocalIndices.Pairwise (fun earlier later => earlier < later) ∧
    (∀ index ∈ function.parameterLocalIndices, index < function.locals.length) ∧
    ∀ i index : Nat, function.parameterLocalIndices[i]? = some index →
      ∃ var, function.locals[index]? = some var ∧
        function.type.parameters[i]? = some var.type := by
  obtain ⟨k, form, body, _, _, hfunction⟩ :=
    mem_functions_of_parse fuel nodes outErrors mc h function hmem
  subst hfunction
  obtain ⟨hlength, hsorted, hbound, htypes⟩ :=
    ParametersInvariant.aligned _ (declaredFunction_invariant form)
  refine ⟨hlength, hsorted, hbound, ?_⟩
  intro i index hi
  have hlt : index < (declaredFunction form).locals.length :=
    hbound index (List.getElem?_mem hi)
  refine ⟨(declaredFunction form).locals[index], List.getElem?_eq_getElem hlt, ?_⟩
  have := htypes i index hi
  rw [List.getElem?_eq_getElem hlt] at this
  exact this.symm
theorem paramsBeforeLocals_of_noParamForm (nodes : SNodeIt) (h : noParamForm nodes = true) :
    paramsBeforeLocals nodes = true := by
  induction nodes with
  | nil => rfl
  | cons node rest ih =>
    unfold noParamForm at h
    simp only [List.all_cons, Bool.and_eq_true] at h
    unfold paramsBeforeLocals
    split
    · exact h.2
    · exact ih h.2

theorem paramsBeforeLocals_tail (node : SNode) (rest : SNodeIt)
    (h : paramsBeforeLocals (node :: rest) = true) : paramsBeforeLocals rest = true := by
  unfold paramsBeforeLocals at h
  split at h
  · exact paramsBeforeLocals_of_noParamForm rest h
  · exact h

theorem parseTaggedNode_param_not_local (node : SNode) (inner : SNodeIt)
    (h : parseTaggedNode [node] (.plain ._param) = some inner) :
    parseTaggedNode [node] (.plain ._local) = none := by
  unfold parseTaggedNode at h ⊢
  cases hchild : parseTreeNode [node] with
  | none => rfl
  | some childIt =>
    simp only [hchild] at h ⊢
    cases hsymbol : parseSymbol childIt with
    | none => rfl
    | some parsed =>
      simp only [hsymbol] at h ⊢
      split at h
      · next heq => simp [heq]
      · cases h

theorem parseName_tail (form : SNodeIt) (name : String) (advanced : SNodeIt)
    (h : parseName form = some (name, advanced)) : ∃ node, form = node :: advanced := by
  unfold parseName at h
  split at h
  · split at h
    · injection h with h
      injection h with h1 h2
      subst h2
      exact ⟨_, rfl⟩
    · cases h
  · cases h

theorem declaredFunction_prefix (form : SNodeIt) (h : paramsBeforeLocals form = true) :
    (declaredFunction form).parameterLocalIndices
      = List.range (declaredFunction form).type.parameters.length := by
  have hstart : paramsBeforeLocals
      (match parseName form with
        | some (_, advanced) => advanced
        | none => form) = true := by
    cases hname : parseName form with
    | none => exact h
    | some parsed =>
      obtain ⟨node, hnode⟩ := parseName_tail form parsed.1 parsed.2 hname
      rw [hnode] at h
      exact paramsBeforeLocals_tail _ _ h
  obtain ⟨_, hresult⟩ := parseFunctionDeclarations_induction
    (fun nodes function =>
      (paramsBeforeLocals nodes = true
        ∧ function.parameterLocalIndices = List.range function.locals.length)
      ∨ (noParamForm nodes = true
        ∧ function.parameterLocalIndices
          = List.range function.parameterLocalIndices.length))
    (by
      rintro node rest function (⟨h1, h2⟩ | ⟨h1, h2⟩)
      · exact Or.inl ⟨paramsBeforeLocals_tail _ _ h1, h2⟩
      · unfold noParamForm at h1
        simp only [List.all_cons, Bool.and_eq_true] at h1
        exact Or.inr ⟨h1.2, h2⟩)
    (by
      rintro node rest function returnType (⟨h1, h2⟩ | ⟨h1, h2⟩)
      · exact Or.inl ⟨paramsBeforeLocals_tail _ _ h1, h2⟩
      · unfold noParamForm at h1
        simp only [List.all_cons, Bool.and_eq_true] at h1
        exact Or.inr ⟨h1.2, h2⟩)
    (by
      rintro node rest inner function new hparam (⟨h1, h2⟩ | ⟨h1, h2⟩)
      · refine Or.inl ⟨paramsBeforeLocals_tail _ _ h1, ?_⟩
        simp only [h2, List.length_append]
        rw [List.range_add]
      · unfold noParamForm at h1
        simp only [List.all_cons, Bool.and_eq_true, hparam, Option.isNone_some] at h1
        exact absurd h1.1 (by simp))
    (by
      rintro node rest inner function new hlocal (⟨h1, h2⟩ | ⟨h1, h2⟩)
      · unfold paramsBeforeLocals at h1
        simp only [hlocal, Option.isSome_some, if_true] at h1
        refine Or.inr ⟨h1, ?_⟩
        simp only [h2, List.length_range]
      · unfold noParamForm at h1
        simp only [List.all_cons, Bool.and_eq_true] at h1
        exact Or.inr ⟨h1.2, h2⟩)
    _ { name := (parseName form).map fun parsed => parsed.1 } false []
    (Or.inl ⟨hstart, rfl⟩)
  have hlength := (ParametersInvariant.aligned _ (declaredFunction_invariant form)).1
  have hpli : (declaredFunction form).parameterLocalIndices
      = List.range (declaredFunction form).parameterLocalIndices.length := by
    rcases hresult with ⟨_, h2⟩ | ⟨_, h2⟩
    · have h3 : (declaredFunction form).parameterLocalIndices
          = List.range (declaredFunction form).locals.length := h2
      rw [h3, List.length_range]
    · exact h2
  rw [← hlength]
  exact hpli

/-- C26, as the code has it. The parameters of the k-th function of the module
`ModuleContext::parse` returns are a prefix of its locals,
`parameterLocalIndices = [0, 1, ..., p-1]` with `p` the number of parameters, when no
`param` declaration follows a `local` declaration in the k-th `func` form. -/
theorem parameters_declared_first_are_a_prefix (fuel : Nat) (nodes : SNodeIt)
    (outErrors : List ErrorRecord) (mc : ModuleContext)
    (h : ModuleContext.parse fuel nodes { outErrors := outErrors } = .ok mc)
    (k : Nat) (form : SNodeIt) (function : Function)
    (hform : (funcForms nodes)[k]? = some form)
    (hfunction : mc.module.functions[k]? = some function)
    (hfirst : paramsBeforeLocals form = true) :
    function.parameterLocalIndices = List.range function.type.parameters.length := by
  obtain ⟨mc1, _, _, _, _, _, hbodies⟩ := ModuleContext.parse_spec fuel nodes outErrors mc h
  obtain ⟨mcK, body, ctx2, _, _, hbody, _⟩ := hbodies k form hform
  rw [hfunction] at hbody
  injection hbody with hbody
  subst hbody
  exact declaredFunction_prefix form hfirst

/-- C26, at a concrete input: in `(func $f (param i32) (result i32) (param i64) (local f32)
(const.i32 7))` the two parameters are the locals 0 and 1. -/
theorem parameters_declared_first_are_a_prefix_witness :
    ModuleContext.parse 1 paramsFirstModule {}
      = .ok { module := { functions := [paramsFirstFunction] },
              functionNameToIndexMap := [("f", 0)] } ∧
    paramsBeforeLocals paramsFirstForm = true ∧
    paramsFirstFunction.parameterLocalIndices
      = List.range paramsFirstFunction.type.parameters.length :=
  ⟨rfl, rfl, parameters_declared_first_are_a_prefix 1 paramsFirstModule [] _ (by rfl) 0
    paramsFirstForm paramsFirstFunction (by rfl) (by rfl) (by rfl)⟩

/-- C26, the claim refuted: `(func (local i32) (param i64) (nop))` parses without an error
into a function with one parameter whose `parameterLocalIndices` is `[1]`, not `[0]`: the
local declared before the parameter has the index 0. -/
theorem parameter_after_local_is_not_a_prefix :
    ModuleContext.parse 1 localBeforeParamModule {}
      = .ok { module := { functions := [localBeforeParamFunction] } } ∧
    localBeforeParamFunction.type.parameters.length = 1 ∧
    localBeforeParamFunction.parameterLocalIndices = [1] ∧
    localBeforeParamFunction.parameterLocalIndices
      ≠ List.range localBeforeParamFunction.type.parameters.length :=
  ⟨rfl, rfl, rfl, by decide⟩

/-- C27, at a concrete input: the function of `(func (local i32) (param i64) (nop))` has
the locals `[i32, i64]`, the one parameter type `i64` and the index list `[1]`. -/
theorem parameters_select_locals_of_their_type_witness :
    ModuleContext.parse 1 localBeforeParamModule {}
      = .ok { module := { functions := [localBeforeParamFunction] } } ∧
    localBeforeParamFunction.parameterLocalIndices.length
      = localBeforeParamFunction.type.parameters.length ∧
    localBeforeParamFunction.parameterLocalIndices.Pairwise
      (fun earlier later => earlier < later) ∧
    (∀ index ∈ localBeforeParamFunction.parameterLocalIndices,
      index < localBeforeParamFunction.locals.length) ∧
    ∀ i index : Nat, localBeforeParamFunction.parameterLocalIndices[i]? = some index →
      ∃ var, localBeforeParamFunction.locals[index]? = some var ∧
        localBeforeParamFunction.type.parameters[i]? = some var.type :=
  ⟨rfl, parameters_select_locals_of_their_type 1 localBeforeParamModule [] _ (by rfl)
    localBeforeParamFunction (List.mem_singleton.mpr rfl)⟩

theorem parseTaggedNode_unique (node : SNode) (tag other : Symbol) (inner : SNodeIt)
    (h : parseTaggedNode [node] tag = some inner) (hne : other ≠ tag) :
    parseTaggedNode [node] other = none := by
  unfold parseTaggedNode at h ⊢
  cases hchild : parseTreeNode [node] with
  | none => rfl
  | some childIt =>
    simp only [hchild] at h ⊢
    cases hsymbol : parseSymbol childIt with
    | none => rfl
    | some parsed =>
      simp only [hsymbol] at h ⊢
      split at h
      · next heq =>
        rw [heq]
        simp [Ne.symm hne]
      · cases h

theorem parseVariablesLoop_new (nodeIt : SNodeIt) :
    ∀ (vars : List Variable) (outErrors : List ErrorRecord) (numVariables : Nat),
      (parseVariablesLoop nodeIt vars outErrors numVariables).2.2.1
        = vars ++ (parseVariablesLoop nodeIt [] [] 0).2.2.1 := by
  induction nodeIt with
  | nil =>
    intro vars outErrors numVariables
    simp [parseVariablesLoop]
  | cons node rest ih =>
    intro vars outErrors numVariables
    cases htype : parseType (node :: rest) with
    | none => simp [parseVariablesLoop, htype]
    | some parsed =>
      simp only [parseVariablesLoop, htype]
      have h1 := ih (vars ++ [⟨parsed.1, none⟩]) outErrors (numVariables + 1)
      have h2 := ih ([] ++ [⟨parsed.1, none⟩]) [] (0 + 1)
      rw [h1, h2]
      simp

theorem parseVariables_new (nodeIt : SNodeIt) (vars : List Variable)
    (outErrors : List ErrorRecord) :
    (parseVariables nodeIt vars outErrors).2.2.1 = vars ++ declaredGlobals nodeIt := by
  unfold declaredGlobals parseVariables
  cases hname : parseName nodeIt with
  | none => exact parseVariablesLoop_new nodeIt vars outErrors 0
  | some parsed =>
    cases htype : parseType parsed.2 with
    | none => simp [htype]
    | some typed => simp [htype]

theorem parseGlobalDeclaration_globals (childNodeIt : SNodeIt) (mc : ModuleContext) :
    (parseGlobalDeclaration childNodeIt mc).module.globals
      = mc.module.globals ++ declaredGlobals childNodeIt := by
  unfold parseGlobalDeclaration
  exact parseVariables_new childNodeIt mc.module.globals mc.outErrors

theorem parseFunctionDeclaration_globals (childNodeIt : SNodeIt) (mc : ModuleContext) :
    (parseFunctionDeclaration childNodeIt mc).module.globals = mc.module.globals := by
  unfold parseFunctionDeclaration
  dsimp only
  repeat' split
  all_goals rfl

theorem parseImportDeclaration_globals (childNodeIt : SNodeIt) (mc mc2 : ModuleContext)
    (h : parseImportDeclaration childNodeIt mc = .ok mc2) :
    ∃ added, mc2.module.globals = mc.module.globals ++ added := by
  unfold parseImportDeclaration at h
  dsimp only at h
  repeat' split at h
  all_goals cases h
  all_goals first
    | exact ⟨_, rfl⟩
    | exact ⟨[], (List.append_nil _).symm⟩

theorem parseMemoryDeclaration_globals (nodeIt childNodeIt : SNodeIt) (mc : ModuleContext)
    (hm : Bool) :
    (parseMemoryDeclaration nodeIt childNodeIt mc hm).1.module.globals = mc.module.globals := by
  unfold parseMemoryDeclaration
  dsimp only
  repeat' split
  all_goals rfl

theorem parseDeclaration_globals (node : SNode) (rest : SNodeIt) (mc mc2 : ModuleContext)
    (hm hm2 : Bool) (h : parseDeclaration (node :: rest) mc hm = .ok (mc2, hm2)) :
    ∃ added, mc2.module.globals = mc.module.globals ++ added ∧
      ∀ form, parseTaggedNode [node] (.plain ._global) = some form →
        added = declaredGlobals form := by
  unfold parseDeclaration at h
  simp only [parseTaggedNode_head node rest] at h
  cases hfunc : parseTaggedNode [node] (.plain ._func) with
  | some childNodeIt =>
    simp only [hfunc] at h
    injection h with h
    injection h with h1 h2
    subst h1
    refine ⟨[], by rw [parseFunctionDeclaration_globals]; simp, ?_⟩
    intro form hform
    rw [parseTaggedNode_unique node _ _ _ hfunc (by decide)] at hform
    cases hform
  | none =>
    simp only [hfunc] at h
    cases himport : parseTaggedNode [node] (.plain ._import) with
    | some childNodeIt =>
      simp only [himport] at h
      split at h
      · next mcI hI =>
        injection h with h
        injection h with h1 h2
        subst h1
        obtain ⟨added, hadded⟩ := parseImportDeclaration_globals _ _ _ hI
        refine ⟨added, hadded, ?_⟩
        intro form hform
        rw [parseTaggedNode_unique node _ _ _ himport (by decide)] at hform
        cases hform
      · cases h
    | none =>
      simp only [himport] at h
      cases hglobal : parseTaggedNode [node] (.plain ._global) with
      | some childNodeIt =>
        simp only [hglobal] at h
        injection h with h
        injection h with h1 h2
        subst h1
        refine ⟨_, parseGlobalDeclaration_globals childNodeIt mc, ?_⟩
        intro form hform
        injection hform with hform
        rw [hform]
      | none =>
        simp only [hglobal] at h
        refine ⟨[], ?_, by intro form hform; cases hform⟩
        split at h
        · injection h with h
          have h1 := congrArg Prod.fst h
          simp only at h1
          subst h1
          rw [parseMemoryDeclaration_globals]
          simp
        · split at h
          all_goals
            injection h with h
            injection h with h1 h2
            subst h1
            simp [ModuleContext.recordError]

theorem parseDeclarations_globals (nodes : SNodeIt) :
    ∀ (mc mc2 : ModuleContext) (hm hm2 : Bool),
      parseDeclarations nodes mc hm = .ok (mc2, hm2) →
      (∀ var ∈ mc.module.globals, var ∈ mc2.module.globals) ∧
      ∀ form ∈ globalForms nodes, ∀ var ∈ declaredGlobals form, var ∈ mc2.module.globals := by
  induction nodes with
  | nil =>
    intro mc mc2 hm hm2 h
    simp only [parseDeclarations] at h
    injection h with h
    injection h with h1 h2
    subst h1
    exact ⟨fun _ hvar => hvar, by simp [globalForms]⟩
  | cons node rest ih =>
    intro mc mc2 hm hm2 h
    rw [parseDeclarations] at h
    cases hstep : parseDeclaration (node :: rest) mc hm with
    | error fault => simp only [hstep] at h; cases h
    | ok step =>
      obtain ⟨mc1, hm1⟩ := step
      simp only [hstep] at h
      obtain ⟨added, hadded, hform⟩ := parseDeclaration_globals node rest mc mc1 hm hm1 hstep
      obtain ⟨hkeep, hforms⟩ := ih mc1 mc2 hm1 hm2 h
      refine ⟨fun var hvar => hkeep var (by rw [hadded]; exact List.mem_append_left _ hvar), ?_⟩
      intro form hmem var hvar
      unfold globalForms at hmem
      rw [List.filterMap_cons] at hmem
      cases hglobal : parseTaggedNode [node] (.plain ._global) with
      | none =>
        rw [hglobal] at hmem
        exact hforms form hmem var hvar
      | some childNodeIt =>
        rw [hglobal] at hmem
        rcases List.mem_cons.mp hmem with heq | hrest
        · subst heq
          apply hkeep
          rw [hadded, hform form hglobal]
          exact List.mem_append_right _ hvar
        · exact hforms form hrest var hvar
theorem ModuleContext.declarations_fields (mcA mcB : ModuleContext)
    (h : mcA.declarations = mcB.declarations) :
    mcA.functionNameToIndexMap = mcB.functionNameToIndexMap ∧
    mcA.globalNameToIndexMap = mcB.globalNameToIndexMap ∧
    mcA.module.globals = mcB.module.globals ∧
    mcA.module.functions.map Function.declaration
      = mcB.module.functions.map Function.declaration :=
  have h1 := congrArg (fun context : ModuleContext => context.functionNameToIndexMap) h
  have h2 := congrArg (fun context : ModuleContext => context.globalNameToIndexMap) h
  have h3 := congrArg (fun context : ModuleContext => context.module.globals) h
  have h4 := congrArg (fun context : ModuleContext => context.module.functions) h
  ⟨h1, h2, h3, h4⟩

theorem functions_of_declarations (functionsA functionsB : List Function)
    (h : functionsA.map Function.declaration = functionsB.map Function.declaration)
    (k : Nat) (function : Function) (hk : functionsB[k]? = some function) :
    ∃ callee, functionsA[k]? = some callee ∧ callee.type = function.type ∧
      callee.locals = function.locals ∧
      callee.parameterLocalIndices = function.parameterLocalIndices := by
  have hget := congrArg (fun list => list[k]?) h
  simp only [List.getElem?_map, hk, Option.map_some'] at hget
  cases hA : functionsA[k]? with
  | none => rw [hA] at hget; cases hget
  | some callee =>
    rw [hA] at hget
    simp only [Option.map_some', Option.some.injEq] at hget
    have h1 := congrArg (fun f : Function => f.type) hget
    have h2 := congrArg (fun f : Function => f.locals) hget
    have h3 := congrArg (fun f : Function => f.parameterLocalIndices) hget
    exact ⟨callee, rfl, h1, h2, h3⟩

theorem firstIndexOf_lt (name : String) (names : List (Option String)) :
    ∀ k, firstIndexOf name names = some k → k < names.length := by
  induction names with
  | nil =>
    intro k h
    cases h
  | cons entry rest ih =>
    intro k h
    unfold firstIndexOf at h
    split at h
    · injection h with h
      subst h
      simp
    · cases hrest : firstIndexOf name rest with
      | none => rw [hrest] at h; cases h
      | some index =>
        rw [hrest] at h
        injection h with h
        subst h
        have := ih index hrest
        simp only [List.length_cons]
        omega

theorem parseGetVariable_resolved (cls : TypeClassId) (R : TypeId) (op : AnyOp)
    (nameToIndexMap : NameMap Nat) (vars : List Variable) (nodeIt afterName : SNodeIt)
    (variableIndex : Nat) (var : Variable) (ctx : FunctionContext)
    (hindex : parseNameOrIndex nodeIt nameToIndexMap vars.length
      = (some variableIndex, afterName))
    (hvar : vars[variableIndex]? = some var) :
    parseGetVariable cls R op nameToIndexMap vars nodeIt ctx
      = (coerceExpression cls R
            ⟨.GetVariable op (getPrimaryTypeClass var.type) variableIndex, var.type⟩
            afterName "variable" >>= fun result =>
          requireFullMatch cls afterName (getAnyOpName op) result) ctx := by
  simp only [parseGetVariable, hindex, hvar]

theorem parseSetVariable_unfolded (self : ParseTyped) (cls : TypeClassId) (R : TypeId)
    (op : AnyOp) (nameToIndexMap : NameMap Nat) (vars : List Variable)
    (nodeIt afterName : SNodeIt) (variableIndex : Nat) (var : Variable)
    (ctx : FunctionContext)
    (hindex : parseNameOrIndex nodeIt nameToIndexMap vars.length
      = (some variableIndex, afterName))
    (hvar : vars[variableIndex]? = some var) :
    parseSetVariable self cls R op nameToIndexMap vars nodeIt ctx
      = (parseTypedExpressionOfType self var.type afterName "store value" >>= fun parsed =>
          coerceExpression cls R
              ⟨.SetVariable op (getPrimaryTypeClass var.type) parsed.1 variableIndex, var.type⟩
              parsed.2 "variable" >>= fun result =>
            requireFullMatch cls parsed.2 (getAnyOpName op) result) ctx := by
  simp only [parseSetVariable, hindex, hvar]

theorem parseDeclarationPasses_globals (nodes : SNodeIt) (mc mc2 : ModuleContext)
    (h : ModuleContext.parseDeclarationPasses nodes mc = .ok mc2) :
    ∀ form ∈ globalForms nodes, ∀ var ∈ declaredGlobals form, var ∈ mc2.module.globals := by
  unfold ModuleContext.parseDeclarationPasses at h
  split at h
  · cases h
  · next mc1 hm1 h1 =>
    split at h
    · cases h
    · next mc3 h3 =>
      injection h with h
      subst h
      intro form hform var hvar
      show var ∈ mc3.module.globals
      rw [(parseTables_frame nodes mc1 mc3 h3).2.1]
      exact (parseDeclarations_globals nodes _ _ _ _ h1).2 form hform var hvar
theorem agree_pure {α : Type} (post : α → Prop) (a : α) (h : post a) :
    Agree post (Pure.pure a : ParseM α) (Pure.pure a) := by
  intro ctx
  refine ⟨rfl, (by intro h; cases h), ?_⟩
  intro b ctx2 hrun
  cases hrun
  exact h

theorem agree_throw {α : Type} (post : α → Prop) (fault : Fault) (h : fault ≠ .outOfFuel) :
    Agree post (throw fault : ParseM α) (throw fault) := by
  intro ctx
  refine ⟨rfl, ?_, ?_⟩
  · intro hrun
    injection hrun with hrun
    exact h hrun
  · intro b ctx2 hrun
    cases hrun

theorem agree_bind {α β : Type} (postA : α → Prop) (post : β → Prop)
    (x y : ParseM α) (f g : α → ParseM β) (hx : Agree postA x y)
    (hf : ∀ a, postA a → Agree post (f a) (g a)) : Agree post (x >>= f) (y >>= g) := by
  intro ctx
  obtain ⟨heq, hfuel, hpost⟩ := hx ctx
  have hleft : (x >>= f) ctx = (x ctx >>= fun r => f r.1 r.2) := rfl
  have hright : (y >>= g) ctx = (y ctx >>= fun r => g r.1 r.2) := rfl
  rw [hleft, hright, ← heq]
  cases hrun : x ctx with
  | error fault =>
    rw [hrun] at hfuel
    refine ⟨rfl, ?_, ?_⟩
    · intro h
      have h2 : (Except.error fault : Except Fault (β × FunctionContext))
          = .error .outOfFuel := h
      injection h2 with h3
      exact hfuel (by rw [h3])
    intro b ctx2 h
    have h2 : (Except.error fault : Except Fault (β × FunctionContext)) = .ok (b, ctx2) := h
    cases h2
  | ok r =>
    obtain ⟨a, ctx1⟩ := r
    exact hf a (hpost a ctx1 hrun) ctx1

theorem agree_map {α β : Type} (postA : α → Prop) (post : β → Prop) (f : α → β)
    (x y : ParseM α) (hx : Agree postA x y) (h : ∀ a, postA a → post (f a)) :
    Agree post (f <$> x) (f <$> y) := by
  intro ctx
  obtain ⟨heq, hfuel, hpost⟩ := hx ctx
  have hleft : (f <$> x) ctx = (x ctx >>= fun r => Pure.pure (f r.1, r.2)) := rfl
  have hright : (f <$> y) ctx = (y ctx >>= fun r => Pure.pure (f r.1, r.2)) := rfl
  rw [hleft, hright, ← heq]
  cases hrun : x ctx with
  | error fault =>
    rw [hrun] at hfuel
    refine ⟨rfl, ?_, ?_⟩
    · intro h
      have h2 : (Except.error fault : Except Fault (β × FunctionContext))
          = .error .outOfFuel := h
      injection h2 with h3
      exact hfuel (by rw [h3])
    intro b ctx2 h
    have h2 : (Except.error fault : Except Fault (β × FunctionContext)) = .ok (b, ctx2) := h
    cases h2
  | ok r =>
    obtain ⟨a, ctx1⟩ := r
    refine ⟨rfl, (by intro h; cases h), ?_⟩
    intro b ctx2 h2
    cases h2
    exact h a (hpost a ctx1 hrun)

theorem agree_weaken {α : Type} (post post2 : α → Prop) (x y : ParseM α) (hx : Agree post x y)
    (h : ∀ a, post a → post2 a) : Agree post2 x y := by
  intro ctx
  obtain ⟨heq, hfuel, hpost⟩ := hx ctx
  exact ⟨heq, hfuel, fun a ctx2 hrun => h a (hpost a ctx2 hrun)⟩

theorem agree_total {α : Type} (post : α → Prop) (x : ParseM α)
    (h : ∀ ctx, ∃ a ctx2, x ctx = .ok (a, ctx2) ∧ post a) : Agree post x x := by
  intro ctx
  obtain ⟨a, ctx2, hrun, hpost⟩ := h ctx
  refine ⟨rfl, (by rw [hrun]; intro h; cases h), ?_⟩
  intro b ctx3 hrun2
  rw [hrun] at hrun2
  cases hrun2
  exact hpost

theorem recordErrorNode_agree (post : Expression → Prop) (typeClass : TypeClassId)
    (nodeIt : SNodeIt) (message : String) (h : ∀ result, post result) :
    Agree post (recordErrorNode typeClass nodeIt message)
      (recordErrorNode typeClass nodeIt message) :=
  agree_total _ _ fun _ => ⟨_, _, rfl, h _⟩

theorem requireFullMatch_agree (typeClass : TypeClassId) (nodeIt : SNodeIt)
    (errorContext : String) (result : Expression) :
    Agree (fun _ => True) (requireFullMatch typeClass nodeIt errorContext result)
      (requireFullMatch typeClass nodeIt errorContext result) := by
  unfold requireFullMatch
  split
  · exact agree_pure _ _ trivial
  · exact recordErrorNode_agree _ _ _ _ fun _ => trivial

theorem coerceExpression_agree (typeClass : TypeClassId) (resultType : TypeId)
    (typedExpression : TypedExpression) (nodeIt : SNodeIt) (errorContext : String) :
    Agree (fun _ => True)
      (coerceExpression typeClass resultType typedExpression nodeIt errorContext)
      (coerceExpression typeClass resultType typedExpression nodeIt errorContext) := by
  unfold coerceExpression typeError
  repeat' split
  all_goals first
    | exact agree_pure _ _ trivial
    | exact agree_throw _ _ (by intro h; cases h)
    | exact recordErrorNode_agree _ _ _ _ fun _ => trivial

theorem parseTypedExpressionOfType_agree (depth : Nat) (self other : ParseTyped)
    (hself : AgreeBelow depth self other) (type : TypeId) (nodeIt : SNodeIt)
    (errorContext : String) (hdepth : depthIt nodeIt < depth) :
    Agree (fun result => depthIt result.2 < depth)
      (parseTypedExpressionOfType self type nodeIt errorContext)
      (parseTypedExpressionOfType other type nodeIt errorContext) := by
  unfold parseTypedExpressionOfType
  split
  · exact hself _ _ _ _ hdepth
  · exact agree_throw _ _ (by intro h; cases h)

theorem parseBinaryExpression_agree (depth : Nat) (self other : ParseTyped)
    (hself : AgreeBelow depth self other) (opType : TypeId) (op : Opcode)
    (operandNodeIt : SNodeIt) (hdepth : depthIt operandNodeIt < depth) :
    Agree (fun _ => True) (parseBinaryExpression self opType op operandNodeIt)
      (parseBinaryExpression other opType op operandNodeIt) := by
  unfold parseBinaryExpression
  refine agree_bind _ _ _ _ _ _ (hself _ _ _ _ hdepth) ?_
  rintro ⟨left, nodeIt⟩ hleft
  refine agree_bind _ _ _ _ _ _ (hself _ _ _ _ hleft) ?_
  rintro ⟨right, nodeIt⟩ hright
  refine agree_bind _ _ _ _ _ _ (requireFullMatch_agree _ _ _ _) ?_
  intro result _
  exact agree_pure _ _ trivial

theorem parseLoadExpression_agree (depth : Nat) (self other : ParseTyped)
    (hself : AgreeBelow depth self other)
    (typeClass : TypeClassId) (resultType memoryType : TypeId) (loadOp : Opcode)
    (isFarAddress isAligned : Bool) (nodeIt : SNodeIt) (hdepth : depthIt nodeIt < depth) :
    Agree (fun _ => True)
      (parseLoadExpression self typeClass resultType memoryType loadOp isFarAddress isAligned
        nodeIt)
      (parseLoadExpression other typeClass resultType memoryType loadOp isFarAddress isAligned
        nodeIt) := by
  unfold parseLoadExpression
  split
  · refine agree_bind _ _ _ _ _ _ (recordErrorNode_agree (fun _ => True) _ _ _ fun _ => trivial) ?_
    intro result _
    exact agree_pure _ _ trivial
  · refine agree_bind _ _ _ _ _ _ (hself _ _ _ _ hdepth) ?_
    rintro ⟨address, nodeIt⟩ haddress
    refine agree_bind _ _ _ _ _ _ (requireFullMatch_agree _ _ _ _) ?_
    intro result _
    exact agree_pure _ _ trivial
theorem depthIt_cons (node : SNode) (rest : SNodeIt) :
    depthIt (node :: rest) = max node.depth (depthIt rest) := by
  rw [depthIt]

theorem depthIt_tail (nodeIt : SNodeIt) : depthIt nodeIt.tail ≤ depthIt nodeIt := by
  cases nodeIt with
  | nil => exact Nat.le_refl _
  | cons node rest =>
    rw [depthIt_cons]
    exact Nat.le_max_right _ _

theorem parseTreeNode_depth (nodeIt children : SNodeIt)
    (h : parseTreeNode nodeIt = some children) : depthIt children < depthIt nodeIt := by
  unfold parseTreeNode at h
  split at h
  · injection h with h
    subst h
    rw [depthIt_cons, SNode.depth]
    omega
  · cases h

theorem parseSymbol_depth (nodeIt advanced : SNodeIt) (symbol : Symbol)
    (h : parseSymbol nodeIt = some (symbol, advanced)) : depthIt advanced ≤ depthIt nodeIt := by
  unfold parseSymbol at h
  split at h
  · injection h with h
    injection h with h1 h2
    subst h2
    rw [depthIt_cons]
    exact Nat.le_max_right _ _
  · cases h

theorem parseTaggedNode_depth (nodeIt children : SNodeIt) (tag : Symbol)
    (h : parseTaggedNode nodeIt tag = some children) : depthIt children < depthIt nodeIt := by
  unfold parseTaggedNode at h
  split at h
  · cases h
  · next childIt hchild =>
    split at h
    · cases h
    · next symbol rest hsymbol =>
      split at h
      · injection h with h
        subst h
        exact Nat.lt_of_le_of_lt (parseSymbol_depth _ _ _ hsymbol)
          (parseTreeNode_depth _ _ hchild)
      · cases h

theorem parseName_depth (nodeIt advanced : SNodeIt) (name : String)
    (h : parseName nodeIt = some (name, advanced)) : depthIt advanced ≤ depthIt nodeIt := by
  obtain ⟨node, hnode⟩ := parseName_tail nodeIt name advanced h
  rw [hnode]
  exact depthIt_tail (node :: advanced)

theorem parseInt_depth (nodeIt advanced : SNodeIt) (integer : Int)
    (h : parseInt nodeIt = some (integer, advanced)) : depthIt advanced ≤ depthIt nodeIt := by
  unfold parseInt at h
  split at h
  · injection h with h
    injection h with h1 h2
    subst h2
    rw [depthIt_cons]
    exact Nat.le_max_right _ _
  · cases h

theorem parseFloat64_depth (nodeIt advanced : SNodeIt) (value : FloatValue)
    (h : parseFloat64 nodeIt = some (value, advanced)) : depthIt advanced ≤ depthIt nodeIt := by
  unfold parseFloat64 at h
  split at h
  · injection h with h
    injection h with h1 h2
    subst h2
    rw [depthIt_cons]
    exact Nat.le_max_right _ _
  · injection h with h
    injection h with h1 h2
    subst h2
    rw [depthIt_cons]
    exact Nat.le_max_right _ _
  · cases h

theorem parseString_depth (nodeIt advanced : SNodeIt) (string : String)
    (h : parseString nodeIt = some (string, advanced)) : depthIt advanced ≤ depthIt nodeIt := by
  unfold parseString at h
  split at h
  · injection h with h
    injection h with h1 h2
    subst h2
    rw [depthIt_cons]
    exact Nat.le_max_right _ _
  · cases h

theorem optionalName_depth (nodeIt : SNodeIt) :
    depthIt (match parseName nodeIt with
      | some (_, advanced) => advanced
      | none => nodeIt) ≤ depthIt nodeIt := by
  cases hname : parseName nodeIt with
  | none => exact Nat.le_refl _
  | some parsed => exact parseName_depth _ _ _ hname

theorem parseNameOrIndex_depth (nodeIt : SNodeIt) (nameToIndex : NameMap Nat)
    (numValidIndices : Nat) :
    depthIt (parseNameOrIndex nodeIt nameToIndex numValidIndices).2 ≤ depthIt nodeIt := by
  have hname : ∀ it : SNodeIt, depthIt it ≤ depthIt nodeIt →
      depthIt (match parseName it with
        | some (name, advanced) =>
          match nameToIndex.find name with
          | some index => (some index, advanced)
          | none => (none, advanced)
        | none => ((none : Option Nat), it)).2 ≤ depthIt nodeIt := by
    intro it hit
    cases hparsed : parseName it with
    | none => exact hit
    | some parsed =>
      have := Nat.le_trans (parseName_depth _ _ _ hparsed) hit
      dsimp only
      split <;> exact this
  unfold parseNameOrIndex
  cases hparsed : parseInt nodeIt with
  | none =>
    dsimp only
    rw [if_neg (by simp)]
    exact hname nodeIt (Nat.le_refl _)
  | some parsed =>
    have hint := parseInt_depth _ _ _ hparsed
    dsimp only
    split
    · exact hint
    · exact hname parsed.2 hint

theorem skipFunctionDeclarations_depth (nodeIt : SNodeIt) :
    depthIt (skipFunctionDeclarations nodeIt) ≤ depthIt nodeIt := by
  induction nodeIt with
  | nil => exact Nat.le_refl _
  | cons node rest ih =>
    unfold skipFunctionDeclarations
    split
    · exact Nat.le_refl _
    · rw [depthIt_cons]
      exact Nat.le_trans ih (Nat.le_max_right _ _)
theorem get_agree : Agree (fun _ => True) (get : ParseM FunctionContext) get :=
  agree_total _ _ fun ctx => ⟨ctx, ctx, rfl, trivial⟩

theorem parseVoidExpressions_agree (depth : Nat) (self other : ParseTyped)
    (hself : AgreeBelow depth self other) (numRemaining : Nat) :
    ∀ (result : Option Expression) (nodeIt : SNodeIt) (errorContext : String),
      depthIt nodeIt < depth →
      Agree (fun parsed => depthIt parsed.2 < depth)
        (parseVoidExpressions self numRemaining result nodeIt errorContext)
        (parseVoidExpressions other numRemaining result nodeIt errorContext) := by
  induction numRemaining with
  | zero =>
    intro result nodeIt errorContext hdepth
    unfold parseVoidExpressions
    exact agree_pure _ _ hdepth
  | succ numRemaining ih =>
    intro result nodeIt errorContext hdepth
    unfold parseVoidExpressions
    refine agree_bind _ _ _ _ _ _ (hself _ _ _ _ hdepth) ?_
    rintro ⟨expression, nodeIt⟩ hnext
    cases result with
    | none => exact ih _ _ _ hnext
    | some result => exact ih _ _ _ hnext

theorem parseExpressionSequenceOps_agree (depth : Nat) (self other : ParseTyped)
    (hself : AgreeBelow depth self other) (typeClass : TypeClassId) (type : TypeId)
    (nodeIt : SNodeIt) (errorContext : String) (numOps : Nat)
    (hdepth : depthIt nodeIt < depth) :
    Agree (fun _ => True)
      (parseExpressionSequenceOps self typeClass type nodeIt errorContext numOps)
      (parseExpressionSequenceOps other typeClass type nodeIt errorContext numOps) := by
  unfold parseExpressionSequenceOps
  split
  · exact agree_pure _ _ trivial
  split
  · refine agree_bind _ _ _ _ _ _ (hself _ _ _ _ hdepth) ?_
    rintro ⟨expression, nodeIt⟩ _
    exact agree_pure _ _ trivial
  · refine agree_bind _ _ _ _ _ _
      (parseVoidExpressions_agree depth self other hself _ none _ _ hdepth) ?_
    rintro ⟨result, nodeIt⟩ hnext
    refine agree_bind _ _ _ _ _ _ (hself _ _ _ _ hnext) ?_
    rintro ⟨resultExpression, nodeIt⟩ _
    cases result with
    | none => exact agree_throw _ _ (by intro h; cases h)
    | some result => exact agree_pure _ _ trivial

theorem parseExpressionSequence_agree (depth : Nat) (self other : ParseTyped)
    (hself : AgreeBelow depth self other) (typeClass : TypeClassId) (type : TypeId)
    (nodeIt : SNodeIt) (context : String) (hdepth : depthIt nodeIt < depth) :
    Agree (fun _ => True) (parseExpressionSequence self typeClass type nodeIt context)
      (parseExpressionSequence other typeClass type nodeIt context) := by
  unfold parseExpressionSequence
  split
  · exact recordErrorNode_agree _ _ _ _ fun _ => trivial
  · exact parseExpressionSequenceOps_agree depth self other hself _ _ _ _ _ hdepth

theorem parseComparisonExpression_agree (depth : Nat) (self other : ParseTyped)
    (hself : AgreeBelow depth self other) (opType : TypeId) (op : BoolOp)
    (childNodeIt : SNodeIt) (hdepth : depthIt childNodeIt < depth) :
    Agree (fun _ => True) (parseComparisonExpression self opType op childNodeIt)
      (parseComparisonExpression other opType op childNodeIt) := by
  unfold parseComparisonExpression
  refine agree_bind _ _ _ _ _ _
    (parseTypedExpressionOfType_agree depth self other hself _ _ _ hdepth) ?_
  rintro ⟨left, nodeIt⟩ hleft
  refine agree_bind _ _ _ _ _ _
    (parseTypedExpressionOfType_agree depth self other hself _ _ _ hleft) ?_
  rintro ⟨right, nodeIt⟩ _
  refine agree_bind _ _ _ _ _ _ (requireFullMatch_agree _ _ _ _) ?_
  intro result _
  exact agree_pure _ _ trivial

theorem parseUnaryExpression_agree (depth : Nat) (self other : ParseTyped)
    (hself : AgreeBelow depth self other) (opType : TypeId) (op : Opcode)
    (operandNodeIt : SNodeIt) (hdepth : depthIt operandNodeIt < depth) :
    Agree (fun _ => True) (parseUnaryExpression self opType op operandNodeIt)
      (parseUnaryExpression other opType op operandNodeIt) := by
  unfold parseUnaryExpression
  refine agree_bind _ _ _ _ _ _ (hself _ _ _ _ hdepth) ?_
  rintro ⟨operand, nodeIt⟩ _
  refine agree_bind _ _ _ _ _ _ (requireFullMatch_agree _ _ _ _) ?_
  intro result _
  exact agree_pure _ _ trivial

theorem parseStoreExpression_agree (depth : Nat) (self other : ParseTyped)
    (hself : AgreeBelow depth self other)
    (operandClass : TypeClassId) (valueType memoryType : TypeId)
    (isFarAddress isAligned : Bool) (nodeIt : SNodeIt) (hdepth : depthIt nodeIt < depth) :
    Agree (fun _ => True)
      (parseStoreExpression self operandClass valueType memoryType isFarAddress isAligned
        nodeIt)
      (parseStoreExpression other operandClass valueType memoryType isFarAddress isAligned
        nodeIt) := by
  unfold parseStoreExpression
  split
  · refine agree_bind _ _ _ _ _ _ (recordErrorNode_agree (fun _ => True) _ _ _ fun _ => trivial) ?_
    intro result _
    exact agree_pure _ _ trivial
  · refine agree_bind _ _ _ _ _ _ (hself _ _ _ _ hdepth) ?_
    rintro ⟨address, nodeIt⟩ haddress
    refine agree_bind _ _ _ _ _ _ (hself _ _ _ _ haddress) ?_
    rintro ⟨value, nodeIt⟩ _
    refine agree_bind _ _ _ _ _ _ (requireFullMatch_agree _ _ _ _) ?_
    intro result _
    exact agree_pure _ _ trivial

theorem parseCastExpression_agree (depth : Nat) (self other : ParseTyped)
    (hself : AgreeBelow depth self other) (op : Opcode) (sourceType destType : TypeId)
    (nodeIt : SNodeIt) (hdepth : depthIt nodeIt < depth) :
    Agree (fun _ => True) (parseCastExpression self op sourceType destType nodeIt)
      (parseCastExpression other op sourceType destType nodeIt) := by
  unfold parseCastExpression
  refine agree_bind _ _ _ _ _ _
    (parseTypedExpressionOfType_agree depth self other hself _ _ _ hdepth) ?_
  rintro ⟨source, nodeIt⟩ _
  refine agree_bind _ _ _ _ _ _ (requireFullMatch_agree _ _ _ _) ?_
  intro result _
  exact agree_pure _ _ trivial

theorem parseIntConst_agree (opType : TypeId) (nodeIt : SNodeIt) :
    Agree (fun _ => True) (parseIntConst opType nodeIt) (parseIntConst opType nodeIt) := by
  unfold parseIntConst
  repeat' split
  all_goals first
    | exact agree_throw _ _ (by intro h; cases h)
    | exact agree_bind _ _ _ _ _ _
        (recordErrorNode_agree (fun _ => True) _ _ _ fun _ => trivial)
        fun result _ => agree_pure _ _ trivial
    | exact agree_bind _ _ _ _ _ _ (requireFullMatch_agree _ _ _ _)
        fun result _ => agree_pure _ _ trivial

theorem parseFloatConst_agree (opType : TypeId) (nodeIt : SNodeIt) :
    Agree (fun _ => True) (parseFloatConst opType nodeIt) (parseFloatConst opType nodeIt) := by
  unfold parseFloatConst
  repeat' split
  all_goals first
    | exact agree_throw _ _ (by intro h; cases h)
    | exact agree_bind _ _ _ _ _ _
        (recordErrorNode_agree (fun _ => True) _ _ _ fun _ => trivial)
        fun result _ => agree_pure _ _ trivial
    | exact agree_bind _ _ _ _ _ _ (requireFullMatch_agree _ _ _ _)
        fun result _ => agree_pure _ _ trivial

theorem parseTypedOp_agree (depth : Nat) (self other : ParseTyped)
    (hself : AgreeBelow depth self other) (name : SymbolName) (opType : TypeId)
    (nodeIt : SNodeIt) (hdepth : depthIt nodeIt < depth) :
    Agree (fun _ => True) (parseTypedOp self name opType nodeIt)
      (parseTypedOp other name opType nodeIt) := by
  unfold parseTypedOp
  repeat' split
  all_goals first
    | exact agree_pure _ _ trivial
    | exact agree_map _ _ _ _ _
        (parseLoadExpression_agree depth self other hself _ _ _ _ _ _ _ hdepth)
        fun _ _ => trivial
    | exact agree_map _ _ _ _ _
        (parseStoreExpression_agree depth self other hself _ _ _ _ _ _ hdepth)
        fun _ _ => trivial
    | exact agree_map _ _ _ _ _ (parseIntConst_agree _ _) fun _ _ => trivial
    | exact agree_map _ _ _ _ _ (parseFloatConst_agree _ _) fun _ _ => trivial
    | exact agree_map _ _ _ _ _
        (parseUnaryExpression_agree depth self other hself _ _ _ hdepth) fun _ _ => trivial
    | exact agree_map _ _ _ _ _
        (parseBinaryExpression_agree depth self other hself _ _ _ hdepth) fun _ _ => trivial
    | exact agree_map _ _ _ _ _
        (parseComparisonExpression_agree depth self other hself _ _ _ hdepth)
        fun _ _ => trivial

theorem parseNonParametricExpression_agree (depth : Nat) (self other : ParseTyped)
    (hself : AgreeBelow depth self other) (parentNodeIt : SNodeIt)
    (hdepth : depthIt parentNodeIt < depth + 1) :
    Agree (fun _ => True) (parseNonParametricExpression self parentNodeIt)
      (parseNonParametricExpression other parentNodeIt) := by
  unfold parseNonParametricExpression
  split
  · exact agree_pure _ _ trivial
  next nodeIt hchildren =>
  have hchild : depthIt nodeIt < depth := by
    have := parseTreeNode_depth _ _ hchildren
    omega
  split
  · exact agree_pure _ _ trivial
  next tag afterTag hsymbol =>
  have hafter : depthIt afterTag < depth :=
    Nat.lt_of_le_of_lt (parseSymbol_depth _ _ _ hsymbol) hchild
  repeat' split
  all_goals first
    | exact agree_pure _ _ trivial
    | exact parseTypedOp_agree depth self other hself _ _ _ hafter
    | exact agree_map _ _ _ _ _
        (parseCastExpression_agree depth self other hself _ _ _ _ hafter) fun _ _ => trivial
theorem allocateBranchTarget_agree (type : TypeId) :
    Agree (fun _ => True) (allocateBranchTarget type) (allocateBranchTarget type) :=
  agree_total _ _ fun _ => ⟨_, _, rfl, trivial⟩

theorem setLabel_agree (labelName : String) (branchTarget : BranchTarget) :
    Agree (fun _ => True) (setLabel labelName branchTarget) (setLabel labelName branchTarget) :=
  agree_total _ _ fun _ => ⟨_, _, rfl, trivial⟩

theorem eraseLabel_agree (labelName : String) :
    Agree (fun _ => True) (eraseLabel labelName) (eraseLabel labelName) :=
  agree_total _ _ fun _ => ⟨_, _, rfl, trivial⟩

theorem pushScopedBranchTarget_agree (branchTarget : BranchTarget) :
    Agree (fun _ => True) (pushScopedBranchTarget branchTarget)
      (pushScopedBranchTarget branchTarget) :=
  agree_total _ _ fun _ => ⟨_, _, rfl, trivial⟩

theorem popScopedBranchTarget_agree :
    Agree (fun _ => True) popScopedBranchTarget popScopedBranchTarget :=
  agree_total _ _ fun _ => ⟨_, _, rfl, trivial⟩

theorem pureUnit_agree : Agree (fun _ => True) (pure () : ParseM Unit) (pure ()) :=
  agree_pure _ _ trivial

theorem parseParameters_agree (depth : Nat) (self other : ParseTyped)
    (hself : AgreeBelow depth self other) (errorContext : String)
    (parameterTypes : List TypeId) :
    ∀ nodeIt : SNodeIt, depthIt nodeIt < depth →
      Agree (fun parsed => depthIt parsed.2 < depth)
        (parseParameters self errorContext parameterTypes nodeIt)
        (parseParameters other errorContext parameterTypes nodeIt) := by
  induction parameterTypes with
  | nil =>
    intro nodeIt hdepth
    unfold parseParameters
    exact agree_pure _ _ hdepth
  | cons parameterType rest ih =>
    intro nodeIt hdepth
    unfold parseParameters
    refine agree_bind _ _ _ _ _ _
      (parseTypedExpressionOfType_agree depth self other hself _ _ _ hdepth) ?_
    rintro ⟨parameterValue, nodeIt⟩ hnext
    refine agree_bind _ _ _ _ _ _ (ih _ hnext) ?_
    rintro ⟨parameters, nodeIt⟩ hlast
    exact agree_pure _ _ hlast

theorem parseGetVariable_agree (typeClass : TypeClassId) (resultType : TypeId) (op : AnyOp)
    (nameToIndexMap : NameMap Nat) (vars : List Variable) (nodeIt : SNodeIt) :
    Agree (fun _ => True)
      (parseGetVariable typeClass resultType op nameToIndexMap vars nodeIt)
      (parseGetVariable typeClass resultType op nameToIndexMap vars nodeIt) := by
  unfold parseGetVariable
  repeat' split
  all_goals first
    | exact agree_throw _ _ (by intro h; cases h)
    | exact recordErrorNode_agree _ _ _ _ fun _ => trivial
    | exact agree_bind _ _ _ _ _ _ (coerceExpression_agree _ _ _ _ _)
        fun result _ => requireFullMatch_agree _ _ _ _

theorem parseSetVariable_agree (depth : Nat) (self other : ParseTyped)
    (hself : AgreeBelow depth self other)
    (typeClass : TypeClassId) (resultType : TypeId) (op : AnyOp)
    (nameToIndexMap : NameMap Nat) (vars : List Variable) (nodeIt : SNodeIt)
    (hdepth : depthIt nodeIt < depth) :
    Agree (fun _ => True)
      (parseSetVariable self typeClass resultType op nameToIndexMap vars nodeIt)
      (parseSetVariable other typeClass resultType op nameToIndexMap vars nodeIt) := by
  unfold parseSetVariable
  have hindex := parseNameOrIndex_depth nodeIt nameToIndexMap vars.length
  cases hparsed : parseNameOrIndex nodeIt nameToIndexMap vars.length with
  | mk index afterName =>
    rw [hparsed] at hindex
    cases index with
    | none => exact recordErrorNode_agree _ _ _ _ fun _ => trivial
    | some variableIndex =>
      dsimp only
      split
      · exact agree_throw _ _ (by intro h; cases h)
      · refine agree_bind _ _ _ _ _ _
          (parseTypedExpressionOfType_agree depth self other hself _ _ _
            (Nat.lt_of_le_of_lt hindex hdepth)) ?_
        rintro ⟨valueExpression, nodeIt⟩ _
        exact agree_bind _ _ _ _ _ _ (coerceExpression_agree _ _ _ _ _)
          fun result _ => requireFullMatch_agree _ _ _ _

theorem parseSwitchArms_agree (depth : Nat) (self other : ParseTyped)
    (hself : AgreeBelow depth self other)
    (typeClass : TypeClassId) (resultType : TypeId) (endTarget : BranchTarget)
    (nodeIt : SNodeIt) :
    ∀ (arms : List (Nat × Expression)), depthIt nodeIt < depth →
      Agree (Sum.elim (fun _ => True) fun parsed => depthIt parsed.2 < depth)
        (parseSwitchArms self typeClass resultType endTarget nodeIt arms)
        (parseSwitchArms other typeClass resultType endTarget nodeIt arms) := by
  induction nodeIt with
  | nil =>
    intro arms hdepth
    unfold parseSwitchArms
    exact agree_pure _ _ hdepth
  | cons node rest ih =>
    intro arms hdepth
    have hrest : depthIt rest < depth :=
      Nat.lt_of_le_of_lt (depthIt_tail (node :: rest)) hdepth
    unfold parseSwitchArms
    split
    · exact agree_pure _ _ hdepth
    next childNodeIt hcase =>
    have hchild : depthIt childNodeIt < depth :=
      Nat.lt_trans (parseTaggedNode_depth _ _ _ hcase) hdepth
    split
    · exact agree_bind _ _ _ _ _ _
        (recordErrorNode_agree (fun _ => True) _ _ _ fun _ => trivial)
        fun error _ => agree_pure _ _ trivial
    next keyValue afterKey hkey =>
    have hafter : depthIt afterKey < depth :=
      Nat.lt_of_le_of_lt (parseInt_depth _ _ _ hkey) hchild
    repeat' split
    all_goals first
      | exact agree_bind _ _ _ _ _ _
          (recordErrorNode_agree (fun _ => True) _ _ _ fun _ => trivial)
          fun error _ => agree_pure _ _ trivial
      | exact agree_bind _ _ _ _ _ _
          (parseExpressionSequenceOps_agree depth self other hself _ _ _ _ _ hafter)
          fun value _ => ih _ hrest
theorem parseSwitch_agree (depth : Nat) (self other : ParseTyped)
    (hself : AgreeBelow depth self other)
    (typeClass : TypeClassId) (resultType opType : TypeId) (nodeIt : SNodeIt)
    (hdepth : depthIt nodeIt < depth) :
    Agree (fun _ => True) (parseSwitch self typeClass resultType opType nodeIt)
      (parseSwitch other typeClass resultType opType nodeIt) := by
  have hname := Nat.lt_of_le_of_lt (optionalName_depth nodeIt) hdepth
  unfold parseSwitch
  dsimp only
  refine agree_bind _ _ _ _ _ _ (allocateBranchTarget_agree _) ?_
  intro endTarget _
  refine agree_bind _ _ _ _ _ _ get_agree ?_
  intro context _
  split
  · exact recordErrorNode_agree _ _ _ _ fun _ => trivial
  refine agree_bind _ _ _ _ _ _ (hself _ _ _ _ hname) ?_
  rintro ⟨key, nodeIt⟩ hkey
  split
  all_goals
    refine agree_bind _ (fun _ => True) _ _ _ _
      (by first | exact setLabel_agree _ _ | exact pureUnit_agree) ?_
    intro _ _
    refine agree_bind _ _ _ _ _ _
      (parseSwitchArms_agree depth self other hself _ _ _ _ [] hkey) ?_
    rintro (error | ⟨arms, nodeIt⟩) harms
    · exact agree_pure _ _ trivial
    refine agree_bind _ _ _ _ _ _ (hself _ _ _ _ harms) ?_
    rintro ⟨defaultValue, nodeIt⟩ _
    split
    all_goals
      refine agree_bind _ (fun _ => True) _ _ _ _
        (by first | exact eraseLabel_agree _ | exact pureUnit_agree) ?_
      intro _ _
      exact requireFullMatch_agree _ _ _ _

theorem parseIf_agree (depth : Nat) (self other : ParseTyped)
    (hself : AgreeBelow depth self other)
    (typeClass : TypeClassId) (resultType : TypeId) (nodeIt : SNodeIt)
    (hdepth : depthIt nodeIt < depth) :
    Agree (fun _ => True) (parseIf self typeClass resultType nodeIt)
      (parseIf other typeClass resultType nodeIt) := by
  unfold parseIf
  refine agree_bind _ _ _ _ _ _ (hself _ _ _ _ hdepth) ?_
  rintro ⟨condition, nodeIt⟩ hcondition
  refine agree_bind _ _ _ _ _ _ (hself _ _ _ _ hcondition) ?_
  rintro ⟨thenExpression, nodeIt⟩ hthen
  dsimp only at hthen ⊢
  split
  · refine agree_bind _ _ _ _ _ _ (hself _ _ _ _ hthen) ?_
    rintro ⟨elseExpression, nodeIt⟩ _
    exact requireFullMatch_agree _ _ _ _
  split
  · exact requireFullMatch_agree _ _ _ _
  · refine agree_bind _ _ _ _ _ _
      (recordErrorNode_agree (fun _ => True) _ _ _ fun _ => trivial) ?_
    intro elseExpression _
    exact requireFullMatch_agree _ _ _ _

theorem parseLoop_agree (depth : Nat) (self other : ParseTyped)
    (hself : AgreeBelow depth self other)
    (typeClass : TypeClassId) (resultType : TypeId) (nodeIt : SNodeIt)
    (hdepth : depthIt nodeIt < depth) :
    Agree (fun _ => True) (parseLoop self typeClass resultType nodeIt)
      (parseLoop other typeClass resultType nodeIt) := by
  unfold parseLoop
  dsimp only
  refine agree_bind _ _ _ _ _ _ (allocateBranchTarget_agree _) ?_
  intro breakTarget _
  refine agree_bind _ _ _ _ _ _ (allocateBranchTarget_agree _) ?_
  intro continueTarget _
  refine agree_bind _ _ _ _ _ _ get_agree ?_
  intro context _
  split
  · exact recordErrorNode_agree _ _ _ _ fun _ => trivial
  split
  all_goals
    refine agree_bind _ (fun _ => True) _ _ _ _
      (by first | exact setLabel_agree _ _ | exact pureUnit_agree) ?_
    intro _ _
    refine agree_bind _ _ _ _ _ _ get_agree ?_
    intro context _
    split
    · exact recordErrorNode_agree _ _ _ _ fun _ => trivial
    split
    all_goals
      refine agree_bind _ (fun _ => True) _ _ _ _
        (by first | exact setLabel_agree _ _ | exact pureUnit_agree) ?_
      intro _ _
      refine agree_bind _ _ _ _ _ _
        (parseExpressionSequence_agree depth self other hself _ _ _ _ (by
          dsimp only
          first
            | exact hdepth
            | exact Nat.lt_of_le_of_lt (parseName_depth _ _ _ (by assumption)) hdepth
            | exact Nat.lt_of_le_of_lt (parseName_depth _ _ _ (by assumption))
                (Nat.lt_of_le_of_lt (parseName_depth _ _ _ (by assumption)) hdepth))) ?_
      intro expression _
      split
      all_goals
        refine agree_bind _ (fun _ => True) _ _ _ _
          (by first | exact eraseLabel_agree _ | exact pureUnit_agree) ?_
        intro _ _
        split
        all_goals
          refine agree_bind _ (fun _ => True) _ _ _ _
            (by first | exact eraseLabel_agree _ | exact pureUnit_agree) ?_
          intro _ _
          exact agree_pure _ _ trivial

theorem resolveBranchTarget_agree (depth : Nat) (nodeIt : SNodeIt)
    (hdepth : depthIt nodeIt < depth) :
    Agree (fun resolved => depthIt resolved.2 < depth) (resolveBranchTarget nodeIt)
      (resolveBranchTarget nodeIt) := by
  have hname : ∀ (context : FunctionContext) (it : SNodeIt), depthIt it < depth →
      Agree (fun resolved : Option BranchTarget × SNodeIt => depthIt resolved.2 < depth)
        (match parseName it with
          | some (name, nodeIt) => pure (context.labelToBranchTargetMap.find name, nodeIt)
          | none =>
            match context.scopedBranchTargets.getLast? with
            | some branchTarget => pure (some branchTarget, it)
            | none =>
              throw (.undefinedBehaviour
                "break: scopedBranchTargets.back() on an empty vector"))
        (match parseName it with
          | some (name, nodeIt) => pure (context.labelToBranchTargetMap.find name, nodeIt)
          | none =>
            match context.scopedBranchTargets.getLast? with
            | some branchTarget => pure (some branchTarget, it)
            | none =>
              throw (.undefinedBehaviour
                "break: scopedBranchTargets.back() on an empty vector")) := by
    intro context it hit
    cases hparsed : parseName it with
    | some parsed =>
      exact agree_pure _ _ (Nat.lt_of_le_of_lt (parseName_depth _ _ _ hparsed) hit)
    | none =>
      dsimp only
      split
      · exact agree_pure _ _ hit
      · exact agree_throw _ _ (by intro h; cases h)
  unfold resolveBranchTarget
  refine agree_bind _ _ _ _ _ _ get_agree ?_
  intro context _
  cases hparsed : parseInt nodeIt with
  | none =>
    dsimp only
    rw [if_neg (by simp)]
    exact hname context nodeIt hdepth
  | some parsed =>
    have hint := Nat.lt_of_le_of_lt (parseInt_depth _ _ _ hparsed) hdepth
    dsimp only
    split
    · exact agree_pure _ _ hint
    · exact hname context parsed.2 hint

theorem parseBreak_agree (depth : Nat) (self other : ParseTyped)
    (hself : AgreeBelow depth self other)
    (typeClass : TypeClassId) (nodeIt : SNodeIt) (hdepth : depthIt nodeIt < depth) :
    Agree (fun _ => True) (parseBreak self typeClass nodeIt)
      (parseBreak other typeClass nodeIt) := by
  unfold parseBreak
  refine agree_bind _ _ _ _ _ _ (resolveBranchTarget_agree depth _ hdepth) ?_
  rintro ⟨_ | branchTarget, nodeIt⟩ hresolved
  · exact recordErrorNode_agree _ _ _ _ fun _ => trivial
  dsimp only at hresolved ⊢
  split
  · exact requireFullMatch_agree _ _ _ _
  · refine agree_bind _ _ _ _ _ _
      (parseTypedExpressionOfType_agree depth self other hself _ _ _ hresolved) ?_
    rintro ⟨value, nodeIt⟩ _
    exact requireFullMatch_agree _ _ _ _

theorem parseReturn_agree (depth : Nat) (self other : ParseTyped)
    (hself : AgreeBelow depth self other)
    (typeClass : TypeClassId) (nodeIt : SNodeIt) (hdepth : depthIt nodeIt < depth) :
    Agree (fun _ => True) (parseReturn self typeClass nodeIt)
      (parseReturn other typeClass nodeIt) := by
  unfold parseReturn
  refine agree_bind _ _ _ _ _ _ get_agree ?_
  intro context _
  dsimp only
  split
  · exact requireFullMatch_agree _ _ _ _
  · refine agree_bind _ _ _ _ _ _
      (parseTypedExpressionOfType_agree depth self other hself _ _ _ hdepth) ?_
    rintro ⟨value, nodeIt⟩ _
    exact requireFullMatch_agree _ _ _ _

theorem parseCall_agree (depth : Nat) (self other : ParseTyped)
    (hself : AgreeBelow depth self other)
    (typeClass : TypeClassId) (resultType : TypeId) (parentNodeIt nodeIt : SNodeIt)
    (hdepth : depthIt nodeIt < depth) :
    Agree (fun _ => True) (parseCall self typeClass resultType parentNodeIt nodeIt)
      (parseCall other typeClass resultType parentNodeIt nodeIt) := by
  unfold parseCall
  refine agree_bind _ _ _ _ _ _ get_agree ?_
  intro context _
  dsimp only
  have hindex := parseNameOrIndex_depth nodeIt context.moduleContext.functionNameToIndexMap
    context.moduleContext.module.functions.length
  cases hparsed : parseNameOrIndex nodeIt context.moduleContext.functionNameToIndexMap
      context.moduleContext.module.functions.length with
  | mk index afterName =>
    rw [hparsed] at hindex
    cases index with
    | none => exact recordErrorNode_agree _ _ _ _ fun _ => trivial
    | some functionIndex =>
      dsimp only
      split
      · exact agree_throw _ _ (by intro h; cases h)
      · refine agree_bind _ _ _ _ _ _
          (parseParameters_agree depth self other hself _ _ _
            (Nat.lt_of_le_of_lt hindex hdepth)) ?_
        rintro ⟨parameters, nodeIt⟩ _
        exact agree_bind _ _ _ _ _ _ (coerceExpression_agree _ _ _ _ _)
          fun result _ => requireFullMatch_agree _ _ _ _

theorem parseCallImport_agree (depth : Nat) (self other : ParseTyped)
    (hself : AgreeBelow depth self other)
    (typeClass : TypeClassId) (resultType : TypeId) (parentNodeIt nodeIt : SNodeIt)
    (hdepth : depthIt nodeIt < depth) :
    Agree (fun _ => True) (parseCallImport self typeClass resultType parentNodeIt nodeIt)
      (parseCallImport other typeClass resultType parentNodeIt nodeIt) := by
  unfold parseCallImport
  refine agree_bind _ _ _ _ _ _ get_agree ?_
  intro context _
  dsimp only
  have hindex := parseNameOrIndex_depth nodeIt
    context.moduleContext.functionImportNameToIndexMap
    context.moduleContext.module.functionImports.length
  cases hparsed : parseNameOrIndex nodeIt context.moduleContext.functionImportNameToIndexMap
      context.moduleContext.module.functionImports.length with
  | mk index afterName =>
    rw [hparsed] at hindex
    cases index with
    | none => exact recordErrorNode_agree _ _ _ _ fun _ => trivial
    | some importIndex =>
      dsimp only
      split
      · exact agree_throw _ _ (by intro h; cases h)
      · refine agree_bind _ _ _ _ _ _
          (parseParameters_agree depth self other hself _ _ _
            (Nat.lt_of_le_of_lt hindex hdepth)) ?_
        rintro ⟨parameters, nodeIt⟩ _
        exact agree_bind _ _ _ _ _ _ (coerceExpression_agree _ _ _ _ _)
          fun result _ => requireFullMatch_agree _ _ _ _

theorem parseCallIndirect_agree (depth : Nat) (self other : ParseTyped)
    (hself : AgreeBelow depth self other)
    (typeClass : TypeClassId) (resultType : TypeId) (parentNodeIt nodeIt : SNodeIt)
    (hdepth : depthIt nodeIt < depth) :
    Agree (fun _ => True) (parseCallIndirect self typeClass resultType parentNodeIt nodeIt)
      (parseCallIndirect other typeClass resultType parentNodeIt nodeIt) := by
  unfold parseCallIndirect
  refine agree_bind _ _ _ _ _ _ get_agree ?_
  intro context _
  dsimp only
  have hindex := parseNameOrIndex_depth nodeIt
    context.moduleContext.functionTableNameToIndexMap
    context.moduleContext.module.functionTables.length
  cases hparsed : parseNameOrIndex nodeIt context.moduleContext.functionTableNameToIndexMap
      context.moduleContext.module.functionTables.length with
  | mk index afterName =>
    rw [hparsed] at hindex
    cases index with
    | none => exact recordErrorNode_agree _ _ _ _ fun _ => trivial
    | some tableIndex =>
      dsimp only
      refine agree_bind _ _ _ _ _ _
        (hself _ _ _ _ (Nat.lt_of_le_of_lt hindex hdepth)) ?_
      rintro ⟨functionIndex, nodeIt⟩ hfunction
      dsimp only at hfunction ⊢
      split
      · exact agree_throw _ _ (by intro h; cases h)
      · refine agree_bind _ _ _ _ _ _
          (parseParameters_agree depth self other hself _ _ _ hfunction) ?_
        rintro ⟨parameters, nodeIt⟩ _
        exact agree_bind _ _ _ _ _ _ (coerceExpression_agree _ _ _ _ _)
          fun result _ => requireFullMatch_agree _ _ _ _

theorem parseLabel_agree (depth : Nat) (self other : ParseTyped)
    (hself : AgreeBelow depth self other)
    (typeClass : TypeClassId) (resultType : TypeId) (nodeIt : SNodeIt)
    (hdepth : depthIt nodeIt < depth) :
    Agree (fun _ => True) (parseLabel self typeClass resultType nodeIt)
      (parseLabel other typeClass resultType nodeIt) := by
  unfold parseLabel
  dsimp only
  refine agree_bind _ _ _ _ _ _ get_agree ?_
  intro context _
  split
  · exact recordErrorNode_agree _ _ _ _ fun _ => trivial
  refine agree_bind _ _ _ _ _ _ (allocateBranchTarget_agree _) ?_
  intro branchTarget _
  split
  all_goals
    refine agree_bind _ (fun _ => True) _ _ _ _
      (by first | exact setLabel_agree _ _ | exact pureUnit_agree) ?_
    intro _ _
    refine agree_bind _ _ _ _ _ _ (pushScopedBranchTarget_agree _) ?_
    intro _ _
    refine agree_bind _ _ _ _ _ _
      (parseExpressionSequence_agree depth self other hself _ _ _ _ (by
        dsimp only
        first
          | exact hdepth
          | exact Nat.lt_of_le_of_lt (parseName_depth _ _ _ (by assumption)) hdepth)) ?_
    intro expression _
    refine agree_bind _ _ _ _ _ _ popScopedBranchTarget_agree ?_
    intro _ _
    split
    all_goals
      refine agree_bind _ (fun _ => True) _ _ _ _
        (by first | exact eraseLabel_agree _ | exact pureUnit_agree) ?_
      intro _ _
      exact agree_pure _ _ trivial
theorem parseParametricExpression_agree (depth : Nat) (self other : ParseTyped)
    (hself : AgreeBelow depth self other)
    (typeClass : TypeClassId) (resultType : TypeId) (parentNodeIt : SNodeIt)
    (hdepth : depthIt parentNodeIt < depth + 1) :
    Agree (fun _ => True) (parseParametricExpression self typeClass resultType parentNodeIt)
      (parseParametricExpression other typeClass resultType parentNodeIt) := by
  unfold parseParametricExpression
  split
  · exact agree_pure _ _ trivial
  next nodeIt hchildren =>
  have hchild : depthIt nodeIt < depth := by
    have := parseTreeNode_depth _ _ hchildren
    omega
  split
  · exact agree_pure _ _ trivial
  next tag afterTag hsymbol =>
  have hafter : depthIt afterTag < depth :=
    Nat.lt_of_le_of_lt (parseSymbol_depth _ _ _ hsymbol) hchild
  repeat' split
  all_goals first
    | exact agree_pure _ _ trivial
    | (refine agree_map (fun _ => True) _ _ _ _ ?_ fun _ _ => trivial
       first
         | exact parseSwitch_agree depth self other hself _ _ _ _ hafter
         | exact parseIf_agree depth self other hself _ _ _ hafter
         | exact parseLoop_agree depth self other hself _ _ _ hafter
         | exact parseBreak_agree depth self other hself _ _ hafter
         | exact parseReturn_agree depth self other hself _ _ hafter
         | exact parseCall_agree depth self other hself _ _ _ _ hafter
         | exact parseCallImport_agree depth self other hself _ _ _ _ hafter
         | exact parseCallIndirect_agree depth self other hself _ _ _ _ hafter
         | exact parseLabel_agree depth self other hself _ _ _ hafter
         | exact parseExpressionSequence_agree depth self other hself _ _ _ _ hafter)
    | (refine agree_bind _ _ _ _ _ _ get_agree fun context _ => ?_
       refine agree_map (fun _ => True) _ _ _ _ ?_ fun _ _ => trivial
       first
         | exact parseGetVariable_agree _ _ _ _ _ _
         | exact parseSetVariable_agree depth self other hself _ _ _ _ _ _ hafter)

theorem parseTypedExpressionBody_agree (depth : Nat) (self other : ParseTyped)
    (hself : AgreeBelow depth self other) :
    AgreeBelow (depth + 1) (parseTypedExpressionBody self)
      (parseTypedExpressionBody other) := by
  intro typeClass type nodeIt errorContext hdepth
  have htail : depthIt nodeIt.tail < depth + 1 :=
    Nat.lt_of_le_of_lt (depthIt_tail nodeIt) hdepth
  unfold parseTypedExpressionBody
  split
  · exact agree_bind _ _ _ _ _ _
      (recordErrorNode_agree (fun _ => True) _ _ _ fun _ => trivial)
      fun result _ => agree_pure _ _ hdepth
  refine agree_bind _ _ _ _ _ _
    (parseNonParametricExpression_agree depth self other hself _ hdepth) ?_
  rintro (_ | nonParametricExpression) _
  · refine agree_bind _ _ _ _ _ _
      (parseParametricExpression_agree depth self other hself _ _ _ hdepth) ?_
    rintro (_ | parametricExpression) _
    · exact agree_bind _ _ _ _ _ _
        (recordErrorNode_agree (fun _ => True) _ _ _ fun _ => trivial)
        fun result _ => agree_pure _ _ htail
    · exact agree_pure _ _ htail
  · exact agree_bind _ _ _ _ _ _ (coerceExpression_agree _ _ _ _ _)
      fun result _ => agree_pure _ _ htail

/-- The parser of expressions does not depend on the fuel and does not run out of it on an
iterator of a nesting depth below the fuel. -/
theorem parseTypedExpression_agree (depth : Nat) :
    ∀ more extra : Nat,
      AgreeBelow depth (parseTypedExpression (depth + more))
        (parseTypedExpression (depth + extra)) := by
  induction depth with
  | zero =>
    intro more extra typeClass type nodeIt errorContext hdepth
    exact absurd hdepth (Nat.not_lt_zero _)
  | succ depth ih =>
    intro more extra
    have h1 : depth + 1 + more = (depth + more) + 1 := by omega
    have h2 : depth + 1 + extra = (depth + extra) + 1 := by omega
    rw [h1, h2]
    exact parseTypedExpressionBody_agree depth _ _ (ih more extra)

theorem parseTypedExpression_fuel (fuel other : Nat) (nodeIt : SNodeIt)
    (h1 : depthIt nodeIt < fuel) (h2 : depthIt nodeIt < other) :
    AgreeBelow (depthIt nodeIt + 1) (parseTypedExpression fuel) (parseTypedExpression other) := by
  have e1 : fuel = (depthIt nodeIt + 1) + (fuel - (depthIt nodeIt + 1)) := by omega
  have e2 : other = (depthIt nodeIt + 1) + (other - (depthIt nodeIt + 1)) := by omega
  rw [e1, e2]
  exact parseTypedExpression_agree _ _ _
theorem parseImportDeclaration_noFuelFault (childNodeIt : SNodeIt) (mc : ModuleContext) :
    parseImportDeclaration childNodeIt mc ≠ .error .outOfFuel := by
  unfold parseImportDeclaration
  dsimp only
  repeat' split
  all_goals
    intro h
    cases h

theorem parseDeclaration_noFuelFault (nodeIt : SNodeIt) (mc : ModuleContext) (hm : Bool) :
    parseDeclaration nodeIt mc hm ≠ .error .outOfFuel := by
  unfold parseDeclaration
  repeat' split
  all_goals first
    | (intro h; cases h; done)
    | (rename_i hfault
       intro h
       injection h with h
       subst h
       exact parseImportDeclaration_noFuelFault _ _ hfault)

theorem parseDeclarations_noFuelFault (nodes : SNodeIt) :
    ∀ (mc : ModuleContext) (hm : Bool),
      parseDeclarations nodes mc hm ≠ .error .outOfFuel := by
  induction nodes with
  | nil =>
    intro mc hm h
    simp [parseDeclarations] at h
  | cons node rest ih =>
    intro mc hm
    rw [parseDeclarations]
    split
    · exact ih _ _
    · next fault hfault =>
      intro h
      injection h with h
      subst h
      exact parseDeclaration_noFuelFault _ _ _ hfault

theorem checkTableTypes_noFuelFault (functions : List Function) (functionType : FunctionType)
    (nodeIt : SNodeIt) (functionIndices : List Nat) :
    ∀ outErrors : List ErrorRecord,
      checkTableTypes functions functionType nodeIt functionIndices outErrors
        ≠ .error .outOfFuel := by
  induction functionIndices with
  | nil =>
    intro outErrors h
    simp [checkTableTypes] at h
  | cons functionIndex rest ih =>
    intro outErrors
    unfold checkTableTypes
    repeat' split
    all_goals first
      | exact ih _
      | (intro h; cases h)

theorem parseTable_noFuelFault (nodeIt childNodeIt : SNodeIt) (mc : ModuleContext) :
    parseTable nodeIt childNodeIt mc ≠ .error .outOfFuel := by
  unfold parseTable
  dsimp only
  repeat' split
  all_goals first
    | (intro h; cases h; done)
    | (rename_i hfault
       intro h
       injection h with h
       subst h
       exact checkTableTypes_noFuelFault _ _ _ _ _ hfault)

theorem parseTables_noFuelFault (nodes : SNodeIt) :
    ∀ mc : ModuleContext, parseTables nodes mc ≠ .error .outOfFuel := by
  induction nodes with
  | nil =>
    intro mc h
    simp [parseTables] at h
  | cons node rest ih =>
    intro mc
    rw [parseTables]
    repeat' split
    all_goals first
      | exact ih _
      | (rename_i hfault
         intro h
         injection h with h
         subst h
         exact parseTable_noFuelFault _ _ _ hfault)
theorem parseExpressionSequenceOfType_fuel (fuel other : Nat) (type : TypeId)
    (nodeIt : SNodeIt) (context : String)
    (h1 : depthIt nodeIt < fuel) (h2 : depthIt nodeIt < other) :
    Agree (fun _ => True) (parseExpressionSequenceOfType fuel type nodeIt context)
      (parseExpressionSequenceOfType other type nodeIt context) := by
  unfold parseExpressionSequenceOfType
  split
  · exact parseExpressionSequence_agree _ _ _ (parseTypedExpression_fuel fuel other nodeIt h1 h2)
      _ _ _ _ (Nat.lt_succ_self _)
  · exact agree_throw _ _ (by intro h; cases h)

theorem parseFunctionDefinition_fuel (fuel other : Nat) (childNodeIt : SNodeIt)
    (mc : ModuleContext) (currentFunctionIndex : Nat)
    (h1 : depthIt childNodeIt < fuel) (h2 : depthIt childNodeIt < other) :
    parseFunctionDefinition fuel childNodeIt mc currentFunctionIndex
      = parseFunctionDefinition other childNodeIt mc currentFunctionIndex ∧
    parseFunctionDefinition fuel childNodeIt mc currentFunctionIndex
      ≠ .error .outOfFuel := by
  unfold parseFunctionDefinition
  dsimp only
  generalize hb : skipFunctionDeclarations _ = bodyIt
  have hbody : depthIt bodyIt ≤ depthIt childNodeIt := by
    rw [← hb]
    exact Nat.le_trans (skipFunctionDeclarations_depth _) (optionalName_depth _)
  cases hfunction : mc.module.functions[currentFunctionIndex]? with
  | none => exact ⟨rfl, by intro h; cases h⟩
  | some function =>
    obtain ⟨heq, hfuel, _⟩ := parseExpressionSequenceOfType_fuel fuel other
      function.type.returnType bodyIt "function body"
      (Nat.lt_of_le_of_lt hbody h1) (Nat.lt_of_le_of_lt hbody h2)
      (FunctionContext.new mc function)
    dsimp only
    rw [← heq]
    refine ⟨rfl, ?_⟩
    split
    · next fault hfault =>
      intro h
      injection h with h
      subst h
      exact hfuel hfault
    · intro h
      cases h

theorem parseDefinitions_fuel (fuel other : Nat) (nodes : SNodeIt) :
    ∀ (mc : ModuleContext) (currentFunctionIndex : Nat),
      depthIt nodes ≤ fuel → depthIt nodes ≤ other →
      parseDefinitions fuel nodes mc currentFunctionIndex
        = parseDefinitions other nodes mc currentFunctionIndex ∧
      parseDefinitions fuel nodes mc currentFunctionIndex ≠ .error .outOfFuel := by
  induction nodes with
  | nil =>
    intro mc currentFunctionIndex h1 h2
    rw [parseDefinitions, parseDefinitions]
    exact ⟨rfl, by intro h; cases h⟩
  | cons node rest ih =>
    intro mc currentFunctionIndex h1 h2
    have hrest1 : depthIt rest ≤ fuel := Nat.le_trans (depthIt_tail (node :: rest)) h1
    have hrest2 : depthIt rest ≤ other := Nat.le_trans (depthIt_tail (node :: rest)) h2
    rw [parseDefinitions, parseDefinitions]
    split
    · next childNodeIt hfunc =>
      have hchild := parseTaggedNode_depth _ _ _ hfunc
      obtain ⟨heq, hfuel⟩ := parseFunctionDefinition_fuel fuel other childNodeIt mc
        currentFunctionIndex (by omega) (by omega)
      rw [← heq]
      split
      · exact ih _ _ hrest1 hrest2
      · next fault hrun =>
        refine ⟨rfl, ?_⟩
        intro h
        injection h with h
        subst h
        exact hfuel hrun
    · split
      · exact ih _ _ hrest1 hrest2
      · exact ih _ _ hrest1 hrest2

theorem ModuleContext.parse_fuel_independent (fuel other : Nat) (nodes : SNodeIt) (mc : ModuleContext)
    (h1 : depthIt nodes ≤ fuel) (h2 : depthIt nodes ≤ other) :
    ModuleContext.parse fuel nodes mc = ModuleContext.parse other nodes mc ∧
    ModuleContext.parse fuel nodes mc ≠ .error .outOfFuel := by
  unfold ModuleContext.parse
  split
  · next fault hpasses =>
    refine ⟨rfl, ?_⟩
    intro h
    injection h with h
    subst h
    revert hpasses
    unfold ModuleContext.parseDeclarationPasses
    split
    · next fault2 hdeclarations =>
      intro h
      injection h with h
      subst h
      exact parseDeclarations_noFuelFault nodes _ _ hdeclarations
    · split
      · next fault2 htables =>
        intro h
        injection h with h
        subst h
        exact parseTables_noFuelFault nodes _ htables
      · intro h
        cases h
  · exact parseDefinitions_fuel fuel other nodes _ 0 h1 h2

theorem parseInvokeParameters_agree (fuel other : Nat) (parameterTypes : List TypeId) :
    ∀ invokeChildIt : SNodeIt, depthIt invokeChildIt < fuel → depthIt invokeChildIt < other →
      Agree (fun _ => True) (parseInvokeParameters fuel parameterTypes invokeChildIt)
        (parseInvokeParameters other parameterTypes invokeChildIt) := by
  intro invokeChildIt h1 h2
  have hself := parseTypedExpression_fuel fuel other invokeChildIt h1 h2
  have hgeneral : ∀ (types : List TypeId) (it : SNodeIt),
      depthIt it < depthIt invokeChildIt + 1 →
      Agree (fun parsed : List TypedExpression × SNodeIt =>
          depthIt parsed.2 < depthIt invokeChildIt + 1)
        (parseInvokeParameters fuel types it) (parseInvokeParameters other types it) := by
    intro types
    induction types with
    | nil =>
      intro it hit
      unfold parseInvokeParameters
      exact agree_pure _ _ hit
    | cons parameterType rest ih =>
      intro it hit
      unfold parseInvokeParameters
      refine agree_bind _ _ _ _ _ _
        (parseTypedExpressionOfType_agree _ _ _ hself _ _ _ hit) ?_
      rintro ⟨parameterValue, nodeIt⟩ hnext
      refine agree_bind _ _ _ _ _ _ (ih _ hnext) ?_
      rintro ⟨parameters, nodeIt⟩ hlast
      exact agree_pure _ _ hlast
  exact agree_weaken _ _ _ _ (hgeneral parameterTypes invokeChildIt (Nat.lt_succ_self _))
    fun _ _ => trivial
theorem parseAssertEq_fuel (fuel other : Nat) (childNodeIt : SNodeIt) (outFile : File)
    (h1 : depthIt childNodeIt < fuel) (h2 : depthIt childNodeIt < other) :
    parseAssertEq fuel childNodeIt outFile = parseAssertEq other childNodeIt outFile ∧
    parseAssertEq fuel childNodeIt outFile ≠ .error .outOfFuel := by
  have htail := depthIt_tail childNodeIt
  unfold parseAssertEq
  dsimp only
  split
  · exact ⟨rfl, by intro h; cases h⟩
  next invokeChildIt hinvoke =>
  have hinvokeDepth := parseTaggedNode_depth _ _ _ hinvoke
  split
  · exact ⟨rfl, by intro h; cases h⟩
  next invokeExportName afterNameIt hname =>
  have hafter := parseString_depth _ _ _ hname
  split
  · exact ⟨rfl, by intro h; cases h⟩
  split
  · exact ⟨rfl, by intro h; cases h⟩
  next function hfunction =>
  obtain ⟨heq, hfuel, _⟩ := parseInvokeParameters_agree fuel other function.type.parameters
    afterNameIt (by omega) (by omega) (FunctionContext.new { outErrors := outFile.errors } {})
  rw [← heq]
  split
  · next fault hfault =>
    refine ⟨rfl, ?_⟩
    intro h
    injection h with h
    subst h
    exact hfuel hfault
  next parameters invokeRest dummyFunctionContext hparameters =>
  split
  · exact ⟨rfl, by intro h; cases h⟩
  obtain ⟨heq2, hfuel2, _⟩ := parseTypedExpressionOfType_agree _ _ _
    (parseTypedExpression_fuel fuel other childNodeIt.tail (by omega) (by omega))
    function.type.returnType childNodeIt.tail "assert_eq reference value"
    (Nat.lt_succ_self _) dummyFunctionContext
  rw [← heq2]
  split
  · next fault hfault =>
    refine ⟨rfl, ?_⟩
    intro h
    injection h with h
    subst h
    exact hfuel2 hfault
  split
  · exact ⟨rfl, by intro h; cases h⟩
  · exact ⟨rfl, by intro h; cases h⟩

theorem parseAssertEqs_fuel (fuel other : Nat) (rootNodes : SNodeIt) :
    ∀ outFile : File, depthIt rootNodes ≤ fuel → depthIt rootNodes ≤ other →
      parseAssertEqs fuel rootNodes outFile = parseAssertEqs other rootNodes outFile ∧
      parseAssertEqs fuel rootNodes outFile ≠ .error .outOfFuel := by
  induction rootNodes with
  | nil =>
    intro outFile h1 h2
    rw [parseAssertEqs, parseAssertEqs]
    exact ⟨rfl, by intro h; cases h⟩
  | cons node rest ih =>
    intro outFile h1 h2
    have hrest1 : depthIt rest ≤ fuel := Nat.le_trans (depthIt_tail (node :: rest)) h1
    have hrest2 : depthIt rest ≤ other := Nat.le_trans (depthIt_tail (node :: rest)) h2
    rw [parseAssertEqs, parseAssertEqs]
    split
    · next childNodeIt hform =>
      have hchild := parseTaggedNode_depth _ _ _ hform
      obtain ⟨heq, hfuel⟩ := parseAssertEq_fuel fuel other childNodeIt outFile
        (by omega) (by omega)
      rw [← heq]
      split
      · next fault hfault =>
        refine ⟨rfl, ?_⟩
        intro h
        injection h with h
        subst h
        exact hfuel hfault
      · exact ih _ hrest1 hrest2
    · exact ih _ hrest1 hrest2

theorem parseModules_fuel (fuel other : Nat) (rootNodes : SNodeIt) :
    ∀ outFile : File, depthIt rootNodes ≤ fuel → depthIt rootNodes ≤ other →
      parseModules fuel rootNodes outFile = parseModules other rootNodes outFile ∧
      parseModules fuel rootNodes outFile ≠ .error .outOfFuel := by
  induction rootNodes with
  | nil =>
    intro outFile h1 h2
    rw [parseModules, parseModules]
    exact ⟨rfl, by intro h; cases h⟩
  | cons node rest ih =>
    intro outFile h1 h2
    have hrest1 : depthIt rest ≤ fuel := Nat.le_trans (depthIt_tail (node :: rest)) h1
    have hrest2 : depthIt rest ≤ other := Nat.le_trans (depthIt_tail (node :: rest)) h2
    rw [parseModules, parseModules]
    split
    · next childNodeIt hform =>
      have hchild := parseTaggedNode_depth _ _ _ hform
      obtain ⟨heq, hfuel⟩ := ModuleContext.parse_fuel_independent fuel other childNodeIt
        { outErrors := outFile.errors } (by omega) (by omega)
      rw [← heq]
      split
      · next fault hfault =>
        refine ⟨rfl, ?_⟩
        intro h
        injection h with h
        subst h
        exact hfuel hfault
      · exact ih _ hrest1 hrest2
    · exact ih _ hrest1 hrest2

/-- `parse` does not depend on the fuel, and does not run out of it, once the fuel is at
least the nesting depth of the root nodes: what it returns then is what the code
returns. -/
theorem parse_fuel (fuel other : Nat) (rootNodes : SNodeIt) (outFile : File)
    (h1 : depthIt rootNodes ≤ fuel) (h2 : depthIt rootNodes ≤ other) :
    parse fuel rootNodes outFile = parse other rootNodes outFile ∧
    parse fuel rootNodes outFile ≠ .error .outOfFuel := by
  unfold parse
  obtain ⟨heq, hfuel⟩ := parseModules_fuel fuel other rootNodes outFile h1 h2
  rw [← heq]
  split
  · next fault hfault =>
    refine ⟨rfl, ?_⟩
    intro h
    injection h with h
    subst h
    exact hfuel hfault
  next file1 hmodules =>
  obtain ⟨heq2, hfuel2⟩ := parseAssertEqs_fuel fuel other rootNodes file1 h1 h2
  rw [← heq2]
  split
  · next fault hfault =>
    refine ⟨rfl, ?_⟩
    intro h
    injection h with h
    subst h
    exact hfuel2 hfault
  · exact ⟨rfl, by intro h; cases h⟩

/-- C25. For the module `ModuleContext::parse` returns, which with fuel of at least the
nesting depth of the input does not depend on the fuel. The number of functions is the
number of `func` forms, and the body of the k-th `func` form is attached to `functions[k]`,
parsed in a context that has the declarations of the whole module. The variables of every
`global` form, wherever it stands, are among `module->globals`. In every context with these
declarations, which parsing an expression keeps, whatever function's body is being parsed:
`call $g` resolves to the index `k` of the first `func` form named `g`, and `call k` to
`k`, also for a form after the calling function, with the argument types and the return
type the k-th `func` form declares; and `load_global $g` and `store_global $g` resolve to
the index and the type of the first global named `g`. -/
theorem forward_references_resolve (fuel : Nat) (nodes : SNodeIt)
    (outErrors : List ErrorRecord) (mc : ModuleContext)
    (h : ModuleContext.parse fuel nodes { outErrors := outErrors } = .ok mc) :
    (depthIt nodes ≤ fuel → ∀ other, depthIt nodes ≤ other →
      ModuleContext.parse other nodes { outErrors := outErrors } = .ok mc) ∧
    mc.module.functions.length = (funcForms nodes).length ∧
    (∀ (k : Nat) (form : SNodeIt), (funcForms nodes)[k]? = some form →
      ∃ (mcK : ModuleContext) (body : Expression) (ctx2 : FunctionContext),
        mcK.declarations = mc.declarations ∧
        parseExpressionSequenceOfType fuel (declaredFunction form).type.returnType
          (functionBody form) "function body"
          (FunctionContext.new mcK (declaredFunction form)) = .ok (body, ctx2) ∧
        mc.module.functions[k]?
          = some { declaredFunction form with expression := some body }) ∧
    (∀ form ∈ globalForms nodes, ∀ var ∈ declaredGlobals form, var ∈ mc.module.globals) ∧
    ∀ ctx : FunctionContext, ctx.moduleContext.declarations = mc.declarations →
      (∀ typeClass type nodeIt errorContext result ctx2,
        parseTypedExpression fuel typeClass type nodeIt errorContext ctx = .ok (result, ctx2) →
        ctx2.moduleContext.declarations = mc.declarations) ∧
      (∀ (name : String) (k : Nat),
        firstIndexOf name (declaredFunctionNames nodes) = some k →
        ∃ form, (funcForms nodes)[k]? = some form ∧
          ∀ self typeClass resultType parentNodeIt operands,
            parseCall self typeClass resultType parentNodeIt
                (.unindexedSymbol ("$" ++ name) :: operands) ctx
              = (parseParameters self "call parameter" (declaredFunction form).type.parameters
                    operands >>= fun parsed =>
                  coerceExpression typeClass resultType
                      ⟨.Call .callDirect
                        (getPrimaryTypeClass (declaredFunction form).type.returnType) k parsed.1,
                        (declaredFunction form).type.returnType⟩ parentNodeIt
                      "call return value" >>= fun result =>
                    requireFullMatch typeClass parsed.2 "call" result) ctx) ∧
      (∀ (k : Nat) (form : SNodeIt), (funcForms nodes)[k]? = some form →
        (funcForms nodes).length < 2 ^ 64 →
        ∀ self typeClass resultType parentNodeIt operands,
          parseCall self typeClass resultType parentNodeIt (.int (k : Int) :: operands) ctx
            = (parseParameters self "call parameter" (declaredFunction form).type.parameters
                  operands >>= fun parsed =>
                coerceExpression typeClass resultType
                    ⟨.Call .callDirect
                      (getPrimaryTypeClass (declaredFunction form).type.returnType) k parsed.1,
                      (declaredFunction form).type.returnType⟩ parentNodeIt
                    "call return value" >>= fun result =>
                  requireFullMatch typeClass parsed.2 "call" result) ctx) ∧
      ∀ (name : String) (j : Nat),
        firstIndexOf name (mc.module.globals.map fun var => var.name) = some j →
        ∃ var, mc.module.globals[j]? = some var ∧
          (∀ typeClass resultType rest,
            parseGetVariable typeClass resultType .getGlobal
                ctx.moduleContext.globalNameToIndexMap ctx.moduleContext.module.globals
                (.unindexedSymbol ("$" ++ name) :: rest) ctx
              = (coerceExpression typeClass resultType
                    ⟨.GetVariable .getGlobal (getPrimaryTypeClass var.type) j, var.type⟩
                    rest "variable" >>= fun result =>
                  requireFullMatch typeClass rest (getAnyOpName .getGlobal) result) ctx) ∧
          ∀ self typeClass resultType rest,
            parseSetVariable self typeClass resultType .setGlobal
                ctx.moduleContext.globalNameToIndexMap ctx.moduleContext.module.globals
                (.unindexedSymbol ("$" ++ name) :: rest) ctx
              = (parseTypedExpressionOfType self var.type rest "store value" >>= fun parsed =>
                  coerceExpression typeClass resultType
                      ⟨.SetVariable .setGlobal (getPrimaryTypeClass var.type) parsed.1 j,
                        var.type⟩ parsed.2 "variable" >>= fun result =>
                    requireFullMatch typeClass parsed.2 (getAnyOpName .setGlobal) result)
                  ctx := by
  obtain ⟨mc1, hpasses, hfunctions1, hdecl, _, hlength, hbodies⟩ :=
    ModuleContext.parse_spec fuel nodes outErrors mc h
  obtain ⟨hnamesLength, hfunctionNames, hglobalNames⟩ :=
    parseDeclarationPasses_names nodes outErrors mc1 hpasses
  obtain ⟨hmap1, hgmap1, hglobals1, _⟩ := ModuleContext.declarations_fields mc mc1 hdecl
  have hcallee : ∀ (ctx : FunctionContext), ctx.moduleContext.declarations = mc.declarations →
      ∀ (k : Nat) (form : SNodeIt), (funcForms nodes)[k]? = some form →
      ∃ callee, ctx.moduleContext.module.functions[k]? = some callee ∧
        callee.type = (declaredFunction form).type := by
    intro ctx hctx k form hform
    obtain ⟨mcK, body, ctx2, _, _, hfunction, _⟩ := hbodies k form hform
    obtain ⟨callee, h1, h2, _, _⟩ := functions_of_declarations _ _
      (ModuleContext.declarations_fields _ _ hctx).2.2.2 k _ hfunction
    exact ⟨callee, h1, h2⟩
  refine ⟨?_, hlength, ?_, ?_, ?_⟩
  · intro hfuel other hother
    rw [(ModuleContext.parse_fuel_independent other fuel nodes _ hother hfuel).1]
    exact h
  · intro k form hform
    obtain ⟨mcK, body, ctx2, h1, h2, h3, _⟩ := hbodies k form hform
    exact ⟨mcK, body, ctx2, h1, h2, h3⟩
  · intro form hform var hvar
    rw [hglobals1]
    exact parseDeclarationPasses_globals nodes _ mc1 hpasses form hform var hvar
  intro ctx hctx
  obtain ⟨hmap, hgmap, hglobals, hfunctions⟩ := ModuleContext.declarations_fields _ _ hctx
  have hctxLength : ctx.moduleContext.module.functions.length = (funcForms nodes).length := by
    have := congrArg List.length hfunctions
    simp only [List.length_map] at this
    rw [this, hlength]
  refine ⟨?_, ?_, ?_, ?_⟩
  · intro typeClass type nodeIt errorContext result ctx2 hrun
    obtain ⟨hreadOnly, _⟩ := parseTypedExpression_sound fuel _ _ _ _ _ _ _ hrun
    rw [(FunctionContext.readOnly_declarations _ _ hreadOnly).1]
    exact hctx
  · intro name k hfirst
    have hk : k < (funcForms nodes).length := by
      have := firstIndexOf_lt name _ k hfirst
      rw [← hnamesLength, hfunctions1, List.length_map] at this
      exact this
    refine ⟨(funcForms nodes)[k], List.getElem?_eq_getElem hk, ?_⟩
    intro self typeClass resultType parentNodeIt operands
    obtain ⟨callee, hget, htype⟩ := hcallee ctx hctx k _ (List.getElem?_eq_getElem hk)
    rw [parseCall_resolved self typeClass resultType parentNodeIt _ operands ctx k callee
      (parseNameOrIndex_name _ _ name k operands
        (by rw [hmap, hmap1, hfunctionNames name]; exact hfirst)) hget, htype]
  · intro k form hform hsize self typeClass resultType parentNodeIt operands
    have hk : k < (funcForms nodes).length := by
      rcases Nat.lt_or_ge k (funcForms nodes).length with hlt | hge
      · exact hlt
      · rw [List.getElem?_eq_none hge] at hform
        cases hform
    obtain ⟨callee, hget, htype⟩ := hcallee ctx hctx k form hform
    rw [parseCall_resolved self typeClass resultType parentNodeIt _ operands ctx k callee
      (parseNameOrIndex_index _ _ k operands (by omega) (by omega)) hget, htype]
  · intro name j hfirst
    have hj : j < mc.module.globals.length := by
      have := firstIndexOf_lt name _ j hfirst
      simpa using this
    refine ⟨mc.module.globals[j], List.getElem?_eq_getElem hj, ?_, ?_⟩
    · intro typeClass resultType rest
      exact parseGetVariable_resolved _ _ _ _ _ _ rest j _ ctx
        (parseNameOrIndex_name _ _ name j rest
          (by rw [hgmap, hgmap1, hglobalNames name, ← hglobals1]; exact hfirst))
        (by rw [hglobals]; exact List.getElem?_eq_getElem hj)
    · intro self typeClass resultType rest
      exact parseSetVariable_unfolded _ _ _ _ _ _ _ rest j _ ctx
        (parseNameOrIndex_name _ _ name j rest
          (by rw [hgmap, hgmap1, hglobalNames name, ← hglobals1]; exact hfirst))
        (by rw [hglobals]; exact List.getElem?_eq_getElem hj)

/-- C25, at a concrete input: in `(func $f (result i32) (store_global $g (call $h
(load_global $g)))) (func $h (param i32) (result i32) (get_local 0)) (global $g i32)` the
module, of nesting depth 4, is the same with fuel 4 and fuel 9, it has two functions, and
in the body of `$f` the call of `$h` resolves to the function
1 with its parameter type `i32`, and `$g` to the global 0, both declared after `$f`. -/
theorem forward_references_resolve_witness :
    ModuleContext.parse 4 forwardReferenceModule {} = .ok forwardReferenceResult ∧
    depthIt forwardReferenceModule ≤ 4 ∧
    ModuleContext.parse 9 forwardReferenceModule {} = .ok forwardReferenceResult ∧
    forwardReferenceResult.module.functions.length = (funcForms forwardReferenceModule).length ∧
    (∃ form, (funcForms forwardReferenceModule)[1]? = some form ∧
      ∀ self typeClass resultType parentNodeIt operands,
        parseCall self typeClass resultType parentNodeIt
            (.unindexedSymbol ("$" ++ "h") :: operands)
            { moduleContext := forwardReferenceResult, function := {} }
          = (parseParameters self "call parameter" (declaredFunction form).type.parameters
                operands >>= fun parsed =>
              coerceExpression typeClass resultType
                  ⟨.Call .callDirect
                    (getPrimaryTypeClass (declaredFunction form).type.returnType) 1 parsed.1,
                    (declaredFunction form).type.returnType⟩ parentNodeIt
                  "call return value" >>= fun result =>
                requireFullMatch typeClass parsed.2 "call" result)
              { moduleContext := forwardReferenceResult, function := {} }) ∧
    (∀ var ∈ declaredGlobals [.unindexedSymbol "$g", .symbol (.plain ._i32)],
      var ∈ forwardReferenceResult.module.globals) :=
  have hall := forward_references_resolve 4 forwardReferenceModule [] forwardReferenceResult
    (by rfl)
  ⟨by rfl, by decide, hall.1 (by decide) 9 (by decide), hall.2.1,
    (hall.2.2.2.2 { moduleContext := forwardReferenceResult, function := {} } rfl).2.1 "h" 1
      (by rfl),
    hall.2.2.2.1 [.unindexedSymbol "$g", .symbol (.plain ._i32)]
      (List.mem_singleton.mpr rfl)⟩

/-- C39: for every integer `v` (every `int64` of an S-expression node among them) and every
`iN` of `i8`, `i16`, `i32`, `i64`, the form `(const.iN v)` is a non-parametric expression
whose `TypedExpression` is a `Literal` of type `iN` holding a natural below `2 ^ N` that
is congruent to `v` modulo `2 ^ N`, and the context, hence the error list, is the one
before the call; `parseTypedExpression` at type `iN` returns that literal and the
following sibling. -/
theorem const_int_truncates (v : Int) (opType : TypeId) (more : SNodeIt) (fuel : Nat)
    (errorContext : String) (context : FunctionContext) (self : ParseTyped)
    (hType : opType = .I8 ∨ opType = .I16 ∨ opType = .I32 ∨ opType = .I64) :
    ∃ value : Nat,
      parseNonParametricExpression self (constForm opType v :: more) context
        = .ok (some ⟨.Literal opType (.int value), opType⟩, context) ∧
      parseTypedExpression (fuel + 1) .Int opType (constForm opType v :: more) errorContext
          context
        = .ok ((.Literal opType (.int value), more), context) ∧
      value < 2 ^ intTypeBits opType ∧
      (value : Int) = v % 2 ^ intTypeBits opType ∧
      (2 : Int) ^ intTypeBits opType ∣ v - value ∧
      intTypeBits opType ∈ [8, 16, 32, 64] := by
  have hpos : (0 : Int) < 2 ^ intTypeBits opType := by positivity
  have hnonneg : 0 ≤ v % 2 ^ intTypeBits opType := Int.emod_nonneg _ (ne_of_gt hpos)
  have hcast : ((v % 2 ^ intTypeBits opType).toNat : Int) = v % 2 ^ intTypeBits opType :=
    Int.toNat_of_nonneg hnonneg
  have hparse : ∀ self : ParseTyped,
      parseNonParametricExpression self (constForm opType v :: more) context
      = .ok (some ⟨.Literal opType (.int (v % 2 ^ intTypeBits opType).toNat), opType⟩,
          context) := by
    intro self
    rcases hType with h | h | h | h <;> subst h <;> rfl
  refine ⟨(v % 2 ^ intTypeBits opType).toNat, hparse self, ?_, ?_, hcast, ?_, ?_⟩
  · rw [parseTypedExpression, parseTypedExpressionBody_nonParametric _ _ _ _ _ _ _ _ _
      (by intro message h; cases h) (hparse _)]
    simp only [bind, StateT.bind, Except.bind]
    rw [coerceExpression_same .Int opType
      ⟨.Literal opType (.int (v % 2 ^ intTypeBits opType).toNat), opType⟩
      (constForm opType v :: more) errorContext context rfl]
    rfl
  · have hlt := Int.emod_lt_of_pos v hpos
    have : ((v % 2 ^ intTypeBits opType).toNat : Int) < ((2 ^ intTypeBits opType : Nat) : Int) := by
      rw [hcast]; push_cast; exact hlt
    exact_mod_cast this
  · rw [hcast]
    exact Int.dvd_sub_of_emod_eq rfl
  · rcases hType with h | h | h | h <;> subst h <;> simp [intTypeBits]

/-- C39, at concrete inputs: `(const.i8 300)` is the literal 44 and `(const.i16 -1)` the
literal 65535, with no error recorded. -/
theorem const_int_truncates_witness :
    parseTypedExpression 1 .Int .I8 [constForm .I8 300] "operand" dummyFunctionContext
      = .ok ((.Literal .I8 (.int 44), []), dummyFunctionContext) ∧
    parseTypedExpression 1 .Int .I16 [constForm .I16 (-1)] "operand" dummyFunctionContext
      = .ok ((.Literal .I16 (.int 65535), []), dummyFunctionContext) ∧
    ∃ value : Nat,
      parseNonParametricExpression (parseTypedExpression 0) [constForm .I8 300]
          dummyFunctionContext
        = .ok (some ⟨.Literal .I8 (.int value), .I8⟩, dummyFunctionContext) ∧
      parseTypedExpression (0 + 1) .Int .I8 [constForm .I8 300] "operand" dummyFunctionContext
        = .ok ((.Literal .I8 (.int value), []), dummyFunctionContext) ∧
      value < 2 ^ intTypeBits .I8 ∧
      (value : Int) = 300 % 2 ^ intTypeBits .I8 ∧
      (2 : Int) ^ intTypeBits .I8 ∣ 300 - value ∧
      intTypeBits .I8 ∈ [8, 16, 32, 64] :=
  ⟨rfl, rfl, const_int_truncates 300 .I8 [] 0 "operand" dummyFunctionContext
    (parseTypedExpression 0) (Or.inl rfl)⟩

/-- On a node that is not an S-expression error node, `parseTypedExpression` leaves the
iterator on the sibling after the node whenever it returns: after a non-parametric
expression, after a parametric one, and after the error for an unrecognised one. -/
theorem parseTypedExpressionBody_advances (self : ParseTyped) (typeClass : TypeClassId)
    (type : TypeId) (node : SNode) (more : SNodeIt) (errorContext : String)
    (context context2 : FunctionContext) (result : Expression) (nodeIt : SNodeIt)
    (hnode : ∀ message, node ≠ .error message)
    (h : parseTypedExpressionBody self typeClass type (node :: more) errorContext context
      = .ok ((result, nodeIt), context2)) :
    nodeIt = more := by
  have key : ∀ x : ParseM (Expression × SNodeIt),
      (∀ ctx a ctx2, x ctx = .ok (a, ctx2) → a.2 = more) →
      x context = .ok ((result, nodeIt), context2) → nodeIt = more :=
    fun x hx hrun => (hx _ _ _ hrun).symm ▸ rfl
  have body : ∀ ctx a ctx2,
      (do
        match ← parseNonParametricExpression self (node :: more) with
        | some nonParametricExpression => do
          let result ← coerceExpression typeClass type nonParametricExpression (node :: more)
            errorContext
          pure (result, (node :: more).tail)
        | none => do
          match ← parseParametricExpression self typeClass type (node :: more) with
          | some parametricExpression => pure (parametricExpression, (node :: more).tail)
          | none => do
            let error ← recordErrorNode typeClass (node :: more)
              ("expected " ++ getTypeName type ++ " expression for " ++ errorContext)
            pure (error, (node :: more).tail) : ParseM (Expression × SNodeIt)) ctx
        = .ok (a, ctx2) → a.2 = more := by
    intro ctx a ctx2 hrun
    obtain ⟨nonParametric, ctx1, _, hrest⟩ := bind_eq_ok _ _ _ _ _ hrun
    cases nonParametric with
    | some nonParametricExpression =>
      obtain ⟨coerced, ctx3, _, hpure⟩ := bind_eq_ok _ _ _ _ _ hrest
      cases hpure
      rfl
    | none =>
      obtain ⟨parametric, ctx3, _, hrest2⟩ := bind_eq_ok _ _ _ _ _ hrest
      cases parametric with
      | some parametricExpression => cases hrest2; rfl
      | none =>
        obtain ⟨error, ctx4, _, hpure⟩ := bind_eq_ok _ _ _ _ _ hrest2
        cases hpure
        rfl
  cases node with
  | error message => exact absurd rfl (hnode message)
  | _ => exact key _ body h

/-- C36: on an S-expression error node `parseTypedExpression<Class>` records the node's
message, returns the `Error` node and leaves the iterator on the error node itself, not on
the sibling after it. On every other node the iterator is left on the sibling immediately
after the node whenever the call returns. -/
theorem parseTypedExpression_keeps_error_node (fuel : Nat) (typeClass : TypeClassId)
    (type : TypeId) (message : String) (more : SNodeIt) (errorContext : String)
    (context : FunctionContext) :
    parseTypedExpression (fuel + 1) typeClass type (.error message :: more) errorContext context
      = .ok ((.Error typeClass message, .error message :: more),
          context.recordError (.error message :: more) message) ∧
    (.error message :: more : SNodeIt) ≠ more ∧
    ∀ (node : SNode) (result : Expression) (nodeIt : SNodeIt) (context2 : FunctionContext),
      (∀ text, node ≠ .error text) →
      parseTypedExpression (fuel + 1) typeClass type (node :: more) errorContext context
        = .ok ((result, nodeIt), context2) →
      nodeIt = more := by
  refine ⟨rfl, ?_, ?_⟩
  · intro h
    have := congrArg List.length h
    simp at this
  · intro node result nodeIt context2 hnode h
    exact parseTypedExpressionBody_advances _ _ _ _ _ _ _ _ _ _ hnode h

/-- C36, at concrete inputs: called on the siblings `<error> (nop)`, `parseTypedExpression`
returns the `Error` node with the iterator still on the error node; called on the
siblings `(nop) <error>` it returns `Nop` with the iterator on the error node after it. -/
theorem parseTypedExpression_keeps_error_node_witness :
    parseTypedExpression 1 .Void .Void
        [.error "bad token", .tree [.symbol (.plain ._nop)]] "body" dummyFunctionContext
      = .ok ((.Error .Void "bad token", [.error "bad token", .tree [.symbol (.plain ._nop)]]),
          dummyFunctionContext.recordError
            [.error "bad token", .tree [.symbol (.plain ._nop)]] "bad token") ∧
    parseTypedExpression 1 .Void .Void
        [.tree [.symbol (.plain ._nop)], .error "bad token"] "body" dummyFunctionContext
      = .ok ((.Nop, [.error "bad token"]), dummyFunctionContext) :=
  ⟨(parseTypedExpression_keeps_error_node 0 .Void .Void "bad token"
      [.tree [.symbol (.plain ._nop)]] "body" dummyFunctionContext).1, rfl⟩

/-- C37: label scoping is not restored by every form. Parsed in a context with no label in
scope, `(loop $a $a (nop))` returns the `Error` node for the repeated name and leaves `$a`
in `labelToBranchTargetMap`, and `(switch.i32 $e (const.i32 0) (case))` returns the
`Error` node for the missing case key and leaves `$e` in it; `scopedBranchTargets` is as
before in both. The form `(label $l (nop))`, which is parsed into a `Label`, leaves both
as they were. -/
theorem labels_left_in_scope_after_error :
    dummyFunctionContext.labelScope = ([], []) ∧
    (parseParametricExpression (parseTypedExpression 1) .Void .Void [repeatedLabelLoop]
        dummyFunctionContext).map (fun result => (result.1, result.2.labelScope))
      = .ok (some (.Error .Void "loop: continue label name shadows outer label"),
          [("a", ⟨0, .Void⟩)], []) ∧
    (parseParametricExpression (parseTypedExpression 1) .Void .Void [keylessCaseSwitch]
        dummyFunctionContext).map (fun result => (result.1, result.2.labelScope))
      = .ok (some (.Error .Void "switch: missing integer case key"),
          [("e", ⟨0, .Void⟩)], []) ∧
    (parseParametricExpression (parseTypedExpression 1) .Void .Void [namedNopLabel]
        dummyFunctionContext).map (fun result => (result.1, result.2.labelScope))
      = .ok (some (.Label .Void ⟨0, .Void⟩ .Nop), [], []) :=
  ⟨rfl, rfl, rfl, rfl⟩

/-- C38: the internal name of a variable import is entered in
`functionImportNameToIndexMap` with the index `functionImports.size()` of that moment. For
`(module (import $v "x" i32) (func (call_import $v)))` the declaration passes leave `$v`
mapped to 0 with no function import in the module, and `call_import $v` then reads
`functionImports[0]` of an empty vector instead of recording an error. With the
function import `$f` declared after `$v`, `call_import $v` is parsed with no error into a
call of function import 0, which is `"f"`. -/
theorem call_import_accepts_variable_import :
    (ModuleContext.parseDeclarationPasses variableImportCallModule {}).map
        (fun moduleContext => (moduleContext.functionImportNameToIndexMap,
          moduleContext.module.functionImports, moduleContext.outErrors.length))
      = .ok ([("v", 0)], [], 0) ∧
    (ModuleContext.parse 2 variableImportCallModule {}).map
        (fun moduleContext => moduleContext.outErrors.length)
      = .error (.undefinedBehaviour "call_import: import index out of bounds") ∧
    (ModuleContext.parse 2 variableThenFunctionImportModule {}).map
        (fun moduleContext => (moduleContext.module.functions.map (fun function =>
            function.expression),
          moduleContext.module.functionImports, moduleContext.functionImportNameToIndexMap,
          moduleContext.outErrors.length))
      = .ok ([some (.Call .callImport (some .Void) 0 [])], [⟨{}, "f"⟩],
          [("f", 0), ("v", 0)], 0) :=
  ⟨rfl, rfl, rfl⟩

/-- The loop over the void expressions of a sequence, on siblings none of which is an
S-expression error node: it parses each of the next `count` siblings once, in source order,
chains them to the left and leaves the iterator after them. -/
theorem parseVoidExpressions_chain (fuel : Nat) (errorContext : String) :
    ∀ (count : Nat) (result : Option Expression) (nodeIt : SNodeIt)
      (context : FunctionContext),
      count ≤ nodeIt.length →
      (∀ node ∈ nodeIt.take count, ∀ message, node ≠ .error message) →
      parseVoidExpressions (parseTypedExpression (fuel + 1)) count result nodeIt errorContext
          context
        = (parseVoidSiblings (parseTypedExpression (fuel + 1)) errorContext count nodeIt
            >>= fun expressions =>
              pure (sequenceChainFrom result expressions, nodeIt.drop count)) context := by
  intro count
  induction count with
  | zero =>
    intro result nodeIt context _ _
    cases result <;> rfl
  | succ count ih =>
    intro result nodeIt context hlen hnodes
    cases nodeIt with
    | nil => simp at hlen
    | cons node more =>
      have hnode : ∀ message, node ≠ .error message :=
        hnodes node (by simp)
      have hmore : ∀ item ∈ more.take count, ∀ message, item ≠ .error message :=
        fun item hitem => hnodes item (by simp [List.take_succ_cons, hitem])
      have hlen2 : count ≤ more.length := by simpa using hlen
      simp only [parseVoidExpressions, parseVoidSiblings, bind, StateT.bind, Except.bind,
        List.tail_cons]
      cases hself : parseTypedExpression (fuel + 1) .Void .Void (node :: more) errorContext
          context with
      | error fault => rfl
      | ok parsed =>
        obtain ⟨⟨expression, nodeIt2⟩, context2⟩ := parsed
        have hit : nodeIt2 = more :=
          parseTypedExpressionBody_advances _ _ _ _ _ _ _ _ _ _ hnode hself
        subst hit
        cases result with
        | none =>
          simp only []
          rw [ih (some expression) nodeIt2 context2 hlen2 hmore]
          simp only [bind, StateT.bind, Except.bind]
          cases parseVoidSiblings (parseTypedExpression (fuel + 1)) errorContext count nodeIt2
              context2 with
          | error fault => rfl
          | ok parsedRest => rfl
        | some result =>
          simp only []
          rw [ih (some (.Sequence .Void result expression)) nodeIt2 context2 hlen2 hmore]
          simp only [bind, StateT.bind, Except.bind]
          cases parseVoidSiblings (parseTypedExpression (fuel + 1)) errorContext count nodeIt2
              context2 with
          | error fault => rfl
          | ok parsedRest => rfl

/-- The void siblings parsed are as many as asked for. -/
theorem parseVoidSiblings_length (self : ParseTyped) (errorContext : String) :
    ∀ (count : Nat) (nodeIt : SNodeIt) (context context2 : FunctionContext)
      (expressions : List Expression),
      parseVoidSiblings self errorContext count nodeIt context = .ok (expressions, context2) →
      expressions.length = count := by
  intro count
  induction count with
  | zero =>
    intro nodeIt context context2 expressions h
    cases h
    rfl
  | succ count ih =>
    intro nodeIt context context2 expressions h
    rw [parseVoidSiblings] at h
    obtain ⟨parsed, context1, _, hrest⟩ := bind_eq_ok _ _ _ _ _ h
    obtain ⟨rest, context3, hparse, hpure⟩ := bind_eq_ok _ _ _ _ _ hrest
    cases hpure
    simp [ih _ _ _ _ hparse]

/-- The sequence over one sibling, and over `n >= 2` siblings of which none but the last
is an S-expression error node, is the chain of `sequenceOfSiblings`. -/
theorem parseExpressionSequence_chain (fuel : Nat) (typeClass : TypeClassId) (type : TypeId)
    (nodeIt : SNodeIt) (errorContext : String) (context : FunctionContext)
    (hlen : 1 ≤ nodeIt.length)
    (hnodes : ∀ node ∈ nodeIt.take (nodeIt.length - 1), ∀ message, node ≠ .error message) :
    parseExpressionSequence (parseTypedExpression (fuel + 1)) typeClass type nodeIt
        errorContext context
      = sequenceOfSiblings (parseTypedExpression (fuel + 1)) typeClass type nodeIt
          errorContext context := by
  have hne : ¬ nodeIt.length = 0 := by omega
  rw [parseExpressionSequence, if_neg hne, parseExpressionSequenceOps, if_neg hne,
    sequenceOfSiblings]
  by_cases hone : nodeIt.length = 1
  · rw [if_pos hone, hone]
    simp only [Nat.sub_self, parseVoidSiblings, List.drop_zero, bind, StateT.bind, Except.bind,
      pure, StateT.pure, Except.pure]
  · rw [if_neg hone]
    simp only [bind, StateT.bind, Except.bind]
    rw [parseVoidExpressions_chain fuel errorContext (nodeIt.length - 1) none nodeIt context
      (by omega) hnodes]
    simp only [bind, StateT.bind, Except.bind]
    cases hvoid : parseVoidSiblings (parseTypedExpression (fuel + 1)) errorContext
        (nodeIt.length - 1) nodeIt context with
    | error fault => rfl
    | ok parsed =>
      obtain ⟨expressions, context2⟩ := parsed
      have hcount := parseVoidSiblings_length _ _ _ _ _ _ _ hvoid
      cases expressions with
      | nil => simp at hcount; omega
      | cons first more =>
        simp only [pure, StateT.pure, Except.pure, sequenceChainFrom]

/-- The sequence over no sibling records `missing expression` and returns the `Error`
node, whatever the requested type. -/
theorem parseExpressionSequence_missing (self : ParseTyped) (typeClass : TypeClassId)
    (type : TypeId) (errorContext : String) (context : FunctionContext) :
    parseExpressionSequence self typeClass type [] errorContext context
      = .ok (.Error typeClass "missing expression",
          context.recordError [] "missing expression") :=
  rfl

/-- A function form with an empty body, `(module (func))` with the result type void and
`(module (func (result i32)))`, is parsed into a function whose body is the `Error` node
of `missing expression`, with that one error recorded. -/
theorem empty_function_body_is_error :
    (ModuleContext.parse 1 [.tree [.symbol (.plain ._func)]] {}).map
        (fun moduleContext => (moduleContext.module.functions.map (fun function =>
          (function.type.returnType, function.expression)),
          moduleContext.outErrors.map (fun error => error.message)))
      = .ok ([(.Void, some (.Error .Void "missing expression"))], ["missing expression"]) ∧
    (ModuleContext.parse 1
        [.tree [.symbol (.plain ._func),
          .tree [.symbol (.plain ._result), .symbol (.plain ._i32)]]] {}).map
        (fun moduleContext => (moduleContext.module.functions.map (fun function =>
          (function.type.returnType, function.expression)),
          moduleContext.outErrors.map (fun error => error.message)))
      = .ok ([(.I32, some (.Error .Int "missing expression"))], ["missing expression"]) :=
  ⟨rfl, rfl⟩

/-- C40: over the siblings `<error> (nop)` the sequence parses the S-expression error node
twice, at type void and at the requested type, and never parses `(nop)`: the result is
`Sequence(Error, Error)` with two errors recorded, where the chain over the two siblings
in source order is `Sequence(Error, Nop)` with one error. -/
theorem sequence_parses_error_node_twice :
    (parseExpressionSequence (parseTypedExpression 1) .Void .Void errorThenNop
        "function body" dummyFunctionContext).map
        (fun result => (result.1, result.2.outErrors.length))
      = .ok (.Sequence .Void (.Error .Void "bad token") (.Error .Void "bad token"), 2) ∧
    (sequenceOfSiblings (parseTypedExpression 1) .Void .Void errorThenNop
        "function body" dummyFunctionContext).map
        (fun result => (result.1, result.2.outErrors.length))
      = .ok (.Sequence .Void (.Error .Void "bad token") .Nop, 1) :=
  ⟨rfl, rfl⟩

/-- The chain over siblings without an error node, at a concrete input: the siblings
`(nop) (nop) (const.i32 7)` at type `i32` are parsed into
`Sequence(Sequence(Nop, Nop), Literal 7)`. -/
theorem parseExpressionSequence_chain_example :
    parseExpressionSequence (parseTypedExpression 1) .Int .I32
        [.tree [.symbol (.plain ._nop)], .tree [.symbol (.plain ._nop)], constForm .I32 7]
        "block body" dummyFunctionContext
      = .ok (.Sequence .Int (.Sequence .Void .Nop .Nop) (.Literal .I32 (.int 7)),
          dummyFunctionContext) ∧
    sequenceOfSiblings (parseTypedExpression 1) .Int .I32
        [.tree [.symbol (.plain ._nop)], .tree [.symbol (.plain ._nop)], constForm .I32 7]
        "block body" dummyFunctionContext
      = .ok (.Sequence .Int (.Sequence .Void .Nop .Nop) (.Literal .I32 (.int 7)),
          dummyFunctionContext) :=
  ⟨rfl, rfl⟩

/-- C33: for every boolean `b`, carried by an expression of type `bool` whose compiled
value is `b`, and every integer type `T` of `i8`, `i16`, `i32`, `i64`: the coercion to `T`
yields the `reinterpretBool` cast, whose compiled value (the zero extension) is `b` as 0
or 1; the coercion of that back to `bool` yields the comparison `ne` with the literal zero
of `T`, whose compiled value is `b` again; and neither coercion records an error. -/
theorem bool_int_coercions_round_trip (locals : List Nat) (expression : Expression)
    (b : Bool) (type : TypeId) (nodeIt : SNodeIt) (errorContext : String)
    (context : FunctionContext)
    (hType : type = .I8 ∨ type = .I16 ∨ type = .I32 ∨ type = .I64)
    (hValue : dispatchValue locals expression = some b.toNat) :
    coerceExpression .Int type ⟨expression, .Bool⟩ nodeIt errorContext context
      = .ok (.Cast (.Int .reinterpretBool) expression .Bool, context) ∧
    coerceExpression .Bool .Bool ⟨.Cast (.Int .reinterpretBool) expression .Bool, type⟩ nodeIt
        errorContext context
      = .ok (.Comparison .ne type (.Cast (.Int .reinterpretBool) expression .Bool)
          (.Literal type (.int 0)), context) ∧
    dispatchValue locals (.Cast (.Int .reinterpretBool) expression .Bool) = some b.toNat ∧
    dispatchValue locals (.Comparison .ne type (.Cast (.Int .reinterpretBool) expression .Bool)
        (.Literal type (.int 0))) = some b.toNat := by
  have hcast : dispatchValue locals (.Cast (.Int .reinterpretBool) expression .Bool)
      = some b.toNat := by
    simp only [dispatchValue, hValue, createZExt, llvmTypeBits]
    cases b <;> rfl
  refine ⟨?_, ?_, hcast, ?_⟩
  · rcases hType with h | h | h | h <;> subst h <;> rfl
  · rcases hType with h | h | h | h <;> subst h <;> rfl
  · have hfloat : isTypeClass type .Float = false := by
      rcases hType with h | h | h | h <;> subst h <;> rfl
    rw [dispatchValue, hfloat, hcast]
    simp only [dispatchValue, createICmpNE, Nat.zero_mod]
    cases b <;> simp

/-- C33, at concrete inputs: the local 0 holds the boolean 1; coerced to `i32` and back it
compiles to 1, and with the boolean 0 to 0. -/
theorem bool_int_coercions_round_trip_witness :
    dispatchValue [1] (.Comparison .ne .I32
        (.Cast (.Int .reinterpretBool) (.GetVariable .getLocal (some .Bool) 0) .Bool)
        (.Literal .I32 (.int 0))) = some 1 ∧
    dispatchValue [0] (.Comparison .ne .I32
        (.Cast (.Int .reinterpretBool) (.GetVariable .getLocal (some .Bool) 0) .Bool)
        (.Literal .I32 (.int 0))) = some 0 ∧
    coerceExpression .Bool .Bool
        ⟨.Cast (.Int .reinterpretBool) (.GetVariable .getLocal (some .Bool) 0) .Bool, .I32⟩ []
        "if condition" dummyFunctionContext
      = .ok (.Comparison .ne .I32
          (.Cast (.Int .reinterpretBool) (.GetVariable .getLocal (some .Bool) 0) .Bool)
          (.Literal .I32 (.int 0)), dummyFunctionContext) :=
  ⟨rfl, rfl,
    (bool_int_coercions_round_trip [1] (.GetVariable .getLocal (some .Bool) 0) true .I32 []
      "if condition" dummyFunctionContext (Or.inr (Or.inr (Or.inl rfl))) rfl).2.1⟩

/-- C31: the name `getLLVMName` gives a function that is not exported can be the export
name of another function. In `(module (func $foo (nop)) (func $bar (nop))
(export "_foo" $bar))`, parsed with no error, function 0 is named `foo` and is not exported,
function 1 is exported as `_foo`, and `compileModule` creates both LLVM functions under the
name `_foo`. For every name `n`, `getLLVMName` of `n` is `_` followed by `n`, which a
module is free to use as an export name. -/
theorem getLLVMName_collides_with_export :
    (ModuleContext.parse 1 underscoreExportModule {}).map
        (fun moduleContext => (moduleContext.module.functions.map (fun function =>
            function.name),
          moduleContext.module.exportNameToFunctionIndexMap, moduleContext.outErrors.length,
          functionNames moduleContext.module,
          functionIndexToExportName moduleContext.module.exportNameToFunctionIndexMap 0))
      = .ok ([some "foo", some "bar"], [("_foo", 1)], 0, ["_foo", "_foo"], none) ∧
    getLLVMName (some "foo") = "_foo" ∧
    ∀ name : String, getLLVMName (some name) = "_" ++ name :=
  ⟨rfl, rfl, fun _ => rfl⟩

/-- The first loop of the prologue emits, for locals of value types, one `alloca` and one
zero store for each local. -/
theorem compileLocals_zeroed (locals : List Variable) :
    ∀ localIndex : Nat, (∀ localVariable ∈ locals, isValueType localVariable.type = true) →
      compileLocals locals localIndex = .ok (zeroedSlotsFrom locals localIndex) := by
  induction locals with
  | nil => intro _ _; rfl
  | cons localVariable rest ih =>
    intro localIndex htypes
    have hrest := ih (localIndex + 1) fun item hitem => htypes item (List.mem_cons_of_mem _ hitem)
    have hhead := htypes localVariable (List.mem_cons_self _ _)
    obtain ⟨type, name⟩ := localVariable
    cases type <;> first
      | (simp only [compileLocals, hrest, zeroedSlotsFrom]; done)
      | (simp [isValueType] at hhead)

/-- The second loop of the prologue emits one store for each argument when there are as
many local indices left as parameter types and every index is below `locals.size()`. -/
theorem compileArguments_stores (astFunction : Function)
    (hbound : ∀ index ∈ astFunction.parameterLocalIndices, index < astFunction.locals.length) :
    ∀ (parameters : List TypeId) (parameterIndex : Nat),
      parameterIndex + parameters.length = astFunction.parameterLocalIndices.length →
      compileArguments astFunction parameters parameterIndex
        = .ok (argumentStoresFrom (astFunction.parameterLocalIndices.drop parameterIndex)
            parameterIndex) := by
  intro parameters
  induction parameters with
  | nil =>
    intro parameterIndex hlength
    rw [List.drop_of_length_le (by simp at hlength; omega)]
    rfl
  | cons parameter rest ih =>
    intro parameterIndex hlength
    have hlt : parameterIndex < astFunction.parameterLocalIndices.length := by
      simp at hlength; omega
    have hrest := ih (parameterIndex + 1) (by simp at hlength ⊢; omega)
    rw [List.drop_eq_getElem_cons hlt, compileArguments, List.getElem?_eq_getElem hlt]
    simp only [argumentStoresFrom]
    rw [if_pos (hbound _ (List.getElem_mem _)), hrest]

/-- The slots after the zeroed slots of some locals are added to `slots`, when the first
of these locals has the index `slots.length`: one slot more for each local, holding the
zero of its type. -/
theorem runInstruction_zeroedSlots (locals : List Variable) :
    ∀ slots : List (Option SlotValue),
      (zeroedSlotsFrom locals slots.length).foldl runInstruction slots
        = slots ++ locals.map fun localVariable => some (.zero localVariable.type) := by
  induction locals with
  | nil => intro slots; simp [zeroedSlotsFrom]
  | cons localVariable rest ih =>
    intro slots
    have hset : (slots ++ [none]).set slots.length (some (SlotValue.zero localVariable.type))
        = slots ++ [some (.zero localVariable.type)] := by
      rw [List.set_append_right _ _ (Nat.le_refl _)]
      simp
    have hlen : (slots ++ [some (SlotValue.zero localVariable.type)]).length
        = slots.length + 1 := by simp
    simp only [zeroedSlotsFrom, List.foldl_cons, runInstruction, hset]
    rw [← hlen, ih]
    simp

/-- The slots after the argument stores are executed on `slots`: as many slots as before;
a slot that is not among the indices holds what it held; and, for indices that are
distinct and below the number of slots, the slot of the i-th index holds the i-th of these
arguments. -/
theorem runInstruction_argumentStores (indices : List Nat) :
    ∀ (parameterIndex : Nat) (slots : List (Option SlotValue)),
      ((argumentStoresFrom indices parameterIndex).foldl runInstruction slots).length
        = slots.length ∧
      (∀ j : Nat, j ∉ indices →
        ((argumentStoresFrom indices parameterIndex).foldl runInstruction slots)[j]?
          = slots[j]?) ∧
      (indices.Nodup → (∀ index ∈ indices, index < slots.length) →
        ∀ i index : Nat, indices[i]? = some index →
          ((argumentStoresFrom indices parameterIndex).foldl runInstruction slots)[index]?
            = some (some (.argument (parameterIndex + i)))) := by
  induction indices with
  | nil =>
    intro parameterIndex slots
    refine ⟨rfl, fun _ _ => rfl, ?_⟩
    intro _ _ i index h
    simp at h
  | cons first rest ih =>
    intro parameterIndex slots
    obtain ⟨hlength, hkeep, hstore⟩ :=
      ih (parameterIndex + 1) (slots.set first (some (.argument parameterIndex)))
    simp only [argumentStoresFrom, List.foldl_cons, runInstruction]
    refine ⟨?_, ?_, ?_⟩
    · rw [hlength, List.length_set]
    · intro j hj
      have hne : first ≠ j := fun h => hj (h ▸ List.mem_cons_self _ _)
      rw [hkeep j (fun h => hj (List.mem_cons_of_mem _ h)), List.getElem?_set_ne hne]
    · intro hnodup hbound i index hget
      have hnodup2 := List.nodup_cons.mp hnodup
      cases i with
      | zero =>
        simp only [List.getElem?_cons_zero, Option.some.injEq] at hget
        subst hget
        rw [hkeep first hnodup2.1, List.getElem?_set_eq_of_lt _ (hbound first (List.mem_cons_self _ _))]
        rfl
      | succ i =>
        simp only [List.getElem?_cons_succ] at hget
        have := hstore hnodup2.2
          (fun item hitem => by
            rw [List.length_set]; exact hbound item (List.mem_cons_of_mem _ hitem))
          i index hget
        rw [this]
        congr 3
        omega

/-- The zeroed slots of the locals hold one `alloca` for each local, and the argument
stores none. -/
theorem numAllocas_prologueOf (function : Function) :
    numAllocas (prologueOf function) = function.locals.length := by
  have happend : ∀ left right : List PrologueInstruction,
      numAllocas (left ++ right) = numAllocas left + numAllocas right := by
    intro left right
    simp [numAllocas, List.filter_append]
  have halloca : ∀ (type : TypeId) (name : String) (rest : List PrologueInstruction),
      numAllocas (.alloca type name :: rest) = numAllocas rest + 1 := by
    intro type name rest
    simp [numAllocas]
  have hzero : ∀ (type : TypeId) (localIndex : Nat) (rest : List PrologueInstruction),
      numAllocas (.storeZero type localIndex :: rest) = numAllocas rest := by
    intro type localIndex rest
    simp [numAllocas]
  have hargument : ∀ (argumentIndex localIndex : Nat) (rest : List PrologueInstruction),
      numAllocas (.storeArgument argumentIndex localIndex :: rest) = numAllocas rest := by
    intro argumentIndex localIndex rest
    simp [numAllocas]
  have hlocals : ∀ (locals : List Variable) (localIndex : Nat),
      numAllocas (zeroedSlotsFrom locals localIndex) = locals.length := by
    intro locals
    induction locals with
    | nil => intro _; rfl
    | cons localVariable rest ih =>
      intro localIndex
      rw [zeroedSlotsFrom, halloca, hzero, ih, List.length_cons]
  have harguments : ∀ (indices : List Nat) (parameterIndex : Nat),
      numAllocas (argumentStoresFrom indices parameterIndex) = 0 := by
    intro indices
    induction indices with
    | nil => intro _; rfl
    | cons first rest ih =>
      intro parameterIndex
      rw [argumentStoresFrom, hargument, ih]
  rw [prologueOf, happend, hlocals, harguments]
  rfl

/-- The value types are the seven types the prologue has a zero literal for. -/
theorem isValueType_iff (type : TypeId) :
    isValueType type = true ↔ type ∈ [TypeId.I8, .I16, .I32, .I64, .F32, .F64, .Bool] := by
  cases type <;> decide

/-- The prologue of a function whose locals have value types and whose parameters are
aligned with its locals: the instructions are the zeroed slots and the argument stores;
on entry to the body there is one slot for each local, the slot of the i-th parameter holds
the i-th argument, and the slot of every other local holds the zero of its type. -/
theorem compilePrologue_of_aligned (function : Function)
    (htypes : ∀ localVariable ∈ function.locals, isValueType localVariable.type = true)
    (haligned : ParametersAligned function) :
    compilePrologue function = .ok (prologueOf function) ∧
    numAllocas (prologueOf function) = function.locals.length ∧
    (runPrologue (prologueOf function)).length = function.locals.length ∧
    (∀ i index : Nat, function.parameterLocalIndices[i]? = some index →
      (runPrologue (prologueOf function))[index]? = some (some (.argument i))) ∧
    (∀ (j : Nat) (localVariable : Variable), function.locals[j]? = some localVariable →
      j ∉ function.parameterLocalIndices →
      (runPrologue (prologueOf function))[j]? = some (some (.zero localVariable.type))) := by
  obtain ⟨hlength, hsorted, hbound, _⟩ := haligned
  have hnodup : function.parameterLocalIndices.Nodup :=
    hsorted.imp fun h => Nat.ne_of_lt h
  have hzeroed := runInstruction_zeroedSlots function.locals []
  have hrun : runPrologue (prologueOf function)
      = (argumentStoresFrom function.parameterLocalIndices 0).foldl runInstruction
          (function.locals.map fun localVariable => some (.zero localVariable.type)) := by
    rw [runPrologue, prologueOf, List.foldl_append]
    have := hzeroed
    simp only [List.length_nil, List.nil_append] at this
    rw [this]
  obtain ⟨hslots, hkeep, hstore⟩ := runInstruction_argumentStores
    function.parameterLocalIndices 0
    (function.locals.map fun localVariable => some (.zero localVariable.type))
  refine ⟨?_, numAllocas_prologueOf function, ?_, ?_, ?_⟩
  · rw [compilePrologue, compileLocals_zeroed _ 0 htypes,
      compileArguments_stores function hbound function.type.parameters 0
        (by rw [hlength]; omega)]
    rfl
  · rw [hrun, hslots, List.length_map]
  · intro i index hget
    rw [hrun, hstore hnodup (by simpa using hbound) i index hget, Nat.zero_add]
  · intro j localVariable hget hj
    rw [hrun, hkeep j hj, List.getElem?_map, hget]
    rfl

/-- The parameters of every function of a parsed module are aligned with its locals. -/
theorem parametersAligned_of_parse (fuel : Nat) (nodes : SNodeIt)
    (outErrors : List ErrorRecord) (moduleContext : ModuleContext)
    (h : ModuleContext.parse fuel nodes { outErrors := outErrors } = .ok moduleContext)
    (function : Function) (hmem : function ∈ moduleContext.module.functions) :
    ParametersAligned function := by
  obtain ⟨k, form, body, _, _, hfunction⟩ :=
    mem_functions_of_parse fuel nodes outErrors moduleContext h function hmem
  subst hfunction
  exact ParametersInvariant.aligned _ (declaredFunction_invariant form)

/-- C34: for every function of a parsed module whose locals have types among `i8`, `i16`,
`i32`, `i64`, `f32`, `f64`, `bool`, the prologue `JITFunctionContext::compile` emits is, for
each local in order, the `alloca` of one slot and the store of the zero of the local's type
into it, followed by the store of the i-th incoming argument into the slot
`parameterLocalIndices[i]`; there are as many `alloca`s as locals; and after these
instructions are executed the slot of parameter `i` holds argument `i` and the slot of
every local that is not a parameter holds the zero of its type. -/
theorem prologue_initialises_locals (fuel : Nat) (nodes : SNodeIt)
    (outErrors : List ErrorRecord) (moduleContext : ModuleContext)
    (h : ModuleContext.parse fuel nodes { outErrors := outErrors } = .ok moduleContext)
    (function : Function) (hmem : function ∈ moduleContext.module.functions)
    (htypes : ∀ localVariable ∈ function.locals,
      localVariable.type ∈ [TypeId.I8, .I16, .I32, .I64, .F32, .F64, .Bool]) :
    compilePrologue function = .ok (prologueOf function) ∧
    numAllocas (prologueOf function) = function.locals.length ∧
    (runPrologue (prologueOf function)).length = function.locals.length ∧
    (∀ i index : Nat, function.parameterLocalIndices[i]? = some index →
      (runPrologue (prologueOf function))[index]? = some (some (.argument i))) ∧
    (∀ (j : Nat) (localVariable : Variable), function.locals[j]? = some localVariable →
      j ∉ function.parameterLocalIndices →
      (runPrologue (prologueOf function))[j]? = some (some (.zero localVariable.type))) :=
  compilePrologue_of_aligned function
    (fun localVariable hlocal => (isValueType_iff _).2 (htypes localVariable hlocal))
    (parametersAligned_of_parse fuel nodes outErrors moduleContext h function hmem)

/-- C34, at a concrete input: for the function of `(func (local i32) (param i64) (nop))`
the prologue creates two slots, zeroes both and stores argument 0 into slot 1; on entry to
the body slot 0 holds the `i32` zero and slot 1 argument 0. -/
theorem prologue_initialises_locals_witness :
    compilePrologue localBeforeParamFunction
      = .ok [.alloca .I32 (getLLVMName none), .storeZero .I32 0,
          .alloca .I64 (getLLVMName none), .storeZero .I64 1, .storeArgument 0 1] ∧
    runPrologue (prologueOf localBeforeParamFunction)
      = [some (.zero .I32), some (.argument 0)] ∧
    (compilePrologue localBeforeParamFunction = .ok (prologueOf localBeforeParamFunction) ∧
    numAllocas (prologueOf localBeforeParamFunction) = localBeforeParamFunction.locals.length ∧
    (runPrologue (prologueOf localBeforeParamFunction)).length
      = localBeforeParamFunction.locals.length ∧
    (∀ i index : Nat, localBeforeParamFunction.parameterLocalIndices[i]? = some index →
      (runPrologue (prologueOf localBeforeParamFunction))[index]?
        = some (some (.argument i))) ∧
    (∀ (j : Nat) (localVariable : Variable),
      localBeforeParamFunction.locals[j]? = some localVariable →
      j ∉ localBeforeParamFunction.parameterLocalIndices →
      (runPrologue (prologueOf localBeforeParamFunction))[j]?
        = some (some (.zero localVariable.type)))) :=
  ⟨rfl, rfl, prologue_initialises_locals 1 localBeforeParamModule [] _ (by rfl)
    localBeforeParamFunction (List.mem_singleton.mpr rfl) (by decide)⟩

theorem keepsRets_pure {α : Type} (a : α) : KeepsRets (Pure.pure a : CodeGenM α) := by
  intro context b context2 h base hbase
  cases h
  exact hbase

theorem keepsRets_throw {α : Type} (fault : Fault) :
    KeepsRets (throw fault : CodeGenM α) := by
  intro context b context2 h
  cases h

theorem keepsRets_bind {α β : Type} {x : CodeGenM α} {f : α → CodeGenM β}
    (hx : KeepsRets x) (hf : ∀ a, KeepsRets (f a)) : KeepsRets (x >>= f) := by
  intro context b context2 h base hbase
  simp only [Bind.bind, StateT.bind, Except.bind] at h
  cases hrun : x context with
  | error fault => rw [hrun] at h; cases h
  | ok result =>
    rw [hrun] at h
    exact hf result.1 result.2 b context2 h base (hx context result.1 result.2 hrun base hbase)

theorem keepsRets_get : KeepsRets (get : CodeGenM JITFunctionContext) := by
  intro context b context2 h base hbase
  cases h
  exact hbase

/-- A step that changes neither the terminators nor the record of the `Return` nodes. -/
theorem keepsRets_of_frame {α : Type} (x : CodeGenM α)
    (hframe : ∀ context a context2, x context = .ok (a, context2) →
      context2.terminators = context.terminators ∧
      context2.returnVisits = context.returnVisits) : KeepsRets x := by
  intro context a context2 h base hbase
  obtain ⟨hterm, hvisits⟩ := hframe context a context2 h
  unfold RetsBalanced numReturnsReachableAtTest at hbase ⊢
  rw [hterm, hvisits]
  exact hbase

theorem keepsRets_createBasicBlock : KeepsRets createBasicBlock :=
  keepsRets_of_frame _ fun _ _ _ h => by cases h; exact ⟨rfl, rfl⟩

theorem keepsRets_setInsertPoint (block : Nat) : KeepsRets (setInsertPoint block) :=
  keepsRets_of_frame _ fun _ _ _ h => by cases h; exact ⟨rfl, rfl⟩

theorem keepsRets_setBranchContext (branchContext : List (BranchTarget × Nat)) :
    KeepsRets (setBranchContext branchContext) :=
  keepsRets_of_frame _ fun _ _ _ h => by cases h; exact ⟨rfl, rfl⟩

/-- A terminator that is not a `ret` leaves the number of `ret` instructions. -/
theorem keepsRets_emit (terminator : Terminator) (h : isRet terminator = false) :
    KeepsRets (emit terminator) := by
  intro context a context2 hrun base hbase
  cases hrun
  unfold RetsBalanced numReturnsReachableAtTest at hbase ⊢
  simp only [numRets, List.filter_append, List.length_append] at hbase ⊢
  simp [List.filter_cons, h]
  simpa [numRets] using hbase

theorem keepsRets_compileBranch (dest : Nat) : KeepsRets (compileBranch dest) := by
  unfold LLVMJIT.compileBranch
  refine keepsRets_bind keepsRets_get fun context => ?_
  split
  · exact keepsRets_pure _
  · exact keepsRets_emit _ rfl

theorem keepsRets_compileCondBranch (trueDest falseDest : Nat) :
    KeepsRets (compileCondBranch trueDest falseDest) := by
  unfold LLVMJIT.compileCondBranch
  refine keepsRets_bind keepsRets_get fun context => ?_
  split
  · exact keepsRets_pure _
  · exact keepsRets_emit _ rfl

theorem keepsRets_createArmEntryBlocks (numArms : Nat) :
    KeepsRets (createArmEntryBlocks numArms) := by
  induction numArms with
  | zero => exact keepsRets_pure _
  | succ numArms ih =>
    rw [LLVMJIT.createArmEntryBlocks]
    exact keepsRets_bind keepsRets_createBasicBlock fun _ => ih

theorem visitIfElse_keeps {condition thenExpression elseExpression : CodeGenM Unit}
    (hc : KeepsRets condition) (ht : KeepsRets thenExpression) (he : KeepsRets elseExpression) :
    KeepsRets (visitIfElse condition thenExpression elseExpression) := by
  unfold visitIfElse
  repeat' first
    | exact hc | exact ht | exact he
    | exact keepsRets_createBasicBlock
    | exact keepsRets_setInsertPoint _
    | exact keepsRets_compileBranch _
    | exact keepsRets_compileCondBranch _ _
    | refine keepsRets_bind ?_ ?_
    | intro _

theorem visitLabel_keeps (endTarget : BranchTarget) {expression : CodeGenM Unit}
    (he : KeepsRets expression) : KeepsRets (visitLabel endTarget expression) := by
  unfold visitLabel
  repeat' first
    | exact he
    | exact keepsRets_createBasicBlock
    | exact keepsRets_setInsertPoint _
    | exact keepsRets_setBranchContext _
    | exact keepsRets_compileBranch _
    | exact keepsRets_get
    | refine keepsRets_bind ?_ ?_
    | intro _

theorem visitLoop_keeps (breakTarget continueTarget : BranchTarget)
    {expression : CodeGenM Unit} (he : KeepsRets expression) :
    KeepsRets (visitLoop breakTarget continueTarget expression) := by
  unfold visitLoop
  repeat' first
    | exact he
    | exact keepsRets_createBasicBlock
    | exact keepsRets_setInsertPoint _
    | exact keepsRets_setBranchContext _
    | exact keepsRets_compileBranch _
    | exact keepsRets_get
    | refine keepsRets_bind ?_ ?_
    | intro _

theorem visitBranch_keeps (branchTarget : BranchTarget) {value : CodeGenM Unit}
    (hv : KeepsRets value) : KeepsRets (visitBranch branchTarget value) := by
  unfold visitBranch
  refine keepsRets_bind keepsRets_get fun context => ?_
  split
  · exact keepsRets_throw _
  · refine keepsRets_bind ?_ fun _ =>
      keepsRets_bind (keepsRets_compileBranch _) fun _ => keepsRets_setInsertPoint _
    split
    · exact keepsRets_pure _
    · exact hv

theorem visitSwitchArm_keeps (keyType : TypeId) (defaultArmIndex numArms armEntryBlock
    successorBlock armIndex : Nat) {value : CodeGenM Unit} (hv : KeepsRets value) :
    KeepsRets (visitSwitchArm keyType defaultArmIndex numArms armEntryBlock successorBlock
      armIndex value) := by
  unfold visitSwitchArm
  refine keepsRets_bind ?_ fun _ => keepsRets_bind (keepsRets_setInsertPoint _) fun _ =>
    keepsRets_bind hv fun _ => ?_
  · split
    · exact keepsRets_throw _
    · exact keepsRets_pure _
  · split
    · exact keepsRets_compileBranch _
    · exact keepsRets_compileBranch _

theorem visitSwitch_keeps (defaultArmIndex numArms : Nat) (endTarget : BranchTarget)
    {key : CodeGenM Unit} {arms : Nat → Nat → CodeGenM Unit} (hk : KeepsRets key)
    (ha : ∀ armEntryBlock successorBlock, KeepsRets (arms armEntryBlock successorBlock)) :
    KeepsRets (visitSwitch defaultArmIndex numArms endTarget key arms) := by
  unfold visitSwitch
  refine keepsRets_bind hk fun _ => keepsRets_bind keepsRets_get fun _ =>
    keepsRets_bind (keepsRets_createArmEntryBlocks _) fun _ =>
    keepsRets_bind keepsRets_createBasicBlock fun _ =>
    keepsRets_bind keepsRets_get fun _ =>
    keepsRets_bind (keepsRets_setBranchContext _) fun _ =>
    keepsRets_bind ?_ fun _ =>
    keepsRets_bind (keepsRets_emit (.switch _ _) rfl) fun _ =>
    keepsRets_bind (ha _ _) fun _ =>
    keepsRets_bind (keepsRets_setBranchContext _) fun _ => keepsRets_setInsertPoint _
  split
  · exact keepsRets_pure _
  · exact keepsRets_throw _

/-- `visitReturn` records the visit and creates a `ret` exactly when the insertion block
is not the unreachable block at the test. -/
theorem visitReturn_keeps {value : CodeGenM Unit} (hv : KeepsRets value) :
    KeepsRets (visitReturn value) := by
  unfold visitReturn
  refine keepsRets_bind keepsRets_get fun context0 => keepsRets_bind keepsRets_get
    fun context1 => keepsRets_bind ?_ fun _ => ?_
  · split
    · exact keepsRets_pure _
    · exact hv
  · intro context a context2 h base hbal
    simp only [bind, StateT.bind, Except.bind, get, getThe, MonadStateOf.get, StateT.get,
      pure, Except.pure, modify, modifyGet, MonadStateOf.modifyGet, StateT.modifyGet,
      StateT.pure, LLVMJIT.emit, LLVMJIT.setInsertPoint] at h
    unfold RetsBalanced numReturnsReachableAtTest at hbal ⊢
    by_cases htest : context.insertBlock = unreachableBlock
    · simp only [htest, ne_eq, not_true_eq_false, if_false] at h
      cases h
      simp only [List.filter_append, List.length_append]
      simpa [htest] using hbal
    · simp only [ne_eq, htest, not_false_eq_true, if_true] at h
      cases h
      simp only [numRets, List.filter_append, List.length_append] at hbal ⊢
      have hret : isRet (if context1.astFunction.type.returnType = .Void
          then Terminator.retVoid else Terminator.ret) = true := by
        split <;> rfl
      simp [List.filter_cons, htest, hret] at hbal ⊢
      omega

mutual
/-- The traversal of an expression emits one `ret` for each `Return` node at which the
insertion block is not the unreachable block when tested, and no other. -/
theorem dispatch_keeps : ∀ expression : Expression, KeepsRets (dispatch expression)
  | .Literal _ _ => by rw [dispatch]; exact keepsRets_pure _
  | .Error _ _ => by rw [dispatch]; exact keepsRets_throw _
  | .Nop => by rw [dispatch]; exact keepsRets_pure _
  | .DiscardResult expression _ => by rw [dispatch]; exact dispatch_keeps expression
  | .GetVariable _ _ _ => by rw [dispatch]; exact keepsRets_pure _
  | .SetVariable _ _ value _ => by rw [dispatch]; exact dispatch_keeps value
  | .Load _ _ _ _ address _ => by rw [dispatch]; exact dispatch_keeps address
  | .Store _ _ _ address value _ _ => by
    rw [dispatch]
    exact keepsRets_bind (dispatch_keeps value) fun _ => dispatch_keeps address
  | .Call _ _ _ parameters => by rw [dispatch]; exact dispatchParameters_keeps parameters
  | .CallIndirect _ _ functionIndex parameters => by
    rw [dispatch]
    exact keepsRets_bind (dispatch_keeps functionIndex) fun _ =>
      dispatchParameters_keeps parameters
  | .Unary _ operand => by rw [dispatch]; exact dispatch_keeps operand
  | .Binary _ left right => by
    rw [dispatch]
    exact keepsRets_bind (dispatch_keeps left) fun _ => dispatch_keeps right
  | .Cast _ source _ => by rw [dispatch]; exact dispatch_keeps source
  | .Comparison _ _ left right => by
    rw [dispatch]
    exact keepsRets_bind (dispatch_keeps left) fun _ => dispatch_keeps right
  | .IfElse _ condition thenExpression elseExpression => by
    rw [dispatch]
    exact visitIfElse_keeps (dispatch_keeps condition) (dispatch_keeps thenExpression)
      (dispatch_keeps elseExpression)
  | .Switch _ key keyType defaultArmIndex numArms arms endTarget => by
    rw [dispatch]
    split
    · exact visitSwitch_keeps _ _ _ (dispatch_keeps key) fun armEntryBlock successorBlock =>
        dispatchArms_keeps keyType defaultArmIndex numArms armEntryBlock successorBlock arms 0
    · exact keepsRets_throw _
  | .Label _ endTarget expression => by
    rw [dispatch]; exact visitLabel_keeps _ (dispatch_keeps expression)
  | .Loop _ expression breakTarget continueTarget => by
    rw [dispatch]; exact visitLoop_keeps _ _ (dispatch_keeps expression)
  | .Sequence _ voidExpression resultExpression => by
    rw [dispatch]
    exact keepsRets_bind (dispatch_keeps voidExpression) fun _ =>
      dispatch_keeps resultExpression
  | .Branch _ branchTarget value => by
    rw [dispatch]; exact visitBranch_keeps _ (dispatchNullable_keeps value)
  | .Return _ value => by
    rw [dispatch]; exact visitReturn_keeps (dispatchNullable_keeps value)
/-- The same for the value of a `Branch` or `Return`. -/
theorem dispatchNullable_keeps : ∀ value : Option Expression,
    KeepsRets (dispatchNullable value)
  | none => by rw [dispatchNullable]; exact keepsRets_throw _
  | some expression => by rw [dispatchNullable]; exact dispatch_keeps expression
/-- The same for the parameters of a call. -/
theorem dispatchParameters_keeps : ∀ parameters : List Expression,
    KeepsRets (dispatchParameters parameters)
  | [] => by rw [dispatchParameters]; exact keepsRets_pure _
  | parameter :: parameters => by
    rw [dispatchParameters]
    exact keepsRets_bind (dispatch_keeps parameter) fun _ =>
      dispatchParameters_keeps parameters
/-- The same for the arms of a switch. -/
theorem dispatchArms_keeps (keyType : TypeId) (defaultArmIndex numArms armEntryBlock
    successorBlock : Nat) : ∀ (arms : List (Nat × Expression)) (armIndex : Nat),
    KeepsRets (dispatchArms keyType defaultArmIndex numArms armEntryBlock successorBlock arms
      armIndex)
  | [], _ => by rw [dispatchArms]; exact keepsRets_pure _
  | (_, value) :: arms, armIndex => by
    rw [dispatchArms]
    exact keepsRets_bind (visitSwitchArm_keeps _ _ _ _ _ _ (dispatch_keeps value)) fun _ =>
      dispatchArms_keeps keyType defaultArmIndex numArms armEntryBlock successorBlock arms
        (armIndex + 1)
end

theorem codeGen_bind_eq_ok {α β : Type} (x : CodeGenM α) (f : α → CodeGenM β)
    (context context2 : JITFunctionContext) (b : β)
    (h : (x >>= f) context = .ok (b, context2)) :
    ∃ a context1, x context = .ok (a, context1) ∧ f a context1 = .ok (b, context2) := by
  simp only [bind, StateT.bind, Except.bind] at h
  cases hx : x context with
  | error fault => rw [hx] at h; exact absurd h (by simp)
  | ok result =>
    rw [hx] at h
    exact ⟨result.1, result.2, rfl, h⟩

/-- Erasing the unreachable block leaves the `ret` instructions counted in the other
blocks. -/
theorem numRets_filter (terminators : List (Nat × Terminator)) :
    numRets (terminators.filter fun entry => entry.1 ≠ unreachableBlock)
      = numRets terminators := by
  unfold numRets
  rw [List.filter_filter]
  congr 1
  apply List.filter_congr
  intro entry _
  by_cases h : entry.1 = unreachableBlock <;> simp [h]

/-- C32: the number of `ret` instructions in the function `JITFunctionContext::compile`
leaves is the number of `Return` nodes at which the insertion block was not the
unreachable block when `visitReturn` tested it, after the return value was compiled, plus
one when the insertion block after the body is not the unreachable block and plus nothing
when it is. All the terminators left are in blocks other than the erased unreachable
block, so `numRets` counts every `ret` of the function. -/
theorem compile_ret_count (astFunction : Function) (context : JITFunctionContext)
    (h : compile astFunction = .ok context) :
    numRets context.terminators
      = numReturnsReachableAtTest context
        + (if context.insertBlock ≠ unreachableBlock then 1 else 0) ∧
    (∀ entry ∈ context.terminators, entry.1 ≠ unreachableBlock) ∧
    numRets context.terminators
      = (context.terminators.filter fun entry => isRet entry.2).length := by
  unfold compile at h
  cases hprologue : compilePrologue astFunction with
  | error fault => rw [hprologue] at h; cases h
  | ok instructions =>
    rw [hprologue] at h
    simp only [] at h
    cases hrun : compileBody astFunction { astFunction := astFunction } with
    | error fault => rw [hrun] at h; cases h
    | ok result =>
      rw [hrun] at h
      obtain ⟨⟨⟩, contextEnd⟩ := result
      injection h with h
      unfold compileBody at hrun
      obtain ⟨entryBasicBlock, context1, hentry, hrun1⟩ := codeGen_bind_eq_ok _ _ _ _ _ hrun
      obtain ⟨_, context2, hinsert, hrun2⟩ := codeGen_bind_eq_ok _ _ _ _ _ hrun1
      obtain ⟨_, context4, hbody, hrun3⟩ := codeGen_bind_eq_ok _ _ _ _ _ hrun2
      obtain ⟨got, context5, hget, hrun4⟩ := codeGen_bind_eq_ok _ _ _ _ _ hrun3
      have hsame : context4 = got ∧ context4 = context5 := by
        cases hget
        exact ⟨rfl, rfl⟩
      obtain ⟨hgot, hsame5⟩ := hsame
      subst hgot
      subst hsame5
      obtain ⟨_, context6, hret, hrun5⟩ := codeGen_bind_eq_ok _ _ _ _ _ hrun4
      have hstart : RetsBalanced 0 ({ astFunction := astFunction } : JITFunctionContext) := rfl
      have hbalanced : RetsBalanced 0 context4 :=
        dispatchNullable_keeps _ _ _ _ hbody 0
          (keepsRets_setInsertPoint _ _ _ _ hinsert 0
            (keepsRets_createBasicBlock _ _ _ hentry 0 hstart))
      have hfinal : context.terminators
            = context6.terminators.filter (fun entry => entry.1 ≠ unreachableBlock) ∧
          context.returnVisits = context6.returnVisits ∧
          context.insertBlock = context6.insertBlock := by
        have hend : contextEnd = { context6 with
            terminators := context6.terminators.filter fun entry =>
              entry.1 ≠ unreachableBlock } := by
          cases hrun5
          rfl
        rw [← h, hend]
        exact ⟨rfl, rfl, rfl⟩
      obtain ⟨hterm, hvisits, hblock⟩ := hfinal
      have hcount : numRets context6.terminators
          = numReturnsReachableAtTest context6
            + (if context6.insertBlock ≠ unreachableBlock then 1 else 0) := by
        unfold RetsBalanced at hbalanced
        by_cases htest : context4.insertBlock = unreachableBlock
        · rw [if_neg (by simpa using htest)] at hret
          cases hret
          simp only [htest, ne_eq, not_true_eq_false, if_false]
          omega
        · rw [if_pos (by simpa using htest)] at hret
          cases hret
          have hisRet : isRet (if astFunction.type.returnType = .Void
              then Terminator.retVoid else Terminator.ret) = true := by
            split <;> rfl
          simp only [numRets, numReturnsReachableAtTest, List.filter_append,
            List.length_append] at hbalanced ⊢
          simp [List.filter_cons, htest, hisRet] at hbalanced ⊢
          omega
      refine ⟨?_, ?_, ?_⟩
      · rw [hterm, numRets_filter, hcount, hblock]
        unfold numReturnsReachableAtTest
        rw [hvisits]
      · intro entry hentry
        rw [hterm] at hentry
        simpa using (List.mem_filter.mp hentry).2
      · rw [hterm]
        unfold numRets
        rw [List.filter_filter, List.filter_filter]
        congr 1
        apply List.filter_congr
        intro entry _
        by_cases hne : entry.1 = unreachableBlock <;> simp [hne]

/-- C32, at concrete inputs: the function of `(func (return))` is compiled into one `ret`,
for the one `Return` node, and none for the end of the body, which is not reachable; the
function of `(func (nop))` is compiled into the one `ret` of the end of the body. -/
theorem compile_ret_count_witness :
    compile returnOnlyFunction = .ok returnOnlyCompiled ∧
    (compile nopFunction).map (fun context => (context.terminators, context.returnVisits,
      context.insertBlock)) = .ok ([(1, .retVoid)], [], 1) ∧
    numRets returnOnlyCompiled.terminators = 1 ∧
    numRets returnOnlyCompiled.terminators
      = numReturnsReachableAtTest returnOnlyCompiled
        + (if returnOnlyCompiled.insertBlock ≠ unreachableBlock then 1 else 0) :=
  ⟨rfl, rfl, rfl, (compile_ret_count returnOnlyFunction returnOnlyCompiled rfl).1⟩

/-- C32, the counterexample: `(module (func (return)))` is parsed with no error into a
function whose body is the `Return` node; `compile` visits that node while the insertion
block is the entry block, not the unreachable block, and emits one `ret` in all, where one
plus the number of `Return` nodes visited while the insertion block is not the unreachable
block is two. -/
theorem return_only_function_has_one_ret :
    (ModuleContext.parse 1 returnOnlyModule {}).map
        (fun moduleContext => (moduleContext.module.functions, moduleContext.outErrors.length))
      = .ok ([returnOnlyFunction], 0) ∧
    (compile returnOnlyFunction).map
        (fun context => (numRets context.terminators, numReturnsVisitedReachable context,
          numReturnsReachableAtTest context, context.terminators))
      = .ok (1, 1, 1, [(1, .retVoid)]) ∧
    ¬ (numRets returnOnlyCompiled.terminators
        = 1 + numReturnsVisitedReachable returnOnlyCompiled) :=
  ⟨rfl, rfl, by decide⟩

end WAVM
